import Mathlib

/-!
# FS3 filesystem driver: shallow embedding and verified properties

The C sources embedded here are `fs3_driver.c`, `fs3_cache.c` and `fs3_network.c`.

Conventions of the embedding.

* The process-wide variables of the three C files are the fields of `Cache` and `World`.
* C arrays are total functions on their index type.  Cells whose index lies outside the
  declared bounds stand for the memory next to the array: nothing is assumed about what
  they hold, and the code reaches them only through the out-of-range accesses that the C
  text really performs (for instance `FS3FileArray[FS3_MAX_TOTAL_FILES]` in `fs3_open`).
* A file record keeps its fields apart and its name whole.  Where the C code lets one
  field run into the next (a path longer than `name[128]`) or indexes the file table at
  `FS3_MAX_TOTAL_FILES`, the table is taken as the bytes it occupies (`Layout`).
* `int` values are mathematical integers; the theorems carry the range hypotheses under
  which the C arithmetic cannot overflow.  The 64-bit command block is a natural number
  and every shift is reduced modulo `2 ^ 64`.
* A byte buffer is a function from offsets to byte values.  A buffer of
  `FS3_SECTOR_SIZE` bytes is copied as a whole by replacing it.
* `fs3_controller.h` is not part of the sources: the disk geometry is a parameter
  (`Geometry`) and the opcode numbers are taken from the wire protocol table of the
  specification.
* The remote end of the socket is a parameter (`Peer`): a state machine that answers one
  request at a time, or fails to answer.
-/

namespace FS3

/-! ## Constants -/

/-- The constants of `fs3_controller.h` that the driver uses (the header is absent, so
they are parameters). -/
structure Geometry where
  FS3_MAX_TRACKS : Nat
  FS3_TRACK_SIZE : Nat
  FS3_SECTOR_SIZE : Nat

/-- Maximum number of files ever (`fs3_driver.h`). -/
def FS3_MAX_TOTAL_FILES : Nat := 1024

/-- Maximum length of a filename (`fs3_driver.h`). -/
def FS3_MAX_PATH_LENGTH : Nat := 128

/-- Modelled from the spec: opcode `MOUNT` of the wire protocol table (the value is defined
in the absent `fs3_controller.h`). -/
def FS3_OP_MOUNT : Nat := 0

/-- Modelled from the spec: opcode `TRACK_SEEK` of the wire protocol table. -/
def FS3_OP_TSEEK : Nat := 1

/-- Modelled from the spec: opcode `READ_SECTOR` of the wire protocol table. -/
def FS3_OP_RDSECT : Nat := 2

/-- Modelled from the spec: opcode `WRITE_SECTOR` of the wire protocol table. -/
def FS3_OP_WRSECT : Nat := 3

/-- Modelled from the spec: opcode `UNMOUNT` of the wire protocol table. -/
def FS3_OP_UMOUNT : Nat := 4

/-! ## Wire codec (`fs3_driver.c`, lines 675-809) -/

/-- The `for (i = startPos; i<=endPos; i++)` loop of `create64BitMask`. -/
def create64BitMaskLoop (endPos : Nat) : Nat → Nat → Nat → Nat
  | 0, _, result => result
  | fuel + 1, i, result =>
    if i ≤ endPos then
      create64BitMaskLoop endPos fuel (i + 1) (result ||| ((1 <<< (63 - i)) % 2 ^ 64))
    else result

/-- Creates a 64 bit mask with ones from bit `startPos` to bit `endPos` (bit 0 = MSB). -/
def create64BitMask (startPos endPos : Int) : Nat :=
  if startPos < 0 ∨ endPos < 0 ∨ startPos > endPos ∨ endPos ≥ 64 then 0
  else create64BitMaskLoop endPos.toNat 64 startPos.toNat 0

/-- Packs a command block.  The arguments are reduced to the widths of the C parameter
types (`uint8_t`, `uint16_t`, `uint_fast32_t`, `uint8_t`). -/
def construct_fs3_cmdblock (op sec trk ret : Nat) : Nat :=
  let opBits := ((op % 2 ^ 8) <<< 60) % 2 ^ 64
  let secBits := ((sec % 2 ^ 16) <<< 44) % 2 ^ 64
  let trkBits := ((trk % 2 ^ 64) <<< 12) % 2 ^ 64
  let retBits := ((ret % 2 ^ 8) <<< 60) % 2 ^ 64
  opBits ||| secBits ||| trkBits ||| retBits

/-- Unpacks a command block into `(op, sec, trk, ret)`. -/
def deconstruct_fs3_cmdblock (cmdblock : Nat) : Nat × Nat × Nat × Nat :=
  let opBits := (cmdblock &&& create64BitMask 0 3) >>> 60
  let secBits := (cmdblock &&& create64BitMask 4 19) >>> 44
  let trkBits := (cmdblock &&& create64BitMask 20 51) >>> 12
  let retBits := (cmdblock &&& create64BitMask 52 52) >>> 11
  (opBits % 2 ^ 8, secBits % 2 ^ 16, trkBits % 2 ^ 32, retBits % 2 ^ 8)

/-- Return bit of a command block. -/
def getReturnBit (cmdblock : Nat) : Nat :=
  (deconstruct_fs3_cmdblock cmdblock).2.2.2

/-- Opcode bits of a command block. -/
def getOpCodeBits (cmdblock : Nat) : Nat :=
  (deconstruct_fs3_cmdblock cmdblock).1

/-! ## Buffers -/

/-- A byte buffer: the byte stored at each offset. -/
abbrev Buffer := Int → Nat

/-- The buffer handed over where the C code passes `NULL`. -/
def nullBuf : Buffer := fun _ => 0

/-- Effect of `memcpy(dst + dstOff, src + srcOff, n)` on `dst`. -/
def memcpy (dst : Buffer) (dstOff : Int) (src : Buffer) (srcOff : Int) (n : Int) : Buffer :=
  fun x => if dstOff ≤ x ∧ x < dstOff + n then src (srcOff + (x - dstOff)) else dst x

/-- Conversion of an `int` to `uint16_t`. -/
def toU16 (x : Int) : Nat := (x % 65536).toNat

/-- Conversion of an `int` to `uint32_t`. -/
def toU32 (x : Int) : Nat := (x % 4294967296).toNat

/-- Conversion of a `uint32_t` to `int`. -/
def toI32 (x : Nat) : Int :=
  if x % 4294967296 < 2147483648 then ((x % 4294967296 : Nat) : Int)
  else ((x % 4294967296 : Nat) : Int) - 4294967296

/-! ## Sector cache (`fs3_cache.c`) -/

/-- One cache line (`FS3CacheEntry`). -/
structure FS3CacheEntry where
  track : Int
  sector : Int
  dataBuffer : Buffer
  countUsed : Nat

/-- The global variables of `fs3_cache.c`. -/
structure Cache where
  FS3Cache : Nat → FS3CacheEntry
  cacheSize : Nat
  cacheCreated : Int
  cacheUseCount : Nat
  cacheInserts : Int
  cacheHits : Int
  cacheGets : Int
  cacheMisses : Int

/-- The scan of `fs3_put_cache`: the index of the first line holding `(trk, sct)`, and
otherwise the line with the smallest `countUsed` seen so far. -/
def putScan (lines : Nat → FS3CacheEntry) (trk sct : Int) : Nat → Nat → Nat → Nat → Nat
  | 0, _, _, putIndex => putIndex
  | fuel + 1, i, minUsed, putIndex =>
    if (lines i).track = trk ∧ (lines i).sector = sct then i
    else if (lines i).countUsed < minUsed then putScan lines trk sct fuel (i + 1) (lines i).countUsed i
    else putScan lines trk sct fuel (i + 1) minUsed putIndex

/-- Put an element in the cache: `(0, _)` if inserted, `(-1, _)` if not. -/
def fs3_put_cache (trk sct : Int) (buf : Buffer) (c : Cache) : Int × Cache :=
  if c.cacheCreated = 0 then (-1, c)
  else
    let putIndex := putScan c.FS3Cache trk sct c.cacheSize 0 (c.FS3Cache 0).countUsed 0
    let cacheUseCount := (c.cacheUseCount + 1) % 2 ^ 64
    (0, { c with
      cacheInserts := c.cacheInserts + 1
      cacheUseCount := cacheUseCount
      FS3Cache := Function.update c.FS3Cache putIndex
        { track := trk, sector := sct, countUsed := cacheUseCount % 2 ^ 32, dataBuffer := buf } })

/-- The scan of `fs3_get_cache`: the index of the first line holding `(trk, sct)`. -/
def getScan (lines : Nat → FS3CacheEntry) (trk sct : Int) : Nat → Nat → Option Nat
  | 0, _ => none
  | fuel + 1, i =>
    if (lines i).track = trk ∧ (lines i).sector = sct then some i
    else getScan lines trk sct fuel (i + 1)

/-- Get an element from the cache: `none` is the `NULL` result. -/
def fs3_get_cache (trk sct : Int) (c : Cache) : Option Buffer × Cache :=
  if c.cacheCreated = 0 then (none, c)
  else
    match getScan c.FS3Cache trk sct c.cacheSize 0 with
    | none => (none, { c with cacheGets := c.cacheGets + 1, cacheMisses := c.cacheMisses + 1 })
    | some getIndex =>
      let cacheUseCount := (c.cacheUseCount + 1) % 2 ^ 64
      (some (c.FS3Cache getIndex).dataBuffer,
        { c with
          cacheGets := c.cacheGets + 1
          cacheHits := c.cacheHits + 1
          cacheUseCount := cacheUseCount
          FS3Cache := Function.update c.FS3Cache getIndex
            { c.FS3Cache getIndex with countUsed := cacheUseCount % 2 ^ 32 } })

/-- Initialize the cache with a fixed number of cache lines: 0 if successful, -1 if
failure.  `cachelines` is a `uint16_t`, so the test `cachelines < 0` of the C text never
succeeds.  `heap` is what the memory handed out by `malloc` holds. -/
def fs3_init_cache (cachelines : Nat) (heap : Nat → FS3CacheEntry) (c : Cache) : Int × Cache :=
  if c.cacheCreated = 1 then (-1, c)
  else
    (0, { c with
      cacheSize := cachelines
      cacheCreated := 1
      cacheUseCount := 0
      FS3Cache := fun i =>
        if i < cachelines then { heap i with track := -1, sector := -1, countUsed := 0 }
        else heap i })

/-- Close the cache, freeing any buffers held in it: 0 if successful, -1 if failure. -/
def fs3_close_cache (c : Cache) : Int × Cache :=
  if c.cacheCreated = 0 then (-1, c)
  else (0, { c with cacheCreated := 0 })

/-! ## The world: driver variables, cache, and the remote end -/

/-- File metadata (`FS3File`). -/
structure FS3File where
  created : Bool
  «open» : Bool
  name : String
  length : Int
  position : Int

/-- The remote end of the socket.  `exchange st cmd payload` receives the command block
(and the sector payload when one is sent) and gives the next state of the remote end
together with its answer: `none` when the exchange fails at the socket level, otherwise
the reply command block and the sector payload sent after it. -/
structure Peer (σ : Type) where
  exchange : σ → Nat → Option Buffer → σ × Option (Nat × Buffer)

/-- The global variables of `fs3_driver.c`, the cache, the state of the remote end and
the command blocks sent so far (most recent first). -/
structure World (σ : Type) where
  diskMounted : Bool
  FS3FileArray : Int → FS3File
  FS3DiskMap : Int → Int → Int
  currentDiskTrack : Int
  cache : Cache
  peer : σ
  wire : List Nat

variable {σ : Type}

/-! ## Network (`fs3_network.c`) -/

/-- Perform a system call over the network.  The first component is `none` when the C
function returns `-1`; otherwise it holds the returned command block and the contents of
`buf` after the call.  Connection set-up and tear-down, byte order and short transfers
are part of the remote end. -/
def network_fs3_syscall (P : Peer σ) (cmd : Nat) (buf : Buffer) (w : World σ) :
    Option (Nat × Buffer) × World σ :=
  let opCodeBits := getOpCodeBits cmd
  let r := P.exchange w.peer cmd (if opCodeBits = FS3_OP_WRSECT then some buf else none)
  let w1 := { w with peer := r.1, wire := cmd :: w.wire }
  match r.2 with
  | none => (none, w1)
  | some (reply, data) => (some (reply, if opCodeBits = FS3_OP_RDSECT then data else buf), w1)

/-! ## Driver (`fs3_driver.c`) -/

/-- A `for (i = start; i < start + fuel; i++)` loop that is left at the first `i` with
`p i`: the index found, or `none` when the loop runs to its end. -/
def firstIndex (p : Nat → Bool) : Nat → Nat → Option Nat
  | 0, _ => none
  | fuel + 1, i => if p i then some i else firstIndex p fuel (i + 1)

/-- FS3 interface, mount/initialize filesystem: 0 if successful, -1 if failure. -/
def fs3_mount_disk (G : Geometry) (P : Peer σ) (w : World σ) : Int × World σ :=
  if w.diskMounted = true then (-1, w)
  else
    let cmdblock := construct_fs3_cmdblock FS3_OP_MOUNT 0 0 0
    match network_fs3_syscall P cmdblock nullBuf w with
    | (none, w1) => (-1, w1)
    | (some (returnCmdblock, _), w1) =>
      if getReturnBit returnCmdblock ≠ 0 then (-1, w1)
      else
        (0, { w1 with
          diskMounted := true
          currentDiskTrack := -1
          FS3FileArray := fun i =>
            if 0 ≤ i ∧ i < FS3_MAX_TOTAL_FILES then { w1.FS3FileArray i with created := false }
            else w1.FS3FileArray i
          FS3DiskMap := fun i j =>
            if 0 ≤ i ∧ i < G.FS3_MAX_TRACKS ∧ 0 ≤ j ∧ j < G.FS3_TRACK_SIZE then -1
            else w1.FS3DiskMap i j })

/-- The closing loop of `fs3_unmount_disk`: it stops at the first record that has not been
created. -/
def unmountLoop : Nat → Nat → (Int → FS3File) → (Int → FS3File)
  | 0, _, files => files
  | fuel + 1, i, files =>
    if (files i).created = true then
      unmountLoop fuel (i + 1) (Function.update files (i : Int) { files i with «open» := false })
    else files

/-- FS3 interface, unmount the disk, close all files: 0 if successful, -1 if failure. -/
def fs3_unmount_disk (P : Peer σ) (w : World σ) : Int × World σ :=
  if w.diskMounted = false then (-1, w)
  else
    let cmdblock := construct_fs3_cmdblock FS3_OP_UMOUNT 0 0 0
    match network_fs3_syscall P cmdblock nullBuf w with
    | (none, w1) => (-1, w1)
    | (some (returnCmdblock, _), w1) =>
      if getReturnBit returnCmdblock ≠ 0 then (-1, w1)
      else
        (0, { w1 with
          diskMounted := false
          FS3FileArray := unmountLoop FS3_MAX_TOTAL_FILES 0 w1.FS3FileArray })

/-- Opens the file and returns a file handle, -1 if failure.  `fileHandle0` is the value
that the local variable `fileHandle` holds before anything is assigned to it (it is
declared without an initial value). -/
def fs3_open (path : String) (fileHandle0 : Int) (w : World σ) : Int × World σ :=
  match firstIndex (fun i => decide ((w.FS3FileArray i).name = path)) FS3_MAX_TOTAL_FILES 0 with
  | some i =>
    ((i : Int), { w with
      FS3FileArray := Function.update w.FS3FileArray (i : Int)
        { w.FS3FileArray i with «open» := true, position := 0 } })
  | none =>
    if (w.FS3FileArray FS3_MAX_TOTAL_FILES).created = true then (-1, w)
    else
      let fileHandle : Int :=
        match firstIndex (fun i => decide ((w.FS3FileArray i).created = false))
            FS3_MAX_TOTAL_FILES 0 with
        | some i => (i : Int)
        | none => fileHandle0
      (fileHandle, { w with
        FS3FileArray := Function.update w.FS3FileArray fileHandle
          { created := true, length := 0, position := 0, «open» := true, name := path } })

/-- Closes the file: 0 if successful, -1 if failure. -/
def fs3_close (fd : Int) (w : World σ) : Int × World σ :=
  if fd > FS3_MAX_TOTAL_FILES ∨ fd < 0 then (-1, w)
  else if (w.FS3FileArray fd).created = false then (-1, w)
  else if (w.FS3FileArray fd).«open» = true then (-1, w)
  else
    (0, { w with
      FS3FileArray := Function.update w.FS3FileArray fd { w.FS3FileArray fd with «open» := false } })

/-- Seek to a specific point in the file: 0 if successful, -1 if failure.  `loc` is a
`uint32_t`; the comparison with the `int` length is made on unsigned values. -/
def fs3_seek (fd : Int) (loc : Nat) (w : World σ) : Int × World σ :=
  if fd > FS3_MAX_TOTAL_FILES ∨ fd < 0 then (-1, w)
  else if (w.FS3FileArray fd).created = false then (-1, w)
  else if loc > toU32 (w.FS3FileArray fd).length then (-1, w)
  else if (w.FS3FileArray fd).«open» = false then (-1, w)
  else
    (0, { w with
      FS3FileArray := Function.update w.FS3FileArray fd
        { w.FS3FileArray fd with position := toI32 loc } })

/-- Switches the track the disk is on: 0 if successful, -1 if failure. -/
def switch_disk_track (G : Geometry) (P : Peer σ) (trackNum : Int) (w : World σ) :
    Int × World σ :=
  if w.diskMounted = false then (-1, w)
  else if trackNum < 0 ∨ trackNum > G.FS3_MAX_TRACKS then (-1, w)
  else
    let trackInt := trackNum.toNat
    let cmdblock := construct_fs3_cmdblock FS3_OP_TSEEK 0 trackInt 0
    match network_fs3_syscall P cmdblock nullBuf w with
    | (none, w1) => (-1, w1)
    | (some (returnCmdblock, _), w1) =>
      if getReturnBit returnCmdblock ≠ 0 then (-1, w1)
      else (0, { w1 with currentDiskTrack := trackNum })

/-- First track number with an open sector, or -1 if all sectors are full. -/
def find_open_track (G : Geometry) (w : World σ) : Int :=
  match firstIndex
      (fun i => (firstIndex (fun j => decide (w.FS3DiskMap i j = -1)) G.FS3_TRACK_SIZE 0).isSome)
      G.FS3_MAX_TRACKS 0 with
  | some i => (i : Int)
  | none => -1

/-- Number of the first open sector on the current track, or -1 if all sectors on the
track are full. -/
def find_open_sector (G : Geometry) (w : World σ) : Int :=
  match firstIndex (fun i => decide (w.FS3DiskMap w.currentDiskTrack i = -1))
      G.FS3_TRACK_SIZE 0 with
  | some i => (i : Int)
  | none => -1

/-- How the inner loop of `find_current_track` / `find_current_sector` ends: with a
`return`, or by running to the end of the track with the count reached. -/
inductive RowScan where
  | ret (r : Int)
  | cont (count : Int)

/-- Inner loop (over the sectors `j` of track `i`) of `find_current_track` and
`find_current_sector`; `pick i j` is the value returned on the match (`i` for the track,
`j` for the sector). -/
def findCurrentRow (map : Int → Int → Int) (fd partNum : Int) (pick : Nat → Nat → Int)
    (i : Nat) : Nat → Nat → Int → RowScan
  | 0, _, count => RowScan.cont count
  | fuel + 1, j, count =>
    let count1 := if map i j = fd then count + 1 else count
    if map i j = fd ∧ count1 = partNum then RowScan.ret (pick i j)
    else if map i j = -1 then RowScan.ret (-1)
    else findCurrentRow map fd partNum pick i fuel (j + 1) count1

/-- Outer loop (over the tracks) of `find_current_track` and `find_current_sector`. -/
def findCurrentMap (map : Int → Int → Int) (fd partNum : Int) (pick : Nat → Nat → Int)
    (trackSize : Nat) : Nat → Nat → Int → Int
  | 0, _, _ => -1
  | fuel + 1, i, count =>
    match findCurrentRow map fd partNum pick i trackSize 0 count with
    | RowScan.ret r => r
    | RowScan.cont count1 => findCurrentMap map fd partNum pick trackSize fuel (i + 1) count1

/-- Track number on which the position of the file lies, or -1 if failure to find. -/
def find_current_track (G : Geometry) (fd : Int) (w : World σ) : Int :=
  let partNum := (w.FS3FileArray fd).position.tdiv G.FS3_SECTOR_SIZE
  findCurrentMap w.FS3DiskMap fd partNum (fun i _ => (i : Int)) G.FS3_TRACK_SIZE
    G.FS3_MAX_TRACKS 0 (-1)

/-- Sector number on which the position of the file lies, or -1 if failure to find. -/
def find_current_sector (G : Geometry) (fd : Int) (w : World σ) : Int :=
  let partNum := (w.FS3FileArray fd).position.tdiv G.FS3_SECTOR_SIZE
  findCurrentMap w.FS3DiskMap fd partNum (fun _ j => (j : Int)) G.FS3_TRACK_SIZE
    G.FS3_MAX_TRACKS 0 (-1)

/-- The code shared by `fs3_read` (lines 269-291) and `fs3_write` (lines 391-413): try to
get the sector from the cache and, if it is not there, read it from the disk into
`diskBuf`.  `none` stands for the `return(-1)` of the two failure branches. -/
def fetch_sector (P : Peer σ) (trk sct : Int) (diskBuf : Buffer) (w : World σ) :
    Option Buffer × World σ :=
  let r := fs3_get_cache trk sct w.cache
  let w0 := { w with cache := r.2 }
  match r.1 with
  | none =>
    let cmdblock := construct_fs3_cmdblock FS3_OP_RDSECT (toU16 sct) 0 0
    match network_fs3_syscall P cmdblock diskBuf w0 with
    | (none, w1) => (none, w1)
    | (some (returnCmdblock, diskBuf1), w1) =>
      if getReturnBit returnCmdblock ≠ 0 then (none, w1) else (some diskBuf1, w1)
  | some cacheData => (some cacheData, w0)

/-- How one pass through the body of a `while(count > 0)` loop ends: with `return(-1)`,
or at the end of the body with `diskBitCount` bytes handled. -/
inductive Step (α : Type) where
  | fail (a : α)
  | next (diskBitCount : Int) (a : α)

/-- Body of the `while(count > 0)` loop of `fs3_read`.  The state carried along is the
user buffer and the world. -/
def fs3_read_body (G : Geometry) (P : Peer σ) (fd : Int) (count bytesRead : Int)
    (buf : Buffer) (w : World σ) : Step (Buffer × World σ) :=
  let diskBitCount := count
  let positionInSector := (w.FS3FileArray fd).position.tmod G.FS3_SECTOR_SIZE
  let currentFileTrack := find_current_track G fd w
  let currentFileSector := find_current_sector G fd w
  let w1 :=
    if w.currentDiskTrack ≠ currentFileTrack then (switch_disk_track G P currentFileTrack w).2
    else w
  match fetch_sector P currentFileTrack currentFileSector nullBuf w1 with
  | (none, w2) => Step.fail (buf, w2)
  | (some diskBuf, w2) =>
    let diskBitCount :=
      if (G.FS3_SECTOR_SIZE : Int) - positionInSector < diskBitCount then
        (G.FS3_SECTOR_SIZE : Int) - positionInSector
      else diskBitCount
    let file := w2.FS3FileArray fd
    let diskBitCount :=
      if file.length.tdiv G.FS3_SECTOR_SIZE = file.position.tdiv G.FS3_SECTOR_SIZE then
        if file.length.tmod G.FS3_SECTOR_SIZE - positionInSector < diskBitCount then
          file.length.tmod G.FS3_SECTOR_SIZE - positionInSector
        else diskBitCount
      else diskBitCount
    let buf1 := memcpy buf bytesRead diskBuf positionInSector diskBitCount
    let position := file.position + diskBitCount
    let length := if position > file.length then position else file.length
    Step.next diskBitCount (buf1, { w2 with
      FS3FileArray := Function.update w2.FS3FileArray fd
        { file with position := position, length := length } })

/-- The `while(count > 0)` loop of `fs3_read`; `none` when the fuel runs out before the
loop ends. -/
def fs3_read_loop (G : Geometry) (P : Peer σ) (fd : Int) :
    Nat → Int → Int → Buffer → World σ → Option (Int × Buffer × World σ)
  | 0, count, bytesRead, buf, w => if count > 0 then none else some (bytesRead, buf, w)
  | fuel + 1, count, bytesRead, buf, w =>
    if count > 0 then
      match fs3_read_body G P fd count bytesRead buf w with
      | Step.fail (buf1, w1) => some (-1, buf1, w1)
      | Step.next diskBitCount (buf1, w1) =>
        fs3_read_loop G P fd fuel (count - diskBitCount) (bytesRead + diskBitCount) buf1 w1
    else some (bytesRead, buf, w)

/-- Reads `count` bytes from the file handle `fd` into the buffer `buf`: the bytes read if
successful, -1 if failure, together with the buffer and the world afterwards.  `none`
when the loop needs more than `fuel` passes. -/
def fs3_read (G : Geometry) (P : Peer σ) (fuel : Nat) (fd : Int) (buf : Buffer) (count : Int)
    (w : World σ) : Option (Int × Buffer × World σ) :=
  if w.diskMounted = false then some (-1, buf, w)
  else if fd > FS3_MAX_TOTAL_FILES ∨ fd < 0 then some (-1, buf, w)
  else if (w.FS3FileArray fd).created = false then some (-1, buf, w)
  else if (w.FS3FileArray fd).«open» = false then some (-1, buf, w)
  else if (w.FS3FileArray fd).length - (w.FS3FileArray fd).position = 0 then some (0, buf, w)
  else fs3_read_loop G P fd fuel count 0 buf w

/-- Body of the `while(count > 0)` loop of `fs3_write`.  `diskBuf` is what the freshly
allocated disk buffer holds before anything is copied into it. -/
def fs3_write_body (G : Geometry) (P : Peer σ) (fd : Int) (buf : Buffer)
    (count bytesWritten : Int) (diskBuf : Buffer) (w : World σ) : Step (World σ) :=
  let diskBitCount := count
  let positionInSector := (w.FS3FileArray fd).position.tmod G.FS3_SECTOR_SIZE
  let sectorToWriteTo := find_current_sector G fd w
  let trackToWriteTo := find_current_track G fd w
  let fresh : Bool := decide (sectorToWriteTo = -1 ∨ trackToWriteTo = -1)
  let trackToWriteTo := if fresh then find_open_track G w else trackToWriteTo
  let w1 :=
    if fresh = true ∧ w.currentDiskTrack ≠ trackToWriteTo then
      (switch_disk_track G P trackToWriteTo w).2
    else w
  let sectorToWriteTo := if fresh then find_open_sector G w1 else sectorToWriteTo
  let w2 :=
    if w1.currentDiskTrack ≠ trackToWriteTo then (switch_disk_track G P trackToWriteTo w1).2
    else w1
  let fetched :=
    if w2.FS3DiskMap trackToWriteTo sectorToWriteTo ≠ -1 then
      fetch_sector P trackToWriteTo sectorToWriteTo diskBuf w2
    else (some diskBuf, w2)
  match fetched with
  | (none, w3) => Step.fail w3
  | (some diskBuf1, w3) =>
    let diskBitCount :=
      if (G.FS3_SECTOR_SIZE : Int) - positionInSector < count then
        (G.FS3_SECTOR_SIZE : Int) - positionInSector
      else diskBitCount
    let diskBuf2 := memcpy diskBuf1 positionInSector buf bytesWritten diskBitCount
    let w4 := { w3 with cache := (fs3_put_cache trackToWriteTo sectorToWriteTo diskBuf2 w3.cache).2 }
    let writeCmdblock := construct_fs3_cmdblock FS3_OP_WRSECT (toU16 sectorToWriteTo) 0 0
    match network_fs3_syscall P writeCmdblock diskBuf2 w4 with
    | (none, w5) => Step.fail w5
    | (some (returnWriteCmdblock, _), w5) =>
      if getReturnBit returnWriteCmdblock ≠ 0 then Step.fail w5
      else
        let file := w5.FS3FileArray fd
        let position := file.position + diskBitCount
        let length := if position > file.length then position else file.length
        Step.next diskBitCount { w5 with
          FS3DiskMap := Function.update w5.FS3DiskMap trackToWriteTo
            (Function.update (w5.FS3DiskMap trackToWriteTo) sectorToWriteTo fd)
          FS3FileArray := Function.update w5.FS3FileArray fd
            { file with position := position, length := length } }

/-- The `while(count > 0)` loop of `fs3_write`; `none` when the fuel runs out before the
loop ends.  `scratch n` is what the disk buffer allocated in the pass that starts with
`bytesWritten = n` holds at first. -/
def fs3_write_loop (G : Geometry) (P : Peer σ) (fd : Int) (buf : Buffer)
    (scratch : Int → Buffer) : Nat → Int → Int → World σ → Option (Int × World σ)
  | 0, count, bytesWritten, w => if count > 0 then none else some (bytesWritten, w)
  | fuel + 1, count, bytesWritten, w =>
    if count > 0 then
      match fs3_write_body G P fd buf count bytesWritten (scratch bytesWritten) w with
      | Step.fail w1 => some (-1, w1)
      | Step.next diskBitCount w1 =>
        fs3_write_loop G P fd buf scratch fuel (count - diskBitCount)
          (bytesWritten + diskBitCount) w1
    else some (bytesWritten, w)

/-- Writes `count` bytes to the file handle `fd` from the buffer `buf`: the bytes written
if successful, -1 if failure, together with the world afterwards.  `none` when the loop
needs more than `fuel` passes. -/
def fs3_write (G : Geometry) (P : Peer σ) (fuel : Nat) (fd : Int) (buf : Buffer) (count : Int)
    (scratch : Int → Buffer) (w : World σ) : Option (Int × World σ) :=
  if w.diskMounted = false then some (-1, w)
  else if fd > FS3_MAX_TOTAL_FILES ∨ fd < 0 then some (-1, w)
  else if (w.FS3FileArray fd).created = false then some (-1, w)
  else if (w.FS3FileArray fd).«open» = false then some (-1, w)
  else fs3_write_loop G P fd buf scratch fuel count 0 w

/-! ## The remote controller -/

/-- Modelled from the spec: the state of the remote controller (it is not part of this
repository): the track its head is on and the payload stored in each sector. -/
structure Disk where
  head : Nat
  sectors : Nat → Nat → Buffer

/-- Modelled from the spec: the reply command block, which echoes the request and carries
the return status in bit 52 (bit 0 = MSB). -/
def replyCmdblock (cmd ret : Nat) : Nat :=
  cmd / 4096 * 4096 + ret * 2048 + cmd % 2048

/-- Modelled from the spec: a controller that stores sectors faithfully.  `TRACK_SEEK`
moves the head, `READ_SECTOR` and `WRITE_SECTOR` address the sector on the track under the
head, and a request for a track or sector outside the geometry is refused (return
status 1).  Every exchange is answered. -/
def controller (G : Geometry) : Peer Disk where
  exchange d cmd payload :=
    let op := (deconstruct_fs3_cmdblock cmd).1
    let sec := (deconstruct_fs3_cmdblock cmd).2.1
    let trk := (deconstruct_fs3_cmdblock cmd).2.2.1
    if op = FS3_OP_MOUNT ∨ op = FS3_OP_UMOUNT then (d, some (replyCmdblock cmd 0, nullBuf))
    else if op = FS3_OP_TSEEK ∧ trk < G.FS3_MAX_TRACKS then
      ({ d with head := trk }, some (replyCmdblock cmd 0, nullBuf))
    else if op = FS3_OP_RDSECT ∧ sec < G.FS3_TRACK_SIZE then
      (d, some (replyCmdblock cmd 0, d.sectors d.head sec))
    else if op = FS3_OP_WRSECT ∧ sec < G.FS3_TRACK_SIZE then
      match payload with
      | some data =>
        let track := Function.update (d.sectors d.head) sec data
        ({ d with sectors := Function.update d.sectors d.head track },
          some (replyCmdblock cmd 0, nullBuf))
      | none => (d, none)
    else (d, some (replyCmdblock cmd 1, nullBuf))

/-! ## The state of the process when it starts -/

/-- The variables of `fs3_cache.c` when the process starts. -/
def Cache.boot : Cache where
  FS3Cache := fun _ => { track := 0, sector := 0, dataBuffer := nullBuf, countUsed := 0 }
  cacheSize := 0
  cacheCreated := 0
  cacheUseCount := 0
  cacheInserts := 0
  cacheHits := 0
  cacheGets := 0
  cacheMisses := 0

/-- The world when the process starts: every object of static storage duration is zero,
and so is the memory around the arrays. -/
def World.boot (st : σ) : World σ where
  diskMounted := false
  FS3FileArray := fun _ => { created := false, «open» := false, name := "", length := 0, position := 0 }
  FS3DiskMap := fun _ _ => 0
  currentDiskTrack := 0
  cache := Cache.boot
  peer := st
  wire := []

/-! ## Notions used to state the properties -/

/-- The geometry is one the driver can address: sectors are not empty, a sector number
fits the 16-bit field of the command block and a track number its 32-bit field. -/
structure Geometry.Valid (G : Geometry) : Prop where
  sector_pos : 0 < G.FS3_SECTOR_SIZE
  track_size_le : G.FS3_TRACK_SIZE ≤ 65536
  max_tracks_le : G.FS3_MAX_TRACKS ≤ 4294967296

/-- Number of cells of the allocation map. -/
def Geometry.cells (G : Geometry) : Nat := G.FS3_MAX_TRACKS * G.FS3_TRACK_SIZE

/-- The cell of the allocation map at place `q` of the scan order
`(0,0),(0,1),…,(0,FS3_TRACK_SIZE-1),(1,0),…`. -/
def cellAt (G : Geometry) (map : Int → Int → Int) (q : Nat) : Int :=
  map ((q / G.FS3_TRACK_SIZE : Nat) : Int) ((q % G.FS3_TRACK_SIZE : Nat) : Int)

/-- Number of places below `q` whose cell holds `h`. -/
def countCells (cell : Nat → Int) (h : Int) : Nat → Nat
  | 0 => 0
  | q + 1 => countCells cell h q + (if cell q = h then 1 else 0)

/-- Number of places below `q` whose cell is not EMPTY (-1). -/
def countUsed (cell : Nat → Int) : Nat → Nat
  | 0 => 0
  | q + 1 => countUsed cell q + (if cell q = -1 then 0 else 1)

/-- Number of sectors needed for `length` bytes: `ceil(length / FS3_SECTOR_SIZE)`. -/
def sectorsFor (G : Geometry) (length : Int) : Nat :=
  ((length + G.FS3_SECTOR_SIZE - 1) / G.FS3_SECTOR_SIZE).toNat

/-- The first `u` cells in scan order are taken and all others are EMPTY. -/
def UsedPrefix (G : Geometry) (map : Int → Int → Int) (u : Nat) : Prop :=
  u ≤ G.cells ∧ (∀ q, q < u → cellAt G map q ≠ -1) ∧
    (∀ q, u ≤ q → q < G.cells → cellAt G map q = -1)

/-- The record `fd` is consistent with the allocation map: the position lies in the file
and the file owns as many cells as its length needs. -/
def FileOk (G : Geometry) (w : World σ) (fd : Int) : Prop :=
  0 ≤ (w.FS3FileArray fd).position ∧
  (w.FS3FileArray fd).position ≤ (w.FS3FileArray fd).length ∧
  countCells (cellAt G w.FS3DiskMap) fd G.cells = sectorsFor G (w.FS3FileArray fd).length

/-- The exchange was answered, with return status 0. -/
def Answered (r : σ × Option (Nat × Buffer)) : Prop :=
  ∃ reply data, r.2 = some (reply, data) ∧ getReturnBit reply = 0

/-- All wire calls that address the disk succeed: the remote end answers with status 0
every seek to a track of the disk and every read or write of a sector of a track. -/
def Accepts (G : Geometry) (P : Peer σ) : Prop :=
  (∀ st trk, trk < G.FS3_MAX_TRACKS →
    Answered (P.exchange st (construct_fs3_cmdblock FS3_OP_TSEEK 0 trk 0) none)) ∧
  (∀ st sec, sec < G.FS3_TRACK_SIZE →
    Answered (P.exchange st (construct_fs3_cmdblock FS3_OP_RDSECT sec 0 0) none)) ∧
  (∀ st sec data, sec < G.FS3_TRACK_SIZE →
    Answered (P.exchange st (construct_fs3_cmdblock FS3_OP_WRSECT sec 0 0) (some data)))

/-- The driver after `if(currentDiskTrack != trk) switch_disk_track(trk)`. -/
def seekTo (G : Geometry) (P : Peer σ) (trk : Int) (w : World σ) : World σ :=
  if w.currentDiskTrack ≠ trk then (switch_disk_track G P trk w).2 else w

/-- The world after `fs3_put_cache(trk, sct, data)` followed by the `WRITE_SECTOR` call for
sector `sct` with payload `data`. -/
def storeSector (P : Peer σ) (trk sct : Int) (data : Buffer) (w : World σ) : World σ :=
  (network_fs3_syscall P (construct_fs3_cmdblock FS3_OP_WRSECT (toU16 sct) 0 0) data
    { w with cache := (fs3_put_cache trk sct data w.cache).2 }).2

/-- The metadata update that ends a pass of the loop of `fs3_write`. -/
def commitWrite (fd trk sct diskBitCount : Int) (w : World σ) : World σ :=
  { w with
    FS3DiskMap := Function.update w.FS3DiskMap trk (Function.update (w.FS3DiskMap trk) sct fd)
    FS3FileArray := Function.update w.FS3FileArray fd
      { w.FS3FileArray fd with
        position := (w.FS3FileArray fd).position + diskBitCount
        length :=
          if (w.FS3FileArray fd).position + diskBitCount > (w.FS3FileArray fd).length then
            (w.FS3FileArray fd).position + diskBitCount
          else (w.FS3FileArray fd).length } }

/-- Number of bytes handled by one pass of the loop of `fs3_write` when `count` bytes
remain: what is left of the sector, or `count` if that is less. -/
def writeChunk (G : Geometry) (w : World σ) (fd count : Int) : Int :=
  if (G.FS3_SECTOR_SIZE : Int) - (w.FS3FileArray fd).position.tmod G.FS3_SECTOR_SIZE < count then
    (G.FS3_SECTOR_SIZE : Int) - (w.FS3FileArray fd).position.tmod G.FS3_SECTOR_SIZE
  else count

/-- The driver is mounted, the allocation map is filled from the front of the scan order
up to place `u`, and the record `fd` is consistent with the map. -/
structure Consistent (G : Geometry) (w : World σ) (fd : Int) (u : Nat) : Prop where
  mounted : w.diskMounted = true
  used : UsedPrefix G w.FS3DiskMap u
  file : FileOk G w fd

/-- Number of bytes handled by one pass of the loop of `fs3_read` when `count` bytes
remain: what is left of the sector, or `count` if that is less, cut at the end of the file
when the end lies in the sector of the position. -/
def readChunk (G : Geometry) (w : World σ) (fd count : Int) : Int :=
  if (w.FS3FileArray fd).length.tdiv G.FS3_SECTOR_SIZE
      = (w.FS3FileArray fd).position.tdiv G.FS3_SECTOR_SIZE then
    if (w.FS3FileArray fd).length.tmod G.FS3_SECTOR_SIZE
        - (w.FS3FileArray fd).position.tmod G.FS3_SECTOR_SIZE < writeChunk G w fd count then
      (w.FS3FileArray fd).length.tmod G.FS3_SECTOR_SIZE
        - (w.FS3FileArray fd).position.tmod G.FS3_SECTOR_SIZE
    else writeChunk G w fd count
  else writeChunk G w fd count

/-- The metadata update that ends a pass of the loop of `fs3_read`. -/
def commitRead (fd diskBitCount : Int) (w : World σ) : World σ :=
  { w with
    FS3FileArray := Function.update w.FS3FileArray fd
      { w.FS3FileArray fd with
        position := (w.FS3FileArray fd).position + diskBitCount
        length :=
          if (w.FS3FileArray fd).position + diskBitCount > (w.FS3FileArray fd).length then
            (w.FS3FileArray fd).position + diskBitCount
          else (w.FS3FileArray fd).length } }

/-! ## Scenarios -/

/-- The geometry of the scenarios: sectors of 1024 bytes, 64 tracks of 1024 sectors. -/
def scenarioGeometry : Geometry where
  FS3_MAX_TRACKS := 64
  FS3_TRACK_SIZE := 1024
  FS3_SECTOR_SIZE := 1024

/-- A controller whose head is on track 0 and whose sectors hold zeros. -/
def blankDisk : Disk where
  head := 0
  sectors := fun _ _ => nullBuf

/-- The world after `fs3_mount_disk` on a process that has just started. -/
def mountedWorld : World Disk :=
  (fs3_mount_disk scenarioGeometry (controller scenarioGeometry) (World.boot blankDisk)).2

/-- The world after `mount; open(path)`. -/
def openedWorld (path : String) : World Disk :=
  (fs3_open path 0 mountedWorld).2

/-- The world a call of `fs3_write` ends in. -/
def worldAfter (r : Option (Int × World Disk)) : World Disk :=
  match r with
  | some (_, w) => w
  | none => World.boot blankDisk

/-- The bytes of "HELLO". -/
def helloBytes : Buffer := fun i =>
  if i = 0 then 72 else if i = 1 then 69 else if i = 2 then 76 else if i = 3 then 76
  else if i = 4 then 79 else 0

/-- The bytes of "xyz". -/
def xyzBytes : Buffer := fun i =>
  if i = 0 then 120 else if i = 1 then 121 else if i = 2 then 122 else 0

/-- A buffer filled with the byte `0xAB`. -/
def abBytes : Buffer := fun _ => 171

/-- The world after `mount; h=open("a"); write(h,"HELLO",5)`. -/
def helloWorld : World Disk :=
  worldAfter (fs3_write scenarioGeometry (controller scenarioGeometry) 5 0 helloBytes 5
    (fun _ => nullBuf) (openedWorld "a"))

/-- The world after `mount; h=open("d"); write(h,"xyz",3)`. -/
def xyzWorld : World Disk :=
  worldAfter (fs3_write scenarioGeometry (controller scenarioGeometry) 3 0 xyzBytes 3
    (fun _ => nullBuf) (openedWorld "d"))

/-- The world after `mount; h=open("a"); write(h,"HELLO",5); unmount; mount`. -/
def remountedWorld : World Disk :=
  (fs3_mount_disk scenarioGeometry (controller scenarioGeometry)
    (fs3_unmount_disk (controller scenarioGeometry) helloWorld).2).2

/-- The name of the file with handle `i` in `fullTableWorld`: two letters, different for
each of the 1024 handles. -/
def fileName (i : Nat) : String :=
  String.mk [Char.ofNat (65 + i / 32), Char.ofNat (65 + i % 32)]

/-- The world after `mount` and the opening of `FS3_MAX_TOTAL_FILES` files with different
names: every record of the table is created and open. -/
def fullTableWorld : World Disk :=
  { mountedWorld with
    FS3FileArray := fun i =>
      if 0 ≤ i ∧ i < FS3_MAX_TOTAL_FILES then
        { created := true, «open» := true, name := fileName i.toNat, length := 0, position := 0 }
      else mountedWorld.FS3FileArray i }

/-- Every line of the created cache that is filed under `(trk, sct)` holds `data`. -/
def CacheAgrees (c : Cache) (trk sct : Int) (data : Buffer) : Prop :=
  c.cacheCreated ≠ 0 → ∀ i, i < c.cacheSize → (c.FS3Cache i).track = trk →
    (c.FS3Cache i).sector = sct → (c.FS3Cache i).dataBuffer = data

/-- No two lines of the cache are filed under the same sector of the disk (lines with a
negative track, such as the unused ones, are not counted). -/
def CacheNoDup (c : Cache) : Prop :=
  ∀ i j, i < c.cacheSize → j < c.cacheSize → (c.FS3Cache i).track = (c.FS3Cache j).track →
    (c.FS3Cache i).sector = (c.FS3Cache j).sector → 0 ≤ (c.FS3Cache i).track → i = j

/-- The sector `(trk, sct)` reads as `data`: the controller stores `data` there and so
does every cache line filed under the sector. -/
def SectorHolds (w : World Disk) (trk sct : Nat) (data : Buffer) : Prop :=
  w.peer.sectors trk sct = data ∧ CacheAgrees w.cache trk sct data

/-- The driver knows where the head of the controller is: its current track is "none"
(-1) or the track under the head. -/
def HeadOk (w : World Disk) : Prop :=
  w.currentDiskTrack = -1 ∨ w.currentDiskTrack = (w.peer.head : Int)

/-- The controller stores the same payloads in `w1` as in `w`, and the cache has the same
lines with the same keys and payloads (the use stamps may differ). -/
def SameSectors (w w1 : World Disk) : Prop :=
  w1.peer.sectors = w.peer.sectors ∧ w1.cache.cacheSize = w.cache.cacheSize ∧
  w1.cache.cacheCreated = w.cache.cacheCreated ∧
  ∀ i, (w1.cache.FS3Cache i).track = (w.cache.FS3Cache i).track ∧
    (w1.cache.FS3Cache i).sector = (w.cache.FS3Cache i).sector ∧
    (w1.cache.FS3Cache i).dataBuffer = (w.cache.FS3Cache i).dataBuffer

/-- The sectors of the file `fd` hold the first `n` bytes of `buf`: for every `k` whose
sector starts before byte `n`, the sector at place `k` of the file (the cell of `fd` with
`k` cells of `fd` before it in scan order) reads as a payload whose byte `x` is
`buf (k * FS3_SECTOR_SIZE + x)` as far as that lies before `n`. -/
def FileData (G : Geometry) (w : World Disk) (fd : Int) (buf : Buffer) (n : Int) : Prop :=
  ∀ k : Nat, (k : Int) * G.FS3_SECTOR_SIZE < n →
    ∃ q data, q < G.cells ∧ cellAt G w.FS3DiskMap q = fd ∧
      countCells (cellAt G w.FS3DiskMap) fd q = k ∧
      SectorHolds w (q / G.FS3_TRACK_SIZE) (q % G.FS3_TRACK_SIZE) data ∧
      ∀ x : Int, 0 ≤ x → x < G.FS3_SECTOR_SIZE → (k : Int) * G.FS3_SECTOR_SIZE + x < n →
        data x = buf ((k : Int) * G.FS3_SECTOR_SIZE + x)

/-- What holds of the cache, the controller and the sectors of the file before each pass
of the loop of `fs3_write` in a write that started at position 0: the cache has no two
lines for one sector, the driver knows where the head is, the position is the number of
bytes written, it lies at the start of a sector as long as bytes are left, and the sectors
of the file hold the bytes written so far. -/
def WriteData (G : Geometry) (fd : Int) (buf : Buffer) (count bytesWritten : Int)
    (w : World Disk) : Prop :=
  CacheNoDup w.cache ∧ HeadOk w ∧ (w.FS3FileArray fd).position = bytesWritten ∧
  (0 < count → ∃ k : Nat, bytesWritten = (k : Int) * G.FS3_SECTOR_SIZE) ∧
  FileData G w fd buf bytesWritten

/-- What holds of the cache, the controller, the sectors of the file and the user buffer
before each pass of the loop of `fs3_read` in a read that started at position 0 of a file
whose first `n` bytes are those of `buf`: as for `WriteData`, and the user buffer holds
the bytes read so far. -/
def ReadData (G : Geometry) (fd : Int) (buf : Buffer) (n : Int) (count bytesRead : Int)
    (out : Buffer) (w : World Disk) : Prop :=
  CacheNoDup w.cache ∧ HeadOk w ∧ (w.FS3FileArray fd).position = bytesRead ∧
  (0 < count → ∃ k : Nat, bytesRead = (k : Int) * G.FS3_SECTOR_SIZE) ∧
  bytesRead + count ≤ n ∧
  FileData G w fd buf n ∧ ∀ x : Int, 0 ≤ x → x < bytesRead → out x = buf x

/-- The world after `fs3_init_cache(1); mount; open("b")`: as `openedWorld "b"`, with a
cache of one line. -/
def cachedWorld : World Disk :=
  { openedWorld "b" with
    cache := (fs3_init_cache 1
      (fun _ => { track := 0, sector := 0, dataBuffer := nullBuf, countUsed := 0 }) Cache.boot).2 }

/-- Sum over the created handles `h` below `n` of `ceil(length(h) / FS3_SECTOR_SIZE)`. -/
def neededSectors (G : Geometry) (w : World σ) : Nat → Nat
  | 0 => 0
  | h + 1 => neededSectors G w h +
      (if (w.FS3FileArray (h : Int)).created = true
        then sectorsFor G (w.FS3FileArray (h : Int)).length else 0)

/-- The world after `mount`, the opening of `FS3_MAX_TOTAL_FILES` files with different
names and `write(7, buf, 1)`. -/
def fullTableWritten : World Disk :=
  worldAfter (fs3_write scenarioGeometry (controller scenarioGeometry) 1 7 abBytes 1
    (fun _ => nullBuf) fullTableWorld)

/-- The world after `mount` when the memory after the file table reads as a created
record of length 8 (`isOpen` says what its `open` byte reads as). -/
def strayRecordWorld (isOpen : Bool) : World Disk :=
  { mountedWorld with
    FS3FileArray := Function.update mountedWorld.FS3FileArray FS3_MAX_TOTAL_FILES
      { created := true, «open» := isOpen, name := "", length := 8, position := 0 } }

/-- What the memory handed out by `malloc` holds in the scenarios: zeros. -/
def zeroHeap : Nat → FS3CacheEntry :=
  fun _ => { track := 0, sector := 0, dataBuffer := nullBuf, countUsed := 0 }

/-- The cache after `fs3_init_cache(1)`, a put of sector (0,0), a get of it (a hit) and a
get of sector (0,1) (a miss). -/
def usedCache : Cache :=
  (fs3_get_cache 0 1 (fs3_get_cache 0 0 (fs3_put_cache 0 0 helloBytes
    (fs3_init_cache 1 zeroHeap Cache.boot).2).2).2).2

/-- The state a pass of a loop body ends in, failed or not. -/
def Step.state {α : Type} : Step α → α
  | Step.fail a => a
  | Step.next _ a => a

/-- A call of one of the five file operations, with its arguments (and, for the two
operations with a loop, the number of passes allowed). -/
inductive Call where
  | fileOpen (path : String) (fileHandle0 : Int)
  | fileClose (fd : Int)
  | fileSeek (fd : Int) (loc : Nat)
  | fileRead (fuel : Nat) (fd : Int) (buf : Buffer) (count : Int)
  | fileWrite (fuel : Nat) (fd : Int) (buf : Buffer) (count : Int) (scratch : Int → Buffer)

/-- The world after a call, when the call returns. -/
def runCall (G : Geometry) (P : Peer σ) : Call → World σ → Option (World σ)
  | Call.fileOpen path fileHandle0, w => some (fs3_open path fileHandle0 w).2
  | Call.fileClose fd, w => some (fs3_close fd w).2
  | Call.fileSeek fd loc, w => some (fs3_seek fd loc w).2
  | Call.fileRead fuel fd buf count, w => (fs3_read G P fuel fd buf count w).map (fun r => r.2.2)
  | Call.fileWrite fuel fd buf count scratch, w =>
    (fs3_write G P fuel fd buf count scratch w).map Prod.snd

/-- The states reachable from a successful mount by open / close / seek / read / write
calls. -/
inductive Reachable (G : Geometry) (P : Peer σ) : World σ → Prop
  | mount (w0 : World σ) : (fs3_mount_disk G P w0).1 = 0 → Reachable G P (fs3_mount_disk G P w0).2
  | call (c : Call) (w w1 : World σ) : Reachable G P w → runCall G P c w = some w1 →
      Reachable G P w1

/-- The created records of the file table are the first ones: below a created record every
record is created. -/
def CreatedPrefix (files : Int → FS3File) : Prop :=
  ∀ i j : Nat, i ≤ j → j < FS3_MAX_TOTAL_FILES → (files (j : Int)).created = true →
    (files (i : Int)).created = true

/-- A small disk: 2 tracks of 2 sectors of 4 bytes. -/
def smallGeometry : Geometry where
  FS3_MAX_TRACKS := 2
  FS3_TRACK_SIZE := 2
  FS3_SECTOR_SIZE := 4

/-- The bytes 'A', 'B', 'C', ... -/
def alphabetBytes : Buffer := fun i => (65 + i).toNat

/-- The first `n` bytes of a buffer. -/
def firstBytes (n : Nat) (b : Buffer) : List Nat := (List.range n).map (fun i => b (i : Int))

/-- The world a call of `fs3_write` ends in, or `dflt` when the call does not return. -/
def worldOf {α : Type} (r : Option (Int × World α)) (dflt : World α) : World α :=
  match r with
  | some (_, w) => w
  | none => dflt

/-- The world after `mount; h=open("a")` on the small disk. -/
def smallOpened : World Disk :=
  (fs3_open "a" 0
    (fs3_mount_disk smallGeometry (controller smallGeometry) (World.boot blankDisk)).2).2

/-- The world after `mount; h=open("a"); write(h, "ABCDEFGHIJKLMNOP", 16)` on the small
disk: the file owns the four sectors of the disk. -/
def smallFull : World Disk :=
  worldOf (fs3_write smallGeometry (controller smallGeometry) 16 0 alphabetBytes 16
    (fun _ => nullBuf) smallOpened) smallOpened

/-- As `smallFull`, when the word of memory at `FS3DiskMap[-1][-1]` reads as -1. -/
def smallFullEmptyBefore : World Disk :=
  { smallFull with
    FS3DiskMap := Function.update smallFull.FS3DiskMap (-1)
      (Function.update (smallFull.FS3DiskMap (-1)) (-1) (-1)) }

/-- A controller that stores sectors faithfully but accepts only a given number of
`TRACK_SEEK` requests: once that number is used up it fails every `TRACK_SEEK`, with
return status 1 or, when `ioError` is set, with an I/O error. -/
def seekLimited (G : Geometry) (ioError : Bool) : Peer (Disk × Nat) where
  exchange st cmd payload :=
    if (deconstruct_fs3_cmdblock cmd).1 = FS3_OP_TSEEK then
      match st.2 with
      | 0 => if ioError then (st, none) else (st, some (replyCmdblock cmd 1, nullBuf))
      | n + 1 => ((((controller G).exchange st.1 cmd payload).1, n),
          ((controller G).exchange st.1 cmd payload).2)
    else ((((controller G).exchange st.1 cmd payload).1, st.2),
      ((controller G).exchange st.1 cmd payload).2)

/-- The world after `mount; h=open("a")` on the small disk, against a controller that
accepts two `TRACK_SEEK` requests. -/
def limOpened (ioError : Bool) : World (Disk × Nat) :=
  (fs3_open "a" 0 (fs3_mount_disk smallGeometry (seekLimited smallGeometry ioError)
    (World.boot (blankDisk, 2))).2).2

/-- The world after `mount; h=open("a"); write(h, "ABCDEFGHIJKL", 12); seek(h, 0)` on the
small disk, against a controller that accepts two `TRACK_SEEK` requests: the two requests
are used up, the head and the current track are on track 1, and the position of the file
is in sector (0,0). -/
def limWritten (ioError : Bool) : World (Disk × Nat) :=
  (fs3_seek 0 0 (worldOf (fs3_write smallGeometry (seekLimited smallGeometry ioError) 12 0
    alphabetBytes 12 (fun _ => nullBuf) (limOpened ioError)) (limOpened ioError))).2

/-- The world a call of `fs3_read` ends in. -/
def worldAfterRead (r : Option (Int × Buffer × World Disk)) : World Disk :=
  match r with
  | some (_, _, w) => w
  | none => World.boot blankDisk

/-- The world after `fs3_init_cache(1); mount; h=open("a")`. -/
def cachedOpened : World Disk :=
  { openedWorld "a" with cache := (fs3_init_cache 1 zeroHeap Cache.boot).2 }

/-- The world after scenario S1 with a cache of one line:
`fs3_init_cache(1); mount; h=open("a"); write(h,"HELLO",5); seek(h,0); read(h,out,5)`. -/
def cachedHello : World Disk :=
  worldAfterRead (fs3_read scenarioGeometry (controller scenarioGeometry) 5 0 nullBuf 5
    (fs3_seek 0 0 (worldAfter (fs3_write scenarioGeometry (controller scenarioGeometry) 5 0
      helloBytes 5 (fun _ => nullBuf) cachedOpened))).2)

/-- The cache after the puts of the sectors `key 0`, ..., `key (m - 1)`, in this order,
with the payloads `payload 0`, ... -/
def putAll (key : Nat → Int × Int) (payload : Nat → Buffer) : Nat → Cache → Cache
  | 0, c => c
  | m + 1, c => (fs3_put_cache (key m).1 (key m).2 (payload m) (putAll key payload m c)).2

/-- What a cache of `N` lines holds after `fs3_init_cache(N)` and `m` puts with different
keys: line `i` is unused as long as `i ≥ m`, and otherwise it holds the put number `j`
(counted from 0) with `j % N = i` among the last `N` puts, stamped `j + 1`. -/
def LruState (N : Nat) (key : Nat → Int × Int) (payload : Nat → Buffer) (m : Nat)
    (c : Cache) : Prop :=
  c.cacheCreated = 1 ∧ c.cacheSize = N ∧ c.cacheUseCount = m ∧
  (∀ i, m ≤ i → i < N → (c.FS3Cache i).track = -1 ∧ (c.FS3Cache i).sector = -1 ∧
    (c.FS3Cache i).countUsed = 0) ∧
  (∀ i, i < N → i < m → ∃ j, j < m ∧ m ≤ j + N ∧ j % N = i ∧
    (c.FS3Cache i).track = (key j).1 ∧ (c.FS3Cache i).sector = (key j).2 ∧
    (c.FS3Cache i).dataBuffer = payload j ∧ (c.FS3Cache i).countUsed = j + 1)

/-- The keys of the LRU scenario: sector `j` of track 0. -/
def lruKey (j : Nat) : Int × Int := (0, (j : Int))

/-- The payloads of the LRU scenario: put number `j` stores the byte `j` everywhere. -/
def lruPayload (j : Nat) : Buffer := fun _ => j

/-- Invariant D of the cache: no two lines in use (key different from the unused marker
`(-1, -1)`) are filed under the same `(track, sector)` key. -/
def InvariantD (c : Cache) : Prop :=
  ∀ i j, i < c.cacheSize → j < c.cacheSize → (c.FS3Cache i).track = (c.FS3Cache j).track →
    (c.FS3Cache i).sector = (c.FS3Cache j).sector →
    ¬ ((c.FS3Cache i).track = -1 ∧ (c.FS3Cache i).sector = -1) → i = j

/-- The cache states reachable from a successful `fs3_init_cache` by calls of
`fs3_put_cache` and `fs3_get_cache`. -/
inductive CacheReachable : Cache → Prop
  | init (cachelines : Nat) (heap : Nat → FS3CacheEntry) (c0 : Cache) :
      (fs3_init_cache cachelines heap c0).1 = 0 →
      CacheReachable (fs3_init_cache cachelines heap c0).2
  | put (trk sct : Int) (buf : Buffer) (c : Cache) :
      CacheReachable c → CacheReachable (fs3_put_cache trk sct buf c).2
  | get (trk sct : Int) (c : Cache) :
      CacheReachable c → CacheReachable (fs3_get_cache trk sct c).2

/-- The cache `c1` holds what the cache `c` holds: the same lines with the same keys and
payloads, and as many inserts were made (the use stamps and the get counters may differ). -/
def SameLines (c c1 : Cache) : Prop :=
  c1.cacheSize = c.cacheSize ∧ c1.cacheCreated = c.cacheCreated ∧
  c1.cacheInserts = c.cacheInserts ∧
  ∀ i, (c1.FS3Cache i).track = (c.FS3Cache i).track ∧
    (c1.FS3Cache i).sector = (c.FS3Cache i).sector ∧
    (c1.FS3Cache i).dataBuffer = (c.FS3Cache i).dataBuffer

/-- The world after `mount; h=open("a"); write(h,"HELLO",5); fs3_init_cache(2);
seek(h,0)`: the sector of the file is on the disk and not in the cache. -/
def coldHello : World Disk :=
  { (fs3_seek 0 0 helloWorld).2 with cache := (fs3_init_cache 2 zeroHeap Cache.boot).2 }

/-- The track chosen by a pass of the loop of `fs3_write` (`trackToWriteTo`): the track of
the sector the position lies in, or the first track with an open sector when the file has
no such sector. -/
def writeTrack (G : Geometry) (fd : Int) (w : World σ) : Int :=
  if find_current_sector G fd w = -1 ∨ find_current_track G fd w = -1 then find_open_track G w
  else find_current_track G fd w

/-- Every created record of the file table has its position between 0 and its length. -/
def PositionBound (w : World σ) : Prop :=
  ∀ i : Int, 0 ≤ i → i < FS3_MAX_TOTAL_FILES → (w.FS3FileArray i).created = true →
    0 ≤ (w.FS3FileArray i).position ∧ (w.FS3FileArray i).position ≤ (w.FS3FileArray i).length

/-- The lengths of the created records of the file table are in the range of the C type
`int`, in which the file offsets are held. -/
def LengthsFit (w : World σ) : Prop :=
  ∀ i : Int, 0 ≤ i → i < FS3_MAX_TOTAL_FILES → (w.FS3FileArray i).created = true →
    (w.FS3FileArray i).length < 2 ^ 31

/-- The states reachable from a successful mount by open / close / seek / read / write
calls, whatever their results, as long as the lengths of the files stay in the range of
`int`. -/
inductive ReachableInRange (G : Geometry) (P : Peer σ) : World σ → Prop
  | mount (w0 : World σ) : (fs3_mount_disk G P w0).1 = 0 →
      ReachableInRange G P (fs3_mount_disk G P w0).2
  | call (c : Call) (w w1 : World σ) : ReachableInRange G P w → runCall G P c w = some w1 →
      LengthsFit w1 → ReachableInRange G P w1

/-- The states reachable from a successful mount by any sequence of driver operations:
open / close / seek / read / write calls, unmounts and further mounts, whatever their
results. -/
inductive ReachableByOps (G : Geometry) (P : Peer σ) : World σ → Prop
  | mount (w0 : World σ) : (fs3_mount_disk G P w0).1 = 0 →
      ReachableByOps G P (fs3_mount_disk G P w0).2
  | call (c : Call) (w w1 : World σ) : ReachableByOps G P w → runCall G P c w = some w1 →
      ReachableByOps G P w1
  | unmount (w : World σ) : ReachableByOps G P w → ReachableByOps G P (fs3_unmount_disk P w).2
  | remount (w : World σ) : ReachableByOps G P w → ReachableByOps G P (fs3_mount_disk G P w).2

/-- The allocation map `m1` differs from `m` only in cells of the map that were EMPTY in
`m` and hold the handle `g` in `m1`. -/
def TakesEmptyCells (G : Geometry) (g : Int) (m m1 : Int → Int → Int) : Prop :=
  ∀ i j : Int, m1 i j = m i j ∨
    (0 ≤ i ∧ i < G.FS3_MAX_TRACKS ∧ 0 ≤ j ∧ j < G.FS3_TRACK_SIZE ∧ m i j = -1 ∧ m1 i j = g)

/-! ## The file table as the bytes it occupies

The records above keep every field apart.  In memory a record is 144 bytes: `bool` is the
enum of `fs3_driver.h`, stored as an `int`, so `created` is the word at byte 0 of the
record, `open` the word at byte 4, `name[128]` the bytes 8 to 135, `length` the word at
byte 136 and `position` the word at byte 140, and record `i + 1` starts where record `i`
ends.  The definitions of this part read and write the table through these places, as the
C code does when a path does not fit the name field or an index is not one of the table.
Memory is a `Buffer` whose byte 0 is the first byte of `FS3FileArray`; words are stored
low byte first. -/

/-- The size of a record, `sizeof(FS3File)`. -/
def FS3_FILE_SIZE : Nat := 2 * 4 + FS3_MAX_PATH_LENGTH + 2 * 4

/-- The place of `FS3FileArray[i].created`. -/
def createdAt (i : Int) : Int := FS3_FILE_SIZE * i

/-- The place of `FS3FileArray[i].open`. -/
def openAt (i : Int) : Int := FS3_FILE_SIZE * i + 4

/-- The place of `FS3FileArray[i].name`. -/
def nameAt (i : Int) : Int := FS3_FILE_SIZE * i + 8

/-- The place of `FS3FileArray[i].length`. -/
def lengthAt (i : Int) : Int := FS3_FILE_SIZE * i + 8 + FS3_MAX_PATH_LENGTH

/-- The place of `FS3FileArray[i].position`. -/
def positionAt (i : Int) : Int := FS3_FILE_SIZE * i + 8 + FS3_MAX_PATH_LENGTH + 4

/-- The `int` stored in the four bytes from `a` on. -/
def loadInt (m : Buffer) (a : Int) : Int :=
  toI32 (m a % 256 + 256 * (m (a + 1) % 256) + 65536 * (m (a + 2) % 256)
    + 16777216 * (m (a + 3) % 256))

/-- Memory after the `int` `v` is stored in the four bytes from `a` on. -/
def storeInt (m : Buffer) (a : Int) (v : Int) : Buffer :=
  fun b =>
    if b = a then toU32 v % 256
    else if b = a + 1 then toU32 v / 256 % 256
    else if b = a + 2 then toU32 v / 65536 % 256
    else if b = a + 3 then toU32 v / 16777216
    else m b

/-- The test `strcmp(s, path) == 0` for the string `s` that starts at byte `a`: the bytes
from `a` on are those of `path` and then a zero byte.  `path` lists the bytes of the C
string before its closing zero byte (none of them is zero). -/
def strcmpEq (m : Buffer) : Int → List Nat → Bool
  | a, [] => m a == 0
  | a, c :: cs => m a == c && strcmpEq m (a + 1) cs

/-- Memory after `strcpy(dst, path)` for the destination that starts at byte `a`: the
bytes of `path` and the closing zero byte are stored one after the other from `a` on,
however many they are. -/
def strcpy (m : Buffer) (a : Int) (path : List Nat) : Buffer :=
  fun b => if a ≤ b ∧ b ≤ a + path.length then path.getD (b - a).toNat 0 else m b

namespace Layout

/-- The loop of `fs3_mount_disk` over the file table (lines 70-72): it stores `false` in
the `created` word of the records `i` to `i + fuel - 1`. -/
def mountLoop : Nat → Nat → Buffer → Buffer
  | 0, _, m => m
  | fuel + 1, i, m => mountLoop fuel (i + 1) (storeInt m (createdAt i) 0)

/-- The closing loop of `fs3_unmount_disk` (lines 119-125): it stores `false` in the `open`
word of the records whose `created` word is `true` and stops at the first record whose
`created` word is anything else. -/
def unmountLoop : Nat → Nat → Buffer → Buffer
  | 0, _, m => m
  | fuel + 1, i, m =>
    if loadInt m (createdAt i) = 1 then unmountLoop fuel (i + 1) (storeInt m (openAt i) 0)
    else m

/-- Opens the file and returns a file handle, -1 if failure (`fs3_open`, which reads and
writes the file table only).  `fileHandle0` is the value that the local variable
`fileHandle` holds before anything is assigned to it. -/
def fs3_open (path : List Nat) (fileHandle0 : Int) (m : Buffer) : Int × Buffer :=
  match firstIndex (fun i => strcmpEq m (nameAt i) path) FS3_MAX_TOTAL_FILES 0 with
  | some i => ((i : Int), storeInt (storeInt m (openAt i) 1) (positionAt i) 0)
  | none =>
    if loadInt m (createdAt FS3_MAX_TOTAL_FILES) = 1 then (-1, m)
    else
      let fileHandle : Int :=
        match firstIndex (fun i => decide (loadInt m (createdAt i) = 0))
            FS3_MAX_TOTAL_FILES 0 with
        | some i => (i : Int)
        | none => fileHandle0
      (fileHandle,
        strcpy
          (storeInt (storeInt (storeInt (storeInt m (createdAt fileHandle) 1)
            (lengthAt fileHandle) 0) (positionAt fileHandle) 0) (openAt fileHandle) 1)
          (nameAt fileHandle) path)

/-- Seek to a specific point in the file: 0 if successful, -1 if failure (`fs3_seek`,
which reads and writes the file table only). -/
def fs3_seek (fd : Int) (loc : Nat) (m : Buffer) : Int × Buffer :=
  if fd > FS3_MAX_TOTAL_FILES ∨ fd < 0 then (-1, m)
  else if loadInt m (createdAt fd) = 0 then (-1, m)
  else if loc > toU32 (loadInt m (lengthAt fd)) then (-1, m)
  else if loadInt m (openAt fd) = 0 then (-1, m)
  else (0, storeInt m (positionAt fd) (toI32 loc))

end Layout

/-- The memory of a process that has not run yet: `FS3FileArray` is a global without an
initial value, so every byte of it is zero. -/
def zeroBytes : Buffer := fun _ => 0

/-- The byte 'A' `n` times. -/
def manyA (n : Nat) : List Nat := List.replicate n 65

/-- The path of 136 bytes "AAA...A" (132 bytes) "BBBB". -/
def longPath : List Nat := manyA 132 ++ [66, 66, 66, 66]

/-- The bytes of the file table after the loop of a successful mount has run over the
table of a process that has done nothing else. -/
def tableMounted : Buffer := Layout.mountLoop FS3_MAX_TOTAL_FILES 0 zeroBytes

/-- Memory after the stores of the creating branch of `fs3_open` for record `i`. -/
def createdRecord (m : Buffer) (i : Int) (path : List Nat) : Buffer :=
  strcpy (storeInt (storeInt (storeInt (storeInt m (createdAt i) 1)
    (lengthAt i) 0) (positionAt i) 0) (openAt i) 1) (nameAt i) path

/-- The result of the second call of `mount; fs3_open(p); fs3_open("b")`, where `p` is
'A' 140 times, on the bytes of the file table: the handle returned and the table. -/
def twoOpens : Int × Buffer :=
  Layout.fs3_open [98] 0 (Layout.fs3_open (manyA 140) 0 tableMounted).2

/-- The word `k` words behind the end of the file table. -/
def wordBehindTable (m : Buffer) (k : Nat) : Int :=
  loadInt m (FS3_FILE_SIZE * FS3_MAX_TOTAL_FILES + 4 * k)

/-- Memory after a successful mount when the words behind the file table are cells of the
allocation map: the table holds zero bytes and the words behind it read EMPTY (-1). -/
def tableBeforeMap : Buffer :=
  fun a => if a < FS3_FILE_SIZE * FS3_MAX_TOTAL_FILES then 0 else 255

theorem firstIndex_eq_some (p : Nat → Bool) (fuel i0 i : Nat) (h0 : i0 ≤ i) (h1 : i < i0 + fuel)
    (hp : p i = true) (hbefore : ∀ j, i0 ≤ j → j < i → p j = false) :
    firstIndex p fuel i0 = some i := by
  induction fuel generalizing i0 with
  | zero => omega
  | succ n ih =>
    unfold firstIndex
    by_cases hi : i0 = i
    · subst hi; simp [hp]
    · have : p i0 = false := hbefore i0 (le_refl _) (by omega)
      simp only [this, Bool.false_eq_true, if_false]
      exact ih (i0 + 1) (by omega) (by omega) (fun j hj1 hj2 => hbefore j (by omega) hj2)

theorem firstIndex_eq_none (p : Nat → Bool) (fuel i0 : Nat)
    (hall : ∀ j, i0 ≤ j → j < i0 + fuel → p j = false) :
    firstIndex p fuel i0 = none := by
  induction fuel generalizing i0 with
  | zero => rfl
  | succ n ih =>
    unfold firstIndex
    have : p i0 = false := hall i0 (le_refl _) (by omega)
    simp only [this, Bool.false_eq_true, if_false]
    exact ih (i0 + 1) (fun j hj1 hj2 => hall j (by omega) (by omega))

theorem firstIndex_some_spec (p : Nat → Bool) (fuel i0 i : Nat)
    (h : firstIndex p fuel i0 = some i) :
    i0 ≤ i ∧ i < i0 + fuel ∧ p i = true ∧ ∀ j, i0 ≤ j → j < i → p j = false := by
  induction fuel generalizing i0 with
  | zero => simp [firstIndex] at h
  | succ n ih =>
    unfold firstIndex at h
    by_cases hp : p i0 = true
    · simp only [hp, if_true, Option.some.injEq] at h
      subst h
      exact ⟨le_refl _, by omega, hp, fun j h1 h2 => by omega⟩
    · simp only [hp, if_false] at h
      obtain ⟨a, b, c, d⟩ := ih (i0 + 1) h
      refine ⟨by omega, by omega, c, fun j h1 h2 => ?_⟩
      by_cases hj : j = i0
      · subst hj; simpa using hp
      · exact d j (by omega) h2

theorem firstIndex_none_spec (p : Nat → Bool) (fuel i0 : Nat)
    (h : firstIndex p fuel i0 = none) : ∀ j, i0 ≤ j → j < i0 + fuel → p j = false := by
  induction fuel generalizing i0 with
  | zero => intro j h1 h2; omega
  | succ n ih =>
    unfold firstIndex at h
    by_cases hp : p i0 = true
    · simp [hp] at h
    · simp only [hp, if_false] at h
      intro j h1 h2
      by_cases hj : j = i0
      · subst hj; simpa using hp
      · exact ih (i0 + 1) h j (by omega) (by omega)

/-! ### Places of the scan order -/

theorem cellAt_mk (G : Geometry) (map : Int → Int → Int) (i j : Nat)
    (hj : j < G.FS3_TRACK_SIZE) :
    cellAt G map (i * G.FS3_TRACK_SIZE + j) = map (i : Int) (j : Int) := by
  unfold cellAt
  have h1 : (i * G.FS3_TRACK_SIZE + j) / G.FS3_TRACK_SIZE = i := by
    rw [Nat.add_comm, Nat.add_mul_div_right _ _ (by omega), Nat.div_eq_of_lt hj]; simp
  have h2 : (i * G.FS3_TRACK_SIZE + j) % G.FS3_TRACK_SIZE = j := by
    rw [Nat.add_comm, Nat.add_mul_mod_self_right, Nat.mod_eq_of_lt hj]
  rw [h1, h2]

theorem countCells_mono (cell : Nat → Int) (h : Int) (a b : Nat) (hab : a ≤ b) :
    countCells cell h a ≤ countCells cell h b := by
  induction b with
  | zero => have : a = 0 := by omega
            subst this; exact le_refl _
  | succ n ih =>
    by_cases h1 : a = n + 1
    · subst h1; exact le_refl _
    · have := ih (by omega)
      simp only [countCells]; omega

theorem countCells_lt_of_cell (cell : Nat → Int) (h : Int) (a b : Nat) (hab : a < b)
    (ha : cell a = h) : countCells cell h a < countCells cell h b := by
  have h1 : countCells cell h (a + 1) = countCells cell h a + 1 := by simp [countCells, ha]
  have h2 := countCells_mono cell h (a + 1) b (by omega)
  omega

/-! ### The scan of `find_current_track` and `find_current_sector` -/

theorem countCells_succ_of_eq (cell : Nat → Int) (h : Int) (q : Nat) (hq : cell q = h) :
    countCells cell h (q + 1) = countCells cell h q + 1 := by
  simp [countCells, hq]

theorem countCells_succ_of_ne (cell : Nat → Int) (h : Int) (q : Nat) (hq : cell q ≠ h) :
    countCells cell h (q + 1) = countCells cell h q := by
  simp [countCells, hq]

theorem findCurrentRow_found (G : Geometry) (map : Int → Int → Int) (fd : Int) (k : Nat)
    (pick : Nat → Nat → Int) (i jq : Nat) (hfd : fd ≠ -1)
    (hcell : cellAt G map (i * G.FS3_TRACK_SIZE + jq) = fd)
    (hk : countCells (cellAt G map) fd (i * G.FS3_TRACK_SIZE + jq) = k)
    (fuel j : Nat) (hfuel : j + fuel ≤ G.FS3_TRACK_SIZE) (hj : j ≤ jq) (hjq : jq < j + fuel)
    (hne : ∀ j', j ≤ j' → j' < jq → cellAt G map (i * G.FS3_TRACK_SIZE + j') ≠ -1)
    (count : Int)
    (hc : count = (countCells (cellAt G map) fd (i * G.FS3_TRACK_SIZE + j) : Int) - 1) :
    findCurrentRow map fd k pick i fuel j count = RowScan.ret (pick i jq) := by
  induction fuel generalizing j count with
  | zero => omega
  | succ n ih =>
    unfold findCurrentRow
    have hm : map (i : Int) (j : Int) = cellAt G map (i * G.FS3_TRACK_SIZE + j) :=
      (cellAt_mk G map i j (by omega)).symm
    by_cases hjj : j = jq
    · subst hjj
      simp only [hm, hcell, if_true]
      rw [if_pos]
      constructor
      · trivial
      · rw [hc, hk]; omega
    · have hlt : j < jq := by omega
      have hne1 := hne j (le_refl _) hlt
      by_cases hf : cellAt G map (i * G.FS3_TRACK_SIZE + j) = fd
      · have h1 := countCells_lt_of_cell (cellAt G map) fd (i * G.FS3_TRACK_SIZE + j)
          (i * G.FS3_TRACK_SIZE + jq) (by omega) hf
        have h2 := countCells_succ_of_eq (cellAt G map) fd _ hf
        simp only [hm, hf, if_true]
        rw [if_neg (by rintro ⟨-, h3⟩; omega), if_neg hfd]
        exact ih (j + 1) (by omega) (by omega) (by omega)
          (fun j' a b => hne j' (by omega) b) _ (by rw [← Nat.add_assoc, h2]; push_cast; omega)
      · have h2 := countCells_succ_of_ne (cellAt G map) fd _ hf
        simp only [hm, hf, if_false]
        rw [if_neg (by rintro ⟨h3, -⟩; exact h3), if_neg hne1]
        exact ih (j + 1) (by omega) (by omega) (by omega)
          (fun j' a b => hne j' (by omega) b) _ (by rw [← Nat.add_assoc, h2]; exact hc)

theorem findCurrentRow_no_match (G : Geometry) (map : Int → Int → Int) (fd : Int) (k : Nat)
    (pick : Nat → Nat → Int) (i : Nat)
    (fuel j : Nat) (hfuel : j + fuel ≤ G.FS3_TRACK_SIZE)
    (hk : countCells (cellAt G map) fd (i * G.FS3_TRACK_SIZE + (j + fuel)) ≤ k)
    (count : Int)
    (hc : count = (countCells (cellAt G map) fd (i * G.FS3_TRACK_SIZE + j) : Int) - 1) :
    (findCurrentRow map fd k pick i fuel j count = RowScan.ret (-1) ∨
      findCurrentRow map fd k pick i fuel j count
        = RowScan.cont ((countCells (cellAt G map) fd (i * G.FS3_TRACK_SIZE + (j + fuel)) : Int) - 1)) ∧
    ((∀ j', j ≤ j' → j' < j + fuel → cellAt G map (i * G.FS3_TRACK_SIZE + j') ≠ -1) →
      findCurrentRow map fd k pick i fuel j count
        = RowScan.cont ((countCells (cellAt G map) fd (i * G.FS3_TRACK_SIZE + (j + fuel)) : Int) - 1)) := by
  induction fuel generalizing j count with
  | zero =>
    simp only [findCurrentRow, Nat.add_zero]
    subst hc
    exact ⟨Or.inr rfl, fun _ => rfl⟩
  | succ n ih =>
    unfold findCurrentRow
    have hm : map (i : Int) (j : Int) = cellAt G map (i * G.FS3_TRACK_SIZE + j) :=
      (cellAt_mk G map i j (by omega)).symm
    have e : j + (n + 1) = j + 1 + n := by omega
    rw [e] at hk ⊢
    have hmono := countCells_mono (cellAt G map) fd (i * G.FS3_TRACK_SIZE + j + 1)
      (i * G.FS3_TRACK_SIZE + (j + 1 + n)) (by omega)
    by_cases hf : cellAt G map (i * G.FS3_TRACK_SIZE + j) = fd
    · have h2 := countCells_succ_of_eq (cellAt G map) fd _ hf
      simp only [hm, hf, if_true]
      rw [if_neg (by rintro ⟨-, h3⟩; omega)]
      by_cases he : fd = -1
      · rw [if_pos he]
        refine ⟨Or.inl rfl, fun hall => ?_⟩
        exact absurd (hf.trans he) (hall j (le_refl _) (by omega))
      · rw [if_neg he]
        have := ih (j + 1) (by omega) hk (count + 1)
          (by rw [← Nat.add_assoc, h2]; push_cast; omega)
        exact ⟨this.1, fun hall => this.2 (fun j' a b => hall j' (by omega) (by omega))⟩
    · have h2 := countCells_succ_of_ne (cellAt G map) fd _ hf
      simp only [hm, hf, if_false]
      rw [if_neg (by rintro ⟨h3, -⟩; exact h3)]
      by_cases he : cellAt G map (i * G.FS3_TRACK_SIZE + j) = -1
      · rw [if_pos he]
        refine ⟨Or.inl rfl, fun hall => ?_⟩
        exact absurd he (hall j (le_refl _) (by omega))
      · rw [if_neg he]
        have := ih (j + 1) (by omega) hk count (by rw [← Nat.add_assoc, h2]; exact hc)
        exact ⟨this.1, fun hall => this.2 (fun j' a b => hall j' (by omega) (by omega))⟩

theorem findCurrentMap_found (G : Geometry) (map : Int → Int → Int) (fd : Int) (k : Nat)
    (pick : Nat → Nat → Int) (q : Nat) (hfd : fd ≠ -1) (hts : 0 < G.FS3_TRACK_SIZE)
    (hcell : cellAt G map q = fd) (hk : countCells (cellAt G map) fd q = k)
    (fuel i : Nat) (hi : i ≤ q / G.FS3_TRACK_SIZE) (hq : q / G.FS3_TRACK_SIZE < i + fuel)
    (hne : ∀ q', i * G.FS3_TRACK_SIZE ≤ q' → q' < q → cellAt G map q' ≠ -1)
    (count : Int)
    (hc : count = (countCells (cellAt G map) fd (i * G.FS3_TRACK_SIZE) : Int) - 1) :
    findCurrentMap map fd k pick G.FS3_TRACK_SIZE fuel i count
      = pick (q / G.FS3_TRACK_SIZE) (q % G.FS3_TRACK_SIZE) := by
  induction fuel generalizing i count with
  | zero => omega
  | succ n ih =>
    unfold findCurrentMap
    have hdm : q / G.FS3_TRACK_SIZE * G.FS3_TRACK_SIZE + q % G.FS3_TRACK_SIZE = q := by
      rw [Nat.mul_comm]; exact Nat.div_add_mod q _
    by_cases hiq : i = q / G.FS3_TRACK_SIZE
    · have := findCurrentRow_found G map fd k pick i (q % G.FS3_TRACK_SIZE) hfd
        (by rw [hiq, hdm]; exact hcell) (by rw [hiq, hdm]; exact hk) G.FS3_TRACK_SIZE 0
        (by omega) (by omega) (by have := Nat.mod_lt q hts; omega)
        (fun j' _ b => hne _ (by omega) (by rw [← hdm, ← hiq]; omega)) count (by simpa using hc)
      rw [this, hiq]
    · have hlt : i < q / G.FS3_TRACK_SIZE := by omega
      have hrow : (i + 1) * G.FS3_TRACK_SIZE ≤ q := by
        calc (i + 1) * G.FS3_TRACK_SIZE ≤ q / G.FS3_TRACK_SIZE * G.FS3_TRACK_SIZE :=
              Nat.mul_le_mul_right _ hlt
          _ ≤ q := Nat.div_mul_le_self q _
      have e1 : i * G.FS3_TRACK_SIZE + (0 + G.FS3_TRACK_SIZE) = (i + 1) * G.FS3_TRACK_SIZE := by
        rw [Nat.add_mul]; omega
      have hmono := countCells_mono (cellAt G map) fd _ _ hrow
      have := (findCurrentRow_no_match G map fd k pick i G.FS3_TRACK_SIZE 0 (by omega)
        (by rw [e1]; omega) count (by simpa using hc)).2
        (fun j' _ b => hne _ (by omega) (by rw [Nat.add_mul] at hrow; omega))
      rw [this, e1]
      exact ih (i + 1) (by omega) (by omega)
        (fun q' a b => hne q' (by rw [Nat.add_mul] at a; omega) b) _ rfl

theorem findCurrentMap_none (G : Geometry) (map : Int → Int → Int) (fd : Int) (k : Nat)
    (pick : Nat → Nat → Int) (fuel i : Nat)
    (hk : countCells (cellAt G map) fd ((i + fuel) * G.FS3_TRACK_SIZE) ≤ k)
    (count : Int)
    (hc : count = (countCells (cellAt G map) fd (i * G.FS3_TRACK_SIZE) : Int) - 1) :
    findCurrentMap map fd k pick G.FS3_TRACK_SIZE fuel i count = -1 := by
  induction fuel generalizing i count with
  | zero => rfl
  | succ n ih =>
    unfold findCurrentMap
    have e1 : i * G.FS3_TRACK_SIZE + (0 + G.FS3_TRACK_SIZE) = (i + 1) * G.FS3_TRACK_SIZE := by
      rw [Nat.add_mul]; omega
    have e2 : i + (n + 1) = i + 1 + n := by omega
    have hmono := countCells_mono (cellAt G map) fd ((i + 1) * G.FS3_TRACK_SIZE)
      ((i + 1 + n) * G.FS3_TRACK_SIZE) (Nat.mul_le_mul_right _ (by omega))
    rw [e2] at hk
    rcases (findCurrentRow_no_match G map fd k pick i G.FS3_TRACK_SIZE 0 (by omega)
      (by rw [e1]; omega) count (by simpa using hc)).1 with h | h
    · rw [h]
    · rw [h, e1]
      exact ih (i + 1) hk _ rfl

/-! ### The codec in arithmetic form -/


theorem and_mask_shift (w a b : Nat) :
    (w &&& ((2 ^ b - 1) <<< a)) >>> a = w / 2 ^ a % 2 ^ b := by
  rw [← Nat.shiftRight_eq_div_pow]
  apply Nat.eq_of_testBit_eq
  intro i
  simp [Nat.testBit_shiftRight, Nat.testBit_and, Nat.testBit_shiftLeft, Nat.testBit_mod_two_pow, Nat.testBit_two_pow_sub_one]
  by_cases h : i < b <;> simp [h]

theorem deconstruct_eq (w : Nat) :
    deconstruct_fs3_cmdblock w
      = (w / 2 ^ 60 % 16, w / 2 ^ 44 % 65536, w / 2 ^ 12 % 4294967296, w / 2 ^ 11 % 2) := by
  have m1 : create64BitMask 0 3 = (2 ^ 4 - 1) <<< 60 := by decide
  have m2 : create64BitMask 4 19 = (2 ^ 16 - 1) <<< 44 := by decide
  have m3 : create64BitMask 20 51 = (2 ^ 32 - 1) <<< 12 := by decide
  have m4 : create64BitMask 52 52 = (2 ^ 1 - 1) <<< 11 := by decide
  unfold deconstruct_fs3_cmdblock
  rw [m1, m2, m3, m4]
  simp only [and_mask_shift]
  refine Prod.ext ?_ (Prod.ext ?_ (Prod.ext ?_ ?_)) <;> simp <;> omega

theorem construct_eq (op sec trk : Nat) (hop : op < 16) (hsec : sec < 65536)
    (htrk : trk < 4294967296) :
    construct_fs3_cmdblock op sec trk 0 = op * 2 ^ 60 + sec * 2 ^ 44 + trk * 2 ^ 12 := by
  unfold construct_fs3_cmdblock
  simp only [Nat.shiftLeft_eq]
  have h1 : op % 2 ^ 8 * 2 ^ 60 % 2 ^ 64 = 2 ^ 60 * op := by omega
  have h2 : sec % 2 ^ 16 * 2 ^ 44 % 2 ^ 64 = 2 ^ 44 * sec := by omega
  have h3 : trk % 2 ^ 64 * 2 ^ 12 % 2 ^ 64 = 2 ^ 12 * trk := by omega
  have h4 : 0 % 2 ^ 8 * 2 ^ 60 % 2 ^ 64 = 0 := by decide
  rw [h1, h2, h3, h4, Nat.or_zero, Nat.or_assoc,
    ← Nat.mul_add_lt_is_or (show 2 ^ 12 * trk < 2 ^ 44 by omega) sec,
    ← Nat.mul_add_lt_is_or (show 2 ^ 44 * sec + 2 ^ 12 * trk < 2 ^ 60 by omega) op]
  omega

theorem deconstruct_construct (op sec trk : Nat) (hop : op < 16) (hsec : sec < 65536)
    (htrk : trk < 4294967296) :
    deconstruct_fs3_cmdblock (construct_fs3_cmdblock op sec trk 0) = (op, sec, trk, 0) := by
  rw [deconstruct_eq, construct_eq op sec trk hop hsec htrk]
  refine Prod.ext ?_ (Prod.ext ?_ (Prod.ext ?_ ?_)) <;> simp <;> omega

theorem getReturnBit_reply (cmd ret : Nat) (h : ret < 2) : getReturnBit (replyCmdblock cmd ret) = ret := by
  unfold getReturnBit replyCmdblock
  rw [deconstruct_eq]; simp; omega

theorem exists_kth (cell : Nat → Int) (fd : Int) (k n : Nat)
    (h : k < countCells cell fd n) :
    ∃ q, q < n ∧ cell q = fd ∧ countCells cell fd q = k := by
  induction n with
  | zero => simp [countCells] at h
  | succ m ih =>
    by_cases hk : k < countCells cell fd m
    · obtain ⟨q, h1, h2, h3⟩ := ih hk
      exact ⟨q, by omega, h2, h3⟩
    · by_cases hc : cell m = fd
      · rw [countCells_succ_of_eq cell fd m hc] at h
        exact ⟨m, by omega, hc, by omega⟩
      · rw [countCells_succ_of_ne cell fd m hc] at h
        omega

theorem tdiv_eq_natDiv (p : Int) (n : Nat) (hp : 0 ≤ p) :
    p.tdiv (n : Int) = ((p.toNat / n : Nat) : Int) := by
  rw [Int.tdiv_eq_ediv hp (by omega)]
  have : p = (p.toNat : Int) := by omega
  conv_lhs => rw [this]
  norm_cast

theorem tmod_eq_natMod (p : Int) (n : Nat) (hp : 0 ≤ p) :
    p.tmod (n : Int) = ((p.toNat % n : Nat) : Int) := by
  rw [Int.tmod_eq_emod hp (by omega)]
  have : p = (p.toNat : Int) := by omega
  conv_lhs => rw [this]
  norm_cast

theorem div_lt_of_lt_cells (G : Geometry) (q : Nat) (hq : q < G.cells) :
    q / G.FS3_TRACK_SIZE < G.FS3_MAX_TRACKS := by
  unfold Geometry.cells at hq
  exact Nat.div_lt_of_lt_mul (by rw [Nat.mul_comm]; exact hq)

theorem track_size_pos_of_lt_cells (G : Geometry) (q : Nat) (hq : q < G.cells) :
    0 < G.FS3_TRACK_SIZE := by
  unfold Geometry.cells at hq
  rcases Nat.eq_zero_or_pos G.FS3_TRACK_SIZE with h | h
  · rw [h] at hq; simp at hq
  · exact h

theorem find_current_found (G : Geometry) (w : World σ) (fd : Int) (q : Nat)
    (hfd : fd ≠ -1) (hp : 0 ≤ (w.FS3FileArray fd).position) (hq : q < G.cells)
    (hcell : cellAt G w.FS3DiskMap q = fd)
    (hk : countCells (cellAt G w.FS3DiskMap) fd q
      = (w.FS3FileArray fd).position.toNat / G.FS3_SECTOR_SIZE)
    (hne : ∀ q', q' < q → cellAt G w.FS3DiskMap q' ≠ -1) :
    find_current_track G fd w = ((q / G.FS3_TRACK_SIZE : Nat) : Int) ∧
    find_current_sector G fd w = ((q % G.FS3_TRACK_SIZE : Nat) : Int) := by
  have hts := track_size_pos_of_lt_cells G q hq
  have hdiv := div_lt_of_lt_cells G q hq
  unfold find_current_track find_current_sector
  simp only [tdiv_eq_natDiv _ _ hp]
  constructor
  · exact findCurrentMap_found G _ fd _ _ q hfd hts hcell hk G.FS3_MAX_TRACKS 0 (Nat.zero_le _)
      (by rw [Nat.zero_add]; exact hdiv) (fun q' _ b => hne q' b) (-1) (by simp [countCells])
  · exact findCurrentMap_found G _ fd _ _ q hfd hts hcell hk G.FS3_MAX_TRACKS 0 (Nat.zero_le _)
      (by rw [Nat.zero_add]; exact hdiv) (fun q' _ b => hne q' b) (-1) (by simp [countCells])

theorem find_current_none (G : Geometry) (w : World σ) (fd : Int)
    (hp : 0 ≤ (w.FS3FileArray fd).position)
    (hk : countCells (cellAt G w.FS3DiskMap) fd G.cells
      ≤ (w.FS3FileArray fd).position.toNat / G.FS3_SECTOR_SIZE) :
    find_current_track G fd w = -1 ∧ find_current_sector G fd w = -1 := by
  unfold find_current_track find_current_sector
  simp only [tdiv_eq_natDiv _ _ hp]
  constructor
  · exact findCurrentMap_none G _ fd _ _ G.FS3_MAX_TRACKS 0 (by simpa [Geometry.cells] using hk)
      (-1) (by simp [countCells])
  · exact findCurrentMap_none G _ fd _ _ G.FS3_MAX_TRACKS 0 (by simpa [Geometry.cells] using hk)
      (-1) (by simp [countCells])

/-! ### The scans of `find_open_track` and `find_open_sector` -/

theorem find_open_track_eq (G : Geometry) (w : World σ) (u : Nat)
    (hu : UsedPrefix G w.FS3DiskMap u) (hfree : u < G.cells) :
    find_open_track G w = ((u / G.FS3_TRACK_SIZE : Nat) : Int) := by
  have hts := track_size_pos_of_lt_cells G u hfree
  have hdiv := div_lt_of_lt_cells G u hfree
  have hdm : u / G.FS3_TRACK_SIZE * G.FS3_TRACK_SIZE + u % G.FS3_TRACK_SIZE = u := by
    rw [Nat.mul_comm]; exact Nat.div_add_mod u _
  unfold find_open_track
  rw [firstIndex_eq_some _ G.FS3_MAX_TRACKS 0 (u / G.FS3_TRACK_SIZE) (Nat.zero_le _)
    (by rw [Nat.zero_add]; exact hdiv)]
  · rw [Option.isSome_iff_exists]
    by_contra hcon
    have hnone : firstIndex (fun j => decide (w.FS3DiskMap ((u / G.FS3_TRACK_SIZE : Nat) : Int) (j : Int) = -1))
        G.FS3_TRACK_SIZE 0 = none := by
      cases h : firstIndex (fun j => decide (w.FS3DiskMap ((u / G.FS3_TRACK_SIZE : Nat) : Int) (j : Int) = -1))
        G.FS3_TRACK_SIZE 0 with
      | none => rfl
      | some a => exact absurd ⟨a, h⟩ hcon
    have := firstIndex_none_spec _ _ _ hnone (u % G.FS3_TRACK_SIZE) (by omega)
      (by have := Nat.mod_lt u hts; omega)
    have h2 := hu.2.2 u (le_refl _) hfree
    unfold cellAt at h2
    rw [decide_eq_false_iff_not] at this
    exact this h2
  · intro i _ hi
    have hrow : (i + 1) * G.FS3_TRACK_SIZE ≤ u := by
      calc (i + 1) * G.FS3_TRACK_SIZE ≤ u / G.FS3_TRACK_SIZE * G.FS3_TRACK_SIZE :=
            Nat.mul_le_mul_right _ hi
        _ ≤ u := Nat.div_mul_le_self u _
    rw [Nat.add_mul] at hrow
    have : firstIndex (fun j => decide (w.FS3DiskMap (i : Int) (j : Int) = -1)) G.FS3_TRACK_SIZE 0
        = none := by
      apply firstIndex_eq_none
      intro j _ hj
      have h1 := hu.2.1 (i * G.FS3_TRACK_SIZE + j) (by omega)
      rw [cellAt_mk G _ i j (by omega)] at h1
      exact decide_eq_false h1
    rw [this]; rfl

theorem find_open_sector_eq (G : Geometry) (w : World σ) (u : Nat)
    (hu : UsedPrefix G w.FS3DiskMap u) (hfree : u < G.cells)
    (hcur : w.currentDiskTrack = ((u / G.FS3_TRACK_SIZE : Nat) : Int)) :
    find_open_sector G w = ((u % G.FS3_TRACK_SIZE : Nat) : Int) := by
  have hts := track_size_pos_of_lt_cells G u hfree
  have hdm : u / G.FS3_TRACK_SIZE * G.FS3_TRACK_SIZE + u % G.FS3_TRACK_SIZE = u := by
    rw [Nat.mul_comm]; exact Nat.div_add_mod u _
  have hmod := Nat.mod_lt u hts
  unfold find_open_sector
  rw [hcur, firstIndex_eq_some _ G.FS3_TRACK_SIZE 0 (u % G.FS3_TRACK_SIZE) (by omega) (by omega)]
  · have h2 := hu.2.2 u (le_refl _) hfree
    unfold cellAt at h2
    exact decide_eq_true h2
  · intro j _ hj
    have h1 := hu.2.1 (u / G.FS3_TRACK_SIZE * G.FS3_TRACK_SIZE + j) (by omega)
    rw [cellAt_mk G _ _ j (by omega)] at h1
    exact decide_eq_false h1

/-! ### Wire calls -/

theorem getOpCodeBits_construct (op sec trk : Nat) (hop : op < 16) (hsec : sec < 65536)
    (htrk : trk < 4294967296) :
    getOpCodeBits (construct_fs3_cmdblock op sec trk 0) = op := by
  unfold getOpCodeBits
  rw [deconstruct_construct op sec trk hop hsec htrk]

theorem toU16_natCast (n : Nat) (h : n < 65536) : toU16 (n : Int) = n := by
  unfold toU16
  omega

theorem network_fs3_syscall_frame (P : Peer σ) (cmd : Nat) (buf : Buffer) (w : World σ) :
    (network_fs3_syscall P cmd buf w).2.FS3FileArray = w.FS3FileArray ∧
    (network_fs3_syscall P cmd buf w).2.FS3DiskMap = w.FS3DiskMap ∧
    (network_fs3_syscall P cmd buf w).2.diskMounted = w.diskMounted ∧
    (network_fs3_syscall P cmd buf w).2.currentDiskTrack = w.currentDiskTrack ∧
    (network_fs3_syscall P cmd buf w).2.cache = w.cache := by
  simp only [network_fs3_syscall]
  split <;> exact ⟨rfl, rfl, rfl, rfl, rfl⟩

@[simp] theorem network_fs3_syscall_files (P : Peer σ) (cmd : Nat) (buf : Buffer) (w : World σ) :
    (network_fs3_syscall P cmd buf w).2.FS3FileArray = w.FS3FileArray :=
  (network_fs3_syscall_frame P cmd buf w).1

@[simp] theorem network_fs3_syscall_map (P : Peer σ) (cmd : Nat) (buf : Buffer) (w : World σ) :
    (network_fs3_syscall P cmd buf w).2.FS3DiskMap = w.FS3DiskMap :=
  (network_fs3_syscall_frame P cmd buf w).2.1

@[simp] theorem network_fs3_syscall_mounted (P : Peer σ) (cmd : Nat) (buf : Buffer) (w : World σ) :
    (network_fs3_syscall P cmd buf w).2.diskMounted = w.diskMounted :=
  (network_fs3_syscall_frame P cmd buf w).2.2.1

@[simp] theorem network_fs3_syscall_track (P : Peer σ) (cmd : Nat) (buf : Buffer) (w : World σ) :
    (network_fs3_syscall P cmd buf w).2.currentDiskTrack = w.currentDiskTrack :=
  (network_fs3_syscall_frame P cmd buf w).2.2.2.1

@[simp] theorem network_fs3_syscall_cache (P : Peer σ) (cmd : Nat) (buf : Buffer) (w : World σ) :
    (network_fs3_syscall P cmd buf w).2.cache = w.cache :=
  (network_fs3_syscall_frame P cmd buf w).2.2.2.2

theorem network_fs3_syscall_answered (P : Peer σ) (cmd : Nat) (buf : Buffer) (w : World σ)
    (h : Answered (P.exchange w.peer cmd
      (if getOpCodeBits cmd = FS3_OP_WRSECT then some buf else none))) :
    ∃ reply data, (network_fs3_syscall P cmd buf w).1 = some (reply, data) ∧
      getReturnBit reply = 0 := by
  obtain ⟨reply, data, h1, h2⟩ := h
  simp only [network_fs3_syscall, h1]
  exact ⟨reply, _, rfl, h2⟩

/-! ### `switch_disk_track` -/

theorem switch_disk_track_frame (G : Geometry) (P : Peer σ) (t : Int) (w : World σ) :
    (switch_disk_track G P t w).2.FS3FileArray = w.FS3FileArray ∧
    (switch_disk_track G P t w).2.FS3DiskMap = w.FS3DiskMap ∧
    (switch_disk_track G P t w).2.diskMounted = w.diskMounted ∧
    (switch_disk_track G P t w).2.cache = w.cache := by
  simp only [switch_disk_track]
  split
  · exact ⟨rfl, rfl, rfl, rfl⟩
  · split
    · exact ⟨rfl, rfl, rfl, rfl⟩
    · have f := network_fs3_syscall_frame P (construct_fs3_cmdblock FS3_OP_TSEEK 0 t.toNat 0)
        nullBuf w
      split
      · next h => rw [h] at f; exact ⟨f.1, f.2.1, f.2.2.1, f.2.2.2.2⟩
      · next h =>
        rw [h] at f
        split <;> exact ⟨f.1, f.2.1, f.2.2.1, f.2.2.2.2⟩

@[simp] theorem switch_disk_track_files (G : Geometry) (P : Peer σ) (t : Int) (w : World σ) :
    (switch_disk_track G P t w).2.FS3FileArray = w.FS3FileArray :=
  (switch_disk_track_frame G P t w).1

@[simp] theorem switch_disk_track_map (G : Geometry) (P : Peer σ) (t : Int) (w : World σ) :
    (switch_disk_track G P t w).2.FS3DiskMap = w.FS3DiskMap :=
  (switch_disk_track_frame G P t w).2.1

@[simp] theorem switch_disk_track_mounted (G : Geometry) (P : Peer σ) (t : Int) (w : World σ) :
    (switch_disk_track G P t w).2.diskMounted = w.diskMounted :=
  (switch_disk_track_frame G P t w).2.2.1

@[simp] theorem switch_disk_track_cache (G : Geometry) (P : Peer σ) (t : Int) (w : World σ) :
    (switch_disk_track G P t w).2.cache = w.cache :=
  (switch_disk_track_frame G P t w).2.2.2

theorem getOpCodeBits_tseek (G : Geometry) (hG : G.Valid) (t : Nat) (ht : t < G.FS3_MAX_TRACKS) :
    getOpCodeBits (construct_fs3_cmdblock FS3_OP_TSEEK 0 t 0) = FS3_OP_TSEEK :=
  getOpCodeBits_construct _ _ _ (by decide) (by decide) (by have := hG.max_tracks_le; omega)

theorem switch_disk_track_ok (G : Geometry) (hG : G.Valid) (P : Peer σ) (hP : Accepts G P)
    (t : Nat) (ht : t < G.FS3_MAX_TRACKS) (w : World σ) (hm : w.diskMounted = true) :
    (switch_disk_track G P (t : Int) w).2.currentDiskTrack = (t : Int) := by
  have hop : ¬ (getOpCodeBits (construct_fs3_cmdblock FS3_OP_TSEEK 0 t 0) = FS3_OP_WRSECT) := by
    rw [getOpCodeBits_tseek G hG t ht]; decide
  have ha := network_fs3_syscall_answered P (construct_fs3_cmdblock FS3_OP_TSEEK 0 t 0) nullBuf w
    (by rw [if_neg hop]; exact hP.1 w.peer t ht)
  obtain ⟨reply, data, h1, h2⟩ := ha
  have hr : ¬ ((t : Int) < 0 ∨ (t : Int) > (G.FS3_MAX_TRACKS : Int)) := by omega
  simp only [switch_disk_track, hm, Bool.true_eq_false, if_false, hr, Int.toNat_ofNat]
  split
  · next h => rw [h] at h1; simp at h1
  · next r b w1 h =>
    rw [h] at h1
    simp only [Option.some.injEq, Prod.mk.injEq] at h1
    rw [h1.1, h2]
    simp

@[simp] theorem seekTo_files (G : Geometry) (P : Peer σ) (t : Int) (w : World σ) :
    (seekTo G P t w).FS3FileArray = w.FS3FileArray := by
  unfold seekTo; split <;> simp

@[simp] theorem seekTo_map (G : Geometry) (P : Peer σ) (t : Int) (w : World σ) :
    (seekTo G P t w).FS3DiskMap = w.FS3DiskMap := by
  unfold seekTo; split <;> simp

@[simp] theorem seekTo_mounted (G : Geometry) (P : Peer σ) (t : Int) (w : World σ) :
    (seekTo G P t w).diskMounted = w.diskMounted := by
  unfold seekTo; split <;> simp

@[simp] theorem seekTo_cache (G : Geometry) (P : Peer σ) (t : Int) (w : World σ) :
    (seekTo G P t w).cache = w.cache := by
  unfold seekTo; split <;> simp

theorem seekTo_track (G : Geometry) (hG : G.Valid) (P : Peer σ) (hP : Accepts G P)
    (t : Nat) (ht : t < G.FS3_MAX_TRACKS) (w : World σ) (hm : w.diskMounted = true) :
    (seekTo G P (t : Int) w).currentDiskTrack = (t : Int) := by
  unfold seekTo
  split
  · exact switch_disk_track_ok G hG P hP t ht w hm
  · next h => simpa using h

/-! ### `fetch_sector` and `storeSector` -/

theorem fetch_sector_frame (P : Peer σ) (t s : Int) (d : Buffer) (w : World σ) :
    (fetch_sector P t s d w).2.FS3FileArray = w.FS3FileArray ∧
    (fetch_sector P t s d w).2.FS3DiskMap = w.FS3DiskMap ∧
    (fetch_sector P t s d w).2.diskMounted = w.diskMounted ∧
    (fetch_sector P t s d w).2.currentDiskTrack = w.currentDiskTrack := by
  simp only [fetch_sector]
  split
  · have f := network_fs3_syscall_frame P (construct_fs3_cmdblock FS3_OP_RDSECT (toU16 s) 0 0) d
      { w with cache := (fs3_get_cache t s w.cache).2 }
    split
    · next h => rw [h] at f; exact ⟨f.1, f.2.1, f.2.2.1, f.2.2.2.1⟩
    · next h =>
      rw [h] at f
      split <;> exact ⟨f.1, f.2.1, f.2.2.1, f.2.2.2.1⟩
  · exact ⟨rfl, rfl, rfl, rfl⟩

@[simp] theorem fetch_sector_files (P : Peer σ) (t s : Int) (d : Buffer) (w : World σ) :
    (fetch_sector P t s d w).2.FS3FileArray = w.FS3FileArray :=
  (fetch_sector_frame P t s d w).1

@[simp] theorem fetch_sector_map (P : Peer σ) (t s : Int) (d : Buffer) (w : World σ) :
    (fetch_sector P t s d w).2.FS3DiskMap = w.FS3DiskMap :=
  (fetch_sector_frame P t s d w).2.1

@[simp] theorem fetch_sector_mounted (P : Peer σ) (t s : Int) (d : Buffer) (w : World σ) :
    (fetch_sector P t s d w).2.diskMounted = w.diskMounted :=
  (fetch_sector_frame P t s d w).2.2.1

@[simp] theorem fetch_sector_track (P : Peer σ) (t s : Int) (d : Buffer) (w : World σ) :
    (fetch_sector P t s d w).2.currentDiskTrack = w.currentDiskTrack :=
  (fetch_sector_frame P t s d w).2.2.2

theorem getOpCodeBits_rdsect (G : Geometry) (hG : G.Valid) (s : Nat) (hs : s < G.FS3_TRACK_SIZE) :
    getOpCodeBits (construct_fs3_cmdblock FS3_OP_RDSECT s 0 0) = FS3_OP_RDSECT :=
  getOpCodeBits_construct _ _ _ (by decide) (by have := hG.track_size_le; omega) (by decide)

theorem getOpCodeBits_wrsect (G : Geometry) (hG : G.Valid) (s : Nat) (hs : s < G.FS3_TRACK_SIZE) :
    getOpCodeBits (construct_fs3_cmdblock FS3_OP_WRSECT s 0 0) = FS3_OP_WRSECT :=
  getOpCodeBits_construct _ _ _ (by decide) (by have := hG.track_size_le; omega) (by decide)

theorem fetch_sector_ok (G : Geometry) (hG : G.Valid) (P : Peer σ) (hP : Accepts G P)
    (t : Int) (s : Nat) (hs : s < G.FS3_TRACK_SIZE) (d : Buffer) (w : World σ) :
    ∃ b, fetch_sector P t (s : Int) d w = (some b, (fetch_sector P t (s : Int) d w).2) := by
  have hu : toU16 (s : Int) = s := toU16_natCast s (by have := hG.track_size_le; omega)
  have hop : ¬ (getOpCodeBits (construct_fs3_cmdblock FS3_OP_RDSECT s 0 0) = FS3_OP_WRSECT) := by
    rw [getOpCodeBits_rdsect G hG s hs]; decide
  simp only [fetch_sector, hu]
  split
  · obtain ⟨reply, data, h1, h2⟩ := network_fs3_syscall_answered P
      (construct_fs3_cmdblock FS3_OP_RDSECT s 0 0) d
      { w with cache := (fs3_get_cache t s w.cache).2 }
      (by rw [if_neg hop]; exact hP.2.1 _ s hs)
    split
    · next h => rw [h] at h1; simp at h1
    · next r b w1 h =>
      rw [h] at h1
      simp only [Option.some.injEq, Prod.mk.injEq] at h1
      rw [h1.1, h2]
      exact ⟨b, by simp⟩
  · next c _ => exact ⟨c, rfl⟩

theorem storeSector_frame (P : Peer σ) (t s : Int) (data : Buffer) (w : World σ) :
    (storeSector P t s data w).FS3FileArray = w.FS3FileArray ∧
    (storeSector P t s data w).FS3DiskMap = w.FS3DiskMap ∧
    (storeSector P t s data w).diskMounted = w.diskMounted ∧
    (storeSector P t s data w).currentDiskTrack = w.currentDiskTrack := by
  unfold storeSector
  exact ⟨by simp, by simp, by simp, by simp⟩

@[simp] theorem storeSector_files (P : Peer σ) (t s : Int) (d : Buffer) (w : World σ) :
    (storeSector P t s d w).FS3FileArray = w.FS3FileArray :=
  (storeSector_frame P t s d w).1

@[simp] theorem storeSector_map (P : Peer σ) (t s : Int) (d : Buffer) (w : World σ) :
    (storeSector P t s d w).FS3DiskMap = w.FS3DiskMap :=
  (storeSector_frame P t s d w).2.1

@[simp] theorem storeSector_mounted (P : Peer σ) (t s : Int) (d : Buffer) (w : World σ) :
    (storeSector P t s d w).diskMounted = w.diskMounted :=
  (storeSector_frame P t s d w).2.2.1

@[simp] theorem storeSector_track (P : Peer σ) (t s : Int) (d : Buffer) (w : World σ) :
    (storeSector P t s d w).currentDiskTrack = w.currentDiskTrack :=
  (storeSector_frame P t s d w).2.2.2

/-- What a pass of the loop of `fs3_write` does once the sector `(t, s)` and the initial
contents `b` of the disk buffer are known and the write is answered. -/
theorem write_tail (G : Geometry) (hG : G.Valid) (P : Peer σ) (hP : Accepts G P)
    (t : Int) (s : Nat) (hs : s < G.FS3_TRACK_SIZE) (data : Buffer) (w : World σ) :
    ∃ reply data1,
      network_fs3_syscall P (construct_fs3_cmdblock FS3_OP_WRSECT (toU16 (s : Int)) 0 0) data
          { w with cache := (fs3_put_cache t (s : Int) data w.cache).2 }
        = (some (reply, data1), storeSector P t (s : Int) data w) ∧
      getReturnBit reply = 0 := by
  have hu : toU16 (s : Int) = s := toU16_natCast s (by have := hG.track_size_le; omega)
  have hop := getOpCodeBits_wrsect G hG s hs
  obtain ⟨reply, data1, h1, h2⟩ := network_fs3_syscall_answered P
      (construct_fs3_cmdblock FS3_OP_WRSECT s 0 0) data
      { w with cache := (fs3_put_cache t (s : Int) data w.cache).2 }
      (by rw [if_pos hop]; exact hP.2.2 _ s data hs)
  refine ⟨reply, data1, ?_, h2⟩
  unfold storeSector
  rw [hu]
  exact Prod.ext h1 rfl

/-! ### One pass of the loop of `fs3_write` -/

theorem write_body_existing (G : Geometry) (hG : G.Valid) (P : Peer σ) (hP : Accepts G P)
    (fd : Int) (buf : Buffer) (count bytesWritten : Int) (diskBuf : Buffer) (w : World σ)
    (tn sn : Nat) (hsn : sn < G.FS3_TRACK_SIZE)
    (ht : find_current_track G fd w = (tn : Int)) (hs : find_current_sector G fd w = (sn : Int))
    (hcell : w.FS3DiskMap (tn : Int) (sn : Int) ≠ -1) :
    ∃ b, (fetch_sector P tn sn diskBuf (seekTo G P tn w)).1 = some b ∧
      fs3_write_body G P fd buf count bytesWritten diskBuf w
        = Step.next (writeChunk G w fd count)
            (commitWrite fd tn sn (writeChunk G w fd count)
              (storeSector P tn sn
                (memcpy b ((w.FS3FileArray fd).position.tmod G.FS3_SECTOR_SIZE) buf bytesWritten
                  (writeChunk G w fd count))
                (fetch_sector P tn sn diskBuf (seekTo G P tn w)).2)) := by
  obtain ⟨b, hb⟩ := fetch_sector_ok G hG P hP tn sn hsn diskBuf (seekTo G P tn w)
  refine ⟨b, by rw [hb], ?_⟩
  have hfresh : decide ((sn : Int) = -1 ∨ (tn : Int) = -1) = false :=
    decide_eq_false (by omega)
  obtain ⟨reply, data1, hw1, hw2⟩ := write_tail G hG P hP tn sn hsn
    (memcpy b ((w.FS3FileArray fd).position.tmod G.FS3_SECTOR_SIZE) buf bytesWritten
      (writeChunk G w fd count)) (fetch_sector P tn sn diskBuf (seekTo G P tn w)).2
  have hmap : (seekTo G P (tn : Int) w).FS3DiskMap (tn : Int) (sn : Int) ≠ -1 := by
    rw [seekTo_map]; exact hcell
  unfold fs3_write_body
  simp only [ht, hs, hfresh, Bool.false_eq_true, if_false, false_and]
  rw [show (if w.currentDiskTrack ≠ (tn : Int) then (switch_disk_track G P tn w).2 else w)
    = seekTo G P tn w from rfl]
  rw [if_pos hmap, hb]
  simp only []
  rw [show (if (G.FS3_SECTOR_SIZE : Int) - (w.FS3FileArray fd).position.tmod G.FS3_SECTOR_SIZE < count
      then (G.FS3_SECTOR_SIZE : Int) - (w.FS3FileArray fd).position.tmod G.FS3_SECTOR_SIZE
      else count) = writeChunk G w fd count from rfl]
  rw [hw1]
  simp only [hw2, ne_eq, not_true_eq_false, if_false]
  rfl

theorem write_body_alloc (G : Geometry) (hG : G.Valid) (P : Peer σ) (hP : Accepts G P)
    (fd : Int) (buf : Buffer) (count bytesWritten : Int) (diskBuf : Buffer) (w : World σ)
    (hm : w.diskMounted = true)
    (tn sn : Nat) (htn : tn < G.FS3_MAX_TRACKS) (hsn : sn < G.FS3_TRACK_SIZE)
    (hcur : find_current_sector G fd w = -1 ∨ find_current_track G fd w = -1)
    (hot : find_open_track G w = (tn : Int))
    (hos : ∀ w1 : World σ, w1.FS3DiskMap = w.FS3DiskMap → w1.currentDiskTrack = (tn : Int) →
      find_open_sector G w1 = (sn : Int))
    (hcell : w.FS3DiskMap (tn : Int) (sn : Int) = -1) :
    fs3_write_body G P fd buf count bytesWritten diskBuf w
      = Step.next (writeChunk G w fd count)
          (commitWrite fd tn sn (writeChunk G w fd count)
            (storeSector P tn sn
              (memcpy diskBuf ((w.FS3FileArray fd).position.tmod G.FS3_SECTOR_SIZE) buf
                bytesWritten (writeChunk G w fd count))
              (seekTo G P tn w))) := by
  have hfresh : decide (find_current_sector G fd w = -1 ∨ find_current_track G fd w = -1) = true :=
    decide_eq_true hcur
  obtain ⟨reply, data1, hw1, hw2⟩ := write_tail G hG P hP tn sn hsn
    (memcpy diskBuf ((w.FS3FileArray fd).position.tmod G.FS3_SECTOR_SIZE) buf bytesWritten
      (writeChunk G w fd count)) (seekTo G P tn w)
  have hmap : ¬ ((seekTo G P (tn : Int) w).FS3DiskMap (tn : Int) (sn : Int) ≠ -1) := by
    rw [seekTo_map]; simpa using hcell
  have htrk := seekTo_track G hG P hP tn htn w hm
  have hsec := hos (seekTo G P tn w) (seekTo_map G P tn w) htrk
  unfold fs3_write_body
  simp only [hfresh, if_true, true_and, hot]
  rw [show (if w.currentDiskTrack ≠ (tn : Int) then (switch_disk_track G P tn w).2 else w)
    = seekTo G P tn w from rfl]
  rw [hsec]
  rw [show (if (seekTo G P (tn : Int) w).currentDiskTrack ≠ (tn : Int)
      then (switch_disk_track G P tn (seekTo G P tn w)).2 else seekTo G P tn w)
    = seekTo G P tn w from if_neg (by simpa using htrk)]
  rw [if_neg hmap]
  simp only []
  rw [show (if (G.FS3_SECTOR_SIZE : Int) - (w.FS3FileArray fd).position.tmod G.FS3_SECTOR_SIZE < count
      then (G.FS3_SECTOR_SIZE : Int) - (w.FS3FileArray fd).position.tmod G.FS3_SECTOR_SIZE
      else count) = writeChunk G w fd count from rfl]
  rw [hw1]
  simp only [hw2, ne_eq, not_true_eq_false, if_false]
  rfl

/-! ### Arithmetic of sectors -/

theorem ceil_unique (S L c : Nat) (h1 : L ≤ c * S) (h2 : c * S < L + S) :
    (L + S - 1) / S = c := by
  have hS : 0 < S := by
    rcases Nat.eq_zero_or_pos S with h | h
    · subst h; omega
    · exact h
  apply Nat.div_eq_of_lt_le
  · rw [Nat.mul_comm] at h2 ⊢; omega
  · rw [Nat.add_mul]; omega

theorem ceil_spec (S L : Nat) (hS : 0 < S) :
    L ≤ (L + S - 1) / S * S ∧ (L + S - 1) / S * S < L + S := by
  have h1 := Nat.div_add_mod (L + S - 1) S
  have h2 := Nat.mod_lt (L + S - 1) hS
  rw [Nat.mul_comm] at h1
  constructor <;> omega

theorem sectorsFor_eq (G : Geometry) (L : Int) (hL : 0 ≤ L) :
    sectorsFor G L = (L.toNat + G.FS3_SECTOR_SIZE - 1) / G.FS3_SECTOR_SIZE := by
  unfold sectorsFor
  rcases Nat.eq_zero_or_pos G.FS3_SECTOR_SIZE with h | h
  · rw [h]; simp
  · have e : L + (G.FS3_SECTOR_SIZE : Int) - 1 = ((L.toNat + G.FS3_SECTOR_SIZE - 1 : Nat) : Int) := by
      omega
    rw [e]
    norm_cast

/-- A position inside the sectors of the file lies in a sector the file owns. -/
theorem sector_index_lt (G : Geometry) (hS : 0 < G.FS3_SECTOR_SIZE) (p L : Int) (hp : 0 ≤ p)
    (hpL : p ≤ L) (h : p < L ∨ L.toNat % G.FS3_SECTOR_SIZE ≠ 0) :
    p.toNat / G.FS3_SECTOR_SIZE < sectorsFor G L := by
  rw [sectorsFor_eq G L (by omega), Nat.div_lt_iff_lt_mul hS]
  obtain ⟨c1, c2⟩ := ceil_spec G.FS3_SECTOR_SIZE L.toNat hS
  rcases h with h | h
  · omega
  · have : L.toNat ≠ (L.toNat + G.FS3_SECTOR_SIZE - 1) / G.FS3_SECTOR_SIZE * G.FS3_SECTOR_SIZE := by
      intro e
      apply h
      rw [e]; exact Nat.mul_mod_left _ _
    omega

/-- At the end of a file that fills its sectors, the position lies past the sectors the
file owns. -/
theorem sector_index_eq (G : Geometry) (hS : 0 < G.FS3_SECTOR_SIZE) (L : Int) (hL : 0 ≤ L)
    (h : L.toNat % G.FS3_SECTOR_SIZE = 0) :
    L.toNat / G.FS3_SECTOR_SIZE = sectorsFor G L := by
  rw [sectorsFor_eq G L hL]
  symm
  apply ceil_unique
  · rw [Nat.div_mul_cancel (Nat.dvd_of_mod_eq_zero h)]
  · rw [Nat.div_mul_cancel (Nat.dvd_of_mod_eq_zero h)]; omega

theorem sectorsFor_mono (G : Geometry) (L1 L2 : Int) (h1 : 0 ≤ L1) (h : L1 ≤ L2) :
    sectorsFor G L1 ≤ sectorsFor G L2 := by
  rw [sectorsFor_eq G L1 h1, sectorsFor_eq G L2 (by omega)]
  apply Nat.div_le_div_right
  omega

/-- Writing inside a sector the file owns does not change the number of sectors. -/
theorem sectorsFor_within (G : Geometry) (hS : 0 < G.FS3_SECTOR_SIZE) (p L d : Int) (hp : 0 ≤ p)
    (hpL : p ≤ L)
    (hdle : d ≤ (G.FS3_SECTOR_SIZE : Int) - ((p.toNat % G.FS3_SECTOR_SIZE : Nat) : Int))
    (hk : p.toNat / G.FS3_SECTOR_SIZE < sectorsFor G L) :
    sectorsFor G (if p + d > L then p + d else L) = sectorsFor G L := by
  have hL : 0 ≤ L := by omega
  split
  · next hgt =>
    rw [sectorsFor_eq G L hL] at hk ⊢
    rw [sectorsFor_eq G (p + d) (by omega)]
    obtain ⟨c1, c2⟩ := ceil_spec G.FS3_SECTOR_SIZE L.toNat hS
    apply ceil_unique
    · have h1 := Nat.div_add_mod p.toNat G.FS3_SECTOR_SIZE
      rw [Nat.mul_comm] at h1
      have h2 : (p.toNat / G.FS3_SECTOR_SIZE + 1) * G.FS3_SECTOR_SIZE
          ≤ (L.toNat + G.FS3_SECTOR_SIZE - 1) / G.FS3_SECTOR_SIZE * G.FS3_SECTOR_SIZE :=
        Nat.mul_le_mul_right _ hk
      rw [Nat.add_mul] at h2
      omega
    · omega
  · rfl

/-- Writing at the end of a file that fills its sectors takes one more sector. -/
theorem sectorsFor_extend (G : Geometry) (hS : 0 < G.FS3_SECTOR_SIZE) (L d : Int) (hL : 0 ≤ L)
    (hd : 0 < d) (hdle : d ≤ (G.FS3_SECTOR_SIZE : Int))
    (h : L.toNat % G.FS3_SECTOR_SIZE = 0) :
    sectorsFor G (L + d) = sectorsFor G L + 1 := by
  rw [← sector_index_eq G hS L hL h, sectorsFor_eq G (L + d) (by omega)]
  apply ceil_unique
  · rw [Nat.add_mul, Nat.div_mul_cancel (Nat.dvd_of_mod_eq_zero h)]; omega
  · rw [Nat.add_mul, Nat.div_mul_cancel (Nat.dvd_of_mod_eq_zero h)]; omega

theorem writeChunk_spec (G : Geometry) (hS : 0 < G.FS3_SECTOR_SIZE) (w : World σ) (fd count : Int)
    (hp : 0 ≤ (w.FS3FileArray fd).position) (hc : 0 < count) :
    0 < writeChunk G w fd count ∧ writeChunk G w fd count ≤ count ∧
    writeChunk G w fd count ≤ (G.FS3_SECTOR_SIZE : Int)
      - (((w.FS3FileArray fd).position.toNat % G.FS3_SECTOR_SIZE : Nat) : Int) := by
  unfold writeChunk
  rw [tmod_eq_natMod _ _ hp]
  have := Nat.mod_lt (w.FS3FileArray fd).position.toNat hS
  split <;> omega

/-! ### Updating a cell of the allocation map -/

theorem cellAt_update (G : Geometry) (map : Int → Int → Int)
    (q : Nat) (v : Int) :
    cellAt G (Function.update map ((q / G.FS3_TRACK_SIZE : Nat) : Int)
        (Function.update (map ((q / G.FS3_TRACK_SIZE : Nat) : Int))
          ((q % G.FS3_TRACK_SIZE : Nat) : Int) v))
      = Function.update (cellAt G map) q v := by
  funext q'
  unfold cellAt
  by_cases hq : q' = q
  · subst hq; simp
  · rw [Function.update_noteq hq]
    by_cases ht : q' / G.FS3_TRACK_SIZE = q / G.FS3_TRACK_SIZE
    · have hs : q' % G.FS3_TRACK_SIZE ≠ q % G.FS3_TRACK_SIZE := by
        intro e
        apply hq
        rw [← Nat.div_add_mod q' G.FS3_TRACK_SIZE, ← Nat.div_add_mod q G.FS3_TRACK_SIZE, ht, e]
      rw [ht, Function.update_same, Function.update_noteq (by exact_mod_cast hs)]
    · rw [Function.update_noteq (by exact_mod_cast ht)]

theorem countCells_update_ge (cell : Nat → Int) (h v : Int) (q n : Nat) (hq : n ≤ q) :
    countCells (Function.update cell q v) h n = countCells cell h n := by
  induction n with
  | zero => rfl
  | succ m ih =>
    simp only [countCells]
    rw [ih (by omega), Function.update_noteq (by omega)]

theorem countCells_update_other (cell : Nat → Int) (h v : Int) (q n : Nat)
    (h1 : cell q ≠ h) (h2 : v ≠ h) :
    countCells (Function.update cell q v) h n = countCells cell h n := by
  induction n with
  | zero => rfl
  | succ m ih =>
    simp only [countCells]
    rw [ih]
    by_cases hq : m = q
    · subst hq; simp [h1, h2]
    · rw [Function.update_noteq hq]

theorem countCells_update_new (cell : Nat → Int) (h : Int) (q n : Nat)
    (h1 : cell q ≠ h) (hq : q < n) :
    countCells (Function.update cell q h) h n = countCells cell h n + 1 := by
  induction n with
  | zero => omega
  | succ m ih =>
    simp only [countCells]
    by_cases hm : m = q
    · subst hm
      rw [countCells_update_ge cell h h m m (le_refl _)]
      simp [h1]
    · rw [ih (by omega), Function.update_noteq hm]
      omega

theorem update_eq_self_of_eq (cell : Nat → Int) (q : Nat) (v : Int) (h : cell q = v) :
    Function.update cell q v = cell := by
  rw [← h]; exact Function.update_eq_self q cell

theorem usedPrefix_lt_of_ne (G : Geometry) (map : Int → Int → Int) (u q : Nat)
    (hu : UsedPrefix G map u) (hq : q < G.cells) (h : cellAt G map q ≠ -1) : q < u := by
  by_contra hcon
  exact h (hu.2.2 q (by omega) hq)

/-! ### One pass of the loop of `fs3_write` on a consistent allocation map -/

/-- A pass over a sector the file already owns: the sector is the one at the place of the
file that the position lies in; its contents are fetched first. -/
theorem write_pass_existing (G : Geometry) (hG : G.Valid) (P : Peer σ) (hP : Accepts G P)
    (fd : Int) (buf : Buffer) (count bytesWritten : Int) (diskBuf : Buffer) (w : World σ) (u : Nat)
    (hfd : fd ≠ -1) (hu : UsedPrefix G w.FS3DiskMap u) (hf : FileOk G w fd)
    (hk : (w.FS3FileArray fd).position.toNat / G.FS3_SECTOR_SIZE
      < sectorsFor G (w.FS3FileArray fd).length) :
    ∃ q b, q < u ∧ cellAt G w.FS3DiskMap q = fd ∧
      countCells (cellAt G w.FS3DiskMap) fd q
        = (w.FS3FileArray fd).position.toNat / G.FS3_SECTOR_SIZE ∧
      (fetch_sector P ((q / G.FS3_TRACK_SIZE : Nat) : Int) ((q % G.FS3_TRACK_SIZE : Nat) : Int)
        diskBuf (seekTo G P ((q / G.FS3_TRACK_SIZE : Nat) : Int) w)).1 = some b ∧
      fs3_write_body G P fd buf count bytesWritten diskBuf w
        = Step.next (writeChunk G w fd count)
            (commitWrite fd ((q / G.FS3_TRACK_SIZE : Nat) : Int)
              ((q % G.FS3_TRACK_SIZE : Nat) : Int) (writeChunk G w fd count)
              (storeSector P ((q / G.FS3_TRACK_SIZE : Nat) : Int)
                ((q % G.FS3_TRACK_SIZE : Nat) : Int)
                (memcpy b ((w.FS3FileArray fd).position.tmod G.FS3_SECTOR_SIZE) buf bytesWritten
                  (writeChunk G w fd count))
                (fetch_sector P ((q / G.FS3_TRACK_SIZE : Nat) : Int)
                  ((q % G.FS3_TRACK_SIZE : Nat) : Int) diskBuf
                  (seekTo G P ((q / G.FS3_TRACK_SIZE : Nat) : Int) w)).2)) := by
  obtain ⟨hp0, hpL, hcells⟩ := hf
  rw [← hcells] at hk
  obtain ⟨q, hqN, hqc, hqk⟩ := exists_kth _ fd _ _ hk
  have hqu : q < u := usedPrefix_lt_of_ne G _ u q hu hqN (by rw [hqc]; exact hfd)
  have hts := track_size_pos_of_lt_cells G q hqN
  have hfound := find_current_found G w fd q hfd hp0 hqN hqc hqk
    (fun q' h => hu.2.1 q' (by omega))
  have hcell : w.FS3DiskMap ((q / G.FS3_TRACK_SIZE : Nat) : Int)
      ((q % G.FS3_TRACK_SIZE : Nat) : Int) ≠ -1 := by
    have : cellAt G w.FS3DiskMap q ≠ -1 := by rw [hqc]; exact hfd
    exact this
  obtain ⟨b, hb1, hb2⟩ := write_body_existing G hG P hP fd buf count bytesWritten diskBuf w
    (q / G.FS3_TRACK_SIZE) (q % G.FS3_TRACK_SIZE) (Nat.mod_lt q hts) hfound.1 hfound.2 hcell
  exact ⟨q, b, hqu, hqc, hqk, hb1, hb2⟩

/-- A pass at the end of a file that fills its sectors: the sector is the first EMPTY cell
in scan order, and nothing is fetched. -/
theorem write_pass_alloc (G : Geometry) (hG : G.Valid) (P : Peer σ) (hP : Accepts G P)
    (fd : Int) (buf : Buffer) (count bytesWritten : Int) (diskBuf : Buffer) (w : World σ) (u : Nat)
    (hm : w.diskMounted = true) (hu : UsedPrefix G w.FS3DiskMap u) (hf : FileOk G w fd)
    (hk : sectorsFor G (w.FS3FileArray fd).length
      ≤ (w.FS3FileArray fd).position.toNat / G.FS3_SECTOR_SIZE)
    (hfree : u < G.cells) :
    fs3_write_body G P fd buf count bytesWritten diskBuf w
      = Step.next (writeChunk G w fd count)
          (commitWrite fd ((u / G.FS3_TRACK_SIZE : Nat) : Int)
            ((u % G.FS3_TRACK_SIZE : Nat) : Int) (writeChunk G w fd count)
            (storeSector P ((u / G.FS3_TRACK_SIZE : Nat) : Int)
              ((u % G.FS3_TRACK_SIZE : Nat) : Int)
              (memcpy diskBuf ((w.FS3FileArray fd).position.tmod G.FS3_SECTOR_SIZE) buf
                bytesWritten (writeChunk G w fd count))
              (seekTo G P ((u / G.FS3_TRACK_SIZE : Nat) : Int) w))) := by
  obtain ⟨hp0, hpL, hcells⟩ := hf
  rw [← hcells] at hk
  have hts := track_size_pos_of_lt_cells G u hfree
  have hnone := find_current_none G w fd hp0 hk
  exact write_body_alloc G hG P hP fd buf count bytesWritten diskBuf w hm
    (u / G.FS3_TRACK_SIZE) (u % G.FS3_TRACK_SIZE) (div_lt_of_lt_cells G u hfree)
    (Nat.mod_lt u hts) (Or.inl hnone.2) (find_open_track_eq G w u hu hfree)
    (fun w1 h1 h2 => find_open_sector_eq G w1 u (by rw [h1]; exact hu) hfree h2)
    (hu.2.2 u (le_refl _) hfree)

/-! ### The metadata update of `fs3_write` keeps the allocation map consistent -/

theorem commitWrite_file (fd t s d : Int) (w4 : World σ) :
    (commitWrite fd t s d w4).FS3FileArray fd =
      { w4.FS3FileArray fd with
        position := (w4.FS3FileArray fd).position + d
        length :=
          if (w4.FS3FileArray fd).position + d > (w4.FS3FileArray fd).length then
            (w4.FS3FileArray fd).position + d
          else (w4.FS3FileArray fd).length } := by
  simp [commitWrite]

theorem commitWrite_other (fd t s d : Int) (w4 : World σ) (g : Int) (hg : g ≠ fd) :
    (commitWrite fd t s d w4).FS3FileArray g = w4.FS3FileArray g := by
  simp [commitWrite, Function.update_noteq hg]

theorem commitWrite_cellAt (G : Geometry) (fd d : Int) (q : Nat) (w4 : World σ) :
    cellAt G (commitWrite fd ((q / G.FS3_TRACK_SIZE : Nat) : Int)
      ((q % G.FS3_TRACK_SIZE : Nat) : Int) d w4).FS3DiskMap
      = Function.update (cellAt G w4.FS3DiskMap) q fd := by
  simp only [commitWrite]
  exact cellAt_update G w4.FS3DiskMap q fd

theorem commitWrite_existing (G : Geometry) (hS : 0 < G.FS3_SECTOR_SIZE) (w w4 : World σ)
    (fd : Int) (u q : Nat) (d : Int)
    (e1 : w4.FS3FileArray = w.FS3FileArray) (e2 : w4.FS3DiskMap = w.FS3DiskMap)
    (e3 : w4.diskMounted = w.diskMounted) (hc : Consistent G w fd u)
    (hd : 0 < d)
    (hdle : d ≤ (G.FS3_SECTOR_SIZE : Int)
      - (((w.FS3FileArray fd).position.toNat % G.FS3_SECTOR_SIZE : Nat) : Int))
    (hqc : cellAt G w.FS3DiskMap q = fd)
    (hk : (w.FS3FileArray fd).position.toNat / G.FS3_SECTOR_SIZE
      < sectorsFor G (w.FS3FileArray fd).length) :
    Consistent G (commitWrite fd ((q / G.FS3_TRACK_SIZE : Nat) : Int)
      ((q % G.FS3_TRACK_SIZE : Nat) : Int) d w4) fd u ∧
    cellAt G (commitWrite fd ((q / G.FS3_TRACK_SIZE : Nat) : Int)
      ((q % G.FS3_TRACK_SIZE : Nat) : Int) d w4).FS3DiskMap = cellAt G w.FS3DiskMap := by
  obtain ⟨hm, hu, hp0, hpL, hcells⟩ := hc
  have hcell : cellAt G (commitWrite fd ((q / G.FS3_TRACK_SIZE : Nat) : Int)
      ((q % G.FS3_TRACK_SIZE : Nat) : Int) d w4).FS3DiskMap = cellAt G w.FS3DiskMap := by
    rw [commitWrite_cellAt, e2]
    exact update_eq_self_of_eq _ q fd hqc
  refine ⟨⟨?_, ?_, ?_, ?_, ?_⟩, hcell⟩
  · simp [commitWrite, e3, hm]
  · unfold UsedPrefix; rw [hcell]; exact hu
  · rw [commitWrite_file, e1]; simp only; omega
  · rw [commitWrite_file, e1]; simp only; split <;> omega
  · rw [hcell, commitWrite_file, e1]
    simp only
    rw [hcells]
    exact (sectorsFor_within G hS _ _ d hp0 hpL hdle hk).symm

theorem commitWrite_alloc (G : Geometry) (hS : 0 < G.FS3_SECTOR_SIZE) (w w4 : World σ)
    (fd : Int) (hfd : fd ≠ -1) (u : Nat) (d : Int)
    (e1 : w4.FS3FileArray = w.FS3FileArray) (e2 : w4.FS3DiskMap = w.FS3DiskMap)
    (e3 : w4.diskMounted = w.diskMounted) (hc : Consistent G w fd u)
    (hd : 0 < d)
    (hdle : d ≤ (G.FS3_SECTOR_SIZE : Int)
      - (((w.FS3FileArray fd).position.toNat % G.FS3_SECTOR_SIZE : Nat) : Int))
    (hfree : u < G.cells)
    (hk : sectorsFor G (w.FS3FileArray fd).length
      ≤ (w.FS3FileArray fd).position.toNat / G.FS3_SECTOR_SIZE) :
    Consistent G (commitWrite fd ((u / G.FS3_TRACK_SIZE : Nat) : Int)
      ((u % G.FS3_TRACK_SIZE : Nat) : Int) d w4) fd (u + 1) ∧
    cellAt G (commitWrite fd ((u / G.FS3_TRACK_SIZE : Nat) : Int)
      ((u % G.FS3_TRACK_SIZE : Nat) : Int) d w4).FS3DiskMap
      = Function.update (cellAt G w.FS3DiskMap) u fd ∧
    (w.FS3FileArray fd).position = (w.FS3FileArray fd).length ∧
    sectorsFor G ((w.FS3FileArray fd).length + d) = sectorsFor G (w.FS3FileArray fd).length + 1 := by
  obtain ⟨hm, hu, hp0, hpL, hcells⟩ := hc
  have hcell : cellAt G (commitWrite fd ((u / G.FS3_TRACK_SIZE : Nat) : Int)
      ((u % G.FS3_TRACK_SIZE : Nat) : Int) d w4).FS3DiskMap
      = Function.update (cellAt G w.FS3DiskMap) u fd := by
    rw [commitWrite_cellAt, e2]
  have hend : ¬ ((w.FS3FileArray fd).position < (w.FS3FileArray fd).length ∨
      (w.FS3FileArray fd).length.toNat % G.FS3_SECTOR_SIZE ≠ 0) := by
    intro h
    have := sector_index_lt G hS _ _ hp0 hpL h
    omega
  have hpeq : (w.FS3FileArray fd).position = (w.FS3FileArray fd).length := by omega
  have hmod : (w.FS3FileArray fd).length.toNat % G.FS3_SECTOR_SIZE = 0 := by omega
  have hmodlt := Nat.mod_lt (w.FS3FileArray fd).position.toNat hS
  have hext := sectorsFor_extend G hS (w.FS3FileArray fd).length d (by omega) hd (by omega) hmod
  have hempty := hu.2.2 u (le_refl _) hfree
  refine ⟨⟨?_, ?_, ?_, ?_, ?_⟩, hcell, hpeq, hext⟩
  · simp [commitWrite, e3, hm]
  · unfold UsedPrefix
    rw [hcell]
    refine ⟨by omega, fun q hq => ?_, fun q hq1 hq2 => ?_⟩
    · by_cases hqu : q = u
      · subst hqu; simpa using hfd
      · rw [Function.update_noteq hqu]; exact hu.2.1 q (by omega)
    · rw [Function.update_noteq (by omega)]; exact hu.2.2 q (by omega) hq2
  · rw [commitWrite_file, e1]; simp only; omega
  · rw [commitWrite_file, e1]; simp only; split <;> omega
  · rw [hcell, commitWrite_file, e1]
    simp only
    rw [countCells_update_new _ fd u _ (by rw [hempty]; exact fun h => hfd h.symm) hfree, hcells,
      hpeq, if_pos (by omega), hext]

/-- One pass of the loop of `fs3_write` on a consistent allocation map, with a free cell
at hand when the pass needs one: the pass ends normally and leaves the map consistent. -/
theorem write_pass_inv (G : Geometry) (hG : G.Valid) (P : Peer σ) (hP : Accepts G P)
    (fd : Int) (buf : Buffer) (count bytesWritten : Int) (diskBuf : Buffer) (w : World σ) (u : Nat)
    (hfd : fd ≠ -1) (hc : Consistent G w fd u) (hcount : 0 < count)
    (hfree : (w.FS3FileArray fd).position.toNat / G.FS3_SECTOR_SIZE
        < sectorsFor G (w.FS3FileArray fd).length ∨ u < G.cells) :
    ∃ w1 u1,
      fs3_write_body G P fd buf count bytesWritten diskBuf w
        = Step.next (writeChunk G w fd count) w1 ∧
      Consistent G w1 fd u1 ∧
      (w1.FS3FileArray fd).position = (w.FS3FileArray fd).position + writeChunk G w fd count ∧
      (w1.FS3FileArray fd).length
        = max (w.FS3FileArray fd).length
            ((w.FS3FileArray fd).position + writeChunk G w fd count) ∧
      u1 + sectorsFor G (w.FS3FileArray fd).length
        = u + sectorsFor G (w1.FS3FileArray fd).length ∧
      (w1.FS3FileArray fd).«open» = (w.FS3FileArray fd).«open» ∧
      (w1.FS3FileArray fd).created = (w.FS3FileArray fd).created ∧
      (∀ g, g ≠ fd → w1.FS3FileArray g = w.FS3FileArray g) ∧
      (∀ g n, g ≠ fd → g ≠ -1 →
        countCells (cellAt G w1.FS3DiskMap) g n = countCells (cellAt G w.FS3DiskMap) g n) := by
  have hS := hG.sector_pos
  obtain ⟨hd0, hdc, hdle⟩ := writeChunk_spec G hS w fd count hc.file.1 hcount
  by_cases hk : (w.FS3FileArray fd).position.toNat / G.FS3_SECTOR_SIZE
      < sectorsFor G (w.FS3FileArray fd).length
  · obtain ⟨q, b, hqu, hqc, hqk, hb, heq⟩ := write_pass_existing G hG P hP fd buf count
      bytesWritten diskBuf w u hfd hc.used hc.file hk
    obtain ⟨hcons, hcell⟩ := commitWrite_existing G hS w
      (storeSector P ((q / G.FS3_TRACK_SIZE : Nat) : Int) ((q % G.FS3_TRACK_SIZE : Nat) : Int)
        (memcpy b ((w.FS3FileArray fd).position.tmod G.FS3_SECTOR_SIZE) buf bytesWritten
          (writeChunk G w fd count))
        (fetch_sector P ((q / G.FS3_TRACK_SIZE : Nat) : Int)
          ((q % G.FS3_TRACK_SIZE : Nat) : Int) diskBuf
          (seekTo G P ((q / G.FS3_TRACK_SIZE : Nat) : Int) w)).2)
      fd u q (writeChunk G w fd count) (by simp) (by simp) (by simp) hc hd0 hdle hqc hk
    refine ⟨_, u, heq, hcons, ?_, ?_, ?_, ?_, ?_, ?_, ?_⟩
    · rw [commitWrite_file]; simp
    · rw [commitWrite_file]; simp only [storeSector_files, fetch_sector_files, seekTo_files]
      split <;> omega
    · have := hcons.file.2.2
      rw [hcell, hc.file.2.2] at this
      omega
    · rw [commitWrite_file]; simp
    · rw [commitWrite_file]; simp
    · intro g hg; rw [commitWrite_other _ _ _ _ _ g hg]; simp
    · intro g n _ _; rw [hcell]
  · have hfree1 : u < G.cells := by omega
    have heq := write_pass_alloc G hG P hP fd buf count bytesWritten diskBuf w u hc.mounted
      hc.used hc.file (by omega) hfree1
    obtain ⟨hcons, hcell, hpeq, hext⟩ := commitWrite_alloc G hS w
      (storeSector P ((u / G.FS3_TRACK_SIZE : Nat) : Int) ((u % G.FS3_TRACK_SIZE : Nat) : Int)
        (memcpy diskBuf ((w.FS3FileArray fd).position.tmod G.FS3_SECTOR_SIZE) buf bytesWritten
          (writeChunk G w fd count))
        (seekTo G P ((u / G.FS3_TRACK_SIZE : Nat) : Int) w))
      fd hfd u (writeChunk G w fd count) (by simp) (by simp) (by simp) hc hd0 hdle hfree1
      (by omega)
    have hlen : ((commitWrite fd ((u / G.FS3_TRACK_SIZE : Nat) : Int)
        ((u % G.FS3_TRACK_SIZE : Nat) : Int) (writeChunk G w fd count)
        (storeSector P ((u / G.FS3_TRACK_SIZE : Nat) : Int) ((u % G.FS3_TRACK_SIZE : Nat) : Int)
          (memcpy diskBuf ((w.FS3FileArray fd).position.tmod G.FS3_SECTOR_SIZE) buf bytesWritten
            (writeChunk G w fd count))
          (seekTo G P ((u / G.FS3_TRACK_SIZE : Nat) : Int) w))).FS3FileArray fd).length
        = (w.FS3FileArray fd).length + writeChunk G w fd count := by
      rw [commitWrite_file]; simp only [storeSector_files, seekTo_files]
      split <;> omega
    refine ⟨_, u + 1, heq, hcons, ?_, ?_, ?_, ?_, ?_, ?_, ?_⟩
    · rw [commitWrite_file]; simp
    · rw [hlen]; omega
    · rw [hlen, hext]; omega
    · rw [commitWrite_file]; simp
    · rw [commitWrite_file]; simp
    · intro g hg; rw [commitWrite_other _ _ _ _ _ g hg]; simp
    · intro g n hg1 hg2
      rw [hcell]
      exact countCells_update_other _ g fd u n
        (by rw [hc.used.2.2 u (le_refl _) hfree1]; exact fun h => hg2 h.symm)
        (fun h => hg1 h.symm)

/-! ### The loop of `fs3_write` -/

/-- The loop of `fs3_write` on a consistent allocation map with enough free cells: it ends
within `count` passes, returns the bytes written so far plus `count`, and keeps the map
consistent.  `J` is any further property of the bytes left, the bytes written and the
world that every pass preserves. -/
theorem fs3_write_loop_spec (G : Geometry) (hG : G.Valid) (P : Peer σ) (hP : Accepts G P)
    (fd : Int) (buf : Buffer) (scratch : Int → Buffer) (hfd : fd ≠ -1)
    (J : Int → Int → World σ → Prop)
    (hJ : ∀ (count bw : Int) (w w1 : World σ) (u : Nat), 0 < count → Consistent G w fd u →
      ((w.FS3FileArray fd).position.toNat / G.FS3_SECTOR_SIZE
        < sectorsFor G (w.FS3FileArray fd).length ∨ u < G.cells) →
      J count bw w →
      fs3_write_body G P fd buf count bw (scratch bw) w
        = Step.next (writeChunk G w fd count) w1 →
      J (count - writeChunk G w fd count) (bw + writeChunk G w fd count) w1)
    (fuel : Nat) (count bw : Int) (w : World σ) (u : Nat)
    (hcount : 0 ≤ count) (hfuel : count.toNat ≤ fuel) (hc : Consistent G w fd u)
    (hfree : u + sectorsFor G (max (w.FS3FileArray fd).length
        ((w.FS3FileArray fd).position + count))
      ≤ G.cells + sectorsFor G (w.FS3FileArray fd).length)
    (hJ0 : J count bw w) :
    ∃ w1 u1,
      fs3_write_loop G P fd buf scratch fuel count bw w = some (bw + count, w1) ∧
      Consistent G w1 fd u1 ∧ J 0 (bw + count) w1 ∧
      (w1.FS3FileArray fd).position = (w.FS3FileArray fd).position + count ∧
      (w1.FS3FileArray fd).length
        = max (w.FS3FileArray fd).length ((w.FS3FileArray fd).position + count) ∧
      u1 + sectorsFor G (w.FS3FileArray fd).length
        = u + sectorsFor G (w1.FS3FileArray fd).length ∧
      (w1.FS3FileArray fd).«open» = (w.FS3FileArray fd).«open» ∧
      (w1.FS3FileArray fd).created = (w.FS3FileArray fd).created ∧
      (∀ g, g ≠ fd → w1.FS3FileArray g = w.FS3FileArray g) ∧
      (∀ g n, g ≠ fd → g ≠ -1 →
        countCells (cellAt G w1.FS3DiskMap) g n = countCells (cellAt G w.FS3DiskMap) g n) := by
  induction fuel generalizing count bw w u with
  | zero =>
    have h0 : count = 0 := by omega
    subst h0
    refine ⟨w, u, ?_, hc, by simpa using hJ0, by omega, ?_, rfl, rfl, rfl, fun _ _ => rfl,
      fun _ _ _ _ => rfl⟩
    · simp [fs3_write_loop]
    · have := hc.file.2.1; omega
  | succ n ih =>
    by_cases hpos : count > 0
    · have hS := hG.sector_pos
      have hp0 := hc.file.1
      have hpL := hc.file.2.1
      obtain ⟨hd0, hdc, hdle⟩ := writeChunk_spec G hS w fd count hc.file.1 hpos
      have hfree1 : (w.FS3FileArray fd).position.toNat / G.FS3_SECTOR_SIZE
          < sectorsFor G (w.FS3FileArray fd).length ∨ u < G.cells := by
        by_cases hk : (w.FS3FileArray fd).position.toNat / G.FS3_SECTOR_SIZE
            < sectorsFor G (w.FS3FileArray fd).length
        · exact Or.inl hk
        · right
          have hend : ¬ ((w.FS3FileArray fd).position < (w.FS3FileArray fd).length ∨
              (w.FS3FileArray fd).length.toNat % G.FS3_SECTOR_SIZE ≠ 0) := by
            intro h
            have := sector_index_lt G hS _ _ hc.file.1 hc.file.2.1 h
            omega
          have hmodlt := Nat.mod_lt (w.FS3FileArray fd).position.toNat hS
          have hext := sectorsFor_extend G hS (w.FS3FileArray fd).length
            (writeChunk G w fd count) (by omega) hd0 (by omega) (by omega)
          have hmono := sectorsFor_mono G
            ((w.FS3FileArray fd).length + writeChunk G w fd count)
            (max (w.FS3FileArray fd).length ((w.FS3FileArray fd).position + count))
            (by omega) (by omega)
          omega
      obtain ⟨w1, u1, heq, hc1, hp1, hl1, hu1, ho1, hcr1, hoth1, hcnt1⟩ :=
        write_pass_inv G hG P hP fd buf count bw (scratch bw) w u hfd hc hpos hfree1
      have hJ1 := hJ count bw w w1 u hpos hc hfree1 hJ0 heq
      have hmax : max (w1.FS3FileArray fd).length
          ((w1.FS3FileArray fd).position + (count - writeChunk G w fd count))
          = max (w.FS3FileArray fd).length ((w.FS3FileArray fd).position + count) := by
        rw [hl1, hp1]; omega
      obtain ⟨w2, u2, heq2, hc2, hJ2, hp2, hl2, hu2, ho2, hcr2, hoth2, hcnt2⟩ :=
        ih (count - writeChunk G w fd count) (bw + writeChunk G w fd count) w1 u1 (by omega)
          (by omega) hc1 (by rw [hmax]; omega) hJ1
      have e : bw + writeChunk G w fd count + (count - writeChunk G w fd count) = bw + count := by
        omega
      rw [e] at heq2 hJ2
      refine ⟨w2, u2, ?_, hc2, hJ2, by omega, by rw [hl2, hmax], by omega, by rw [ho2, ho1],
        by rw [hcr2, hcr1], fun g hg => by rw [hoth2 g hg, hoth1 g hg],
        fun g m hg1 hg2 => by rw [hcnt2 g m hg1 hg2, hcnt1 g m hg1 hg2]⟩
      unfold fs3_write_loop
      rw [if_pos hpos, heq]
      exact heq2
    · have h0 : count = 0 := by omega
      subst h0
      refine ⟨w, u, ?_, hc, by simpa using hJ0, by omega, ?_, rfl, rfl, rfl, fun _ _ => rfl,
        fun _ _ _ _ => rfl⟩
      · simp [fs3_write_loop]
      · have := hc.file.2.1; omega

/-! ### One pass of the loop of `fs3_read` -/

theorem read_body_eq (G : Geometry) (hG : G.Valid) (P : Peer σ) (hP : Accepts G P)
    (fd : Int) (count bytesRead : Int) (buf : Buffer) (w : World σ)
    (tn sn : Nat) (hsn : sn < G.FS3_TRACK_SIZE)
    (ht : find_current_track G fd w = (tn : Int)) (hs : find_current_sector G fd w = (sn : Int)) :
    ∃ b, (fetch_sector P tn sn nullBuf (seekTo G P tn w)).1 = some b ∧
      fs3_read_body G P fd count bytesRead buf w
        = Step.next (readChunk G w fd count)
            (memcpy buf bytesRead b ((w.FS3FileArray fd).position.tmod G.FS3_SECTOR_SIZE)
              (readChunk G w fd count),
             commitRead fd (readChunk G w fd count)
              (fetch_sector P tn sn nullBuf (seekTo G P tn w)).2) := by
  obtain ⟨b, hb⟩ := fetch_sector_ok G hG P hP tn sn hsn nullBuf (seekTo G P tn w)
  refine ⟨b, by rw [hb], ?_⟩
  unfold fs3_read_body
  simp only [ht, hs]
  rw [show (if w.currentDiskTrack ≠ (tn : Int) then (switch_disk_track G P tn w).2 else w)
    = seekTo G P tn w from rfl]
  rw [hb]
  simp only [readChunk, writeChunk, commitRead, fetch_sector_files, seekTo_files]

theorem read_pass (G : Geometry) (hG : G.Valid) (P : Peer σ) (hP : Accepts G P)
    (fd : Int) (count bytesRead : Int) (buf : Buffer) (w : World σ) (u : Nat)
    (hfd : fd ≠ -1) (hu : UsedPrefix G w.FS3DiskMap u) (hf : FileOk G w fd)
    (hk : (w.FS3FileArray fd).position.toNat / G.FS3_SECTOR_SIZE
      < sectorsFor G (w.FS3FileArray fd).length) :
    ∃ q b, q < u ∧ cellAt G w.FS3DiskMap q = fd ∧
      countCells (cellAt G w.FS3DiskMap) fd q
        = (w.FS3FileArray fd).position.toNat / G.FS3_SECTOR_SIZE ∧
      (fetch_sector P ((q / G.FS3_TRACK_SIZE : Nat) : Int) ((q % G.FS3_TRACK_SIZE : Nat) : Int)
        nullBuf (seekTo G P ((q / G.FS3_TRACK_SIZE : Nat) : Int) w)).1 = some b ∧
      fs3_read_body G P fd count bytesRead buf w
        = Step.next (readChunk G w fd count)
            (memcpy buf bytesRead b ((w.FS3FileArray fd).position.tmod G.FS3_SECTOR_SIZE)
              (readChunk G w fd count),
             commitRead fd (readChunk G w fd count)
              (fetch_sector P ((q / G.FS3_TRACK_SIZE : Nat) : Int)
                ((q % G.FS3_TRACK_SIZE : Nat) : Int) nullBuf
                (seekTo G P ((q / G.FS3_TRACK_SIZE : Nat) : Int) w)).2) := by
  obtain ⟨hp0, hpL, hcells⟩ := hf
  rw [← hcells] at hk
  obtain ⟨q, hqN, hqc, hqk⟩ := exists_kth _ fd _ _ hk
  have hqu : q < u := usedPrefix_lt_of_ne G _ u q hu hqN (by rw [hqc]; exact hfd)
  have hts := track_size_pos_of_lt_cells G q hqN
  have hfound := find_current_found G w fd q hfd hp0 hqN hqc hqk
    (fun q' h => hu.2.1 q' (by omega))
  obtain ⟨b, hb1, hb2⟩ := read_body_eq G hG P hP fd count bytesRead buf w
    (q / G.FS3_TRACK_SIZE) (q % G.FS3_TRACK_SIZE) (Nat.mod_lt q hts) hfound.1 hfound.2
  exact ⟨q, b, hqu, hqc, hqk, hb1, hb2⟩

/-- Inside the file, a pass of the loop of `fs3_read` handles what is left of the sector,
or `count` if that is less. -/
theorem readChunk_spec (G : Geometry) (hS : 0 < G.FS3_SECTOR_SIZE) (w : World σ) (fd count : Int)
    (hp : 0 ≤ (w.FS3FileArray fd).position) (hc : 0 < count)
    (hle : count ≤ (w.FS3FileArray fd).length - (w.FS3FileArray fd).position) :
    readChunk G w fd count = writeChunk G w fd count := by
  obtain ⟨hd0, hdc, hdle⟩ := writeChunk_spec G hS w fd count hp hc
  unfold readChunk
  split
  · next heq =>
    rw [tdiv_eq_natDiv _ _ (by omega), tdiv_eq_natDiv _ _ hp] at heq
    rw [tmod_eq_natMod _ _ (by omega), tmod_eq_natMod _ _ hp]
    have h1 := Nat.div_add_mod (w.FS3FileArray fd).length.toNat G.FS3_SECTOR_SIZE
    have h2 := Nat.div_add_mod (w.FS3FileArray fd).position.toNat G.FS3_SECTOR_SIZE
    have heq' : (w.FS3FileArray fd).length.toNat / G.FS3_SECTOR_SIZE
        = (w.FS3FileArray fd).position.toNat / G.FS3_SECTOR_SIZE := by exact_mod_cast heq
    rw [heq'] at h1
    rw [if_neg]
    omega
  · rfl

theorem commitRead_file (fd d : Int) (w4 : World σ) :
    (commitRead fd d w4).FS3FileArray fd =
      { w4.FS3FileArray fd with
        position := (w4.FS3FileArray fd).position + d
        length :=
          if (w4.FS3FileArray fd).position + d > (w4.FS3FileArray fd).length then
            (w4.FS3FileArray fd).position + d
          else (w4.FS3FileArray fd).length } := by
  simp [commitRead]

theorem commitRead_other (fd d : Int) (w4 : World σ) (g : Int) (hg : g ≠ fd) :
    (commitRead fd d w4).FS3FileArray g = w4.FS3FileArray g := by
  simp [commitRead, Function.update_noteq hg]

/-- One pass of the loop of `fs3_read` inside the file: the pass ends normally, moves the
position by the bytes handled and changes neither the length nor the allocation map. -/
theorem read_pass_inv (G : Geometry) (hG : G.Valid) (P : Peer σ) (hP : Accepts G P)
    (fd : Int) (count bytesRead : Int) (buf : Buffer) (w : World σ) (u : Nat)
    (hfd : fd ≠ -1) (hc : Consistent G w fd u) (hcount : 0 < count)
    (hle : count ≤ (w.FS3FileArray fd).length - (w.FS3FileArray fd).position) :
    ∃ buf1 w1,
      fs3_read_body G P fd count bytesRead buf w
        = Step.next (writeChunk G w fd count) (buf1, w1) ∧
      Consistent G w1 fd u ∧
      (w1.FS3FileArray fd).position = (w.FS3FileArray fd).position + writeChunk G w fd count ∧
      (w1.FS3FileArray fd).length = (w.FS3FileArray fd).length ∧
      w1.FS3DiskMap = w.FS3DiskMap ∧
      (w1.FS3FileArray fd).«open» = (w.FS3FileArray fd).«open» ∧
      (w1.FS3FileArray fd).created = (w.FS3FileArray fd).created ∧
      (∀ g, g ≠ fd → w1.FS3FileArray g = w.FS3FileArray g) := by
  have hS := hG.sector_pos
  obtain ⟨hm, hu, hp0, hpL, hcells⟩ := hc
  obtain ⟨hd0, hdc, hdle⟩ := writeChunk_spec G hS w fd count hp0 hcount
  have hk := sector_index_lt G hS _ _ hp0 hpL (Or.inl (by omega))
  obtain ⟨q, b, hqu, hqc, hqk, hb, heq⟩ := read_pass G hG P hP fd count bytesRead buf w u hfd hu
    ⟨hp0, hpL, hcells⟩ hk
  rw [readChunk_spec G hS w fd count hp0 hcount hle] at heq
  refine ⟨_, _, heq, ⟨?_, ?_, ?_, ?_, ?_⟩, ?_, ?_, ?_, ?_, ?_, ?_⟩
  · simp [commitRead, hm]
  · simp only [commitRead, fetch_sector_map, seekTo_map]; exact hu
  · rw [commitRead_file]; simp only [fetch_sector_files, seekTo_files]; omega
  · rw [commitRead_file]; simp only [fetch_sector_files, seekTo_files]; split <;> omega
  · rw [commitRead_file]
    simp only [commitRead, fetch_sector_map, seekTo_map, fetch_sector_files, seekTo_files]
    rw [if_neg (by omega)]; exact hcells
  · rw [commitRead_file]; simp
  · rw [commitRead_file]; simp only [fetch_sector_files, seekTo_files]
    rw [if_neg (by omega)]
  · simp [commitRead]
  · rw [commitRead_file]; simp
  · rw [commitRead_file]; simp
  · intro g hg; rw [commitRead_other _ _ _ g hg]; simp

/-- The loop of `fs3_read` when the bytes asked for lie inside the file: it ends within
`count` passes and returns the bytes read so far plus `count`.  `J` is any further
property of the bytes left, the bytes read, the user buffer and the world that every pass
preserves. -/
theorem fs3_read_loop_spec (G : Geometry) (hG : G.Valid) (P : Peer σ) (hP : Accepts G P)
    (fd : Int) (hfd : fd ≠ -1) (u : Nat)
    (J : Int → Int → Buffer → World σ → Prop)
    (hJ : ∀ (count br : Int) (buf buf1 : Buffer) (w w1 : World σ), 0 < count →
      count ≤ (w.FS3FileArray fd).length - (w.FS3FileArray fd).position →
      Consistent G w fd u → J count br buf w →
      fs3_read_body G P fd count br buf w = Step.next (writeChunk G w fd count) (buf1, w1) →
      J (count - writeChunk G w fd count) (br + writeChunk G w fd count) buf1 w1)
    (fuel : Nat) (count br : Int) (buf : Buffer) (w : World σ)
    (hcount : 0 ≤ count)
    (hle : count ≤ (w.FS3FileArray fd).length - (w.FS3FileArray fd).position)
    (hfuel : count.toNat ≤ fuel) (hc : Consistent G w fd u) (hJ0 : J count br buf w) :
    ∃ buf1 w1,
      fs3_read_loop G P fd fuel count br buf w = some (br + count, buf1, w1) ∧
      Consistent G w1 fd u ∧ J 0 (br + count) buf1 w1 ∧
      (w1.FS3FileArray fd).position = (w.FS3FileArray fd).position + count ∧
      (w1.FS3FileArray fd).length = (w.FS3FileArray fd).length ∧
      w1.FS3DiskMap = w.FS3DiskMap ∧
      (w1.FS3FileArray fd).«open» = (w.FS3FileArray fd).«open» ∧
      (w1.FS3FileArray fd).created = (w.FS3FileArray fd).created ∧
      (∀ g, g ≠ fd → w1.FS3FileArray g = w.FS3FileArray g) := by
  induction fuel generalizing count br buf w with
  | zero =>
    have h0 : count = 0 := by omega
    subst h0
    exact ⟨buf, w, by simp [fs3_read_loop], hc, by simpa using hJ0, by omega, rfl, rfl, rfl, rfl,
      fun _ _ => rfl⟩
  | succ n ih =>
    by_cases hpos : count > 0
    · have hS := hG.sector_pos
      obtain ⟨hd0, hdc, hdle⟩ := writeChunk_spec G hS w fd count hc.file.1 hpos
      obtain ⟨buf1, w1, heq, hc1, hp1, hl1, hm1, ho1, hcr1, hoth1⟩ :=
        read_pass_inv G hG P hP fd count br buf w u hfd hc hpos hle
      have hJ1 := hJ count br buf buf1 w w1 hpos hle hc hJ0 heq
      obtain ⟨buf2, w2, heq2, hc2, hJ2, hp2, hl2, hm2, ho2, hcr2, hoth2⟩ :=
        ih (count - writeChunk G w fd count) (br + writeChunk G w fd count) buf1 w1 (by omega)
          (by rw [hl1, hp1]; omega) (by omega) hc1 hJ1
      have e : br + writeChunk G w fd count + (count - writeChunk G w fd count) = br + count := by
        omega
      rw [e] at heq2 hJ2
      refine ⟨buf2, w2, ?_, hc2, hJ2, by omega, by rw [hl2, hl1], by rw [hm2, hm1],
        by rw [ho2, ho1], by rw [hcr2, hcr1], fun g hg => by rw [hoth2 g hg, hoth1 g hg]⟩
      unfold fs3_read_loop
      rw [if_pos hpos, heq]
      exact heq2
    · have h0 : count = 0 := by omega
      subst h0
      exact ⟨buf, w, by simp [fs3_read_loop], hc, by simpa using hJ0, by omega, rfl, rfl, rfl, rfl,
        fun _ _ => rfl⟩

/-! ### The controller answers every request that addresses the disk -/

theorem controller_accepts (G : Geometry) (hG : G.Valid) : Accepts G (controller G) := by
  have h1 := hG.track_size_le
  have h2 := hG.max_tracks_le
  refine ⟨fun st trk htrk => ?_, fun st sec hsec => ?_, fun st sec data hsec => ?_⟩
  · refine ⟨replyCmdblock (construct_fs3_cmdblock FS3_OP_TSEEK 0 trk 0) 0, nullBuf, ?_,
      getReturnBit_reply _ 0 (by decide)⟩
    simp only [controller, deconstruct_construct FS3_OP_TSEEK 0 trk (by decide) (by decide)
      (by omega)]
    simp [FS3_OP_TSEEK, FS3_OP_MOUNT, FS3_OP_UMOUNT, htrk]
  · refine ⟨replyCmdblock (construct_fs3_cmdblock FS3_OP_RDSECT sec 0 0) 0, st.sectors st.head sec, ?_,
      getReturnBit_reply _ 0 (by decide)⟩
    simp only [controller, deconstruct_construct FS3_OP_RDSECT sec 0 (by decide) (by omega)
      (by decide)]
    simp [FS3_OP_TSEEK, FS3_OP_MOUNT, FS3_OP_UMOUNT, FS3_OP_RDSECT, hsec]
  · refine ⟨replyCmdblock (construct_fs3_cmdblock FS3_OP_WRSECT sec 0 0) 0, nullBuf, ?_,
      getReturnBit_reply _ 0 (by decide)⟩
    simp only [controller, deconstruct_construct FS3_OP_WRSECT sec 0 (by decide) (by omega)
      (by decide)]
    simp [FS3_OP_TSEEK, FS3_OP_MOUNT, FS3_OP_UMOUNT, FS3_OP_RDSECT, FS3_OP_WRSECT, hsec]

/-! ### Mounting and opening -/

theorem getOpCodeBits_mount : getOpCodeBits (construct_fs3_cmdblock FS3_OP_MOUNT 0 0 0) = 0 := by
  decide

/-- The world after a mount whose exchange is answered with return status 0. -/
theorem fs3_mount_disk_ok (G : Geometry) (P : Peer σ) (w : World σ) (hm : w.diskMounted = false)
    (reply : Nat) (data : Buffer)
    (hex : (P.exchange w.peer (construct_fs3_cmdblock FS3_OP_MOUNT 0 0 0) none).2
      = some (reply, data))
    (hret : getReturnBit reply = 0) :
    fs3_mount_disk G P w = (0,
      { diskMounted := true
        currentDiskTrack := -1
        FS3FileArray := fun i =>
          if 0 ≤ i ∧ i < FS3_MAX_TOTAL_FILES then { w.FS3FileArray i with created := false }
          else w.FS3FileArray i
        FS3DiskMap := fun i j =>
          if 0 ≤ i ∧ i < G.FS3_MAX_TRACKS ∧ 0 ≤ j ∧ j < G.FS3_TRACK_SIZE then -1
          else w.FS3DiskMap i j
        cache := w.cache
        peer := (P.exchange w.peer (construct_fs3_cmdblock FS3_OP_MOUNT 0 0 0) none).1
        wire := construct_fs3_cmdblock FS3_OP_MOUNT 0 0 0 :: w.wire }) := by
  have hop : (getOpCodeBits (construct_fs3_cmdblock FS3_OP_MOUNT 0 0 0) = FS3_OP_WRSECT) = False := by
    simp [getOpCodeBits_mount, FS3_OP_WRSECT]
  simp only [fs3_mount_disk, network_fs3_syscall, hm, hop, if_false, hex]
  simp [hret]

/-- The world stays unmounted when the exchange of the mount fails or is refused. -/
theorem fs3_mount_disk_fails (G : Geometry) (P : Peer σ) (w : World σ)
    (hm : w.diskMounted = false)
    (hex : (P.exchange w.peer (construct_fs3_cmdblock FS3_OP_MOUNT 0 0 0) none).2 = none ∨
      ∃ reply data,
        (P.exchange w.peer (construct_fs3_cmdblock FS3_OP_MOUNT 0 0 0) none).2 = some (reply, data) ∧
        getReturnBit reply ≠ 0) :
    (fs3_mount_disk G P w).1 = -1 ∧ (fs3_mount_disk G P w).2.diskMounted = false := by
  have hop : (getOpCodeBits (construct_fs3_cmdblock FS3_OP_MOUNT 0 0 0) = FS3_OP_WRSECT) = False := by
    simp [getOpCodeBits_mount, FS3_OP_WRSECT]
  rcases hex with hex | ⟨reply, data, hex, hret⟩
  · simp [fs3_mount_disk, network_fs3_syscall, hm, hop, hex]
  · simp [fs3_mount_disk, network_fs3_syscall, hm, hop, hex, hret]

theorem usedPrefix_zero (G : Geometry) (map : Int → Int → Int)
    (h : ∀ i j : Nat, i < G.FS3_MAX_TRACKS → j < G.FS3_TRACK_SIZE → map (i : Int) (j : Int) = -1) :
    UsedPrefix G map 0 := by
  refine ⟨Nat.zero_le _, fun q hq => by omega, fun q _ hq => ?_⟩
  unfold cellAt
  exact h _ _ (div_lt_of_lt_cells G q hq) (Nat.mod_lt q (track_size_pos_of_lt_cells G q hq))

theorem countCells_eq_zero (cell : Nat → Int) (h : Int) (n : Nat)
    (hne : ∀ q, q < n → cell q ≠ h) : countCells cell h n = 0 := by
  induction n with
  | zero => rfl
  | succ m ih =>
    rw [countCells_succ_of_ne cell h m (hne m (by omega))]
    exact ih (fun q hq => hne q (by omega))

theorem fs3_open_map (path : String) (g : Int) (w : World σ) :
    (fs3_open path g w).2.FS3DiskMap = w.FS3DiskMap := by
  unfold fs3_open
  split
  · rfl
  · split <;> rfl

theorem fs3_seek_map (fd : Int) (loc : Nat) (w : World σ) :
    (fs3_seek fd loc w).2.FS3DiskMap = w.FS3DiskMap := by
  unfold fs3_seek
  split_ifs <;> rfl

theorem sectorsFor_zero (G : Geometry) (hS : 0 < G.FS3_SECTOR_SIZE) : sectorsFor G 0 = 0 := by
  rw [sectorsFor_eq G 0 (le_refl _)]
  apply Nat.div_eq_of_lt
  simp; omega

/-- A record of length 0 at position 0 on an empty allocation map is consistent. -/
theorem consistent_of_empty (G : Geometry) (hS : 0 < G.FS3_SECTOR_SIZE) (w : World σ) (fd : Int)
    (hfd : fd ≠ -1) (hm : w.diskMounted = true)
    (hmap : ∀ i j : Nat, i < G.FS3_MAX_TRACKS → j < G.FS3_TRACK_SIZE →
      w.FS3DiskMap (i : Int) (j : Int) = -1)
    (hp : (w.FS3FileArray fd).position = 0) (hl : (w.FS3FileArray fd).length = 0) :
    Consistent G w fd 0 := by
  have hu := usedPrefix_zero G w.FS3DiskMap hmap
  refine ⟨hm, hu, by omega, by omega, ?_⟩
  rw [hl, sectorsFor_zero G hS]
  exact countCells_eq_zero _ _ _
    (fun q hq => by rw [hu.2.2 q (Nat.zero_le _) hq]; exact fun h => hfd h.symm)

/-! ### `fs3_write` and `fs3_read` as a whole -/

/-- A call of `fs3_write` on a consistent allocation map with enough free cells: it
returns `count` and leaves the map consistent. -/
theorem fs3_write_consistent (G : Geometry) (hG : G.Valid) (P : Peer σ) (hP : Accepts G P)
    (fuel : Nat) (fd : Int) (buf : Buffer) (count : Int) (scratch : Int → Buffer) (w : World σ)
    (u : Nat) (hfd : 0 ≤ fd ∧ fd < FS3_MAX_TOTAL_FILES) (hc : Consistent G w fd u)
    (hcr : (w.FS3FileArray fd).created = true) (hop : (w.FS3FileArray fd).«open» = true)
    (hcount : 0 ≤ count) (hfuel : count.toNat ≤ fuel)
    (hfree : u + sectorsFor G (max (w.FS3FileArray fd).length
        ((w.FS3FileArray fd).position + count))
      ≤ G.cells + sectorsFor G (w.FS3FileArray fd).length) :
    ∃ w1 u1,
      fs3_write G P fuel fd buf count scratch w = some (count, w1) ∧
      Consistent G w1 fd u1 ∧
      (w1.FS3FileArray fd).position = (w.FS3FileArray fd).position + count ∧
      (w1.FS3FileArray fd).length
        = max (w.FS3FileArray fd).length ((w.FS3FileArray fd).position + count) ∧
      u1 + sectorsFor G (w.FS3FileArray fd).length
        = u + sectorsFor G (w1.FS3FileArray fd).length ∧
      (w1.FS3FileArray fd).«open» = true ∧ (w1.FS3FileArray fd).created = true ∧
      (∀ g, g ≠ fd → w1.FS3FileArray g = w.FS3FileArray g) ∧
      (∀ g n, g ≠ fd → g ≠ -1 →
        countCells (cellAt G w1.FS3DiskMap) g n = countCells (cellAt G w.FS3DiskMap) g n) := by
  obtain ⟨w1, u1, h1, h2, -, h3, h4, h5, h6, h7, h8, h9⟩ :=
    fs3_write_loop_spec G hG P hP fd buf scratch (by omega) (fun _ _ _ => True)
      (fun _ _ _ _ _ _ _ _ _ _ => trivial) fuel count 0 w u hcount hfuel hc hfree trivial
  have hr : ¬ (fd > (FS3_MAX_TOTAL_FILES : Int) ∨ fd < 0) := by omega
  refine ⟨w1, u1, ?_, h2, h3, h4, h5, by rw [h6, hop], by rw [h7, hcr], h8, h9⟩
  unfold fs3_write
  rw [if_neg (by simp [hc.mounted]), if_neg hr, if_neg (by simp [hcr]), if_neg (by simp [hop]), h1]
  simp

/-- A call of `fs3_read` for bytes that lie inside the file: it returns `count`, moves the
position and changes neither the length nor the allocation map. -/
theorem fs3_read_consistent (G : Geometry) (hG : G.Valid) (P : Peer σ) (hP : Accepts G P)
    (fuel : Nat) (fd : Int) (buf : Buffer) (count : Int) (w : World σ)
    (u : Nat) (hfd : 0 ≤ fd ∧ fd < FS3_MAX_TOTAL_FILES) (hc : Consistent G w fd u)
    (hcr : (w.FS3FileArray fd).created = true) (hop : (w.FS3FileArray fd).«open» = true)
    (hcount : 0 ≤ count)
    (hle : count ≤ (w.FS3FileArray fd).length - (w.FS3FileArray fd).position)
    (hfuel : count.toNat ≤ fuel) :
    ∃ buf1 w1,
      fs3_read G P fuel fd buf count w = some (count, buf1, w1) ∧
      Consistent G w1 fd u ∧
      (w1.FS3FileArray fd).position = (w.FS3FileArray fd).position + count ∧
      (w1.FS3FileArray fd).length = (w.FS3FileArray fd).length ∧
      w1.FS3DiskMap = w.FS3DiskMap ∧
      (w1.FS3FileArray fd).«open» = true ∧ (w1.FS3FileArray fd).created = true ∧
      (∀ g, g ≠ fd → w1.FS3FileArray g = w.FS3FileArray g) := by
  have hr : ¬ (fd > (FS3_MAX_TOTAL_FILES : Int) ∨ fd < 0) := by omega
  unfold fs3_read
  rw [if_neg (by simp [hc.mounted]), if_neg hr, if_neg (by simp [hcr]), if_neg (by simp [hop])]
  by_cases hend : (w.FS3FileArray fd).length - (w.FS3FileArray fd).position = 0
  · rw [if_pos hend]
    have h0 : count = 0 := by omega
    subst h0
    exact ⟨buf, w, rfl, hc, by omega, rfl, rfl, hop, hcr, fun _ _ => rfl⟩
  · rw [if_neg hend]
    obtain ⟨buf1, w1, h1, h2, -, h3, h4, h5, h6, h7, h8⟩ :=
      fs3_read_loop_spec G hG P hP fd (by omega) u (fun _ _ _ _ => True)
        (fun _ _ _ _ _ _ _ _ _ _ _ => trivial) fuel count 0 buf w hcount hle hfuel hc trivial
    refine ⟨buf1, w1, ?_, h2, h3, h4, h5, by rw [h6, hop], by rw [h7, hcr], h8⟩
    rw [h1]; simp

/-- A successful `fs3_seek` keeps the allocation map consistent. -/
theorem fs3_seek_consistent (G : Geometry) (w : World σ) (fd : Int) (u : Nat) (loc : Nat)
    (hfd : 0 ≤ fd ∧ fd < FS3_MAX_TOTAL_FILES) (hc : Consistent G w fd u)
    (hcr : (w.FS3FileArray fd).created = true) (hop : (w.FS3FileArray fd).«open» = true)
    (hloc : (loc : Int) ≤ (w.FS3FileArray fd).length)
    (hlen : (w.FS3FileArray fd).length < 2 ^ 31) :
    (fs3_seek fd loc w).1 = 0 ∧ Consistent G (fs3_seek fd loc w).2 fd u ∧
    ((fs3_seek fd loc w).2.FS3FileArray fd).position = loc ∧
    ((fs3_seek fd loc w).2.FS3FileArray fd).length = (w.FS3FileArray fd).length ∧
    ((fs3_seek fd loc w).2.FS3FileArray fd).created = true ∧
    ((fs3_seek fd loc w).2.FS3FileArray fd).«open» = true := by
  obtain ⟨hm, hu, hp0, hpL, hcells⟩ := hc
  have hr : ¬ (fd > (FS3_MAX_TOTAL_FILES : Int) ∨ fd < 0) := by omega
  have hu32 : toU32 (w.FS3FileArray fd).length = (w.FS3FileArray fd).length.toNat := by
    unfold toU32; congr 1; omega
  have h2 : ¬ loc > (w.FS3FileArray fd).length.toNat := by omega
  have h3 : toI32 loc = (loc : Int) := by
    unfold toI32
    have : loc % 4294967296 = loc := by omega
    rw [this, if_pos (by omega)]
  unfold fs3_seek
  rw [if_neg hr, if_neg (by simp [hcr]), if_neg (by rw [hu32]; exact h2), if_neg (by simp [hop]), h3]
  refine ⟨rfl, ⟨hm, hu, ?_, ?_, ?_⟩, ?_, ?_, ?_, ?_⟩ <;> simp <;> first | omega | assumption

/-! ### The scenarios -/

theorem scenarioGeometry_valid : scenarioGeometry.Valid :=
  ⟨by decide, by decide, by decide⟩

theorem mountedWorld_map (i j : Nat) (hi : i < 64) (hj : j < 1024) :
    mountedWorld.FS3DiskMap (i : Int) (j : Int) = -1 := by
  unfold mountedWorld
  rw [fs3_mount_disk_ok scenarioGeometry (controller scenarioGeometry) (World.boot blankDisk) rfl
    _ _ rfl (by decide)]
  simp only [scenarioGeometry]
  rw [if_pos (by omega)]

set_option maxRecDepth 100000 in
/-- After `mount; open("a")` the new file has handle 0 and is consistent with the empty
allocation map. -/
theorem openedWorld_a :
    Consistent scenarioGeometry (openedWorld "a") 0 0 ∧
    ((openedWorld "a").FS3FileArray 0).created = true ∧
    ((openedWorld "a").FS3FileArray 0).«open» = true ∧
    ((openedWorld "a").FS3FileArray 0).position = 0 ∧
    ((openedWorld "a").FS3FileArray 0).length = 0 :=
  ⟨consistent_of_empty scenarioGeometry (by decide) (openedWorld "a") 0 (by decide) (by decide)
    (fun i j hi hj => by
      unfold openedWorld
      rw [fs3_open_map]
      exact mountedWorld_map i j hi hj) (by decide) (by decide),
    by decide, by decide, by decide, by decide⟩

set_option maxRecDepth 100000 in
/-- After `mount; open("b")` the new file has handle 0 and is consistent with the empty
allocation map. -/
theorem openedWorld_b :
    Consistent scenarioGeometry (openedWorld "b") 0 0 ∧
    ((openedWorld "b").FS3FileArray 0).created = true ∧
    ((openedWorld "b").FS3FileArray 0).«open» = true ∧
    ((openedWorld "b").FS3FileArray 0).position = 0 ∧
    ((openedWorld "b").FS3FileArray 0).length = 0 :=
  ⟨consistent_of_empty scenarioGeometry (by decide) (openedWorld "b") 0 (by decide) (by decide)
    (fun i j hi hj => by
      unfold openedWorld
      rw [fs3_open_map]
      exact mountedWorld_map i j hi hj) (by decide) (by decide),
    by decide, by decide, by decide, by decide⟩

theorem sectorsFor_scenario_5 : sectorsFor scenarioGeometry 5 = 1 := by decide

theorem sectorsFor_scenario_1500 : sectorsFor scenarioGeometry 1500 = 2 := by decide

theorem sectorsFor_scenario_0 : sectorsFor scenarioGeometry 0 = 0 := by decide

/-- After `mount; h=open("a"); write(h,"HELLO",5)` the file is consistent with the
allocation map, whose first cell is taken. -/
theorem helloWorld_consistent :
    Consistent scenarioGeometry helloWorld 0 1 ∧
    (helloWorld.FS3FileArray 0).created = true ∧
    (helloWorld.FS3FileArray 0).«open» = true ∧
    (helloWorld.FS3FileArray 0).position = 5 ∧
    (helloWorld.FS3FileArray 0).length = 5 := by
  obtain ⟨hc, hcr, hop, hp, hl⟩ := openedWorld_a
  obtain ⟨w1, u1, h1, h2, h3, h4, h5, h6, h7, -, -⟩ :=
    fs3_write_consistent scenarioGeometry scenarioGeometry_valid (controller scenarioGeometry)
      (controller_accepts _ scenarioGeometry_valid) 5 0 helloBytes 5 (fun _ => nullBuf)
      (openedWorld "a") 0 (by decide) hc hcr hop (by decide) (by decide)
      (by rw [hp, hl]; decide)
  have e : helloWorld = w1 := by unfold helloWorld; rw [h1]; rfl
  have h3a : (w1.FS3FileArray 0).position = 5 := by rw [h3, hp]; rfl
  have h4a : (w1.FS3FileArray 0).length = 5 := by rw [h4, hl, hp]; rfl
  rw [hl, h4a, sectorsFor_scenario_0, sectorsFor_scenario_5] at h5
  have hu : u1 = 1 := by omega
  rw [e, ← hu]
  exact ⟨h2, h7, h6, h3a, h4a⟩

/-! ### The cache -/

theorem getScan_some (lines : Nat → FS3CacheEntry) (t s : Int) (fuel i0 i : Nat)
    (h : getScan lines t s fuel i0 = some i) :
    i0 ≤ i ∧ i < i0 + fuel ∧ (lines i).track = t ∧ (lines i).sector = s := by
  induction fuel generalizing i0 with
  | zero => simp [getScan] at h
  | succ n ih =>
    unfold getScan at h
    split at h
    · next hm =>
      simp only [Option.some.injEq] at h
      subst h
      exact ⟨le_refl _, by omega, hm.1, hm.2⟩
    · obtain ⟨a, b, c⟩ := ih (i0 + 1) h
      exact ⟨by omega, by omega, c⟩

theorem getScan_none (lines : Nat → FS3CacheEntry) (t s : Int) (fuel i0 : Nat)
    (h : getScan lines t s fuel i0 = none) :
    ∀ i, i0 ≤ i → i < i0 + fuel → ¬ ((lines i).track = t ∧ (lines i).sector = s) := by
  induction fuel generalizing i0 with
  | zero => intro i h1 h2; omega
  | succ n ih =>
    unfold getScan at h
    split at h
    · simp at h
    · next hm =>
      intro i h1 h2
      by_cases hi : i = i0
      · subst hi; exact hm
      · exact ih (i0 + 1) h i (by omega) (by omega)

/-- `fs3_get_cache` changes no key and no payload of the cache. -/
theorem fs3_get_cache_lines (t s : Int) (c : Cache) :
    (fs3_get_cache t s c).2.cacheSize = c.cacheSize ∧
    (fs3_get_cache t s c).2.cacheCreated = c.cacheCreated ∧
    ∀ i, ((fs3_get_cache t s c).2.FS3Cache i).track = (c.FS3Cache i).track ∧
      ((fs3_get_cache t s c).2.FS3Cache i).sector = (c.FS3Cache i).sector ∧
      ((fs3_get_cache t s c).2.FS3Cache i).dataBuffer = (c.FS3Cache i).dataBuffer := by
  unfold fs3_get_cache
  split
  · exact ⟨rfl, rfl, fun _ => ⟨rfl, rfl, rfl⟩⟩
  · split
    · exact ⟨rfl, rfl, fun _ => ⟨rfl, rfl, rfl⟩⟩
    · next g _ =>
      refine ⟨rfl, rfl, fun i => ?_⟩
      by_cases hi : i = g
      · subst hi; simp
      · simp [Function.update_noteq hi]

/-- What `fs3_get_cache` returns when every line filed under the sector holds `data`. -/
theorem fs3_get_cache_agrees (t s : Int) (c : Cache) (data b : Buffer)
    (ha : CacheAgrees c t s data) (h : (fs3_get_cache t s c).1 = some b) : b = data := by
  unfold fs3_get_cache at h
  split at h
  · simp at h
  · next hcr =>
    split at h
    · simp at h
    · next g hg =>
      obtain ⟨-, h2, h3, h4⟩ := getScan_some _ _ _ _ _ _ hg
      simp only [Option.some.injEq] at h
      rw [← h]
      exact ha hcr g (by omega) h3 h4

theorem cacheAgrees_of_lines (c c1 : Cache) (t s : Int) (data : Buffer)
    (h1 : c1.cacheSize = c.cacheSize) (h2 : c1.cacheCreated = c.cacheCreated)
    (h3 : ∀ i, (c1.FS3Cache i).track = (c.FS3Cache i).track ∧
      (c1.FS3Cache i).sector = (c.FS3Cache i).sector ∧
      (c1.FS3Cache i).dataBuffer = (c.FS3Cache i).dataBuffer)
    (ha : CacheAgrees c t s data) : CacheAgrees c1 t s data := by
  intro hcr i hi ht hs
  rw [(h3 i).2.2]
  exact ha (by rw [← h2]; exact hcr) i (by omega) (by rw [← (h3 i).1]; exact ht)
    (by rw [← (h3 i).2.1]; exact hs)

theorem cacheNoDup_of_lines (c c1 : Cache)
    (h1 : c1.cacheSize = c.cacheSize)
    (h3 : ∀ i, (c1.FS3Cache i).track = (c.FS3Cache i).track ∧
      (c1.FS3Cache i).sector = (c.FS3Cache i).sector ∧
      (c1.FS3Cache i).dataBuffer = (c.FS3Cache i).dataBuffer)
    (hn : CacheNoDup c) : CacheNoDup c1 := by
  intro i j hi hj ht hs h0
  rw [(h3 i).1, (h3 j).1] at ht
  rw [(h3 i).2.1, (h3 j).2.1] at hs
  rw [(h3 i).1] at h0
  exact hn i j (by omega) (by omega) ht hs h0

/-- The line chosen by the scan of `fs3_put_cache` when a line filed under the sector
exists: such a line. -/
theorem putScan_match (lines : Nat → FS3CacheEntry) (t s : Int) (fuel i0 minUsed putIndex : Nat)
    (j : Nat) (hj0 : i0 ≤ j) (hj1 : j < i0 + fuel)
    (hj : (lines j).track = t ∧ (lines j).sector = s) :
    i0 ≤ putScan lines t s fuel i0 minUsed putIndex ∧
    putScan lines t s fuel i0 minUsed putIndex < i0 + fuel ∧
    (lines (putScan lines t s fuel i0 minUsed putIndex)).track = t ∧
    (lines (putScan lines t s fuel i0 minUsed putIndex)).sector = s := by
  induction fuel generalizing i0 minUsed putIndex with
  | zero => omega
  | succ n ih =>
    unfold putScan
    split
    · next hm => exact ⟨le_refl _, by omega, hm.1, hm.2⟩
    · next hm =>
      have hne : j ≠ i0 := by
        intro e; subst e; exact hm hj
      split
      · obtain ⟨a, b, c⟩ := ih (i0 + 1) (lines i0).countUsed i0 (by omega) (by omega)
        exact ⟨by omega, by omega, c⟩
      · obtain ⟨a, b, c⟩ := ih (i0 + 1) minUsed putIndex (by omega) (by omega)
        exact ⟨by omega, by omega, c⟩

/-- The keys and payloads of the cache after `fs3_put_cache` on a created cache: the
chosen line holds the new sector, every other line is as before. -/
theorem fs3_put_cache_lines (t s : Int) (data : Buffer) (c : Cache) (hcr : c.cacheCreated ≠ 0) :
    (fs3_put_cache t s data c).2.cacheSize = c.cacheSize ∧
    (fs3_put_cache t s data c).2.cacheCreated = c.cacheCreated ∧
    ((fs3_put_cache t s data c).2.FS3Cache
      (putScan c.FS3Cache t s c.cacheSize 0 (c.FS3Cache 0).countUsed 0)).track = t ∧
    ((fs3_put_cache t s data c).2.FS3Cache
      (putScan c.FS3Cache t s c.cacheSize 0 (c.FS3Cache 0).countUsed 0)).sector = s ∧
    ((fs3_put_cache t s data c).2.FS3Cache
      (putScan c.FS3Cache t s c.cacheSize 0 (c.FS3Cache 0).countUsed 0)).dataBuffer = data ∧
    ∀ i, i ≠ putScan c.FS3Cache t s c.cacheSize 0 (c.FS3Cache 0).countUsed 0 →
      (fs3_put_cache t s data c).2.FS3Cache i = c.FS3Cache i := by
  unfold fs3_put_cache
  rw [if_neg hcr]
  refine ⟨rfl, rfl, by simp, by simp, by simp, fun i hi => ?_⟩
  simp [Function.update_noteq hi]

theorem fs3_put_cache_not_created (t s : Int) (data : Buffer) (c : Cache)
    (hcr : c.cacheCreated = 0) : (fs3_put_cache t s data c).2 = c := by
  unfold fs3_put_cache
  rw [if_pos hcr]

/-- After `fs3_put_cache(trk, sct, data)` every line filed under the sector holds `data`. -/
theorem fs3_put_cache_agrees (t s : Int) (data : Buffer) (c : Cache) (hn : CacheNoDup c)
    (ht : 0 ≤ t) : CacheAgrees (fs3_put_cache t s data c).2 t s data := by
  intro hcr1 i hi hti hsi
  by_cases hcr : c.cacheCreated = 0
  · rw [fs3_put_cache_not_created t s data c hcr] at hcr1
    exact absurd hcr hcr1
  · obtain ⟨h1, h2, h3, h4, h5, h6⟩ := fs3_put_cache_lines t s data c hcr
    by_cases hip : i = putScan c.FS3Cache t s c.cacheSize 0 (c.FS3Cache 0).countUsed 0
    · rw [hip]; exact h5
    · rw [h6 i hip] at hti hsi
      rw [h1] at hi
      obtain ⟨-, b, c1, c2⟩ := putScan_match c.FS3Cache t s c.cacheSize 0 (c.FS3Cache 0).countUsed 0
        i (Nat.zero_le _) (by omega) ⟨hti, hsi⟩
      exact absurd (hn i _ hi (by omega) (by rw [hti, c1]) (by rw [hsi, c2]) (by rw [hti]; exact ht))
        hip

/-- `fs3_put_cache` for one sector leaves what the cache holds for another sector. -/
theorem fs3_put_cache_agrees_other (t s t1 s1 : Int) (data b : Buffer) (c : Cache)
    (hne : ¬ (t1 = t ∧ s1 = s)) (ha : CacheAgrees c t1 s1 b) :
    CacheAgrees (fs3_put_cache t s data c).2 t1 s1 b := by
  intro hcr1 i hi hti hsi
  by_cases hcr : c.cacheCreated = 0
  · rw [fs3_put_cache_not_created t s data c hcr] at hcr1
    exact absurd hcr hcr1
  · obtain ⟨h1, h2, h3, h4, h5, h6⟩ := fs3_put_cache_lines t s data c hcr
    by_cases hip : i = putScan c.FS3Cache t s c.cacheSize 0 (c.FS3Cache 0).countUsed 0
    · rw [hip, h3] at hti
      rw [hip, h4] at hsi
      exact absurd ⟨hti.symm, hsi.symm⟩ hne
    · rw [h6 i hip] at hti hsi ⊢
      rw [h1] at hi
      exact ha hcr i hi hti hsi

/-- `fs3_put_cache` keeps the lines of the cache filed under different sectors. -/
theorem fs3_put_cache_noDup (t s : Int) (data : Buffer) (c : Cache) (hn : CacheNoDup c) :
    CacheNoDup (fs3_put_cache t s data c).2 := by
  by_cases hcr : c.cacheCreated = 0
  · rw [fs3_put_cache_not_created t s data c hcr]; exact hn
  · obtain ⟨h1, h2, h3, h4, h5, h6⟩ := fs3_put_cache_lines t s data c hcr
    have key : ∀ i j, i < c.cacheSize → j < c.cacheSize →
        i = putScan c.FS3Cache t s c.cacheSize 0 (c.FS3Cache 0).countUsed 0 →
        j ≠ putScan c.FS3Cache t s c.cacheSize 0 (c.FS3Cache 0).countUsed 0 →
        (c.FS3Cache j).track = t → (c.FS3Cache j).sector = s → 0 ≤ t → i = j := by
      intro i j hi hj hip hjp htj hsj h0
      obtain ⟨-, b, c1, c2⟩ := putScan_match c.FS3Cache t s c.cacheSize 0 (c.FS3Cache 0).countUsed 0
        j (Nat.zero_le _) (by omega) ⟨htj, hsj⟩
      have := hn j (putScan c.FS3Cache t s c.cacheSize 0 (c.FS3Cache 0).countUsed 0) hj
        (by omega) (by rw [htj, c1]) (by rw [hsj, c2]) (by rw [htj]; exact h0)
      omega
    intro i j hi hj ht hs h0
    rw [h1] at hi hj
    by_cases hip : i = putScan c.FS3Cache t s c.cacheSize 0 (c.FS3Cache 0).countUsed 0
    · by_cases hjp : j = putScan c.FS3Cache t s c.cacheSize 0 (c.FS3Cache 0).countUsed 0
      · omega
      · rw [hip, h3, h6 j hjp] at ht
        rw [hip, h4, h6 j hjp] at hs
        rw [hip, h3] at h0
        exact key i j hi hj hip hjp ht.symm hs.symm h0
    · by_cases hjp : j = putScan c.FS3Cache t s c.cacheSize 0 (c.FS3Cache 0).countUsed 0
      · rw [hjp, h3, h6 i hip] at ht
        rw [hjp, h4, h6 i hip] at hs
        rw [h6 i hip, ht] at h0
        exact (key j i hj hi hjp hip ht hs h0).symm
      · rw [h6 i hip, h6 j hjp] at ht hs
        rw [h6 i hip] at h0
        exact hn i j hi hj ht hs h0

/-! ### The controller that stores sectors faithfully -/

theorem controller_tseek (G : Geometry) (hG : G.Valid) (st : Disk) (trk : Nat)
    (htrk : trk < G.FS3_MAX_TRACKS) :
    (controller G).exchange st (construct_fs3_cmdblock FS3_OP_TSEEK 0 trk 0) none
      = ({ st with head := trk },
          some (replyCmdblock (construct_fs3_cmdblock FS3_OP_TSEEK 0 trk 0) 0, nullBuf)) := by
  have h2 := hG.max_tracks_le
  simp only [controller, deconstruct_construct FS3_OP_TSEEK 0 trk (by decide) (by decide)
    (by omega)]
  simp [FS3_OP_TSEEK, FS3_OP_MOUNT, FS3_OP_UMOUNT, htrk]

theorem controller_rdsect (G : Geometry) (hG : G.Valid) (st : Disk) (sec : Nat)
    (hsec : sec < G.FS3_TRACK_SIZE) :
    (controller G).exchange st (construct_fs3_cmdblock FS3_OP_RDSECT sec 0 0) none
      = (st, some (replyCmdblock (construct_fs3_cmdblock FS3_OP_RDSECT sec 0 0) 0,
          st.sectors st.head sec)) := by
  have h1 := hG.track_size_le
  simp only [controller, deconstruct_construct FS3_OP_RDSECT sec 0 (by decide) (by omega)
    (by decide)]
  simp [FS3_OP_TSEEK, FS3_OP_MOUNT, FS3_OP_UMOUNT, FS3_OP_RDSECT, hsec]

theorem controller_wrsect (G : Geometry) (hG : G.Valid) (st : Disk) (sec : Nat) (data : Buffer)
    (hsec : sec < G.FS3_TRACK_SIZE) :
    (controller G).exchange st (construct_fs3_cmdblock FS3_OP_WRSECT sec 0 0) (some data)
      = ({ st with
            sectors :=
              Function.update st.sectors st.head (Function.update (st.sectors st.head) sec data) },
          some (replyCmdblock (construct_fs3_cmdblock FS3_OP_WRSECT sec 0 0) 0, nullBuf)) := by
  have h1 := hG.track_size_le
  simp only [controller, deconstruct_construct FS3_OP_WRSECT sec 0 (by decide) (by omega)
    (by decide)]
  simp [FS3_OP_TSEEK, FS3_OP_MOUNT, FS3_OP_UMOUNT, FS3_OP_RDSECT, FS3_OP_WRSECT, hsec]

theorem network_fs3_syscall_peer (P : Peer σ) (cmd : Nat) (buf : Buffer) (w : World σ) :
    (network_fs3_syscall P cmd buf w).2.peer
      = (P.exchange w.peer cmd (if getOpCodeBits cmd = FS3_OP_WRSECT then some buf else none)).1 := by
  simp only [network_fs3_syscall]
  split <;> rfl

/-- After the seek that precedes a sector access the head of the controller is on the
track the driver wants, and the sectors are as before. -/
theorem seekTo_controller (G : Geometry) (hG : G.Valid) (t : Nat) (ht : t < G.FS3_MAX_TRACKS)
    (w : World Disk) (hm : w.diskMounted = true) (hh : HeadOk w) :
    (seekTo G (controller G) (t : Int) w).peer.head = t ∧
    (seekTo G (controller G) (t : Int) w).peer.sectors = w.peer.sectors := by
  unfold seekTo
  split
  · have hop : ¬ (getOpCodeBits (construct_fs3_cmdblock FS3_OP_TSEEK 0 t 0) = FS3_OP_WRSECT) := by
      rw [getOpCodeBits_tseek G hG t ht]; decide
    have hr : ¬ ((t : Int) < 0 ∨ (t : Int) > (G.FS3_MAX_TRACKS : Int)) := by omega
    simp only [switch_disk_track, hm, Bool.true_eq_false, if_false, hr, Int.toNat_ofNat,
      network_fs3_syscall, hop, controller_tseek G hG w.peer t ht, getReturnBit_reply _ 0 (by decide)]
    simp
  · next h =>
    have h1 : w.currentDiskTrack = (t : Int) := by simpa using h
    refine ⟨?_, rfl⟩
    rcases hh with h2 | h2
    · omega
    · omega

/-- What `fetch_sector` does against the controller when the head is on the track: it
changes neither the controller nor the keys and payloads of the cache, and the buffer it
delivers is the payload of a cache line filed under the sector or, when there is none,
what the controller stores. -/
theorem fetch_sector_controller (G : Geometry) (hG : G.Valid) (t s : Nat)
    (hs : s < G.FS3_TRACK_SIZE) (d : Buffer) (w : World Disk) (hhead : w.peer.head = t) :
    (fetch_sector (controller G) (t : Int) (s : Int) d w).2.peer = w.peer ∧
    (fetch_sector (controller G) (t : Int) (s : Int) d w).2.cache
      = (fs3_get_cache (t : Int) (s : Int) w.cache).2 ∧
    ∀ b, (fetch_sector (controller G) (t : Int) (s : Int) d w).1 = some b →
      (fs3_get_cache (t : Int) (s : Int) w.cache).1 = some b ∨ b = w.peer.sectors t s := by
  have hu : toU16 (s : Int) = s := toU16_natCast s (by have := hG.track_size_le; omega)
  have hop : ¬ (getOpCodeBits (construct_fs3_cmdblock FS3_OP_RDSECT s 0 0) = FS3_OP_WRSECT) := by
    rw [getOpCodeBits_rdsect G hG s hs]; decide
  have hop2 := getOpCodeBits_rdsect G hG s hs
  have hne : ¬ (FS3_OP_RDSECT = FS3_OP_WRSECT) := by decide
  simp only [fetch_sector, hu]
  split
  · simp only [network_fs3_syscall, hop2, if_neg hne, if_true,
      controller_rdsect G hG w.peer s hs, getReturnBit_reply _ 0 (by decide)]
    simp [hhead]
  · next c hc =>
    refine ⟨rfl, rfl, fun b hb => Or.inl ?_⟩
    simp only [Option.some.injEq] at hb
    rw [hc, hb]

/-- What `fs3_put_cache` followed by the `WRITE_SECTOR` call does against the controller
when the head is on the track. -/
theorem storeSector_controller (G : Geometry) (hG : G.Valid) (t s : Nat)
    (hs : s < G.FS3_TRACK_SIZE) (data : Buffer) (w : World Disk) (hhead : w.peer.head = t) :
    (storeSector (controller G) (t : Int) (s : Int) data w).peer.head = t ∧
    (storeSector (controller G) (t : Int) (s : Int) data w).peer.sectors
      = Function.update w.peer.sectors t (Function.update (w.peer.sectors t) s data) ∧
    (storeSector (controller G) (t : Int) (s : Int) data w).cache
      = (fs3_put_cache (t : Int) (s : Int) data w.cache).2 := by
  have hu : toU16 (s : Int) = s := toU16_natCast s (by have := hG.track_size_le; omega)
  have hop := getOpCodeBits_wrsect G hG s hs
  unfold storeSector
  rw [hu]
  refine ⟨?_, ?_, by simp⟩
  · rw [network_fs3_syscall_peer, if_pos hop, controller_wrsect G hG _ s data hs]
    exact hhead
  · rw [network_fs3_syscall_peer, if_pos hop, controller_wrsect G hG _ s data hs]
    simp only
    rw [hhead]

/-! ### What the sectors hold along a pass -/

theorem sameSectors_refl (w : World Disk) : SameSectors w w :=
  ⟨rfl, rfl, rfl, fun _ => ⟨rfl, rfl, rfl⟩⟩

theorem sameSectors_trans (w w1 w2 : World Disk) (h1 : SameSectors w w1)
    (h2 : SameSectors w1 w2) : SameSectors w w2 :=
  ⟨h2.1.trans h1.1, h2.2.1.trans h1.2.1, h2.2.2.1.trans h1.2.2.1, fun i =>
    ⟨(h2.2.2.2 i).1.trans (h1.2.2.2 i).1, (h2.2.2.2 i).2.1.trans (h1.2.2.2 i).2.1,
      (h2.2.2.2 i).2.2.trans (h1.2.2.2 i).2.2⟩⟩

theorem sameSectors_holds (w w1 : World Disk) (h : SameSectors w w1) (t s : Nat) (data : Buffer)
    (hh : SectorHolds w t s data) : SectorHolds w1 t s data :=
  ⟨by rw [h.1]; exact hh.1, cacheAgrees_of_lines w.cache w1.cache _ _ data h.2.1 h.2.2.1 h.2.2.2 hh.2⟩

theorem sameSectors_noDup (w w1 : World Disk) (h : SameSectors w w1) (hn : CacheNoDup w.cache) :
    CacheNoDup w1.cache :=
  cacheNoDup_of_lines w.cache w1.cache h.2.1 h.2.2.2 hn

theorem sameSectors_seekTo (G : Geometry) (hG : G.Valid) (t : Nat) (ht : t < G.FS3_MAX_TRACKS)
    (w : World Disk) (hm : w.diskMounted = true) (hh : HeadOk w) :
    SameSectors w (seekTo G (controller G) (t : Int) w) :=
  ⟨(seekTo_controller G hG t ht w hm hh).2, by rw [seekTo_cache], by rw [seekTo_cache],
    fun i => by rw [seekTo_cache]; exact ⟨rfl, rfl, rfl⟩⟩

theorem sameSectors_fetch (G : Geometry) (hG : G.Valid) (t s : Nat) (hs : s < G.FS3_TRACK_SIZE)
    (d : Buffer) (w : World Disk) (hhead : w.peer.head = t) :
    SameSectors w (fetch_sector (controller G) (t : Int) (s : Int) d w).2 := by
  obtain ⟨h1, h2, -⟩ := fetch_sector_controller G hG t s hs d w hhead
  obtain ⟨g1, g2, g3⟩ := fs3_get_cache_lines (t : Int) (s : Int) w.cache
  exact ⟨by rw [h1], by rw [h2, g1], by rw [h2, g2], fun i => by rw [h2]; exact g3 i⟩

theorem sameSectors_commitWrite (fd t s d : Int) (w : World Disk) :
    SameSectors w (commitWrite fd t s d w) :=
  ⟨rfl, rfl, rfl, fun _ => ⟨rfl, rfl, rfl⟩⟩

theorem sameSectors_commitRead (fd d : Int) (w : World Disk) :
    SameSectors w (commitRead fd d w) :=
  ⟨rfl, rfl, rfl, fun _ => ⟨rfl, rfl, rfl⟩⟩

/-- The buffer delivered by `fetch_sector` for a sector that reads as `data` is `data`. -/
theorem fetch_sector_holds (G : Geometry) (hG : G.Valid) (t s : Nat) (hs : s < G.FS3_TRACK_SIZE)
    (d : Buffer) (w : World Disk) (hhead : w.peer.head = t) (data b : Buffer)
    (hh : SectorHolds w t s data)
    (hb : (fetch_sector (controller G) (t : Int) (s : Int) d w).1 = some b) : b = data := by
  obtain ⟨-, -, h3⟩ := fetch_sector_controller G hG t s hs d w hhead
  rcases h3 b hb with h | h
  · exact fs3_get_cache_agrees _ _ _ data b hh.2 h
  · rw [h]; exact hh.1

/-- After the cache put and the `WRITE_SECTOR` call the sector reads as the payload. -/
theorem storeSector_holds (G : Geometry) (hG : G.Valid) (t s : Nat) (hs : s < G.FS3_TRACK_SIZE)
    (data : Buffer) (w : World Disk) (hhead : w.peer.head = t) (hn : CacheNoDup w.cache) :
    SectorHolds (storeSector (controller G) (t : Int) (s : Int) data w) t s data := by
  obtain ⟨-, h2, h3⟩ := storeSector_controller G hG t s hs data w hhead
  refine ⟨by rw [h2]; simp, ?_⟩
  rw [h3]
  exact fs3_put_cache_agrees _ _ data w.cache hn (by omega)

/-- The cache put and the `WRITE_SECTOR` call for one sector leave what another sector
reads as. -/
theorem storeSector_holds_other (G : Geometry) (hG : G.Valid) (t s : Nat)
    (hs : s < G.FS3_TRACK_SIZE) (data : Buffer) (w : World Disk) (hhead : w.peer.head = t)
    (t1 s1 : Nat) (b : Buffer) (hne : ¬ (t1 = t ∧ s1 = s)) (hh : SectorHolds w t1 s1 b) :
    SectorHolds (storeSector (controller G) (t : Int) (s : Int) data w) t1 s1 b := by
  obtain ⟨-, h2, h3⟩ := storeSector_controller G hG t s hs data w hhead
  constructor
  · rw [h2]
    by_cases ht : t1 = t
    · subst ht
      have hs1 : s1 ≠ s := fun e => hne ⟨rfl, e⟩
      rw [Function.update_same, Function.update_noteq hs1]
      exact hh.1
    · rw [Function.update_noteq ht]
      exact hh.1
  · rw [h3]
    exact fs3_put_cache_agrees_other _ _ _ _ data b w.cache (by omega) hh.2

theorem storeSector_noDup (G : Geometry) (hG : G.Valid) (t s : Nat) (hs : s < G.FS3_TRACK_SIZE)
    (data : Buffer) (w : World Disk) (hhead : w.peer.head = t) (hn : CacheNoDup w.cache) :
    CacheNoDup (storeSector (controller G) (t : Int) (s : Int) data w).cache := by
  rw [(storeSector_controller G hG t s hs data w hhead).2.2]
  exact fs3_put_cache_noDup _ _ data w.cache hn

theorem kth_unique (cell : Nat → Int) (fd : Int) (q q1 : Nat) (h1 : cell q = fd)
    (h2 : cell q1 = fd) (h : countCells cell fd q = countCells cell fd q1) : q = q1 := by
  rcases Nat.lt_trichotomy q q1 with hlt | heq | hgt
  · have := countCells_lt_of_cell cell fd q q1 hlt h1; omega
  · exact heq
  · have := countCells_lt_of_cell cell fd q1 q hgt h2; omega

theorem place_ne (n q q1 : Nat) (h : q1 ≠ q) : ¬ (q1 / n = q / n ∧ q1 % n = q % n) := by
  rintro ⟨a, b⟩
  apply h
  rw [← Nat.div_add_mod q1 n, ← Nat.div_add_mod q n, a, b]

/-- What the file holds is not changed by a step that changes neither the allocation map
nor what the sectors hold. -/
theorem fileData_of_same (G : Geometry) (w w1 : World Disk) (fd : Int) (buf : Buffer) (n : Int)
    (hs : SameSectors w w1) (hmap : w1.FS3DiskMap = w.FS3DiskMap)
    (h : FileData G w fd buf n) : FileData G w1 fd buf n := by
  intro k hk
  obtain ⟨q, data, h1, h2, h3, h4, h5⟩ := h k hk
  exact ⟨q, data, h1, by rw [hmap]; exact h2, by rw [hmap]; exact h3,
    sameSectors_holds w w1 hs _ _ data h4, h5⟩

theorem countCells_tail (G : Geometry) (map : Int → Int → Int) (fd : Int) (u : Nat)
    (hu : UsedPrefix G map u) (hfd : fd ≠ -1) (n : Nat) (h1 : u ≤ n) (h2 : n ≤ G.cells) :
    countCells (cellAt G map) fd n = countCells (cellAt G map) fd u := by
  induction n with
  | zero =>
    have : u = 0 := by omega
    rw [this]
  | succ m ih =>
    by_cases hm : u = m + 1
    · rw [hm]
    · rw [countCells_succ_of_ne _ _ _ (by rw [hu.2.2 m (by omega) (by omega)]; exact fun h => hfd h.symm)]
      exact ih (by omega) (by omega)

theorem mul_sector_lt (S : Nat) (k1 k : Nat) (h : k1 < k) :
    ((k1 : Int) + 1) * (S : Int) ≤ (k : Int) * (S : Int) := by
  have : (k1 + 1) * S ≤ k * S := Nat.mul_le_mul_right _ (by omega)
  exact_mod_cast this

/-- The sectors of the file hold the bytes written after a pass that wrote the sector at
place `k` of the file from its first byte. -/
theorem fileData_extend (G : Geometry) (w w1 : World Disk) (fd : Int)
    (buf : Buffer) (k : Nat) (bw d : Int) (q : Nat) (payload : Buffer)
    (hbw : bw = (k : Int) * G.FS3_SECTOR_SIZE) (hdle : d ≤ G.FS3_SECTOR_SIZE)
    (hold : FileData G w fd buf bw)
    (hq : q < G.cells) (hcell1 : cellAt G w1.FS3DiskMap q = fd)
    (hcnt1 : countCells (cellAt G w1.FS3DiskMap) fd q = k)
    (hhold1 : SectorHolds w1 (q / G.FS3_TRACK_SIZE) (q % G.FS3_TRACK_SIZE) payload)
    (hpay : ∀ x : Int, 0 ≤ x → x < d → payload x = buf (bw + x))
    (hother : ∀ q1 data1, q1 < G.cells → cellAt G w.FS3DiskMap q1 = fd →
      countCells (cellAt G w.FS3DiskMap) fd q1 < k →
      SectorHolds w (q1 / G.FS3_TRACK_SIZE) (q1 % G.FS3_TRACK_SIZE) data1 →
      cellAt G w1.FS3DiskMap q1 = fd ∧
      countCells (cellAt G w1.FS3DiskMap) fd q1 = countCells (cellAt G w.FS3DiskMap) fd q1 ∧
      SectorHolds w1 (q1 / G.FS3_TRACK_SIZE) (q1 % G.FS3_TRACK_SIZE) data1) :
    FileData G w1 fd buf (bw + d) := by
  intro k1 hk1
  rcases Nat.lt_trichotomy k1 k with hlt | heq | hgt
  · have hm := mul_sector_lt G.FS3_SECTOR_SIZE k1 k hlt
    obtain ⟨q1, data1, h1, h2, h3, h4, h5⟩ := hold k1 (by rw [Int.add_mul] at hm; omega)
    obtain ⟨g1, g2, g3⟩ := hother q1 data1 h1 h2 (by omega) h4
    exact ⟨q1, data1, h1, g1, by rw [g2, h3], g3, fun x hx0 hx1 _ =>
      h5 x hx0 hx1 (by rw [Int.add_mul] at hm; omega)⟩
  · subst heq
    refine ⟨q, payload, hq, hcell1, hcnt1, hhold1, fun x hx0 _ hx2 => ?_⟩
    rw [hpay x hx0 (by omega), hbw]
  · have hm := mul_sector_lt G.FS3_SECTOR_SIZE k k1 hgt
    rw [Int.add_mul] at hm
    omega

/-- The position is at the start of sector `k` of the file. -/
theorem position_at_sector (G : Geometry) (hS : 0 < G.FS3_SECTOR_SIZE) (p : Int) (k : Nat)
    (hp : p = (k : Int) * G.FS3_SECTOR_SIZE) :
    0 ≤ p ∧ p.toNat / G.FS3_SECTOR_SIZE = k ∧ p.toNat % G.FS3_SECTOR_SIZE = 0 ∧
    p.tmod G.FS3_SECTOR_SIZE = 0 := by
  have e : p = ((k * G.FS3_SECTOR_SIZE : Nat) : Int) := by rw [hp]; push_cast; rfl
  have hp0 : 0 ≤ p := by rw [e]; exact Int.natCast_nonneg _
  have hpk : p.toNat = k * G.FS3_SECTOR_SIZE := by rw [e]; exact Int.toNat_natCast _
  have hmod : p.toNat % G.FS3_SECTOR_SIZE = 0 := by rw [hpk]; exact Nat.mul_mod_left _ _
  refine ⟨hp0, by rw [hpk]; exact Nat.mul_div_cancel _ hS, hmod, ?_⟩
  rw [tmod_eq_natMod _ _ hp0, hmod]; rfl

theorem write_pass_data_core (G : Geometry) (hG : G.Valid) (w wF : World Disk) (fd : Int)
    (buf : Buffer) (count bw : Int) (q : Nat) (b0 : Buffer)
    (hq : q < G.cells) (hcount : 0 < count)
    (hsame : SameSectors w wF) (hhead : wF.peer.head = q / G.FS3_TRACK_SIZE)
    (htrack : wF.currentDiskTrack = ((q / G.FS3_TRACK_SIZE : Nat) : Int))
    (hmap : wF.FS3DiskMap = w.FS3DiskMap) (hfiles : wF.FS3FileArray = w.FS3FileArray)
    (hJ : WriteData G fd buf count bw w)
    (hcnt : countCells (cellAt G w.FS3DiskMap) fd q
      = (w.FS3FileArray fd).position.toNat / G.FS3_SECTOR_SIZE)
    (hupd : cellAt G w.FS3DiskMap q = fd ∨
      ∀ q1, q1 < G.cells → cellAt G w.FS3DiskMap q1 = fd → q1 < q) :
    WriteData G fd buf (count - writeChunk G w fd count) (bw + writeChunk G w fd count)
      (commitWrite fd ((q / G.FS3_TRACK_SIZE : Nat) : Int) ((q % G.FS3_TRACK_SIZE : Nat) : Int)
        (writeChunk G w fd count)
        (storeSector (controller G) ((q / G.FS3_TRACK_SIZE : Nat) : Int)
          ((q % G.FS3_TRACK_SIZE : Nat) : Int)
          (memcpy b0 ((w.FS3FileArray fd).position.tmod G.FS3_SECTOR_SIZE) buf bw
            (writeChunk G w fd count)) wF)) := by
  obtain ⟨hnd, hh, hpos, hk, hdata⟩ := hJ
  obtain ⟨k, hbw⟩ := hk hcount
  have hS := hG.sector_pos
  have hts := track_size_pos_of_lt_cells G q hq
  have hs := Nat.mod_lt q hts
  obtain ⟨hp0, hdiv, hmod, htm⟩ := position_at_sector G hS (w.FS3FileArray fd).position k
    (by rw [hpos, hbw])
  obtain ⟨hd0, hdc, hdle⟩ := writeChunk_spec G hS w fd count hp0 hcount
  have hfull : writeChunk G w fd count < count →
      writeChunk G w fd count = G.FS3_SECTOR_SIZE := by
    unfold writeChunk; rw [htm]; split <;> omega
  rw [hmod] at hdle
  rw [hdiv] at hcnt
  rw [htm]
  generalize writeChunk G w fd count = d at *
  have hst := storeSector_controller G hG _ _ hs (memcpy b0 0 buf bw d) wF hhead
  have hholds := storeSector_holds G hG _ _ hs (memcpy b0 0 buf bw d) wF hhead
    (sameSectors_noDup _ _ hsame hnd)
  have hnd1 := storeSector_noDup G hG _ _ hs (memcpy b0 0 buf bw d) wF hhead
    (sameSectors_noDup _ _ hsame hnd)
  refine ⟨hnd1, Or.inr ?_, ?_, ?_, ?_⟩
  · simp only [commitWrite]
    rw [storeSector_track, hst.1, htrack]
  · rw [commitWrite_file, storeSector_files, hfiles]
    simp only
    rw [hpos]
  · intro hc2
    refine ⟨k + 1, ?_⟩
    rw [hfull (by omega), hbw]
    push_cast
    rw [Int.add_mul]
    omega
  · apply fileData_extend G w _ fd buf k bw d q (memcpy b0 0 buf bw d) hbw (by omega) hdata hq
    · rw [commitWrite_cellAt, Function.update_same]
    · rw [commitWrite_cellAt, countCells_update_ge _ _ _ _ _ (le_refl _), storeSector_map, hmap,
        hcnt]
    · exact sameSectors_holds _ _ (sameSectors_commitWrite _ _ _ _ _) _ _ _ hholds
    · intro x hx0 hxd
      simp [memcpy, hx0, hxd]
    · intro q1 data1 hq1 hc1 hcnt1 hh1
      have hne : q1 ≠ q := by
        rcases hupd with h | h
        · intro e; subst e; omega
        · exact Nat.ne_of_lt (h q1 hq1 hc1)
      refine ⟨?_, ?_, ?_⟩
      · rw [commitWrite_cellAt, Function.update_noteq hne, storeSector_map, hmap]; exact hc1
      · rw [commitWrite_cellAt, storeSector_map, hmap]
        rcases hupd with h | h
        · rw [update_eq_self_of_eq _ q fd h]
        · exact countCells_update_ge _ _ _ _ _ (Nat.le_of_lt (h q1 hq1 hc1))
      · exact sameSectors_holds _ _ (sameSectors_commitWrite _ _ _ _ _) _ _ _
          (storeSector_holds_other G hG _ _ hs _ wF hhead _ _ data1 (place_ne _ _ _ hne)
            (sameSectors_holds _ _ hsame _ _ _ hh1))


/-- A pass of the loop of `fs3_write` against the controller keeps `WriteData`. -/
theorem write_pass_data (G : Geometry) (hG : G.Valid) (fd : Int) (buf : Buffer)
    (scratch : Int → Buffer) (hfd : fd ≠ -1)
    (count bw : Int) (w w1 : World Disk) (u : Nat) (hcount : 0 < count)
    (hc : Consistent G w fd u)
    (hroom : (w.FS3FileArray fd).position.toNat / G.FS3_SECTOR_SIZE
        < sectorsFor G (w.FS3FileArray fd).length ∨ u < G.cells)
    (hJ : WriteData G fd buf count bw w)
    (hbody : fs3_write_body G (controller G) fd buf count bw (scratch bw) w
      = Step.next (writeChunk G w fd count) w1) :
    WriteData G fd buf (count - writeChunk G w fd count) (bw + writeChunk G w fd count) w1 := by
  have hP := controller_accepts G hG
  by_cases hk : (w.FS3FileArray fd).position.toNat / G.FS3_SECTOR_SIZE
      < sectorsFor G (w.FS3FileArray fd).length
  · obtain ⟨q, b, hqu, hqc, hqk, hb, heq⟩ := write_pass_existing G hG (controller G) hP fd buf
      count bw (scratch bw) w u hfd hc.used hc.file hk
    rw [heq] at hbody
    injection hbody with _ h2
    subst h2
    have hq : q < G.cells := Nat.lt_of_lt_of_le hqu hc.used.1
    have ht := div_lt_of_lt_cells G q hq
    have hs := Nat.mod_lt q (track_size_pos_of_lt_cells G q hq)
    have hS1 := seekTo_controller G hG _ ht w hc.mounted hJ.2.1
    have hF := fetch_sector_controller G hG _ _ hs (scratch bw) _ hS1.1
    apply write_pass_data_core G hG w _ fd buf count bw q b hq hcount
      (sameSectors_trans _ _ _ (sameSectors_seekTo G hG _ ht w hc.mounted hJ.2.1)
        (sameSectors_fetch G hG _ _ hs (scratch bw) _ hS1.1))
      (by rw [hF.1]; exact hS1.1)
      (by rw [fetch_sector_track]; exact seekTo_track G hG _ hP _ ht w hc.mounted)
      (by simp) (by simp) hJ hqk (Or.inl hqc)
  · have hfree : u < G.cells := by
      rcases hroom with h | h
      · exact absurd h hk
      · exact h
    have heq := write_pass_alloc G hG (controller G) hP fd buf count bw (scratch bw) w u
      hc.mounted hc.used hc.file (by omega) hfree
    rw [heq] at hbody
    injection hbody with _ h2
    subst h2
    have ht := div_lt_of_lt_cells G u hfree
    have hS1 := seekTo_controller G hG _ ht w hc.mounted hJ.2.1
    have hcnt : countCells (cellAt G w.FS3DiskMap) fd u
        = (w.FS3FileArray fd).position.toNat / G.FS3_SECTOR_SIZE := by
      rw [← countCells_tail G _ fd u hc.used hfd G.cells hc.used.1 (le_refl _), hc.file.2.2]
      have h1 := hc.file.1
      have h2 := hc.file.2.1
      have hS := hG.sector_pos
      have h3 : (w.FS3FileArray fd).position.toNat / G.FS3_SECTOR_SIZE
          ≤ ((w.FS3FileArray fd).length.toNat + G.FS3_SECTOR_SIZE - 1) / G.FS3_SECTOR_SIZE :=
        Nat.div_le_div_right (by omega)
      rw [← sectorsFor_eq G _ (by omega)] at h3
      omega
    apply write_pass_data_core G hG w _ fd buf count bw u (scratch bw) hfree hcount
      (sameSectors_seekTo G hG _ ht w hc.mounted hJ.2.1) hS1.1
      (seekTo_track G hG _ hP _ ht w hc.mounted)
      (by simp) (by simp) hJ hcnt
      (Or.inr (fun q1 hq1 hc1 => usedPrefix_lt_of_ne G _ u q1 hc.used hq1 (by rw [hc1]; exact hfd)))

/-- A pass of the loop of `fs3_read` against the controller keeps `ReadData`. -/
theorem read_pass_data (G : Geometry) (hG : G.Valid) (fd : Int) (buf : Buffer) (n : Int)
    (hfd : fd ≠ -1) (u : Nat)
    (count br : Int) (out out1 : Buffer) (w w1 : World Disk) (hcount : 0 < count)
    (hle : count ≤ (w.FS3FileArray fd).length - (w.FS3FileArray fd).position)
    (hc : Consistent G w fd u)
    (hJ : ReadData G fd buf n count br out w)
    (hbody : fs3_read_body G (controller G) fd count br out w
      = Step.next (writeChunk G w fd count) (out1, w1)) :
    ReadData G fd buf n (count - writeChunk G w fd count) (br + writeChunk G w fd count)
      out1 w1 := by
  have hP := controller_accepts G hG
  have hS := hG.sector_pos
  obtain ⟨hnd, hh, hpos, hbd, hn, hdata, hout⟩ := hJ
  obtain ⟨k, hbr⟩ := hbd hcount
  obtain ⟨hp0, hdiv, hmod, htm⟩ := position_at_sector G hS (w.FS3FileArray fd).position k
    (by rw [hpos, hbr])
  obtain ⟨hd0, hdc, hdle⟩ := writeChunk_spec G hS w fd count hp0 hcount
  have hfull : writeChunk G w fd count < count →
      writeChunk G w fd count = G.FS3_SECTOR_SIZE := by
    unfold writeChunk; rw [htm]; split <;> omega
  rw [hmod] at hdle
  have hk := sector_index_lt G hS _ _ hp0 hc.file.2.1 (Or.inl (by omega))
  obtain ⟨q, b, hqu, hqc, hqk, hb, heq⟩ := read_pass G hG (controller G) hP fd count br out w u
    hfd hc.used hc.file hk
  rw [readChunk_spec G hS w fd count hp0 hcount hle, htm] at heq
  rw [heq] at hbody
  injection hbody with _ h2
  injection h2 with h3 h4
  subst h3 h4
  have hq : q < G.cells := Nat.lt_of_lt_of_le hqu hc.used.1
  have ht := div_lt_of_lt_cells G q hq
  have hs := Nat.mod_lt q (track_size_pos_of_lt_cells G q hq)
  have hS1 := seekTo_controller G hG _ ht w hc.mounted hh
  have hF := fetch_sector_controller G hG _ _ hs nullBuf _ hS1.1
  have hsame : SameSectors w (commitRead fd (writeChunk G w fd count)
      (fetch_sector (controller G) ((q / G.FS3_TRACK_SIZE : Nat) : Int)
        ((q % G.FS3_TRACK_SIZE : Nat) : Int) nullBuf
        (seekTo G (controller G) ((q / G.FS3_TRACK_SIZE : Nat) : Int) w)).2) :=
    sameSectors_trans _ _ _ (sameSectors_trans _ _ _
      (sameSectors_seekTo G hG _ ht w hc.mounted hh)
      (sameSectors_fetch G hG _ _ hs nullBuf _ hS1.1)) (sameSectors_commitRead _ _ _)
  obtain ⟨q1, data, g1, g2, g3, g4, g5⟩ := hdata k (by omega)
  have hqq : q = q1 := kth_unique _ fd q q1 hqc g2 (by rw [hqk, g3, hdiv])
  subst hqq
  have hbd1 : b = data := fetch_sector_holds G hG _ _ hs nullBuf _ hS1.1 data b
    (sameSectors_holds _ _ (sameSectors_seekTo G hG _ ht w hc.mounted hh) _ _ _ g4) hb
  refine ⟨sameSectors_noDup _ _ hsame hnd, Or.inr ?_, ?_, ?_, by omega, ?_, ?_⟩
  · simp only [commitRead]
    rw [fetch_sector_track, hF.1, hS1.1]
    exact seekTo_track G hG _ hP _ ht w hc.mounted
  · rw [commitRead_file]
    simp only [fetch_sector_files, seekTo_files]
    rw [hpos]
  · intro hc2
    refine ⟨k + 1, ?_⟩
    rw [hfull (by omega), hbr]
    push_cast
    rw [Int.add_mul]
    omega
  · exact fileData_of_same G w _ fd buf n hsame (by simp [commitRead]) hdata
  · intro x hx0 hx1
    unfold memcpy
    by_cases hx : br ≤ x
    · rw [if_pos ⟨hx, by omega⟩, hbd1, g5 (0 + (x - br)) (by omega) (by omega) (by omega)]
      congr 1
      omega
    · rw [if_neg (fun h => hx h.1)]
      exact hout x hx0 (by omega)

/-- A seek to the start of a created open file succeeds and moves the position only. -/
theorem fs3_seek_zero (fd : Int) (w : World σ) (hfd : 0 ≤ fd ∧ fd < FS3_MAX_TOTAL_FILES)
    (hcr : (w.FS3FileArray fd).created = true) (hop : (w.FS3FileArray fd).«open» = true) :
    fs3_seek fd 0 w = (0, { w with
      FS3FileArray := Function.update w.FS3FileArray fd
        { w.FS3FileArray fd with position := 0 } }) := by
  have hr : ¬ (fd > (FS3_MAX_TOTAL_FILES : Int) ∨ fd < 0) := by omega
  unfold fs3_seek
  rw [if_neg hr, if_neg (by simp [hcr]), if_neg (Nat.not_lt_zero _), if_neg (by simp [hop])]
  rfl

/-- On a map filled from the front up to place `u`, the non-EMPTY cells below `n` are the
first `min n u` ones. -/
theorem countUsed_prefix (G : Geometry) (map : Int → Int → Int) (u : Nat)
    (hu : UsedPrefix G map u) (n : Nat) (hn : n ≤ G.cells) :
    countUsed (cellAt G map) n = min n u := by
  induction n with
  | zero => simp [countUsed]
  | succ m ih =>
    simp only [countUsed]
    rw [ih (by omega)]
    by_cases hm : m < u
    · rw [if_neg (hu.2.1 m hm)]; omega
    · rw [if_pos (hu.2.2 m (by omega) (by omega))]; omega

set_option maxRecDepth 100000 in
/-- On the full table the file with handle 7 is empty and consistent with the empty
allocation map. -/
theorem fullTableWorld_consistent :
    Consistent scenarioGeometry fullTableWorld 7 0 ∧
    (fullTableWorld.FS3FileArray 7).created = true ∧
    (fullTableWorld.FS3FileArray 7).«open» = true ∧
    (fullTableWorld.FS3FileArray 7).position = 0 ∧
    (fullTableWorld.FS3FileArray 7).length = 0 :=
  ⟨consistent_of_empty scenarioGeometry (by decide) fullTableWorld 7 (by decide) (by decide)
    (fun i j hi hj => mountedWorld_map i j hi hj) (by decide) (by decide),
    by decide, by decide, by decide, by decide⟩

set_option maxRecDepth 100000 in
/-- After `write(7, buf, 1)` on the full table the file with handle 7 has length 1 and owns
the first cell of the allocation map. -/
theorem fullTableWritten_consistent :
    Consistent scenarioGeometry fullTableWritten 7 1 ∧
    (fullTableWritten.FS3FileArray 7).length = 1 := by
  obtain ⟨hc, hcr, hop, hp, hl⟩ := fullTableWorld_consistent
  obtain ⟨w1, u1, h1, h2, h3, h4, h5, -⟩ :=
    fs3_write_consistent scenarioGeometry scenarioGeometry_valid (controller scenarioGeometry)
      (controller_accepts _ scenarioGeometry_valid) 1 7 abBytes 1 (fun _ => nullBuf)
      fullTableWorld 0 (by decide) hc hcr hop (by decide) (by decide)
      (by rw [hp, hl]; decide)
  have e : fullTableWritten = w1 := by unfold fullTableWritten; rw [h1]; rfl
  have h4a : (w1.FS3FileArray 7).length = 1 := by rw [h4, hl, hp]; rfl
  rw [hl, h4a] at h5
  have hs1 : sectorsFor scenarioGeometry 1 = 1 := by decide
  have hs0 : sectorsFor scenarioGeometry 0 = 0 := by decide
  rw [hs1, hs0] at h5
  have hu : u1 = 1 := by omega
  rw [e]
  exact ⟨hu ▸ h2, h4a⟩

/-! ### A put followed by a get -/

/-- What the scan of `fs3_put_cache` returns: the first line filed under the sector, or,
when there is none, the line it started with or a line of the cache. -/
theorem putScan_spec (lines : Nat → FS3CacheEntry) (t s : Int) (fuel i0 minUsed putIndex : Nat) :
    (∀ j, i0 ≤ j → j < putScan lines t s fuel i0 minUsed putIndex →
      j < i0 + fuel → ¬ ((lines j).track = t ∧ (lines j).sector = s)) ∧
    (putScan lines t s fuel i0 minUsed putIndex = putIndex ∨
      (i0 ≤ putScan lines t s fuel i0 minUsed putIndex ∧
        putScan lines t s fuel i0 minUsed putIndex < i0 + fuel)) := by
  induction fuel generalizing i0 minUsed putIndex with
  | zero => exact ⟨fun j h1 _ h3 => by omega, Or.inl rfl⟩
  | succ n ih =>
    unfold putScan
    split
    · exact ⟨fun j h1 h2 _ => by omega, Or.inr ⟨le_refl _, by omega⟩⟩
    · next hm =>
      split
      · obtain ⟨a, b⟩ := ih (i0 + 1) (lines i0).countUsed i0
        refine ⟨fun j h1 h2 h3 => ?_, ?_⟩
        · by_cases hj : j = i0
          · subst hj; exact hm
          · exact a j (by omega) h2 (by omega)
        · rcases b with b | b
          · rw [b]; exact Or.inr ⟨le_refl _, by omega⟩
          · exact Or.inr ⟨by omega, by omega⟩
      · obtain ⟨a, b⟩ := ih (i0 + 1) minUsed putIndex
        refine ⟨fun j h1 h2 h3 => ?_, ?_⟩
        · by_cases hj : j = i0
          · subst hj; exact hm
          · exact a j (by omega) h2 (by omega)
        · rcases b with b | b
          · exact Or.inl b
          · exact Or.inr ⟨by omega, by omega⟩

theorem getScan_eq_some (lines : Nat → FS3CacheEntry) (t s : Int) (fuel i0 r : Nat)
    (h0 : i0 ≤ r) (h1 : r < i0 + fuel) (hr : (lines r).track = t ∧ (lines r).sector = s)
    (hb : ∀ j, i0 ≤ j → j < r → ¬ ((lines j).track = t ∧ (lines j).sector = s)) :
    getScan lines t s fuel i0 = some r := by
  induction fuel generalizing i0 with
  | zero => omega
  | succ n ih =>
    unfold getScan
    by_cases hi : i0 = r
    · subst hi; rw [if_pos hr]
    · rw [if_neg (hb i0 (le_refl _) (by omega))]
      exact ih (i0 + 1) (by omega) (by omega) (fun j a b => hb j (by omega) b)

/-! ### The created records are the first ones of the table -/

theorem ite_switch_files (G : Geometry) (P : Peer σ) (c : Prop) [Decidable c] (t : Int)
    (w : World σ) :
    (if c then (switch_disk_track G P t w).2 else w).FS3FileArray = w.FS3FileArray := by
  split
  · exact (switch_disk_track_frame G P t w).1
  · rfl

theorem ite_fetch_files (P : Peer σ) (c : Prop) [Decidable c] (t s : Int) (d : Buffer)
    (w : World σ) :
    (if c then fetch_sector P t s d w else (some d, w)).2.FS3FileArray = w.FS3FileArray := by
  split
  · exact fetch_sector_files P t s d w
  · rfl

/-- A pass of the loop of `fs3_write` changes the `created` flag of no record. -/
theorem fs3_write_body_created (G : Geometry) (P : Peer σ) (fd : Int) (buf : Buffer)
    (count bw : Int) (d : Buffer) (w : World σ) (i : Int) :
    ((fs3_write_body G P fd buf count bw d w).state.FS3FileArray i).created
      = (w.FS3FileArray i).created := by
  unfold fs3_write_body
  simp only
  split
  · next w3 h =>
    have h3 := congrArg (fun r => r.2.FS3FileArray) h
    simp only [ite_fetch_files, ite_switch_files] at h3
    simp only [Step.state]
    rw [← h3]
  · next b w3 h =>
    have h3 := congrArg (fun r => r.2.FS3FileArray) h
    simp only [ite_fetch_files, ite_switch_files] at h3
    split
    · next w5 h5 =>
      have k := congrArg (fun r => r.2.FS3FileArray) h5
      simp only [network_fs3_syscall_files] at k
      simp only [Step.state]
      rw [← k, ← h3]
    · next r x w5 h5 =>
      have k := congrArg (fun r => r.2.FS3FileArray) h5
      simp only [network_fs3_syscall_files] at k
      split
      · simp only [Step.state]
        rw [← k, ← h3]
      · simp only [Step.state]
        by_cases hi : i = fd
        · subst hi
          rw [Function.update_same, ← k, ← h3]
        · rw [Function.update_noteq hi, ← k, ← h3]

/-- A pass of the loop of `fs3_read` changes the `created` flag of no record. -/
theorem fs3_read_body_created (G : Geometry) (P : Peer σ) (fd : Int)
    (count br : Int) (buf : Buffer) (w : World σ) (i : Int) :
    ((fs3_read_body G P fd count br buf w).state.2.FS3FileArray i).created
      = (w.FS3FileArray i).created := by
  unfold fs3_read_body
  simp only
  split
  · next w2 h =>
    have h3 := congrArg (fun r => r.2.FS3FileArray) h
    simp only [fetch_sector_files, ite_switch_files] at h3
    simp only [Step.state]
    rw [← h3]
  · next b w2 h =>
    have h3 := congrArg (fun r => r.2.FS3FileArray) h
    simp only [fetch_sector_files, ite_switch_files] at h3
    simp only [Step.state]
    by_cases hi : i = fd
    · subst hi
      rw [Function.update_same, ← h3]
    · rw [Function.update_noteq hi, ← h3]

theorem fs3_write_loop_created (G : Geometry) (P : Peer σ) (fd : Int) (buf : Buffer)
    (scratch : Int → Buffer) (fuel : Nat) (count bw : Int) (w : World σ) (r : Int × World σ)
    (h : fs3_write_loop G P fd buf scratch fuel count bw w = some r) (i : Int) :
    (r.2.FS3FileArray i).created = (w.FS3FileArray i).created := by
  induction fuel generalizing count bw w with
  | zero =>
    unfold fs3_write_loop at h
    split at h
    · simp at h
    · simp only [Option.some.injEq] at h; subst h; rfl
  | succ n ih =>
    unfold fs3_write_loop at h
    split at h
    · have hb := fs3_write_body_created G P fd buf count bw (scratch bw) w i
      split at h
      · next w1 hw =>
        rw [hw] at hb
        simp only [Option.some.injEq] at h; subst h
        exact hb
      · next d w1 hw =>
        rw [hw] at hb
        rw [ih _ _ _ h]
        exact hb
    · simp only [Option.some.injEq] at h; subst h; rfl

theorem fs3_read_loop_created (G : Geometry) (P : Peer σ) (fd : Int)
    (fuel : Nat) (count br : Int) (buf : Buffer) (w : World σ) (r : Int × Buffer × World σ)
    (h : fs3_read_loop G P fd fuel count br buf w = some r) (i : Int) :
    (r.2.2.FS3FileArray i).created = (w.FS3FileArray i).created := by
  induction fuel generalizing count br buf w with
  | zero =>
    unfold fs3_read_loop at h
    split at h
    · simp at h
    · simp only [Option.some.injEq] at h; subst h; rfl
  | succ n ih =>
    unfold fs3_read_loop at h
    split at h
    · have hb := fs3_read_body_created G P fd count br buf w i
      split at h
      · next b1 w1 hw =>
        rw [hw] at hb
        simp only [Option.some.injEq] at h; subst h
        exact hb
      · next d b1 w1 hw =>
        rw [hw] at hb
        rw [ih _ _ _ _ h]
        exact hb
    · simp only [Option.some.injEq] at h; subst h; rfl

theorem createdPrefix_of_same (files files1 : Int → FS3File)
    (h : ∀ i, (files1 i).created = (files i).created) (hp : CreatedPrefix files) :
    CreatedPrefix files1 := by
  intro i j hij hj hc
  rw [h] at hc ⊢
  exact hp i j hij hj hc

theorem fs3_open_createdPrefix (path : String) (g : Int) (w : World σ)
    (hp : CreatedPrefix w.FS3FileArray) : CreatedPrefix (fs3_open path g w).2.FS3FileArray := by
  unfold fs3_open
  split
  · next i0 _ =>
    apply createdPrefix_of_same _ _ _ hp
    intro i
    simp only
    by_cases hi : i = (i0 : Int)
    · subst hi; rw [Function.update_same]
    · rw [Function.update_noteq hi]
  · split
    · exact hp
    · split
      · next i0 h0 =>
        obtain ⟨-, hlt, -, hbefore⟩ := firstIndex_some_spec _ _ _ _ h0
        intro i j hij hj hc
        simp only at hc ⊢
        by_cases hi : i = i0
        · subst hi; rw [Function.update_same]
        · have hi1 : (i : Int) ≠ (i0 : Int) := by exact_mod_cast hi
          rw [Function.update_noteq hi1]
          by_cases hj0 : j = i0
          · subst hj0
            have := hbefore i (Nat.zero_le _) (by omega)
            simpa using this
          · have hj1 : (j : Int) ≠ (i0 : Int) := by exact_mod_cast hj0
            rw [Function.update_noteq hj1] at hc
            exact hp i j hij hj hc
      · next h0 =>
        have hall := firstIndex_none_spec _ _ _ h0
        intro i j hij hj hc
        simp only
        by_cases hi : (i : Int) = g
        · rw [hi, Function.update_same]
        · rw [Function.update_noteq hi]
          have := hall i (Nat.zero_le _) (by omega)
          simpa using this

theorem runCall_createdPrefix (G : Geometry) (P : Peer σ) (c : Call) (w w1 : World σ)
    (h : runCall G P c w = some w1) (hp : CreatedPrefix w.FS3FileArray) :
    CreatedPrefix w1.FS3FileArray := by
  cases c with
  | fileOpen path g =>
    simp only [runCall, Option.some.injEq] at h
    subst h
    exact fs3_open_createdPrefix path g w hp
  | fileClose fd =>
    simp only [runCall, Option.some.injEq] at h
    subst h
    apply createdPrefix_of_same _ _ _ hp
    intro i
    unfold fs3_close
    split_ifs
    · rfl
    · rfl
    · rfl
    · simp only
      by_cases hi : i = fd
      · subst hi; rw [Function.update_same]
      · rw [Function.update_noteq hi]
  | fileSeek fd loc =>
    simp only [runCall, Option.some.injEq] at h
    subst h
    apply createdPrefix_of_same _ _ _ hp
    intro i
    unfold fs3_seek
    split_ifs
    · rfl
    · rfl
    · rfl
    · rfl
    · simp only
      by_cases hi : i = fd
      · subst hi; rw [Function.update_same]
      · rw [Function.update_noteq hi]
  | fileRead fuel fd buf count =>
    simp only [runCall] at h
    cases hr : fs3_read G P fuel fd buf count w with
    | none => rw [hr] at h; simp at h
    | some r =>
    rw [hr] at h
    simp only [Option.map_some', Option.some.injEq] at h
    subst h
    apply createdPrefix_of_same _ _ _ hp
    intro i
    unfold fs3_read at hr
    split_ifs at hr
    all_goals first
      | (simp only [Option.some.injEq] at hr; subst hr; rfl)
      | exact fs3_read_loop_created G P fd fuel count 0 buf w r hr i
  | fileWrite fuel fd buf count scratch =>
    simp only [runCall] at h
    cases hr : fs3_write G P fuel fd buf count scratch w with
    | none => rw [hr] at h; simp at h
    | some r =>
    rw [hr] at h
    simp only [Option.map_some', Option.some.injEq] at h
    subst h
    apply createdPrefix_of_same _ _ _ hp
    intro i
    unfold fs3_write at hr
    split_ifs at hr
    all_goals first
      | (simp only [Option.some.injEq] at hr; subst hr; rfl)
      | exact fs3_write_loop_created G P fd buf scratch fuel count 0 w r hr i

/-- What a successful `fs3_mount_disk` or `fs3_unmount_disk` went through: the driver was
in the other state and the exchange was answered with status 0. -/
theorem fs3_unmount_disk_ok (P : Peer σ) (w : World σ) (h : (fs3_unmount_disk P w).1 = 0) :
    (fs3_unmount_disk P w).2.diskMounted = false ∧
    ∃ w1 : World σ, w1.FS3FileArray = w.FS3FileArray ∧
      (fs3_unmount_disk P w).2.FS3FileArray = unmountLoop FS3_MAX_TOTAL_FILES 0 w1.FS3FileArray := by
  simp only [fs3_unmount_disk] at h ⊢
  by_cases hm : w.diskMounted = false
  · rw [if_pos hm] at h; simp at h
  · rw [if_neg hm] at h ⊢
    split at h
    · simp at h
    · next r x w1 hw =>
      have k := congrArg (fun r => r.2.FS3FileArray) hw
      simp only [network_fs3_syscall_files] at k
      by_cases hret : getReturnBit r ≠ 0
      · rw [if_pos hret] at h; simp at h
      · simp only [hw, if_neg hret]
        exact ⟨trivial, w1, k.symm, rfl⟩

theorem fs3_mount_disk_createdPrefix (G : Geometry) (P : Peer σ) (w : World σ)
    (h : (fs3_mount_disk G P w).1 = 0) : CreatedPrefix (fs3_mount_disk G P w).2.FS3FileArray := by
  simp only [fs3_mount_disk] at h ⊢
  by_cases hm : w.diskMounted = true
  · rw [if_pos hm] at h; simp at h
  · rw [if_neg hm] at h ⊢
    split at h
    · simp at h
    · next r x w1 hw =>
      by_cases hret : getReturnBit r ≠ 0
      · rw [if_pos hret] at h; simp at h
      · simp only [hw, if_neg hret]
        intro i j hij hj hc
        simp only at hc
        rw [if_pos ⟨by omega, by exact_mod_cast hj⟩] at hc
        simp at hc

theorem reachable_createdPrefix (G : Geometry) (P : Peer σ) (w : World σ)
    (h : Reachable G P w) : CreatedPrefix w.FS3FileArray := by
  induction h with
  | mount w0 h0 => exact fs3_mount_disk_createdPrefix G P w0 h0
  | call c w w1 _ hc ih => exact runCall_createdPrefix G P c w w1 hc ih

/-- The closing loop of `fs3_unmount_disk`: it changes no `created` flag, opens no record
and closes every record up to the first one that is not created. -/
theorem unmountLoop_spec (fuel i0 : Nat) (files : Int → FS3File) :
    (∀ j : Int, ((unmountLoop fuel i0 files) j).created = (files j).created) ∧
    (∀ j : Int, (files j).«open» = false → ((unmountLoop fuel i0 files) j).«open» = false) ∧
    (∀ j : Nat, i0 ≤ j → j < i0 + fuel →
      (∀ i : Nat, i0 ≤ i → i ≤ j → (files (i : Int)).created = true) →
      ((unmountLoop fuel i0 files) (j : Int)).«open» = false) := by
  induction fuel generalizing i0 files with
  | zero => exact ⟨fun _ => rfl, fun _ h => h, fun j h1 h2 => by omega⟩
  | succ n ih =>
    unfold unmountLoop
    split
    · next hc =>
      obtain ⟨a, b, c⟩ := ih (i0 + 1)
        (Function.update files (i0 : Int) { files i0 with «open» := false })
      have hcr : ∀ j : Int, ((Function.update files (i0 : Int)
          { files i0 with «open» := false }) j).created = (files j).created := by
        intro j
        by_cases hj : j = (i0 : Int)
        · subst hj; rw [Function.update_same]
        · rw [Function.update_noteq hj]
      refine ⟨fun j => (a j).trans (hcr j), fun j hj => ?_, fun j h1 h2 hall => ?_⟩
      · apply b
        by_cases hj0 : j = (i0 : Int)
        · subst hj0; rw [Function.update_same]
        · rw [Function.update_noteq hj0]; exact hj
      · by_cases hj : j = i0
        · subst hj
          apply b
          rw [Function.update_same]
        · apply c j (by omega) (by omega)
          intro i hi1 hi2
          rw [hcr]
          exact hall i (by omega) hi2
    · next hc =>
      refine ⟨fun _ => rfl, fun _ h => h, fun j h1 h2 hall => ?_⟩
      exact absurd (hall i0 (le_refl _) h1) hc

/-! ### Reading a sector that is in the cache -/

/-- A get of a sector that has a line in a created cache is a hit: it returns a buffer,
adds one to the hit counter and leaves the miss counter as it was. -/
theorem fs3_get_cache_hit (t s : Int) (c : Cache) (hcr : c.cacheCreated ≠ 0)
    (hline : ∃ i, i < c.cacheSize ∧ (c.FS3Cache i).track = t ∧ (c.FS3Cache i).sector = s) :
    (∃ b, (fs3_get_cache t s c).1 = some b) ∧
    (fs3_get_cache t s c).2.cacheHits = c.cacheHits + 1 ∧
    (fs3_get_cache t s c).2.cacheMisses = c.cacheMisses := by
  obtain ⟨i, hi, hk⟩ := hline
  unfold fs3_get_cache
  rw [if_neg hcr]
  cases hg : getScan c.FS3Cache t s c.cacheSize 0 with
  | none => exact absurd hk (getScan_none _ _ _ _ _ hg i (Nat.zero_le _) (by omega))
  | some g => exact ⟨⟨_, rfl⟩, rfl, rfl⟩

/-- On a cache hit `fetch_sector` makes no wire call. -/
theorem fetch_sector_hit (P : Peer σ) (t s : Int) (d : Buffer) (w : World σ) (b : Buffer)
    (h : (fs3_get_cache t s w.cache).1 = some b) :
    fetch_sector P t s d w = (some b, { w with cache := (fs3_get_cache t s w.cache).2 }) := by
  unfold fetch_sector
  simp only [h]

theorem seekTo_wire (G : Geometry) (P : Peer σ) (t : Int) (w : World σ) :
    (seekTo G P t w).wire = w.wire ∨
    (seekTo G P t w).wire = construct_fs3_cmdblock FS3_OP_TSEEK 0 t.toNat 0 :: w.wire := by
  unfold seekTo
  split
  · simp only [switch_disk_track]
    split
    · exact Or.inl rfl
    · split
      · exact Or.inl rfl
      · right
        have hw : (network_fs3_syscall P (construct_fs3_cmdblock FS3_OP_TSEEK 0 t.toNat 0)
            nullBuf w).2.wire = construct_fs3_cmdblock FS3_OP_TSEEK 0 t.toNat 0 :: w.wire := by
          simp only [network_fs3_syscall]
          split <;> rfl
        split
        · next h => rw [h] at hw; exact hw
        · next h =>
          rw [h] at hw
          split <;> exact hw
  · exact Or.inl rfl

/-- A pass of the loop of `fs3_read` once the sector `(tn, sn)` is known and
`fetch_sector` delivers a buffer. -/
theorem read_body_fetched (G : Geometry) (P : Peer σ)
    (fd : Int) (count bytesRead : Int) (buf : Buffer) (w : World σ)
    (tn sn : Nat) (b : Buffer)
    (ht : find_current_track G fd w = (tn : Int)) (hs : find_current_sector G fd w = (sn : Int))
    (hb : (fetch_sector P tn sn nullBuf (seekTo G P tn w)).1 = some b) :
    fs3_read_body G P fd count bytesRead buf w
      = Step.next (readChunk G w fd count)
          (memcpy buf bytesRead b ((w.FS3FileArray fd).position.tmod G.FS3_SECTOR_SIZE)
            (readChunk G w fd count),
           commitRead fd (readChunk G w fd count)
            (fetch_sector P tn sn nullBuf (seekTo G P tn w)).2) := by
  have hb1 : fetch_sector P tn sn nullBuf (seekTo G P tn w)
      = (some b, (fetch_sector P tn sn nullBuf (seekTo G P tn w)).2) := Prod.ext hb rfl
  unfold fs3_read_body
  simp only [ht, hs]
  rw [show (if w.currentDiskTrack ≠ (tn : Int) then (switch_disk_track G P tn w).2 else w)
    = seekTo G P tn w from rfl]
  rw [hb1]
  simp only [readChunk, writeChunk, commitRead, fetch_sector_files, seekTo_files]

theorem fs3_read_loop_done (G : Geometry) (P : Peer σ) (fd : Int) (fuel : Nat) (count br : Int)
    (buf : Buffer) (w : World σ) (h : ¬ count > 0) :
    fs3_read_loop G P fd fuel count br buf w = some (br, buf, w) := by
  cases fuel with
  | zero => unfold fs3_read_loop; rw [if_neg h]
  | succ n => unfold fs3_read_loop; rw [if_neg h]

/-- After `fs3_put_cache(t, s, data)` on a created cache with at least one line, the sector
has a line in the cache. -/
theorem fs3_put_cache_has_line (t s : Int) (data : Buffer) (c : Cache)
    (hcr : c.cacheCreated ≠ 0) (hN : 0 < c.cacheSize) :
    ∃ i, i < (fs3_put_cache t s data c).2.cacheSize ∧
      ((fs3_put_cache t s data c).2.FS3Cache i).track = t ∧
      ((fs3_put_cache t s data c).2.FS3Cache i).sector = s := by
  obtain ⟨h1, -, h3, h4, -, -⟩ := fs3_put_cache_lines t s data c hcr
  obtain ⟨-, b⟩ := putScan_spec c.FS3Cache t s c.cacheSize 0 (c.FS3Cache 0).countUsed 0
  refine ⟨_, ?_, h3, h4⟩
  rw [h1]
  rcases b with b | b
  · rw [b]; exact hN
  · omega

set_option maxRecDepth 100000 in
/-- After scenario S1 with a cache of one line the file has length 5 and owns the first
cell of the allocation map. -/
theorem cachedHello_consistent :
    Consistent scenarioGeometry cachedHello 0 1 ∧
    (cachedHello.FS3FileArray 0).created = true ∧
    (cachedHello.FS3FileArray 0).«open» = true ∧
    (cachedHello.FS3FileArray 0).length = 5 := by
  obtain ⟨hc, hcr, hop, hp, hl⟩ := openedWorld_a
  have hP := controller_accepts _ scenarioGeometry_valid
  obtain ⟨w1, u1, h1, h2, h3, h4, h5, h6, h7, -, -⟩ :=
    fs3_write_consistent scenarioGeometry scenarioGeometry_valid (controller scenarioGeometry)
      hP 5 0 helloBytes 5 (fun _ => nullBuf)
      cachedOpened 0 (by decide) ⟨hc.mounted, hc.used, hc.file⟩ hcr hop (by decide) (by decide)
      (by
        have e1 : (cachedOpened.FS3FileArray 0).position = 0 := hp
        have e2 : (cachedOpened.FS3FileArray 0).length = 0 := hl
        rw [e1, e2]; decide)
  have e1 : (cachedOpened.FS3FileArray 0).position = 0 := hp
  have e2 : (cachedOpened.FS3FileArray 0).length = 0 := hl
  have h3a : (w1.FS3FileArray 0).position = 5 := by rw [h3, e1]; rfl
  have h4a : (w1.FS3FileArray 0).length = 5 := by rw [h4, e2, e1]; rfl
  rw [e2, h4a, sectorsFor_scenario_0, sectorsFor_scenario_5] at h5
  have hu : u1 = 1 := by omega
  subst hu
  obtain ⟨-, kc, kp, kl, kcr, kop⟩ := fs3_seek_consistent scenarioGeometry w1 0 1 0
    (by decide) h2 h7 h6 (by rw [h4a]; decide) (by rw [h4a]; decide)
  obtain ⟨b3, w3, r1, r2, r3, r4, r5, r6, r7, -⟩ :=
    fs3_read_consistent scenarioGeometry scenarioGeometry_valid (controller scenarioGeometry) hP
      5 0 nullBuf 5 (fs3_seek 0 0 w1).2 1 (by decide) kc kcr kop (by decide)
      (by rw [kl, kp, h4a]; decide) (by decide)
  have e : cachedHello = w3 := by
    unfold cachedHello
    rw [h1]
    simp only [worldAfter]
    rw [r1]
    rfl
  rw [e]
  exact ⟨r2, r7, r6, by rw [r4, kl, h4a]⟩

/-! ### Least recently used replacement -/

theorem putScan_tail (lines : Nat → FS3CacheEntry) (t s : Int) (fuel i minUsed putIndex : Nat)
    (h : ∀ j, i ≤ j → j < i + fuel →
      ¬ ((lines j).track = t ∧ (lines j).sector = s) ∧ minUsed ≤ (lines j).countUsed) :
    putScan lines t s fuel i minUsed putIndex = putIndex := by
  induction fuel generalizing i with
  | zero => rfl
  | succ n ih =>
    unfold putScan
    obtain ⟨h1, h2⟩ := h i (le_refl _) (by omega)
    rw [if_neg h1, if_neg (by omega)]
    exact ih (i + 1) (fun j a b => h j (by omega) (by omega))

theorem putScan_reach (lines : Nat → FS3CacheEntry) (t s : Int)
    (fuel i minUsed putIndex r : Nat) (hir : i ≤ r) (hr : r < i + fuel)
    (hb : ∀ j, i ≤ j → j < r → ¬ ((lines j).track = t ∧ (lines j).sector = s) ∧
      (lines r).countUsed < (lines j).countUsed)
    (hmin : (lines r).countUsed < minUsed)
    (ha : ((lines r).track = t ∧ (lines r).sector = s) ∨
      ∀ j, r < j → j < i + fuel → ¬ ((lines j).track = t ∧ (lines j).sector = s) ∧
        (lines r).countUsed ≤ (lines j).countUsed) :
    putScan lines t s fuel i minUsed putIndex = r := by
  induction fuel generalizing i minUsed putIndex with
  | zero => omega
  | succ n ih =>
    unfold putScan
    by_cases hi : i = r
    · subst hi
      by_cases hm : (lines i).track = t ∧ (lines i).sector = s
      · rw [if_pos hm]
      · rw [if_neg hm, if_pos hmin]
        rcases ha with ha | ha
        · exact absurd ha hm
        · exact putScan_tail lines t s n (i + 1) _ i (fun j a b => ha j (by omega) (by omega))
    · obtain ⟨h1, h2⟩ := hb i (le_refl _) (by omega)
      rw [if_neg h1]
      have ha1 : ((lines r).track = t ∧ (lines r).sector = s) ∨
          ∀ j, r < j → j < i + 1 + n → ¬ ((lines j).track = t ∧ (lines j).sector = s) ∧
            (lines r).countUsed ≤ (lines j).countUsed := by
        rcases ha with ha | ha
        · exact Or.inl ha
        · exact Or.inr (fun j a b => ha j a (by omega))
      split
      · exact ih (i + 1) _ i (by omega) (by omega) (fun j a b => hb j (by omega) b) h2 ha1
      · exact ih (i + 1) _ _ (by omega) (by omega) (fun j a b => hb j (by omega) b) hmin ha1

/-- The scan of `fs3_put_cache` ends on the line `r` when no line before `r` is filed under
the sector, `r` has a smaller stamp than every line before it, and `r` is filed under the
sector or no line after `r` is and none has a smaller stamp. -/
theorem putScan_first_min (lines : Nat → FS3CacheEntry) (t s : Int) (N r : Nat) (hr : r < N)
    (hb : ∀ j, j < r → ¬ ((lines j).track = t ∧ (lines j).sector = s) ∧
      (lines r).countUsed < (lines j).countUsed)
    (ha : ((lines r).track = t ∧ (lines r).sector = s) ∨
      ∀ j, r < j → j < N → ¬ ((lines j).track = t ∧ (lines j).sector = s) ∧
        (lines r).countUsed ≤ (lines j).countUsed) :
    putScan lines t s N 0 (lines 0).countUsed 0 = r := by
  obtain ⟨n, rfl⟩ : ∃ n, N = n + 1 := ⟨N - 1, by omega⟩
  unfold putScan
  by_cases h0 : r = 0
  · subst h0
    by_cases hm : (lines 0).track = t ∧ (lines 0).sector = s
    · rw [if_pos hm]
    · rw [if_neg hm, if_neg (lt_irrefl _)]
      rcases ha with ha | ha
      · exact absurd ha hm
      · exact putScan_tail lines t s n 1 _ 0 (fun j a b => ha j (by omega) (by omega))
  · obtain ⟨h1, h2⟩ := hb 0 (by omega)
    rw [if_neg h1, if_neg (lt_irrefl _)]
    apply putScan_reach lines t s n 1 _ 0 r (by omega) (by omega)
      (fun j a b => hb j b) h2
    rcases ha with ha | ha
    · exact Or.inl ha
    · exact Or.inr (fun j a b => ha j a (by omega))

theorem mod_eq_of_window (N a b : Nat) (h : a % N = b % N) (hab : a ≤ b) (hlt : b < a + N) :
    a = b := by
  have h1 : (b - a) % N = 0 := Nat.sub_mod_eq_zero_of_mod_eq h.symm
  rw [Nat.mod_eq_of_lt (by omega)] at h1
  omega

theorem sub_mod_self (N m : Nat) (h : N ≤ m) : (m - N) % N = m % N := by
  conv_rhs => rw [show m = (m - N) + N by omega]
  rw [Nat.add_mod_right]

theorem getScan_eq_none (lines : Nat → FS3CacheEntry) (t s : Int) (fuel i0 : Nat)
    (h : ∀ i, i0 ≤ i → i < i0 + fuel → ¬ ((lines i).track = t ∧ (lines i).sector = s)) :
    getScan lines t s fuel i0 = none := by
  induction fuel generalizing i0 with
  | zero => rfl
  | succ n ih =>
    unfold getScan
    rw [if_neg (h i0 (le_refl _) (by omega))]
    exact ih (i0 + 1) (fun i a b => h i (by omega) (by omega))

theorem fs3_put_cache_eq (t s : Int) (buf : Buffer) (c : Cache) (hcr : c.cacheCreated ≠ 0) :
    (fs3_put_cache t s buf c).2 = { c with
      cacheInserts := c.cacheInserts + 1
      cacheUseCount := (c.cacheUseCount + 1) % 2 ^ 64
      FS3Cache := Function.update c.FS3Cache
        (putScan c.FS3Cache t s c.cacheSize 0 (c.FS3Cache 0).countUsed 0)
        { track := t, sector := s, countUsed := (c.cacheUseCount + 1) % 2 ^ 64 % 2 ^ 32,
          dataBuffer := buf } } := by
  unfold fs3_put_cache
  rw [if_neg hcr]

/-- The line that the put number `m` is written to is line `m % N`. -/
theorem lru_target (N : Nat) (key : Nat → Int × Int) (payload : Nat → Buffer) (m : Nat)
    (c : Cache) (hN : 0 < N) (h : LruState N key payload m c)
    (hd : ∀ j, j < m → key j ≠ key m) :
    putScan c.FS3Cache (key m).1 (key m).2 c.cacheSize 0 (c.FS3Cache 0).countUsed 0 = m % N := by
  obtain ⟨-, hsize, -, hun, hus⟩ := h
  rw [hsize]
  have hr : m % N < N := Nat.mod_lt _ hN
  have hnm : ∀ i j, j < m → (c.FS3Cache i).track = (key j).1 → (c.FS3Cache i).sector = (key j).2 →
      ¬ ((c.FS3Cache i).track = (key m).1 ∧ (c.FS3Cache i).sector = (key m).2) := by
    intro i j hj h1 h2 hm
    exact hd j hj (Prod.ext (by rw [← h1, hm.1]) (by rw [← h2, hm.2]))
  by_cases hmN : m < N
  · have hrm : m % N = m := Nat.mod_eq_of_lt hmN
    rw [hrm]
    obtain ⟨u1, u2, u3⟩ := hun m (le_refl _) hmN
    apply putScan_first_min _ _ _ N m hmN
    · intro i hi
      obtain ⟨j, j1, -, -, j4, j5, -, j7⟩ := hus i (by omega) hi
      exact ⟨hnm i j j1 j4 j5, by rw [u3, j7]; omega⟩
    · by_cases hk : (key m).1 = -1 ∧ (key m).2 = -1
      · exact Or.inl ⟨by rw [u1, hk.1], by rw [u2, hk.2]⟩
      · right
        intro i hi1 hi2
        obtain ⟨v1, v2, v3⟩ := hun i (by omega) hi2
        refine ⟨fun hm => hk ⟨by rw [← hm.1, v1], by rw [← hm.2, v2]⟩, by rw [u3, v3]⟩
  · obtain ⟨jr, r1, r2, r3, r4, r5, -, r7⟩ := hus (m % N) hr (by omega)
    have hjr : m - N = jr :=
      mod_eq_of_window N (m - N) jr (by rw [sub_mod_self N m (by omega), r3]) (by omega) (by omega)
    have hother : ∀ i, i < N → i ≠ m % N →
        ¬ ((c.FS3Cache i).track = (key m).1 ∧ (c.FS3Cache i).sector = (key m).2) ∧
        (c.FS3Cache (m % N)).countUsed < (c.FS3Cache i).countUsed := by
      intro i hi hne
      obtain ⟨j, j1, j2, j3, j4, j5, -, j7⟩ := hus i hi (by omega)
      refine ⟨hnm i j j1 j4 j5, ?_⟩
      rw [r7, j7]
      have : j ≠ jr := by
        intro e; rw [e, r3] at j3; exact hne j3.symm
      omega
    apply putScan_first_min _ _ _ N (m % N) hr
    · intro i hi
      exact hother i (by omega) (by omega)
    · right
      intro i hi1 hi2
      exact ⟨(hother i hi2 (by omega)).1, Nat.le_of_lt (hother i hi2 (by omega)).2⟩

/-- One more put with a new key keeps the state of the cache. -/
theorem lru_step (N : Nat) (key : Nat → Int × Int) (payload : Nat → Buffer) (m : Nat)
    (c : Cache) (hN : 0 < N) (h : LruState N key payload m c)
    (hd : ∀ j, j < m → key j ≠ key m) (hm : m + 1 < 2 ^ 32) :
    LruState N key payload (m + 1) (fs3_put_cache (key m).1 (key m).2 (payload m) c).2 := by
  have htarget := lru_target N key payload m c hN h hd
  obtain ⟨hcr, hsize, huse, hun, hus⟩ := h
  rw [fs3_put_cache_eq _ _ _ c (by rw [hcr]; decide), htarget, huse]
  have hst : (m + 1) % 2 ^ 64 % 2 ^ 32 = m + 1 := by omega
  have hr : m % N < N := Nat.mod_lt _ hN
  refine ⟨hcr, hsize, Nat.mod_eq_of_lt (by omega), ?_, ?_⟩
  · intro i hi1 hi2
    simp only
    have hrm : m % N = m := Nat.mod_eq_of_lt (by omega)
    rw [Function.update_noteq (by omega)]
    exact hun i (by omega) hi2
  · intro i hi1 hi2
    simp only
    by_cases hi : i = m % N
    · rw [hi, Function.update_same]
      exact ⟨m, by omega, by omega, rfl, rfl, rfl, rfl, hst⟩
    · rw [Function.update_noteq hi]
      have him : i < m := by
        by_contra hcon
        have : i = m := by omega
        rw [this] at hi
        exact hi (Nat.mod_eq_of_lt (by omega)).symm
      obtain ⟨j, j1, j2, j3, j4⟩ := hus i hi1 him
      refine ⟨j, by omega, ?_, j3, j4⟩
      by_contra hcon
      have hj : j = m - N := by omega
      rw [hj, sub_mod_self N m (by omega)] at j3
      exact hi j3.symm

theorem lru_init (N : Nat) (key : Nat → Int × Int) (payload : Nat → Buffer)
    (heap : Nat → FS3CacheEntry) (c0 : Cache) (h0 : c0.cacheCreated ≠ 1) :
    (fs3_init_cache N heap c0).1 = 0 ∧ LruState N key payload 0 (fs3_init_cache N heap c0).2 := by
  unfold fs3_init_cache
  rw [if_neg h0]
  refine ⟨rfl, rfl, rfl, rfl, ?_, fun i _ hi => by omega⟩
  intro i _ hi
  simp only
  rw [if_pos hi]
  exact ⟨rfl, rfl, rfl⟩

theorem lru_all (N : Nat) (key : Nat → Int × Int) (payload : Nat → Buffer) (M : Nat)
    (c : Cache) (hN : 0 < N) (h : LruState N key payload 0 c)
    (hd : ∀ i j, i < M → j < M → key i = key j → i = j) (hM : M < 2 ^ 32) (m : Nat)
    (hm : m ≤ M) : LruState N key payload m (putAll key payload m c) := by
  induction m with
  | zero => exact h
  | succ n ih =>
    exact lru_step N key payload n _ hN (ih (by omega))
      (fun j hj e => by have := hd j n (by omega) (by omega) e; omega) (by omega)

/-! ### The line chosen by `fs3_put_cache` -/

/-- When no line in the range of the scan is filed under the sector, the scan of
`fs3_put_cache` keeps the line it started with if no line has a smaller stamp, and
otherwise returns the first line with the smallest stamp. -/
theorem putScan_min (lines : Nat → FS3CacheEntry) (t s : Int) (fuel i minUsed putIndex : Nat)
    (hno : ∀ j, i ≤ j → j < i + fuel → ¬ ((lines j).track = t ∧ (lines j).sector = s)) :
    (putScan lines t s fuel i minUsed putIndex = putIndex ∧
      ∀ j, i ≤ j → j < i + fuel → minUsed ≤ (lines j).countUsed) ∨
    (i ≤ putScan lines t s fuel i minUsed putIndex ∧
      putScan lines t s fuel i minUsed putIndex < i + fuel ∧
      (lines (putScan lines t s fuel i minUsed putIndex)).countUsed < minUsed ∧
      (∀ j, i ≤ j → j < putScan lines t s fuel i minUsed putIndex →
        (lines (putScan lines t s fuel i minUsed putIndex)).countUsed < (lines j).countUsed) ∧
      ∀ j, i ≤ j → j < i + fuel →
        (lines (putScan lines t s fuel i minUsed putIndex)).countUsed ≤ (lines j).countUsed) := by
  induction fuel generalizing i minUsed putIndex with
  | zero => exact Or.inl ⟨rfl, fun j a b => by omega⟩
  | succ n ih =>
    unfold putScan
    rw [if_neg (hno i (le_refl _) (by omega))]
    have hno1 : ∀ j, i + 1 ≤ j → j < i + 1 + n →
        ¬ ((lines j).track = t ∧ (lines j).sector = s) :=
      fun j a b => hno j (by omega) (by omega)
    split
    · next hlt =>
      right
      rcases ih (i + 1) (lines i).countUsed i hno1 with ⟨h1, h2⟩ | ⟨h1, h2, h3, h4, h5⟩
      · rw [h1]
        refine ⟨le_refl _, by omega, hlt, fun j a b => by omega, fun j a b => ?_⟩
        by_cases hj : j = i
        · subst hj; exact le_refl _
        · exact h2 j (by omega) (by omega)
      · refine ⟨by omega, by omega, by omega, fun j a b => ?_, fun j a b => ?_⟩
        · by_cases hj : j = i
          · subst hj; exact h3
          · exact h4 j (by omega) b
        · by_cases hj : j = i
          · subst hj; omega
          · exact h5 j (by omega) (by omega)
    · next hge =>
      rcases ih (i + 1) minUsed putIndex hno1 with ⟨h1, h2⟩ | ⟨h1, h2, h3, h4, h5⟩
      · left
        refine ⟨h1, fun j a b => ?_⟩
        by_cases hj : j = i
        · subst hj; omega
        · exact h2 j (by omega) (by omega)
      · right
        refine ⟨by omega, by omega, h3, fun j a b => ?_, fun j a b => ?_⟩
        · by_cases hj : j = i
          · subst hj; omega
          · exact h4 j (by omega) b
        · by_cases hj : j = i
          · subst hj; omega
          · exact h5 j (by omega) (by omega)

/-- The line chosen by `fs3_put_cache` on a cache of `N ≥ 1` lines: the first line filed
under the sector when there is one, and otherwise the first of the lines with the smallest
stamp. -/
theorem putScan_choice (lines : Nat → FS3CacheEntry) (t s : Int) (N : Nat) (hN : 1 ≤ N) :
    putScan lines t s N 0 (lines 0).countUsed 0 < N ∧
    (∀ j, j < putScan lines t s N 0 (lines 0).countUsed 0 →
      ¬ ((lines j).track = t ∧ (lines j).sector = s)) ∧
    ((∃ j, j < N ∧ (lines j).track = t ∧ (lines j).sector = s) →
      (lines (putScan lines t s N 0 (lines 0).countUsed 0)).track = t ∧
      (lines (putScan lines t s N 0 (lines 0).countUsed 0)).sector = s) ∧
    ((∀ j, j < N → ¬ ((lines j).track = t ∧ (lines j).sector = s)) →
      (∀ j, j < N →
        (lines (putScan lines t s N 0 (lines 0).countUsed 0)).countUsed ≤ (lines j).countUsed) ∧
      ∀ j, j < putScan lines t s N 0 (lines 0).countUsed 0 →
        (lines (putScan lines t s N 0 (lines 0).countUsed 0)).countUsed < (lines j).countUsed) := by
  obtain ⟨a, b⟩ := putScan_spec lines t s N 0 (lines 0).countUsed 0
  have hlt : putScan lines t s N 0 (lines 0).countUsed 0 < N := by
    rcases b with b | b
    · rw [b]; omega
    · omega
  refine ⟨hlt, fun j hj => a j (Nat.zero_le _) hj (by omega), ?_, ?_⟩
  · rintro ⟨j, hj, hk⟩
    obtain ⟨-, -, c1, c2⟩ := putScan_match lines t s N 0 (lines 0).countUsed 0 j (Nat.zero_le _)
      (by omega) hk
    exact ⟨c1, c2⟩
  · intro hno
    rcases putScan_min lines t s N 0 (lines 0).countUsed 0
      (fun j _ b => hno j (by omega)) with ⟨h1, h2⟩ | ⟨-, -, -, h4, h5⟩
    · rw [h1]
      exact ⟨fun j hj => h2 j (Nat.zero_le _) (by omega), fun j hj => by omega⟩
    · exact ⟨fun j hj => h5 j (Nat.zero_le _) (by omega), fun j hj => h4 j (Nat.zero_le _) hj⟩

/-! ### Invariant D of the cache -/

theorem fs3_init_cache_invariantD (n : Nat) (heap : Nat → FS3CacheEntry) (c0 : Cache)
    (h : (fs3_init_cache n heap c0).1 = 0) : InvariantD (fs3_init_cache n heap c0).2 := by
  by_cases hcr : c0.cacheCreated = 1
  · simp [fs3_init_cache, hcr] at h
  · simp only [fs3_init_cache, if_neg hcr]
    intro i j hi hj _ _ hu
    simp only at hi hu
    rw [if_pos hi] at hu
    exact absurd ⟨rfl, rfl⟩ hu

theorem fs3_get_cache_invariantD (t s : Int) (c : Cache) (h : InvariantD c) :
    InvariantD (fs3_get_cache t s c).2 := by
  obtain ⟨h1, -, h3⟩ := fs3_get_cache_lines t s c
  intro i j hi hj ht hs hu
  rw [h1] at hi hj
  rw [(h3 i).1, (h3 j).1] at ht
  rw [(h3 i).2.1, (h3 j).2.1] at hs
  rw [(h3 i).1, (h3 i).2.1] at hu
  exact h i j hi hj ht hs hu

theorem fs3_put_cache_invariantD (t s : Int) (data : Buffer) (c : Cache) (hn : InvariantD c) :
    InvariantD (fs3_put_cache t s data c).2 := by
  by_cases hcr : c.cacheCreated = 0
  · rw [fs3_put_cache_not_created t s data c hcr]; exact hn
  · obtain ⟨h1, h2, h3, h4, h5, h6⟩ := fs3_put_cache_lines t s data c hcr
    have key : ∀ i j, i < c.cacheSize → j < c.cacheSize →
        i = putScan c.FS3Cache t s c.cacheSize 0 (c.FS3Cache 0).countUsed 0 →
        j ≠ putScan c.FS3Cache t s c.cacheSize 0 (c.FS3Cache 0).countUsed 0 →
        (c.FS3Cache j).track = t → (c.FS3Cache j).sector = s → ¬ (t = -1 ∧ s = -1) → i = j := by
      intro i j hi hj hip hjp htj hsj h0
      obtain ⟨-, b, c1, c2⟩ := putScan_match c.FS3Cache t s c.cacheSize 0 (c.FS3Cache 0).countUsed 0
        j (Nat.zero_le _) (by omega) ⟨htj, hsj⟩
      have := hn j (putScan c.FS3Cache t s c.cacheSize 0 (c.FS3Cache 0).countUsed 0) hj
        (by omega) (by rw [htj, c1]) (by rw [hsj, c2]) (by rw [htj, hsj]; exact h0)
      omega
    intro i j hi hj ht hs h0
    rw [h1] at hi hj
    by_cases hip : i = putScan c.FS3Cache t s c.cacheSize 0 (c.FS3Cache 0).countUsed 0
    · by_cases hjp : j = putScan c.FS3Cache t s c.cacheSize 0 (c.FS3Cache 0).countUsed 0
      · omega
      · rw [hip, h3, h6 j hjp] at ht
        rw [hip, h4, h6 j hjp] at hs
        rw [hip, h3, h4] at h0
        exact key i j hi hj hip hjp ht.symm hs.symm h0
    · by_cases hjp : j = putScan c.FS3Cache t s c.cacheSize 0 (c.FS3Cache 0).countUsed 0
      · rw [hjp, h3, h6 i hip] at ht
        rw [hjp, h4, h6 i hip] at hs
        rw [h6 i hip, ht, hs] at h0
        exact (key j i hj hi hjp hip ht hs h0).symm
      · rw [h6 i hip, h6 j hjp] at ht hs
        rw [h6 i hip] at h0
        exact hn i j hi hj ht hs h0

/-! ### `fs3_read` and the lines of the cache -/

theorem sameLines_refl (c : Cache) : SameLines c c :=
  ⟨rfl, rfl, rfl, fun _ => ⟨rfl, rfl, rfl⟩⟩

theorem sameLines_trans (c c1 c2 : Cache) (h1 : SameLines c c1) (h2 : SameLines c1 c2) :
    SameLines c c2 :=
  ⟨h2.1.trans h1.1, h2.2.1.trans h1.2.1, h2.2.2.1.trans h1.2.2.1, fun i =>
    ⟨(h2.2.2.2 i).1.trans (h1.2.2.2 i).1, (h2.2.2.2 i).2.1.trans (h1.2.2.2 i).2.1,
      (h2.2.2.2 i).2.2.trans (h1.2.2.2 i).2.2⟩⟩

theorem fs3_get_cache_sameLines (t s : Int) (c : Cache) :
    SameLines c (fs3_get_cache t s c).2 := by
  obtain ⟨h1, h2, h3⟩ := fs3_get_cache_lines t s c
  refine ⟨h1, h2, ?_, h3⟩
  unfold fs3_get_cache
  split
  · rfl
  · split <;> rfl

theorem fetch_sector_sameLines (P : Peer σ) (t s : Int) (d : Buffer) (w : World σ) :
    SameLines w.cache (fetch_sector P t s d w).2.cache := by
  have hg := fs3_get_cache_sameLines t s w.cache
  simp only [fetch_sector]
  split
  · have f := (network_fs3_syscall_frame P (construct_fs3_cmdblock FS3_OP_RDSECT (toU16 s) 0 0) d
      { w with cache := (fs3_get_cache t s w.cache).2 }).2.2.2.2
    split
    · next h =>
      rw [h] at f
      simp only at f ⊢
      rw [f]; exact hg
    · next h =>
      rw [h] at f
      simp only at f
      split
      · simp only; rw [f]; exact hg
      · simp only; rw [f]; exact hg
  · exact hg

/-- A pass of the loop of `fs3_read` puts nothing into the cache. -/
theorem fs3_read_body_sameLines (G : Geometry) (P : Peer σ) (fd : Int)
    (count br : Int) (buf : Buffer) (w : World σ) :
    SameLines w.cache (fs3_read_body G P fd count br buf w).state.2.cache := by
  have hs : ∀ (c : Prop) [Decidable c] (t : Int),
      (if c then (switch_disk_track G P t w).2 else w).cache = w.cache := by
    intro c _ t
    split
    · exact (switch_disk_track_frame G P t w).2.2.2
    · rfl
  unfold fs3_read_body
  simp only
  split
  · next w2 h =>
    have h3 := congrArg (fun r => r.2.cache) h
    simp only at h3
    simp only [Step.state]
    rw [← h3]
    have := fetch_sector_sameLines P (find_current_track G fd w) (find_current_sector G fd w)
      nullBuf (if w.currentDiskTrack ≠ find_current_track G fd w then
        (switch_disk_track G P (find_current_track G fd w) w).2 else w)
    rw [hs] at this
    exact this
  · next b w2 h =>
    have h3 := congrArg (fun r => r.2.cache) h
    simp only at h3
    simp only [Step.state]
    rw [← h3]
    have := fetch_sector_sameLines P (find_current_track G fd w) (find_current_sector G fd w)
      nullBuf (if w.currentDiskTrack ≠ find_current_track G fd w then
        (switch_disk_track G P (find_current_track G fd w) w).2 else w)
    rw [hs] at this
    exact this

theorem fs3_read_loop_sameLines (G : Geometry) (P : Peer σ) (fd : Int) (fuel : Nat)
    (count br : Int) (buf : Buffer) (w : World σ) (r : Int × Buffer × World σ)
    (h : fs3_read_loop G P fd fuel count br buf w = some r) :
    SameLines w.cache r.2.2.cache := by
  induction fuel generalizing count br buf w with
  | zero =>
    unfold fs3_read_loop at h
    split at h
    · simp at h
    · simp only [Option.some.injEq] at h
      subst h
      exact sameLines_refl _
  | succ n ih =>
    unfold fs3_read_loop at h
    split at h
    · have hb := fs3_read_body_sameLines G P fd count br buf w
      split at h
      · next b1 w1 hbody =>
        simp only [Option.some.injEq] at h
        subst h
        rw [hbody] at hb
        exact hb
      · next d b1 w1 hbody =>
        rw [hbody] at hb
        exact sameLines_trans _ _ _ hb (ih _ _ _ _ h)
    · simp only [Option.some.injEq] at h
      subst h
      exact sameLines_refl _

/-- The result of `fs3_get_cache` depends on the keys and payloads of the lines only. -/
theorem fs3_get_cache_of_sameLines (c c1 : Cache) (h : SameLines c c1) (t s : Int) :
    (fs3_get_cache t s c1).1 = (fs3_get_cache t s c).1 := by
  obtain ⟨h1, h2, -, h4⟩ := h
  have hscan : ∀ fuel i, getScan c1.FS3Cache t s fuel i = getScan c.FS3Cache t s fuel i := by
    intro fuel
    induction fuel with
    | zero => intro i; rfl
    | succ n ih =>
      intro i
      unfold getScan
      rw [(h4 i).1, (h4 i).2.1, ih]
  unfold fs3_get_cache
  rw [h2, h1, hscan]
  split
  · rfl
  · split
    · rfl
    · next g _ => simp only [(h4 g).2.2]

/-! ### A read for more bytes than the file holds -/

/-- The bytes handled by a pass of the loop of `fs3_read` never reach past the end of the
file, and at the end of the file they are none. -/
theorem readChunk_bounds (G : Geometry) (hS : 0 < G.FS3_SECTOR_SIZE) (w : World σ) (fd count : Int)
    (hp : 0 ≤ (w.FS3FileArray fd).position)
    (hpL : (w.FS3FileArray fd).position ≤ (w.FS3FileArray fd).length) (hc : 0 < count) :
    0 ≤ readChunk G w fd count ∧ readChunk G w fd count ≤ count ∧
    readChunk G w fd count ≤ (w.FS3FileArray fd).length - (w.FS3FileArray fd).position := by
  obtain ⟨hd0, hdc, hdle⟩ := writeChunk_spec G hS w fd count hp hc
  have h1 := Nat.div_add_mod (w.FS3FileArray fd).length.toNat G.FS3_SECTOR_SIZE
  have h2 := Nat.div_add_mod (w.FS3FileArray fd).position.toNat G.FS3_SECTOR_SIZE
  unfold readChunk
  rw [tdiv_eq_natDiv _ _ (by omega), tdiv_eq_natDiv _ _ hp, tmod_eq_natMod _ _ (by omega),
    tmod_eq_natMod _ _ hp]
  split
  · next heq =>
    have heq' : (w.FS3FileArray fd).length.toNat / G.FS3_SECTOR_SIZE
        = (w.FS3FileArray fd).position.toNat / G.FS3_SECTOR_SIZE := by exact_mod_cast heq
    rw [heq'] at h1
    split <;> omega
  · next hne =>
    have hne' : (w.FS3FileArray fd).length.toNat / G.FS3_SECTOR_SIZE
        ≠ (w.FS3FileArray fd).position.toNat / G.FS3_SECTOR_SIZE := by
      intro e; apply hne; rw [e]
    have hle : (w.FS3FileArray fd).position.toNat / G.FS3_SECTOR_SIZE
        ≤ (w.FS3FileArray fd).length.toNat / G.FS3_SECTOR_SIZE :=
      Nat.div_le_div_right (by omega)
    have hmul := Nat.mul_le_mul_left G.FS3_SECTOR_SIZE
      (show (w.FS3FileArray fd).position.toNat / G.FS3_SECTOR_SIZE + 1
        ≤ (w.FS3FileArray fd).length.toNat / G.FS3_SECTOR_SIZE by omega)
    rw [Nat.mul_add, Nat.mul_one] at hmul
    omega

/-- One pass of the loop of `fs3_read` on a consistent allocation map, for any number of
bytes asked for: the pass ends normally, handles `readChunk` bytes, moves the position by
them and changes neither the length nor the allocation map. -/
theorem read_pass_any (G : Geometry) (hG : G.Valid) (P : Peer σ) (hP : Accepts G P)
    (fd : Int) (count bytesRead : Int) (buf : Buffer) (w : World σ) (u : Nat)
    (hfd : fd ≠ -1) (hc : Consistent G w fd u) (hcount : 0 < count)
    (hin : (w.FS3FileArray fd).position < (w.FS3FileArray fd).length ∨
      (w.FS3FileArray fd).length.toNat % G.FS3_SECTOR_SIZE ≠ 0) :
    ∃ buf1 w1,
      fs3_read_body G P fd count bytesRead buf w
        = Step.next (readChunk G w fd count) (buf1, w1) ∧
      Consistent G w1 fd u ∧
      (w1.FS3FileArray fd).position = (w.FS3FileArray fd).position + readChunk G w fd count ∧
      (w1.FS3FileArray fd).length = (w.FS3FileArray fd).length := by
  have hS := hG.sector_pos
  obtain ⟨hm, hu, hp0, hpL, hcells⟩ := hc
  obtain ⟨hd0, hdc, hdle⟩ := readChunk_bounds G hS w fd count hp0 hpL hcount
  have hk := sector_index_lt G hS _ _ hp0 hpL hin
  obtain ⟨q, b, hqu, hqc, hqk, hb, heq⟩ := read_pass G hG P hP fd count bytesRead buf w u hfd hu
    ⟨hp0, hpL, hcells⟩ hk
  refine ⟨_, _, heq, ⟨?_, ?_, ?_, ?_, ?_⟩, ?_, ?_⟩
  · simp [commitRead, hm]
  · simp only [commitRead, fetch_sector_map, seekTo_map]; exact hu
  · rw [commitRead_file]; simp only [fetch_sector_files, seekTo_files]; omega
  · rw [commitRead_file]; simp only [fetch_sector_files, seekTo_files]; split <;> omega
  · rw [commitRead_file]
    simp only [commitRead, fetch_sector_map, seekTo_map, fetch_sector_files, seekTo_files]
    rw [if_neg (by omega)]; exact hcells
  · rw [commitRead_file]; simp
  · rw [commitRead_file]; simp only [fetch_sector_files, seekTo_files]
    rw [if_neg (by omega)]

/-- When more bytes are asked for than lie between the position and the end of a file
whose last sector is not full, the loop of `fs3_read` never ends: every pass ends normally
and leaves more bytes to read than the file holds. -/
theorem fs3_read_loop_past_end (G : Geometry) (hG : G.Valid) (P : Peer σ) (hP : Accepts G P)
    (fd : Int) (hfd : fd ≠ -1) (u : Nat) (fuel : Nat) (count br : Int) (buf : Buffer)
    (w : World σ) (hc : Consistent G w fd u)
    (hlast : (w.FS3FileArray fd).length.toNat % G.FS3_SECTOR_SIZE ≠ 0)
    (hover : (w.FS3FileArray fd).length - (w.FS3FileArray fd).position < count) :
    fs3_read_loop G P fd fuel count br buf w = none := by
  have hS := hG.sector_pos
  induction fuel generalizing count br buf w with
  | zero =>
    unfold fs3_read_loop
    rw [if_pos (by have := hc.file.2.1; omega)]
  | succ n ih =>
    have hcount : 0 < count := by have := hc.file.2.1; omega
    obtain ⟨hd0, hdc, hdle⟩ := readChunk_bounds G hS w fd count hc.file.1 hc.file.2.1 hcount
    obtain ⟨buf1, w1, hbody, hc1, hp1, hl1⟩ := read_pass_any G hG P hP fd count br buf w u hfd hc
      hcount (Or.inr hlast)
    unfold fs3_read_loop
    rw [if_pos hcount, hbody]
    exact ih _ _ _ w1 hc1 (by rw [hl1]; exact hlast) (by rw [hl1, hp1]; omega)

/-- A call of `fs3_read` for more bytes than lie between the position and the end of a
file whose last sector is not full does not return, however many passes are allowed. -/
theorem fs3_read_past_end (G : Geometry) (hG : G.Valid) (P : Peer σ) (hP : Accepts G P)
    (fuel : Nat) (fd : Int) (buf : Buffer) (count : Int) (w : World σ) (u : Nat)
    (hfd : 0 ≤ fd ∧ fd < FS3_MAX_TOTAL_FILES) (hc : Consistent G w fd u)
    (hcr : (w.FS3FileArray fd).created = true) (hop : (w.FS3FileArray fd).«open» = true)
    (hlast : (w.FS3FileArray fd).length.toNat % G.FS3_SECTOR_SIZE ≠ 0)
    (hpos : (w.FS3FileArray fd).position < (w.FS3FileArray fd).length)
    (hover : (w.FS3FileArray fd).length - (w.FS3FileArray fd).position < count) :
    fs3_read G P fuel fd buf count w = none := by
  have hr : ¬ (fd > (FS3_MAX_TOTAL_FILES : Int) ∨ fd < 0) := by omega
  unfold fs3_read
  rw [if_neg (by simp [hc.mounted]), if_neg hr, if_neg (by simp [hcr]), if_neg (by simp [hop]),
    if_neg (by omega)]
  exact fs3_read_loop_past_end G hG P hP fd (by omega) u fuel count 0 buf w hc hlast hover

/-! ### The command blocks sent by a sector access -/

/-- The bytes handled by a pass of the loop of `fs3_read`, as the body computes them, are
not negative when the position lies in the file. -/
theorem read_count_nonneg (S : Nat) (hS : 0 < S) (p L count : Int) (hp : 0 ≤ p) (hpL : p ≤ L)
    (hc : 0 < count) :
    0 ≤ (if L.tdiv S = p.tdiv S then
        if L.tmod S - p.tmod S < (if (S : Int) - p.tmod S < count then (S : Int) - p.tmod S
            else count) then
          L.tmod S - p.tmod S
        else (if (S : Int) - p.tmod S < count then (S : Int) - p.tmod S else count)
      else (if (S : Int) - p.tmod S < count then (S : Int) - p.tmod S else count)) := by
  have h1 := Nat.div_add_mod L.toNat S
  have h2 := Nat.div_add_mod p.toNat S
  have h3 := Nat.mod_lt p.toNat hS
  rw [tdiv_eq_natDiv _ _ (by omega), tdiv_eq_natDiv _ _ hp, tmod_eq_natMod _ _ (by omega),
    tmod_eq_natMod _ _ hp]
  split
  · next heq =>
    have heq' : L.toNat / S = p.toNat / S := by exact_mod_cast heq
    rw [heq'] at h1
    split
    · omega
    · split <;> omega
  · split <;> omega

/-- A pass of the loop of `fs3_write` keeps the position of every record in the record. -/
theorem fs3_write_body_bound (G : Geometry) (hS : 0 < G.FS3_SECTOR_SIZE) (P : Peer σ)
    (fd : Int) (buf : Buffer) (count bw : Int) (d : Buffer) (w : World σ) (hcount : 0 < count)
    (i : Int)
    (hb : 0 ≤ (w.FS3FileArray i).position ∧ (w.FS3FileArray i).position ≤ (w.FS3FileArray i).length) :
    0 ≤ ((fs3_write_body G P fd buf count bw d w).state.FS3FileArray i).position ∧
    ((fs3_write_body G P fd buf count bw d w).state.FS3FileArray i).position
      ≤ ((fs3_write_body G P fd buf count bw d w).state.FS3FileArray i).length := by
  unfold fs3_write_body
  simp only
  split
  · next w3 h =>
    have h3 := congrArg (fun r => r.2.FS3FileArray) h
    simp only [ite_fetch_files, ite_switch_files] at h3
    simp only [Step.state]
    rw [← h3]; exact hb
  · next b w3 h =>
    have h3 := congrArg (fun r => r.2.FS3FileArray) h
    simp only [ite_fetch_files, ite_switch_files] at h3
    split
    · next w5 h5 =>
      have k := congrArg (fun r => r.2.FS3FileArray) h5
      simp only [network_fs3_syscall_files] at k
      simp only [Step.state]
      rw [← k, ← h3]; exact hb
    · next r x w5 h5 =>
      have k := congrArg (fun r => r.2.FS3FileArray) h5
      simp only [network_fs3_syscall_files] at k
      split
      · simp only [Step.state]
        rw [← k, ← h3]; exact hb
      · simp only [Step.state]
        by_cases hi : i = fd
        · subst hi
          rw [Function.update_same, ← k, ← h3]
          simp only
          have hm := tmod_eq_natMod (w.FS3FileArray i).position G.FS3_SECTOR_SIZE hb.1
          have hlt := Nat.mod_lt (w.FS3FileArray i).position.toNat hS
          rw [hm]
          constructor
          · split <;> omega
          · split <;> split <;> omega
        · rw [Function.update_noteq hi, ← k, ← h3]; exact hb

/-- A pass of the loop of `fs3_read` keeps the position of every record in the record. -/
theorem fs3_read_body_bound (G : Geometry) (hS : 0 < G.FS3_SECTOR_SIZE) (P : Peer σ)
    (fd : Int) (count br : Int) (buf : Buffer) (w : World σ) (hcount : 0 < count)
    (i : Int)
    (hb : 0 ≤ (w.FS3FileArray i).position ∧ (w.FS3FileArray i).position ≤ (w.FS3FileArray i).length) :
    0 ≤ ((fs3_read_body G P fd count br buf w).state.2.FS3FileArray i).position ∧
    ((fs3_read_body G P fd count br buf w).state.2.FS3FileArray i).position
      ≤ ((fs3_read_body G P fd count br buf w).state.2.FS3FileArray i).length := by
  unfold fs3_read_body
  simp only
  split
  · next w2 h =>
    have h3 := congrArg (fun r => r.2.FS3FileArray) h
    simp only [fetch_sector_files, ite_switch_files] at h3
    simp only [Step.state]
    rw [← h3]; exact hb
  · next b w2 h =>
    have h3 := congrArg (fun r => r.2.FS3FileArray) h
    simp only [fetch_sector_files, ite_switch_files] at h3
    simp only [Step.state]
    by_cases hi : i = fd
    · subst hi
      rw [Function.update_same, ← h3]
      simp only
      have hd := read_count_nonneg G.FS3_SECTOR_SIZE hS (w.FS3FileArray i).position
        (w.FS3FileArray i).length count hb.1 hb.2 hcount
      constructor
      · omega
      · split <;> omega
    · rw [Function.update_noteq hi, ← h3]; exact hb

theorem fs3_write_loop_bound (G : Geometry) (hS : 0 < G.FS3_SECTOR_SIZE) (P : Peer σ)
    (fd : Int) (buf : Buffer) (scratch : Int → Buffer) (fuel : Nat) (count bw : Int)
    (w : World σ) (r : Int × World σ)
    (h : fs3_write_loop G P fd buf scratch fuel count bw w = some r) (i : Int)
    (hb : 0 ≤ (w.FS3FileArray i).position ∧ (w.FS3FileArray i).position ≤ (w.FS3FileArray i).length) :
    0 ≤ (r.2.FS3FileArray i).position ∧
    (r.2.FS3FileArray i).position ≤ (r.2.FS3FileArray i).length := by
  induction fuel generalizing count bw w with
  | zero =>
    unfold fs3_write_loop at h
    split at h
    · simp at h
    · simp only [Option.some.injEq] at h; subst h; exact hb
  | succ n ih =>
    unfold fs3_write_loop at h
    split at h
    · next hcount =>
      have hbody := fs3_write_body_bound G hS P fd buf count bw (scratch bw) w hcount i hb
      split at h
      · next w1 hw =>
        rw [hw] at hbody
        simp only [Option.some.injEq] at h; subst h
        exact hbody
      · next d w1 hw =>
        rw [hw] at hbody
        exact ih _ _ _ h hbody
    · simp only [Option.some.injEq] at h; subst h; exact hb

theorem fs3_read_loop_bound (G : Geometry) (hS : 0 < G.FS3_SECTOR_SIZE) (P : Peer σ)
    (fd : Int) (fuel : Nat) (count br : Int) (buf : Buffer) (w : World σ)
    (r : Int × Buffer × World σ)
    (h : fs3_read_loop G P fd fuel count br buf w = some r) (i : Int)
    (hb : 0 ≤ (w.FS3FileArray i).position ∧ (w.FS3FileArray i).position ≤ (w.FS3FileArray i).length) :
    0 ≤ (r.2.2.FS3FileArray i).position ∧
    (r.2.2.FS3FileArray i).position ≤ (r.2.2.FS3FileArray i).length := by
  induction fuel generalizing count br buf w with
  | zero =>
    unfold fs3_read_loop at h
    split at h
    · simp at h
    · simp only [Option.some.injEq] at h; subst h; exact hb
  | succ n ih =>
    unfold fs3_read_loop at h
    split at h
    · next hcount =>
      have hbody := fs3_read_body_bound G hS P fd count br buf w hcount i hb
      split at h
      · next b1 w1 hw =>
        rw [hw] at hbody
        simp only [Option.some.injEq] at h; subst h
        exact hbody
      · next d b1 w1 hw =>
        rw [hw] at hbody
        exact ih _ _ _ _ h hbody
    · simp only [Option.some.injEq] at h; subst h; exact hb

theorem positionBound_of_records (w w1 : World σ)
    (hcr : ∀ i, (w1.FS3FileArray i).created = (w.FS3FileArray i).created)
    (hrec : ∀ i,
      (0 ≤ (w.FS3FileArray i).position ∧ (w.FS3FileArray i).position ≤ (w.FS3FileArray i).length) →
      0 ≤ (w1.FS3FileArray i).position ∧
        (w1.FS3FileArray i).position ≤ (w1.FS3FileArray i).length)
    (hp : PositionBound w) : PositionBound w1 :=
  fun i h0 h1 hc => hrec i (hp i h0 h1 (by rw [← hcr]; exact hc))

theorem fs3_open_positionBound (path : String) (g : Int) (w : World σ)
    (hp : PositionBound w) : PositionBound (fs3_open path g w).2 := by
  unfold fs3_open
  split
  · next i0 h0 =>
    obtain ⟨-, hlt, -, -⟩ := firstIndex_some_spec _ _ _ _ h0
    intro i hi0 hi1 hc
    simp only at hc ⊢
    by_cases hi : i = (i0 : Int)
    · subst hi
      rw [Function.update_same] at hc ⊢
      simp only at hc ⊢
      have := hp (i0 : Int) hi0 hi1 hc
      omega
    · rw [Function.update_noteq hi] at hc ⊢
      exact hp i hi0 hi1 hc
  · split
    · exact hp
    · intro i hi0 hi1 hc
      simp only at hc ⊢
      split at hc
      · next i0 _ =>
        by_cases hi : i = (i0 : Int)
        · subst hi
          rw [Function.update_same]
          simp
        · rw [Function.update_noteq hi] at hc ⊢
          exact hp i hi0 hi1 hc
      · by_cases hi : i = g
        · subst hi
          rw [Function.update_same]
          simp
        · rw [Function.update_noteq hi] at hc ⊢
          exact hp i hi0 hi1 hc

theorem fs3_close_positionBound (fd : Int) (w : World σ) (hp : PositionBound w) :
    PositionBound (fs3_close fd w).2 := by
  unfold fs3_close
  split_ifs
  · exact hp
  · exact hp
  · exact hp
  · intro i hi0 hi1 hc
    simp only at hc ⊢
    by_cases hi : i = fd
    · subst hi
      rw [Function.update_same] at hc ⊢
      exact hp i hi0 hi1 hc
    · rw [Function.update_noteq hi] at hc ⊢
      exact hp i hi0 hi1 hc

/-- A seek keeps the positions inside the files: it is refused when the offset lies past
the length of the file. -/
theorem fs3_seek_positionBound (fd : Int) (loc : Nat) (w : World σ) (hp : PositionBound w)
    (hfit : LengthsFit w) : PositionBound (fs3_seek fd loc w).2 := by
  unfold fs3_seek
  split_ifs with h1 h2 h3 h4
  · exact hp
  · exact hp
  · exact hp
  · exact hp
  · intro i hi0 hi1 hc
    simp only at hc ⊢
    by_cases hi : i = fd
    · subst hi
      rw [Function.update_same] at hc ⊢
      simp only at hc ⊢
      have hb := hp i hi0 hi1 hc
      have hl := hfit i hi0 hi1 hc
      have hu32 : toU32 (w.FS3FileArray i).length = (w.FS3FileArray i).length.toNat := by
        unfold toU32; congr 1; omega
      rw [hu32] at h3
      have h5 : toI32 loc = (loc : Int) := by
        unfold toI32
        have : loc % 4294967296 = loc := by omega
        rw [this, if_pos (by omega)]
      rw [h5]
      omega
    · rw [Function.update_noteq hi] at hc ⊢
      exact hp i hi0 hi1 hc

theorem runCall_positionBound (G : Geometry) (hG : G.Valid) (P : Peer σ) (c : Call)
    (w w1 : World σ) (h : runCall G P c w = some w1) (hp : PositionBound w)
    (hfit : LengthsFit w) : PositionBound w1 := by
  have hS := hG.sector_pos
  cases c with
  | fileOpen path g =>
    simp only [runCall, Option.some.injEq] at h
    subst h
    exact fs3_open_positionBound path g w hp
  | fileClose fd =>
    simp only [runCall, Option.some.injEq] at h
    subst h
    exact fs3_close_positionBound fd w hp
  | fileSeek fd loc =>
    simp only [runCall, Option.some.injEq] at h
    subst h
    exact fs3_seek_positionBound fd loc w hp hfit
  | fileRead fuel fd buf count =>
    simp only [runCall] at h
    cases hr : fs3_read G P fuel fd buf count w with
    | none => rw [hr] at h; simp at h
    | some r =>
    rw [hr] at h
    simp only [Option.map_some', Option.some.injEq] at h
    subst h
    unfold fs3_read at hr
    split_ifs at hr
    all_goals first
      | (simp only [Option.some.injEq] at hr; subst hr; exact hp)
      | exact positionBound_of_records w r.2.2
          (fun i => fs3_read_loop_created G P fd fuel count 0 buf w r hr i)
          (fun i hb => fs3_read_loop_bound G hS P fd fuel count 0 buf w r hr i hb) hp
  | fileWrite fuel fd buf count scratch =>
    simp only [runCall] at h
    cases hr : fs3_write G P fuel fd buf count scratch w with
    | none => rw [hr] at h; simp at h
    | some r =>
    rw [hr] at h
    simp only [Option.map_some', Option.some.injEq] at h
    subst h
    unfold fs3_write at hr
    split_ifs at hr
    all_goals first
      | (simp only [Option.some.injEq] at hr; subst hr; exact hp)
      | exact positionBound_of_records w r.2
          (fun i => fs3_write_loop_created G P fd buf scratch fuel count 0 w r hr i)
          (fun i hb => fs3_write_loop_bound G hS P fd buf scratch fuel count 0 w r hr i hb) hp

/-- After a successful mount no record of the table is created. -/
theorem fs3_mount_disk_none_created (G : Geometry) (P : Peer σ) (w : World σ)
    (h : (fs3_mount_disk G P w).1 = 0) (i : Int) (hi0 : 0 ≤ i) (hi1 : i < FS3_MAX_TOTAL_FILES) :
    ((fs3_mount_disk G P w).2.FS3FileArray i).created = false := by
  simp only [fs3_mount_disk] at h ⊢
  by_cases hm : w.diskMounted = true
  · rw [if_pos hm] at h; simp at h
  · rw [if_neg hm] at h ⊢
    split at h
    · simp at h
    · next r x w1 hw =>
      by_cases hret : getReturnBit r ≠ 0
      · rw [if_pos hret] at h; simp at h
      · simp only [hw, if_neg hret]
        rw [if_pos ⟨hi0, hi1⟩]

theorem reachableInRange_fit (G : Geometry) (P : Peer σ) (w : World σ)
    (h : ReachableInRange G P w) : LengthsFit w := by
  cases h with
  | mount w0 h0 =>
    intro i hi0 hi1 hc
    rw [fs3_mount_disk_none_created G P w0 h0 i hi0 hi1] at hc
    simp at hc
  | call c w w1 _ _ hfit => exact hfit

theorem fs3_open_lengthsFit (path : String) (g : Int) (w : World σ)
    (hp : LengthsFit w) : LengthsFit (fs3_open path g w).2 := by
  unfold fs3_open
  split
  · next i0 h0 =>
    intro i hi0 hi1 hc
    simp only at hc ⊢
    by_cases hi : i = (i0 : Int)
    · subst hi
      rw [Function.update_same] at hc ⊢
      exact hp (i0 : Int) hi0 hi1 hc
    · rw [Function.update_noteq hi] at hc ⊢
      exact hp i hi0 hi1 hc
  · split
    · exact hp
    · intro i hi0 hi1 hc
      simp only at hc ⊢
      split at hc
      · next i0 _ =>
        by_cases hi : i = (i0 : Int)
        · subst hi
          rw [Function.update_same]
          simp
        · rw [Function.update_noteq hi] at hc ⊢
          exact hp i hi0 hi1 hc
      · by_cases hi : i = g
        · subst hi
          rw [Function.update_same]
          simp
        · rw [Function.update_noteq hi] at hc ⊢
          exact hp i hi0 hi1 hc

/-! ### Invariant C: the allocation map is filled from the front -/

/-- The inner loops of `find_current_track` and `find_current_sector` end the same way:
at the same cell of the file, at the same EMPTY cell, or at the end of the track with the
same count. -/
theorem findCurrentRow_pair (map : Int → Int → Int) (fd partNum : Int)
    (pick1 pick2 : Nat → Nat → Int) (i : Nat) (fuel j : Nat) (count : Int) :
    (∃ jq, j ≤ jq ∧ jq < j + fuel ∧ map (i : Int) (jq : Int) = fd ∧
      findCurrentRow map fd partNum pick1 i fuel j count = RowScan.ret (pick1 i jq) ∧
      findCurrentRow map fd partNum pick2 i fuel j count = RowScan.ret (pick2 i jq)) ∨
    (findCurrentRow map fd partNum pick1 i fuel j count = RowScan.ret (-1) ∧
      findCurrentRow map fd partNum pick2 i fuel j count = RowScan.ret (-1)) ∨
    (∃ c, findCurrentRow map fd partNum pick1 i fuel j count = RowScan.cont c ∧
      findCurrentRow map fd partNum pick2 i fuel j count = RowScan.cont c) := by
  induction fuel generalizing j count with
  | zero => exact Or.inr (Or.inr ⟨count, rfl, rfl⟩)
  | succ n ih =>
    unfold findCurrentRow
    simp only
    by_cases h1 : map (i : Int) (j : Int) = fd ∧
        (if map (i : Int) (j : Int) = fd then count + 1 else count) = partNum
    · rw [if_pos h1, if_pos h1]
      exact Or.inl ⟨j, le_refl _, by omega, h1.1, rfl, rfl⟩
    · rw [if_neg h1, if_neg h1]
      by_cases h2 : map (i : Int) (j : Int) = -1
      · rw [if_pos h2, if_pos h2]
        exact Or.inr (Or.inl ⟨rfl, rfl⟩)
      · rw [if_neg h2, if_neg h2]
        rcases ih (j + 1) (if map (i : Int) (j : Int) = fd then count + 1 else count) with
          ⟨jq, a, b, c, d, e⟩ | h | h
        · exact Or.inl ⟨jq, by omega, by omega, c, d, e⟩
        · exact Or.inr (Or.inl h)
        · exact Or.inr (Or.inr h)

theorem findCurrentMap_pair (map : Int → Int → Int) (fd partNum : Int)
    (pick1 pick2 : Nat → Nat → Int) (trackSize : Nat) (fuel i : Nat) (count : Int) :
    (∃ iq jq, i ≤ iq ∧ iq < i + fuel ∧ jq < trackSize ∧ map (iq : Int) (jq : Int) = fd ∧
      findCurrentMap map fd partNum pick1 trackSize fuel i count = pick1 iq jq ∧
      findCurrentMap map fd partNum pick2 trackSize fuel i count = pick2 iq jq) ∨
    (findCurrentMap map fd partNum pick1 trackSize fuel i count = -1 ∧
      findCurrentMap map fd partNum pick2 trackSize fuel i count = -1) := by
  induction fuel generalizing i count with
  | zero => exact Or.inr ⟨rfl, rfl⟩
  | succ n ih =>
    unfold findCurrentMap
    rcases findCurrentRow_pair map fd partNum pick1 pick2 i trackSize 0 count with
      ⟨jq, a, b, c, d, e⟩ | ⟨d, e⟩ | ⟨c, d, e⟩
    · rw [d, e]
      exact Or.inl ⟨i, jq, le_refl _, by omega, by omega, c, rfl, rfl⟩
    · rw [d, e]
      exact Or.inr ⟨rfl, rfl⟩
    · rw [d, e]
      simp only
      rcases ih (i + 1) c with ⟨iq, jq, a, b, c1, d1, e1, f1⟩ | h
      · exact Or.inl ⟨iq, jq, by omega, by omega, c1, d1, e1, f1⟩
      · exact Or.inr h

/-- What `find_current_track` and `find_current_sector` return together: -1 both, or the
track and the sector of a cell of the allocation map that holds the handle. -/
theorem find_current_pair (G : Geometry) (fd : Int) (w : World σ) :
    (find_current_track G fd w = -1 ∧ find_current_sector G fd w = -1) ∨
    ∃ i j : Nat, i < G.FS3_MAX_TRACKS ∧ j < G.FS3_TRACK_SIZE ∧
      w.FS3DiskMap (i : Int) (j : Int) = fd ∧
      find_current_track G fd w = (i : Int) ∧ find_current_sector G fd w = (j : Int) := by
  unfold find_current_track find_current_sector
  simp only
  rcases findCurrentMap_pair w.FS3DiskMap fd
      ((w.FS3FileArray fd).position.tdiv G.FS3_SECTOR_SIZE) (fun i _ => (i : Int))
      (fun _ j => (j : Int)) G.FS3_TRACK_SIZE G.FS3_MAX_TRACKS 0 (-1) with
    ⟨iq, jq, a, b, c, d, e, f⟩ | h
  · exact Or.inr ⟨iq, jq, by omega, c, d, e, f⟩
  · exact Or.inl h

/-- On a full allocation map `find_open_track` returns -1. -/
theorem find_open_track_full (G : Geometry) (w : World σ)
    (h : ∀ q, q < G.cells → cellAt G w.FS3DiskMap q ≠ -1) : find_open_track G w = -1 := by
  unfold find_open_track
  rw [firstIndex_eq_none]
  intro i _ hi
  rw [firstIndex_eq_none]
  · rfl
  · intro j _ hj
    have hq : i * G.FS3_TRACK_SIZE + j < G.cells := by
      unfold Geometry.cells
      calc i * G.FS3_TRACK_SIZE + j < i * G.FS3_TRACK_SIZE + G.FS3_TRACK_SIZE := by omega
        _ = (i + 1) * G.FS3_TRACK_SIZE := by rw [Nat.add_mul]; omega
        _ ≤ G.FS3_MAX_TRACKS * G.FS3_TRACK_SIZE := Nat.mul_le_mul_right _ (by omega)
    have := h _ hq
    rw [cellAt_mk G _ i j (by omega)] at this
    exact decide_eq_false this

theorem ite_switch_map (G : Geometry) (P : Peer σ) (c : Prop) [Decidable c] (t : Int)
    (w : World σ) :
    (if c then (switch_disk_track G P t w).2 else w).FS3DiskMap = w.FS3DiskMap := by
  split
  · exact (switch_disk_track_frame G P t w).2.1
  · rfl

theorem ite_fetch_map (P : Peer σ) (c : Prop) [Decidable c] (t s : Int) (d : Buffer)
    (w : World σ) :
    (if c then fetch_sector P t s d w else (some d, w)).2.FS3DiskMap = w.FS3DiskMap := by
  split
  · exact fetch_sector_map P t s d w
  · rfl

theorem ite_switch_mounted (G : Geometry) (P : Peer σ) (c : Prop) [Decidable c] (t : Int)
    (w : World σ) :
    (if c then (switch_disk_track G P t w).2 else w).diskMounted = w.diskMounted := by
  split
  · exact (switch_disk_track_frame G P t w).2.2.1
  · rfl

theorem ite_fetch_mounted (P : Peer σ) (c : Prop) [Decidable c] (t s : Int) (d : Buffer)
    (w : World σ) :
    (if c then fetch_sector P t s d w else (some d, w)).2.diskMounted = w.diskMounted := by
  split
  · exact fetch_sector_mounted P t s d w
  · rfl

/-- A pass of the loop of `fs3_write` leaves the driver mounted or not, as it was. -/
theorem fs3_write_body_mounted (G : Geometry) (P : Peer σ) (fd : Int) (buf : Buffer)
    (count bw : Int) (d : Buffer) (w : World σ) :
    (fs3_write_body G P fd buf count bw d w).state.diskMounted = w.diskMounted := by
  unfold fs3_write_body
  simp only
  split
  · next w3 h =>
    have h3 := congrArg (fun r => r.2.diskMounted) h
    simp only [ite_fetch_mounted, ite_switch_mounted] at h3
    simp only [Step.state]
    rw [← h3]
  · next b w3 h =>
    have h3 := congrArg (fun r => r.2.diskMounted) h
    simp only [ite_fetch_mounted, ite_switch_mounted] at h3
    split
    · next w5 h5 =>
      have k := congrArg (fun r => r.2.diskMounted) h5
      simp only [network_fs3_syscall_mounted] at k
      simp only [Step.state]
      rw [← k, ← h3]
    · next r x w5 h5 =>
      have k := congrArg (fun r => r.2.diskMounted) h5
      simp only [network_fs3_syscall_mounted] at k
      split
      · simp only [Step.state]
        rw [← k, ← h3]
      · simp only [Step.state]
        rw [← k, ← h3]

/-- A pass of the loop of `fs3_write` changes at most one cell of the allocation map, in
the row of the track it has chosen, and writes the handle there. -/
theorem fs3_write_body_map (G : Geometry) (P : Peer σ) (fd : Int) (buf : Buffer)
    (count bw : Int) (d : Buffer) (w : World σ) :
    (fs3_write_body G P fd buf count bw d w).state.FS3DiskMap = w.FS3DiskMap ∨
    ∃ s, (fs3_write_body G P fd buf count bw d w).state.FS3DiskMap
      = Function.update w.FS3DiskMap (writeTrack G fd w)
          (Function.update (w.FS3DiskMap (writeTrack G fd w)) s fd) := by
  unfold fs3_write_body writeTrack
  simp only [decide_eq_true_eq]
  split
  · next w3 h =>
    have h3 := congrArg (fun r => r.2.FS3DiskMap) h
    simp only [ite_fetch_map, ite_switch_map] at h3
    simp only [Step.state]
    exact Or.inl h3.symm
  · next b w3 h =>
    have h3 := congrArg (fun r => r.2.FS3DiskMap) h
    simp only [ite_fetch_map, ite_switch_map] at h3
    split
    · next w5 h5 =>
      have k := congrArg (fun r => r.2.FS3DiskMap) h5
      simp only [network_fs3_syscall_map] at k
      simp only [Step.state]
      left
      rw [← k, ← h3]
    · next r x w5 h5 =>
      have k := congrArg (fun r => r.2.FS3DiskMap) h5
      simp only [network_fs3_syscall_map] at k
      split
      · simp only [Step.state]
        left
        rw [← k, ← h3]
      · simp only [Step.state]
        right
        rw [← k, ← h3]
        exact ⟨_, rfl⟩

/-- A pass of the loop of `fs3_read` leaves the allocation map and the mount flag. -/
theorem fs3_read_body_map (G : Geometry) (P : Peer σ) (fd : Int)
    (count br : Int) (buf : Buffer) (w : World σ) :
    (fs3_read_body G P fd count br buf w).state.2.FS3DiskMap = w.FS3DiskMap := by
  unfold fs3_read_body
  simp only
  split
  · next w2 h =>
    have h3 := congrArg (fun r => r.2.FS3DiskMap) h
    simp only [fetch_sector_map, ite_switch_map] at h3
    simp only [Step.state]
    rw [← h3]
  · next b w2 h =>
    have h3 := congrArg (fun r => r.2.FS3DiskMap) h
    simp only [fetch_sector_map, ite_switch_map] at h3
    simp only [Step.state]
    rw [← h3]

theorem fs3_read_loop_map (G : Geometry) (P : Peer σ) (fd : Int)
    (fuel : Nat) (count br : Int) (buf : Buffer) (w : World σ) (r : Int × Buffer × World σ)
    (h : fs3_read_loop G P fd fuel count br buf w = some r) :
    r.2.2.FS3DiskMap = w.FS3DiskMap := by
  induction fuel generalizing count br buf w with
  | zero =>
    unfold fs3_read_loop at h
    split at h
    · simp at h
    · simp only [Option.some.injEq] at h; subst h; rfl
  | succ n ih =>
    unfold fs3_read_loop at h
    split at h
    · have hb := fs3_read_body_map G P fd count br buf w
      split at h
      · next b1 w1 hw =>
        rw [hw] at hb
        simp only [Option.some.injEq] at h; subst h
        exact hb
      · next d b1 w1 hw =>
        rw [hw] at hb
        rw [ih _ _ _ _ h]
        exact hb
    · simp only [Option.some.injEq] at h; subst h; rfl

theorem usedPrefix_of_cells (G : Geometry) (map map1 : Int → Int → Int) (u : Nat)
    (h : ∀ q, q < G.cells → cellAt G map1 q = cellAt G map q) (hu : UsedPrefix G map u) :
    UsedPrefix G map1 u :=
  ⟨hu.1, fun q hq => by rw [h q (by have := hu.1; omega)]; exact hu.2.1 q hq,
    fun q h1 h2 => by rw [h q h2]; exact hu.2.2 q h1 h2⟩

/-- Taking the first EMPTY cell of the scan order keeps the taken cells a prefix of it. -/
theorem usedPrefix_take (G : Geometry) (map map1 : Int → Int → Int) (u : Nat) (fd : Int)
    (hfd : fd ≠ -1) (hfree : u < G.cells)
    (h : cellAt G map1 = Function.update (cellAt G map) u fd) (hu : UsedPrefix G map u) :
    UsedPrefix G map1 (u + 1) := by
  refine ⟨by omega, fun q hq => ?_, fun q h1 h2 => ?_⟩
  · rw [h]
    by_cases hqu : q = u
    · subst hqu; rw [Function.update_same]; exact hfd
    · rw [Function.update_noteq hqu]; exact hu.2.1 q (by omega)
  · rw [h, Function.update_noteq (by omega)]
    exact hu.2.2 q (by omega) h2

/-- A pass of the loop of `fs3_write` on a mounted driver whose allocation map is filled
from the front up to place `u`, with all wire calls succeeding: the pass leaves the cells
of the map as they are, or it writes the handle into the cell at place `u`, the first
EMPTY cell of the scan order, and leaves the others. -/
theorem write_pass_usedPrefix (G : Geometry) (hG : G.Valid) (P : Peer σ) (hP : Accepts G P)
    (fd : Int) (buf : Buffer) (count bw : Int) (d : Buffer) (w : World σ) (u : Nat)
    (hfd : fd ≠ -1) (hm : w.diskMounted = true) (hu : UsedPrefix G w.FS3DiskMap u) :
    (∀ q, q < G.cells →
      cellAt G (fs3_write_body G P fd buf count bw d w).state.FS3DiskMap q
        = cellAt G w.FS3DiskMap q) ∨
    (u < G.cells ∧
      cellAt G (fs3_write_body G P fd buf count bw d w).state.FS3DiskMap
        = Function.update (cellAt G w.FS3DiskMap) u fd) := by
  rcases find_current_pair G fd w with ⟨h1, h2⟩ | ⟨i, j, hi, hj, hcell, h1, h2⟩
  · by_cases hfree : u < G.cells
    · right
      have hts := track_size_pos_of_lt_cells G u hfree
      have heq := write_body_alloc G hG P hP fd buf count bw d w hm
        (u / G.FS3_TRACK_SIZE) (u % G.FS3_TRACK_SIZE) (div_lt_of_lt_cells G u hfree)
        (Nat.mod_lt u hts) (Or.inl h2) (find_open_track_eq G w u hu hfree)
        (fun w1 e1 e2 => find_open_sector_eq G w1 u (by rw [e1]; exact hu) hfree e2)
        (hu.2.2 u (le_refl _) hfree)
      refine ⟨hfree, ?_⟩
      rw [heq]
      simp only [Step.state]
      rw [commitWrite_cellAt, storeSector_map, seekTo_map]
    · left
      have hfull : find_open_track G w = -1 :=
        find_open_track_full G w (fun q hq => hu.2.1 q (by omega))
      have hwt : writeTrack G fd w = -1 := by
        unfold writeTrack
        rw [if_pos (Or.inl h2)]
        exact hfull
      intro q hq
      rcases fs3_write_body_map G P fd buf count bw d w with hmap | ⟨s, hmap⟩
      · rw [hmap]
      · rw [hmap, hwt]
        unfold cellAt
        have hne : ∀ a : Nat, (a : Int) ≠ -1 := fun a => by omega
        rw [Function.update_noteq (hne _)]
  · left
    obtain ⟨b, hb, heq⟩ := write_body_existing G hG P hP fd buf count bw d w i j hj h1 h2
      (by rw [hcell]; exact hfd)
    intro q hq
    rw [heq]
    simp only [Step.state, commitWrite, storeSector_map, fetch_sector_map, seekTo_map]
    rw [← hcell, Function.update_eq_self, Function.update_eq_self]

/-- The loop of `fs3_write` keeps the taken cells of the allocation map a prefix of the
scan order. -/
theorem fs3_write_loop_usedPrefix (G : Geometry) (hG : G.Valid) (P : Peer σ) (hP : Accepts G P)
    (fd : Int) (buf : Buffer) (scratch : Int → Buffer) (hfd : fd ≠ -1) (fuel : Nat)
    (count bw : Int) (w : World σ) (r : Int × World σ)
    (h : fs3_write_loop G P fd buf scratch fuel count bw w = some r)
    (hm : w.diskMounted = true) (hu : ∃ u, UsedPrefix G w.FS3DiskMap u) :
    r.2.diskMounted = true ∧ ∃ u, UsedPrefix G r.2.FS3DiskMap u := by
  induction fuel generalizing count bw w with
  | zero =>
    unfold fs3_write_loop at h
    split at h
    · simp at h
    · simp only [Option.some.injEq] at h; subst h; exact ⟨hm, hu⟩
  | succ n ih =>
    unfold fs3_write_loop at h
    split at h
    · obtain ⟨u, hu⟩ := hu
      have hmb := fs3_write_body_mounted G P fd buf count bw (scratch bw) w
      have hub : ∃ u1, UsedPrefix G
          (fs3_write_body G P fd buf count bw (scratch bw) w).state.FS3DiskMap u1 := by
        rcases write_pass_usedPrefix G hG P hP fd buf count bw (scratch bw) w u hfd hm hu with
          hsame | ⟨hfree, hupd⟩
        · exact ⟨u, usedPrefix_of_cells G _ _ u hsame hu⟩
        · exact ⟨u + 1, usedPrefix_take G _ _ u fd hfd hfree hupd hu⟩
      split at h
      · next w1 hw =>
        rw [hw] at hmb hub
        simp only [Option.some.injEq] at h; subst h
        exact ⟨by rw [← hm]; exact hmb, hub⟩
      · next dd w1 hw =>
        rw [hw] at hmb hub
        exact ih _ _ _ h (by rw [← hm]; exact hmb) hub
    · simp only [Option.some.injEq] at h; subst h; exact ⟨hm, hu⟩

theorem fs3_close_map (fd : Int) (w : World σ) :
    (fs3_close fd w).2.FS3DiskMap = w.FS3DiskMap := by
  unfold fs3_close
  split_ifs <;> rfl

/-- A call that returns keeps the taken cells of the allocation map a prefix of the scan
order. -/
theorem runCall_usedPrefix (G : Geometry) (hG : G.Valid) (P : Peer σ) (hP : Accepts G P) (c : Call)
    (w w1 : World σ) (h : runCall G P c w = some w1)
    (hu : ∃ u, UsedPrefix G w.FS3DiskMap u) : ∃ u, UsedPrefix G w1.FS3DiskMap u := by
  cases c with
  | fileOpen path g =>
    simp only [runCall, Option.some.injEq] at h
    subst h
    rw [fs3_open_map]; exact hu
  | fileClose fd =>
    simp only [runCall, Option.some.injEq] at h
    subst h
    rw [fs3_close_map]; exact hu
  | fileSeek fd loc =>
    simp only [runCall, Option.some.injEq] at h
    subst h
    rw [fs3_seek_map]; exact hu
  | fileRead fuel fd buf count =>
    simp only [runCall] at h
    cases hr : fs3_read G P fuel fd buf count w with
    | none => rw [hr] at h; simp at h
    | some r =>
    rw [hr] at h
    simp only [Option.map_some', Option.some.injEq] at h
    subst h
    unfold fs3_read at hr
    split_ifs at hr
    all_goals first
      | (simp only [Option.some.injEq] at hr; subst hr; exact hu)
      | (rw [fs3_read_loop_map G P fd fuel count 0 buf w r hr]; exact hu)
  | fileWrite fuel fd buf count scratch =>
    simp only [runCall] at h
    cases hr : fs3_write G P fuel fd buf count scratch w with
    | none => rw [hr] at h; simp at h
    | some r =>
    rw [hr] at h
    simp only [Option.map_some', Option.some.injEq] at h
    subst h
    unfold fs3_write at hr
    split_ifs at hr with h1 h2 h3 h4
    · simp only [Option.some.injEq] at hr; subst hr; exact hu
    · simp only [Option.some.injEq] at hr; subst hr; exact hu
    · simp only [Option.some.injEq] at hr; subst hr; exact hu
    · simp only [Option.some.injEq] at hr; subst hr; exact hu
    · exact (fs3_write_loop_usedPrefix G hG P hP fd buf scratch (by omega) fuel count 0 w r hr
        (by simpa using h1) hu).2

/-- After a successful mount every cell of the allocation map is EMPTY. -/
theorem fs3_mount_disk_usedPrefix (G : Geometry) (P : Peer σ) (w : World σ)
    (h : (fs3_mount_disk G P w).1 = 0) : UsedPrefix G (fs3_mount_disk G P w).2.FS3DiskMap 0 := by
  apply usedPrefix_zero
  intro i j hi hj
  simp only [fs3_mount_disk] at h ⊢
  by_cases hm : w.diskMounted = true
  · rw [if_pos hm] at h; simp at h
  · rw [if_neg hm] at h ⊢
    split at h
    · simp at h
    · next r x w1 hw =>
      by_cases hret : getReturnBit r ≠ 0
      · rw [if_pos hret] at h; simp at h
      · simp only [hw, if_neg hret]
        rw [if_pos ⟨by omega, by exact_mod_cast hi, by omega, by exact_mod_cast hj⟩]

theorem reachable_usedPrefix (G : Geometry) (hG : G.Valid) (P : Peer σ) (hP : Accepts G P)
    (w : World σ) (h : Reachable G P w) : ∃ u, UsedPrefix G w.FS3DiskMap u := by
  induction h with
  | mount w0 h0 => exact ⟨0, fs3_mount_disk_usedPrefix G P w0 h0⟩
  | call c w w1 _ hc ih => exact runCall_usedPrefix G hG P hP c w w1 hc ih

/-! ### The created records under mounts and unmounts -/

/-- A mount, successful or not, keeps the created records the first ones of the table. -/
theorem fs3_mount_disk_keeps_createdPrefix (G : Geometry) (P : Peer σ) (w : World σ)
    (hp : CreatedPrefix w.FS3FileArray) : CreatedPrefix (fs3_mount_disk G P w).2.FS3FileArray := by
  simp only [fs3_mount_disk]
  by_cases hm : w.diskMounted = true
  · rw [if_pos hm]; exact hp
  · rw [if_neg hm]
    split
    · next w1 hw =>
      have k := congrArg (fun r => r.2.FS3FileArray) hw
      simp only [network_fs3_syscall_files] at k
      simp only
      rw [← k]; exact hp
    · next r x w1 hw =>
      have k := congrArg (fun r => r.2.FS3FileArray) hw
      simp only [network_fs3_syscall_files] at k
      by_cases hret : getReturnBit r ≠ 0
      · rw [if_pos hret]
        simp only
        rw [← k]; exact hp
      · rw [if_neg hret]
        intro i j hij hj hc
        simp only at hc
        rw [if_pos ⟨by omega, by exact_mod_cast hj⟩] at hc
        simp at hc

/-- An unmount, successful or not, changes the `created` flag of no record. -/
theorem fs3_unmount_disk_created (P : Peer σ) (w : World σ) (i : Int) :
    ((fs3_unmount_disk P w).2.FS3FileArray i).created = (w.FS3FileArray i).created := by
  simp only [fs3_unmount_disk]
  by_cases hm : w.diskMounted = false
  · rw [if_pos hm]
  · rw [if_neg hm]
    split
    · next w1 hw =>
      have k := congrArg (fun r => r.2.FS3FileArray) hw
      simp only [network_fs3_syscall_files] at k
      simp only
      rw [← k]
    · next r x w1 hw =>
      have k := congrArg (fun r => r.2.FS3FileArray) hw
      simp only [network_fs3_syscall_files] at k
      by_cases hret : getReturnBit r ≠ 0
      · rw [if_pos hret]
        simp only
        rw [← k]
      · rw [if_neg hret]
        simp only
        rw [(unmountLoop_spec FS3_MAX_TOTAL_FILES 0 w1.FS3FileArray).1 i, ← k]

theorem reachableByOps_createdPrefix (G : Geometry) (P : Peer σ) (w : World σ)
    (h : ReachableByOps G P w) : CreatedPrefix w.FS3FileArray := by
  induction h with
  | mount w0 h0 => exact fs3_mount_disk_createdPrefix G P w0 h0
  | call c w w1 _ hc ih => exact runCall_createdPrefix G P c w w1 hc ih
  | unmount w _ ih =>
    exact createdPrefix_of_same _ _ (fun i => fs3_unmount_disk_created P w i) ih
  | remount w _ ih => exact fs3_mount_disk_keeps_createdPrefix G P w ih

/-- The created records are the records with an index below some `k`. -/
theorem createdPrefix_bound (files : Int → FS3File) (hp : CreatedPrefix files) (n : Nat)
    (hn : n ≤ FS3_MAX_TOTAL_FILES) :
    ∃ k, k ≤ n ∧ ∀ i : Nat, i < n → ((files (i : Int)).created = true ↔ i < k) := by
  induction n with
  | zero => exact ⟨0, le_refl _, fun i hi => by omega⟩
  | succ m ih =>
    obtain ⟨k, hk, hall⟩ := ih (by omega)
    by_cases hc : (files (m : Int)).created = true
    · refine ⟨m + 1, le_refl _, fun i hi => ?_⟩
      constructor
      · intro _; exact hi
      · intro _; exact hp i m (by omega) (by omega) hc
    · refine ⟨k, by omega, fun i hi => ?_⟩
      by_cases him : i = m
      · subst him
        constructor
        · intro h; exact absurd h hc
        · intro h; omega
      · exact hall i (by omega)

/-- The only `created` flag of the table that `fs3_open` changes is that of the lowest
record that is not created, which it sets. -/
theorem fs3_open_creates_lowest (path : String) (g : Int) (w : World σ) (i : Nat)
    (hi : i < FS3_MAX_TOTAL_FILES)
    (hne : ((fs3_open path g w).2.FS3FileArray (i : Int)).created
      ≠ (w.FS3FileArray (i : Int)).created) :
    (fs3_open path g w).1 = (i : Int) ∧
    ((fs3_open path g w).2.FS3FileArray (i : Int)).created = true ∧
    (w.FS3FileArray (i : Int)).created = false ∧
    ∀ j : Nat, j < i → (w.FS3FileArray (j : Int)).created = true := by
  unfold fs3_open at hne ⊢
  cases hn : firstIndex (fun i => decide ((w.FS3FileArray i).name = path))
      FS3_MAX_TOTAL_FILES 0 with
  | some i0 =>
    rw [hn] at hne
    simp only at hne
    by_cases h : (i : Int) = (i0 : Int)
    · rw [h, Function.update_same] at hne
      exact absurd rfl hne
    · rw [Function.update_noteq h] at hne
      exact absurd rfl hne
  | none =>
    rw [hn] at hne
    simp only at hne ⊢
    by_cases hlast : (w.FS3FileArray FS3_MAX_TOTAL_FILES).created = true
    · rw [if_pos hlast] at hne
      exact absurd rfl hne
    · rw [if_neg hlast] at hne ⊢
      cases h0 : firstIndex (fun i => decide ((w.FS3FileArray i).created = false))
          FS3_MAX_TOTAL_FILES 0 with
      | some i0 =>
        obtain ⟨-, hlt, hp0, hbefore⟩ := firstIndex_some_spec _ _ _ _ h0
        rw [h0] at hne
        simp only at hne ⊢
        by_cases h : (i : Int) = (i0 : Int)
        · have hii : i = i0 := by exact_mod_cast h
          subst hii
          rw [Function.update_same]
          refine ⟨rfl, rfl, by simpa using hp0, fun j hj => ?_⟩
          have := hbefore j (Nat.zero_le _) hj
          simpa using this
        · rw [Function.update_noteq h] at hne
          exact absurd rfl hne
      | none =>
        have hall := firstIndex_none_spec _ _ _ h0 i (Nat.zero_le _) (by omega)
        have hci : (w.FS3FileArray (i : Int)).created = true := by simpa using hall
        rw [h0] at hne
        simp only at hne
        by_cases h : (i : Int) = g
        · rw [h, Function.update_same] at hne
          rw [h] at hci
          rw [hci] at hne
          exact absurd rfl hne
        · rw [Function.update_noteq h] at hne
          exact absurd rfl hne

/-! ### File isolation -/

/-- A pass of the loop of `fs3_write` handles at least one byte and at most `count`. -/
theorem writeChunk_pos (G : Geometry) (hS : 0 < G.FS3_SECTOR_SIZE) (w : World σ) (fd count : Int)
    (hc : 0 < count) :
    0 < writeChunk G w fd count ∧ writeChunk G w fd count ≤ count ∧
    (writeChunk G w fd count < count → writeChunk G w fd count
      = (G.FS3_SECTOR_SIZE : Int) - (w.FS3FileArray fd).position.tmod G.FS3_SECTOR_SIZE) := by
  have hlt := Int.tmod_lt_of_pos (w.FS3FileArray fd).position
    (show (0 : Int) < (G.FS3_SECTOR_SIZE : Int) by omega)
  unfold writeChunk
  split <;> refine ⟨by omega, by omega, fun h => by omega⟩

/-- After a pass of `fs3_write` that fills the sector of the position, the position is at
the start of a sector. -/
theorem tmod_after_fill (p : Int) (S : Nat) :
    (p + ((S : Int) - p.tmod S)).tmod S = 0 := by
  have h := Int.tdiv_add_tmod p S
  have e : p + ((S : Int) - p.tmod S) = (S : Int) * (p.tdiv S + 1) := by
    rw [Int.mul_add, Int.mul_one]; omega
  rw [e]
  exact Int.mul_tmod_right _ _

theorem takesEmptyCells_refl (G : Geometry) (g : Int) (m : Int → Int → Int) :
    TakesEmptyCells G g m m :=
  fun _ _ => Or.inl rfl

theorem takesEmptyCells_trans (G : Geometry) (g : Int) (hg : g ≠ -1) (m m1 m2 : Int → Int → Int)
    (h1 : TakesEmptyCells G g m m1) (h2 : TakesEmptyCells G g m1 m2) :
    TakesEmptyCells G g m m2 := by
  intro i j
  rcases h2 i j with e2 | ⟨a, b, c, d, e, f⟩
  · rcases h1 i j with e1 | ⟨a1, b1, c1, d1, e1, f1⟩
    · exact Or.inl (e2.trans e1)
    · exact Or.inr ⟨a1, b1, c1, d1, e1, e2.trans f1⟩
  · rcases h1 i j with e1 | ⟨a1, b1, c1, d1, e1, f1⟩
    · exact Or.inr ⟨a, b, c, d, by rw [← e1]; exact e, f⟩
    · exact absurd (f1.symm.trans e) hg

/-- Writing the handle into the first EMPTY cell of the scan order takes an EMPTY cell of
the map. -/
theorem takesEmptyCells_update (G : Geometry) (g : Int) (m : Int → Int → Int) (u : Nat)
    (hu : UsedPrefix G m u) (hfree : u < G.cells) :
    TakesEmptyCells G g m (Function.update m ((u / G.FS3_TRACK_SIZE : Nat) : Int)
      (Function.update (m ((u / G.FS3_TRACK_SIZE : Nat) : Int))
        ((u % G.FS3_TRACK_SIZE : Nat) : Int) g)) := by
  have hts := track_size_pos_of_lt_cells G u hfree
  have hdiv := div_lt_of_lt_cells G u hfree
  have hmod := Nat.mod_lt u hts
  have hcell := hu.2.2 u (le_refl _) hfree
  unfold cellAt at hcell
  intro i j
  by_cases hi : i = ((u / G.FS3_TRACK_SIZE : Nat) : Int)
  · by_cases hj : j = ((u % G.FS3_TRACK_SIZE : Nat) : Int)
    · right
      subst hi hj
      refine ⟨Int.natCast_nonneg _, by exact_mod_cast hdiv, Int.natCast_nonneg _,
        by exact_mod_cast hmod, hcell, ?_⟩
      rw [Function.update_same, Function.update_same]
    · left
      subst hi
      rw [Function.update_same, Function.update_noteq hj]
  · left
    rw [Function.update_noteq hi]

/-- A pass of the loop of `fs3_write` on a mounted driver whose allocation map is filled
from the front up to place `u` and has a free cell, with all wire calls succeeding: the
pass ends normally, moves the position of the file, leaves the other records, and leaves
the map or writes the handle into the cell at place `u`. -/
theorem write_pass_step (G : Geometry) (hG : G.Valid) (P : Peer σ) (hP : Accepts G P)
    (fd : Int) (buf : Buffer) (count bw : Int) (d : Buffer) (w : World σ) (u : Nat)
    (hfd : fd ≠ -1) (hm : w.diskMounted = true) (hu : UsedPrefix G w.FS3DiskMap u)
    (hfree : u < G.cells) :
    ∃ w1, fs3_write_body G P fd buf count bw d w = Step.next (writeChunk G w fd count) w1 ∧
      w1.diskMounted = true ∧
      (w1.FS3FileArray fd).position = (w.FS3FileArray fd).position + writeChunk G w fd count ∧
      (∀ h, h ≠ fd → w1.FS3FileArray h = w.FS3FileArray h) ∧
      ((w1.FS3DiskMap = w.FS3DiskMap ∧ UsedPrefix G w1.FS3DiskMap u) ∨
        (w1.FS3DiskMap = Function.update w.FS3DiskMap ((u / G.FS3_TRACK_SIZE : Nat) : Int)
            (Function.update (w.FS3DiskMap ((u / G.FS3_TRACK_SIZE : Nat) : Int))
              ((u % G.FS3_TRACK_SIZE : Nat) : Int) fd) ∧
          UsedPrefix G w1.FS3DiskMap (u + 1))) := by
  rcases find_current_pair G fd w with ⟨h1, h2⟩ | ⟨i, j, hi, hj, hcell, h1, h2⟩
  · have hts := track_size_pos_of_lt_cells G u hfree
    have heq := write_body_alloc G hG P hP fd buf count bw d w hm
      (u / G.FS3_TRACK_SIZE) (u % G.FS3_TRACK_SIZE) (div_lt_of_lt_cells G u hfree)
      (Nat.mod_lt u hts) (Or.inl h2) (find_open_track_eq G w u hu hfree)
      (fun w1 e1 e2 => find_open_sector_eq G w1 u (by rw [e1]; exact hu) hfree e2)
      (hu.2.2 u (le_refl _) hfree)
    refine ⟨_, heq, ?_, ?_, ?_, Or.inr ⟨?_, ?_⟩⟩
    · simp [commitWrite, hm]
    · rw [commitWrite_file]; simp
    · intro h hh; rw [commitWrite_other _ _ _ _ _ h hh]; simp
    · simp [commitWrite]
    · apply usedPrefix_take G w.FS3DiskMap _ u fd hfd hfree _ hu
      rw [commitWrite_cellAt, storeSector_map, seekTo_map]
  · obtain ⟨b, hb, heq⟩ := write_body_existing G hG P hP fd buf count bw d w i j hj h1 h2
      (by rw [hcell]; exact hfd)
    have hmap : (commitWrite fd (i : Int) (j : Int) (writeChunk G w fd count)
        (storeSector P (i : Int) (j : Int)
          (memcpy b ((w.FS3FileArray fd).position.tmod G.FS3_SECTOR_SIZE) buf bw
            (writeChunk G w fd count))
          (fetch_sector P (i : Int) (j : Int) d (seekTo G P (i : Int) w)).2)).FS3DiskMap
        = w.FS3DiskMap := by
      simp only [commitWrite, storeSector_map, fetch_sector_map, seekTo_map]
      rw [← hcell, Function.update_eq_self, Function.update_eq_self]
    refine ⟨_, heq, ?_, ?_, ?_, Or.inl ⟨hmap, by rw [hmap]; exact hu⟩⟩
    · simp [commitWrite, hm]
    · rw [commitWrite_file]; simp
    · intro h hh; rw [commitWrite_other _ _ _ _ _ h hh]; simp

/-- The loop of `fs3_write` on handle `fd`, with all wire calls succeeding and enough free
cells for the bytes left: it ends within `count` passes, assigns only cells of the map that
were EMPTY, and changes the record of no other handle. -/
theorem fs3_write_loop_isolated (G : Geometry) (hG : G.Valid) (P : Peer σ) (hP : Accepts G P)
    (fd : Int) (buf : Buffer) (scratch : Int → Buffer) (hfd : fd ≠ -1) (fuel : Nat)
    (count bw : Int) (w : World σ) (u : Nat)
    (hm : w.diskMounted = true) (hu : UsedPrefix G w.FS3DiskMap u)
    (hfuel : count.toNat ≤ fuel)
    (hroom : 0 < count → u < G.cells ∧
      count + (w.FS3FileArray fd).position.tmod G.FS3_SECTOR_SIZE
        ≤ ((G.cells : Int) - u) * G.FS3_SECTOR_SIZE) :
    ∃ r, fs3_write_loop G P fd buf scratch fuel count bw w = some r ∧
      TakesEmptyCells G fd w.FS3DiskMap r.2.FS3DiskMap ∧
      ∀ h, h ≠ fd → r.2.FS3FileArray h = w.FS3FileArray h := by
  have hS := hG.sector_pos
  induction fuel generalizing count bw w u with
  | zero =>
    unfold fs3_write_loop
    rw [if_neg (by omega)]
    exact ⟨_, rfl, takesEmptyCells_refl G fd _, fun _ _ => rfl⟩
  | succ n ih =>
    unfold fs3_write_loop
    by_cases hc : count > 0
    · rw [if_pos hc]
      obtain ⟨hfree, hbytes⟩ := hroom hc
      obtain ⟨hd0, hdc, hdfull⟩ := writeChunk_pos G hS w fd count hc
      obtain ⟨w1, hbody, hm1, hp1, hoth, hmap⟩ := write_pass_step G hG P hP fd buf count bw
        (scratch bw) w u hfd hm hu hfree
      rw [hbody]
      simp only
      have hstep : TakesEmptyCells G fd w.FS3DiskMap w1.FS3DiskMap := by
        rcases hmap with ⟨e, -⟩ | ⟨e, -⟩
        · rw [e]; exact takesEmptyCells_refl G fd _
        · rw [e]; exact takesEmptyCells_update G fd _ u hu hfree
      have hrest : ∀ u1, (u1 = u ∨ u1 = u + 1) → 0 < count - writeChunk G w fd count →
          u1 < G.cells ∧
          count - writeChunk G w fd count + (w1.FS3FileArray fd).position.tmod G.FS3_SECTOR_SIZE
            ≤ ((G.cells : Int) - u1) * G.FS3_SECTOR_SIZE := by
        intro u1 hu1 hpos
        have hfill := hdfull (by omega)
        have ht0 : (w1.FS3FileArray fd).position.tmod G.FS3_SECTOR_SIZE = 0 := by
          rw [hp1, hfill]; exact tmod_after_fill _ _
        rw [ht0, hfill]
        have e1 : ((G.cells : Int) - u - 1) * G.FS3_SECTOR_SIZE
            = ((G.cells : Int) - u) * G.FS3_SECTOR_SIZE - G.FS3_SECTOR_SIZE := by ring
        have hle : count - ((G.FS3_SECTOR_SIZE : Int)
            - (w.FS3FileArray fd).position.tmod G.FS3_SECTOR_SIZE) + 0
            ≤ ((G.cells : Int) - u - 1) * G.FS3_SECTOR_SIZE := by omega
        have hgt : (0 : Int) < (G.cells : Int) - u - 1 := by
          by_contra hcon
          have : ((G.cells : Int) - u - 1) * G.FS3_SECTOR_SIZE ≤ 0 :=
            mul_nonpos_of_nonpos_of_nonneg (by omega) (by omega)
          rw [hfill] at hpos
          omega
        rcases hu1 with e | e
        · subst e
          refine ⟨hfree, ?_⟩
          omega
        · subst e
          refine ⟨by omega, ?_⟩
          have e2 : ((G.cells : Int) - ((u + 1 : Nat) : Int)) = (G.cells : Int) - u - 1 := by
            push_cast; ring
          rw [e2]
          exact hle
      rcases hmap with ⟨e, hu1⟩ | ⟨e, hu1⟩
      · obtain ⟨r, hr, ht, ho⟩ := ih (count - writeChunk G w fd count)
          (bw + writeChunk G w fd count) w1 u hm1 hu1 (by omega) (hrest u (Or.inl rfl))
        exact ⟨r, hr, takesEmptyCells_trans G fd hfd _ _ _ hstep ht,
          fun h hh => by rw [ho h hh, hoth h hh]⟩
      · obtain ⟨r, hr, ht, ho⟩ := ih (count - writeChunk G w fd count)
          (bw + writeChunk G w fd count) w1 (u + 1) hm1 hu1 (by omega) (hrest (u + 1) (Or.inr rfl))
        exact ⟨r, hr, takesEmptyCells_trans G fd hfd _ _ _ hstep ht,
          fun h hh => by rw [ho h hh, hoth h hh]⟩
    · rw [if_neg hc]
      exact ⟨_, rfl, takesEmptyCells_refl G fd _, fun _ _ => rfl⟩

theorem fs3_unmount_disk_map (P : Peer σ) (w : World σ) :
    (fs3_unmount_disk P w).2.FS3DiskMap = w.FS3DiskMap := by
  simp only [fs3_unmount_disk]
  by_cases hm : w.diskMounted = false
  · rw [if_pos hm]
  · rw [if_neg hm]
    split
    · next w1 hw =>
      have k := congrArg (fun r => r.2.FS3DiskMap) hw
      simp only [network_fs3_syscall_map] at k
      simp only
      rw [← k]
    · next r x w1 hw =>
      have k := congrArg (fun r => r.2.FS3DiskMap) hw
      simp only [network_fs3_syscall_map] at k
      by_cases hret : getReturnBit r ≠ 0
      · rw [if_pos hret]
        simp only
        rw [← k]
      · rw [if_neg hret]
        simp only
        rw [← k]

/-- A mount, successful or not, keeps the taken cells of the allocation map a prefix of
the scan order. -/
theorem fs3_mount_disk_keeps_usedPrefix (G : Geometry) (P : Peer σ) (w : World σ)
    (hu : ∃ u, UsedPrefix G w.FS3DiskMap u) :
    ∃ u, UsedPrefix G (fs3_mount_disk G P w).2.FS3DiskMap u := by
  by_cases h0 : (fs3_mount_disk G P w).1 = 0
  · exact ⟨0, fs3_mount_disk_usedPrefix G P w h0⟩
  · have hmap : (fs3_mount_disk G P w).2.FS3DiskMap = w.FS3DiskMap := by
      simp only [fs3_mount_disk] at h0 ⊢
      by_cases hm : w.diskMounted = true
      · rw [if_pos hm]
      · rw [if_neg hm] at h0 ⊢
        split
        · next w1 hw =>
          have k := congrArg (fun r => r.2.FS3DiskMap) hw
          simp only [network_fs3_syscall_map] at k
          simp only
          rw [← k]
        · next r x w1 hw =>
          have k := congrArg (fun r => r.2.FS3DiskMap) hw
          simp only [network_fs3_syscall_map] at k
          by_cases hret : getReturnBit r ≠ 0
          · rw [if_pos hret]
            simp only
            rw [← k]
          · rw [hw] at h0
            simp only [if_neg hret] at h0
            exact absurd trivial h0
    rw [hmap]; exact hu

theorem reachableByOps_usedPrefix (G : Geometry) (hG : G.Valid) (P : Peer σ) (hP : Accepts G P)
    (w : World σ) (h : ReachableByOps G P w) : ∃ u, UsedPrefix G w.FS3DiskMap u := by
  induction h with
  | mount w0 h0 => exact ⟨0, fs3_mount_disk_usedPrefix G P w0 h0⟩
  | call c w w1 _ hc ih => exact runCall_usedPrefix G hG P hP c w w1 hc ih
  | unmount w _ ih => rw [fs3_unmount_disk_map]; exact ih
  | remount w _ ih => exact fs3_mount_disk_keeps_usedPrefix G P w ih

/-! ### The file table as bytes -/

theorem storeInt_zeroBytes (a : Int) : storeInt zeroBytes a 0 = zeroBytes := by
  funext b
  unfold storeInt zeroBytes toU32
  simp

theorem mountLoop_zeroBytes (fuel i : Nat) :
    Layout.mountLoop fuel i zeroBytes = zeroBytes := by
  induction fuel generalizing i with
  | zero => rfl
  | succ n ih => unfold Layout.mountLoop; rw [storeInt_zeroBytes, ih]

/-- The loop of the mount leaves a table of zero bytes as it is. -/
theorem tableMounted_eq : tableMounted = zeroBytes := by
  unfold tableMounted
  rw [mountLoop_zeroBytes]

set_option maxRecDepth 1000000 in
/-- `fs3_open` of 140 bytes after the mount creates record 0. -/
theorem fs3_open_manyA :
    Layout.fs3_open (manyA 140) 0 zeroBytes = (0, createdRecord zeroBytes 0 (manyA 140)) := rfl

set_option maxRecDepth 1000000 in
/-- The `fs3_open("b")` that follows creates record 2. -/
theorem fs3_open_after_manyA :
    Layout.fs3_open [98] 0 (createdRecord zeroBytes 0 (manyA 140))
      = (2, createdRecord (createdRecord zeroBytes 0 (manyA 140)) 2 [98]) := rfl

/-- The two calls `fs3_open(p); fs3_open("b")` after the mount, `p` being 'A' 140 times. -/
theorem fs3_open_twice :
    Layout.fs3_open [98] 0 (Layout.fs3_open (manyA 140) 0 tableMounted).2
      = (2, createdRecord (createdRecord zeroBytes 0 (manyA 140)) 2 [98]) := by
  have h1 : (Layout.fs3_open (manyA 140) 0 tableMounted).2
      = createdRecord zeroBytes 0 (manyA 140) := by
    rw [tableMounted_eq]
    exact congrArg Prod.snd fs3_open_manyA
  exact (congrArg (fun m => Layout.fs3_open [98] 0 m) h1).trans fs3_open_after_manyA

theorem twoOpens_eq :
    twoOpens = (2, createdRecord (createdRecord zeroBytes 0 (manyA 140)) 2 [98]) :=
  fs3_open_twice

/-! ### Invariants of the record model

The theorems of this part hold for every call sequence of the record model, in which a
path of any length is kept whole in the name field and the record at index
`FS3_MAX_TOTAL_FILES` is apart from the allocation map.  They describe the C code on the
call sequences that stay inside the file table and the name field: handles in
`[0, FS3_MAX_TOTAL_FILES)`, paths shorter than `FS3_MAX_PATH_LENGTH` bytes, `fs3_open`
on a table that is not full, writes that find a free sector on the track sought. -/

/-- Unmount closes files: in every state reachable from a successful mount by
open / close / seek / read / write calls (against any remote end, whatever the calls
return), a successful `fs3_unmount_disk` leaves `diskMounted` false and every created
record of the file table created and closed: the loop that stops at the first record that
is not created skips none, because the created records are the first ones of the table.
Afterwards every `fs3_read` and `fs3_write`, on any handle, returns -1 and changes
nothing. -/
theorem fs3_unmount_disk_closes_files (G : Geometry) (P : Peer σ) (w : World σ)
    (hr : Reachable G P w) (hok : (fs3_unmount_disk P w).1 = 0) :
    (fs3_unmount_disk P w).2.diskMounted = false ∧
    (∀ i : Int, 0 ≤ i → i < FS3_MAX_TOTAL_FILES →
      (w.FS3FileArray i).created = true →
      ((fs3_unmount_disk P w).2.FS3FileArray i).created = true ∧
      ((fs3_unmount_disk P w).2.FS3FileArray i).«open» = false) ∧
    (∀ (fuel : Nat) (fd : Int) (buf : Buffer) (count : Int),
      fs3_read G P fuel fd buf count (fs3_unmount_disk P w).2
        = some (-1, buf, (fs3_unmount_disk P w).2)) ∧
    (∀ (fuel : Nat) (fd : Int) (buf : Buffer) (count : Int) (scratch : Int → Buffer),
      fs3_write G P fuel fd buf count scratch (fs3_unmount_disk P w).2
        = some (-1, (fs3_unmount_disk P w).2)) := by
  obtain ⟨hm, w1, hw1, hfiles⟩ := fs3_unmount_disk_ok P w hok
  have hp := reachable_createdPrefix G P w hr
  obtain ⟨a, -, c⟩ := unmountLoop_spec FS3_MAX_TOTAL_FILES 0 w1.FS3FileArray
  refine ⟨hm, fun i h0 h1 hc => ?_, fun fuel fd buf count => ?_, fun fuel fd buf count scratch => ?_⟩
  · rw [hfiles]
    have hi : i = ((i.toNat : Nat) : Int) := by omega
    rw [hi] at hc ⊢
    refine ⟨by rw [a, hw1]; exact hc, ?_⟩
    apply c i.toNat (Nat.zero_le _) (by omega)
    intro i1 _ hi2
    rw [hw1]
    exact hp i1 i.toNat hi2 (by omega) hc
  · unfold fs3_read
    rw [if_pos hm]
  · unfold fs3_write
    rw [if_pos hm]

set_option maxRecDepth 100000 in
/-- Scenario S4: after `mount; h=open("c"); unmount` the file is closed, the driver is
unmounted and `read(h, out, 5)` returns -1. -/
theorem fs3_unmount_disk_closes_files_witness :
    ((openedWorld "c").FS3FileArray 0).created = true ∧
    ((openedWorld "c").FS3FileArray 0).«open» = true ∧
    (fs3_unmount_disk (controller scenarioGeometry) (openedWorld "c")).2.diskMounted = false ∧
    ((fs3_unmount_disk (controller scenarioGeometry) (openedWorld "c")).2.FS3FileArray 0).«open»
      = false ∧
    fs3_read scenarioGeometry (controller scenarioGeometry) 5 0 nullBuf 5
      (fs3_unmount_disk (controller scenarioGeometry) (openedWorld "c")).2
      = some (-1, nullBuf, (fs3_unmount_disk (controller scenarioGeometry) (openedWorld "c")).2) :=
  have h := fs3_unmount_disk_closes_files scenarioGeometry (controller scenarioGeometry)
    (openedWorld "c")
    (Reachable.call (Call.fileOpen "c" 0) mountedWorld _
      (Reachable.mount (World.boot blankDisk) (by decide)) rfl) (by decide)
  ⟨by decide, by decide, h.1, (h.2.1 0 (by decide) (by decide) (by decide)).2,
    h.2.2.1 5 0 nullBuf 5⟩

/-- Invariant C, contiguous allocation: with all wire calls succeeding, in every state
reachable from a successful mount by open / close / seek / read / write calls the
non-EMPTY cells of `FS3DiskMap` form a prefix of the scan order
`(0,0),(0,1),…,(0,FS3_TRACK_SIZE-1),(1,0),…`.  And every pass of the loop of `fs3_write`
on a mounted driver whose map is such a prefix, up to place `u`, leaves a prefix: it
changes no cell of the map, or it writes the handle into the cell at place `u`, the first
EMPTY cell of the scan order, and into no other cell. -/
theorem contiguous_allocation (G : Geometry) (hG : G.Valid) (P : Peer σ) (hP : Accepts G P) :
    (∀ w : World σ, Reachable G P w → ∃ u, UsedPrefix G w.FS3DiskMap u) ∧
    (∀ (w : World σ) (u : Nat) (fd : Int) (buf : Buffer) (count bw : Int) (diskBuf : Buffer),
      w.diskMounted = true → UsedPrefix G w.FS3DiskMap u → 0 ≤ fd →
      (∃ u1, UsedPrefix G (fs3_write_body G P fd buf count bw diskBuf w).state.FS3DiskMap u1) ∧
      ((∀ q, q < G.cells →
          cellAt G (fs3_write_body G P fd buf count bw diskBuf w).state.FS3DiskMap q
            = cellAt G w.FS3DiskMap q) ∨
        (u < G.cells ∧ cellAt G w.FS3DiskMap u = -1 ∧
          (∀ q, q < u → cellAt G w.FS3DiskMap q ≠ -1) ∧
          cellAt G (fs3_write_body G P fd buf count bw diskBuf w).state.FS3DiskMap
            = Function.update (cellAt G w.FS3DiskMap) u fd))) := by
  refine ⟨fun w h => reachable_usedPrefix G hG P hP w h, ?_⟩
  intro w u fd buf count bw diskBuf hm hu hfd
  have hfd1 : fd ≠ -1 := by omega
  rcases write_pass_usedPrefix G hG P hP fd buf count bw diskBuf w u hfd1 hm hu with
    hsame | ⟨hfree, hupd⟩
  · exact ⟨⟨u, usedPrefix_of_cells G _ _ u hsame hu⟩, Or.inl hsame⟩
  · exact ⟨⟨u + 1, usedPrefix_take G _ _ u fd hfd1 hfree hupd hu⟩,
      Or.inr ⟨hfree, hu.2.2 u (le_refl _) hfree, hu.2.1, hupd⟩⟩

set_option maxRecDepth 100000 in
/-- Invariant C in the state after `mount; h=open("a"); write(h,"HELLO",5)`, and in the
first pass of that write. -/
theorem contiguous_allocation_witness :
    (∃ u, UsedPrefix scenarioGeometry helloWorld.FS3DiskMap u) ∧
    (∃ u1, UsedPrefix scenarioGeometry
      (fs3_write_body scenarioGeometry (controller scenarioGeometry) 0 helloBytes 5 0 nullBuf
        (openedWorld "a")).state.FS3DiskMap u1) ∧
    ((∀ q, q < scenarioGeometry.cells →
        cellAt scenarioGeometry
          (fs3_write_body scenarioGeometry (controller scenarioGeometry) 0 helloBytes 5 0 nullBuf
            (openedWorld "a")).state.FS3DiskMap q
          = cellAt scenarioGeometry (openedWorld "a").FS3DiskMap q) ∨
      (0 < scenarioGeometry.cells ∧ cellAt scenarioGeometry (openedWorld "a").FS3DiskMap 0 = -1 ∧
        (∀ q, q < 0 → cellAt scenarioGeometry (openedWorld "a").FS3DiskMap q ≠ -1) ∧
        cellAt scenarioGeometry
          (fs3_write_body scenarioGeometry (controller scenarioGeometry) 0 helloBytes 5 0 nullBuf
            (openedWorld "a")).state.FS3DiskMap
          = Function.update (cellAt scenarioGeometry (openedWorld "a").FS3DiskMap) 0 0)) := by
  have hP := controller_accepts _ scenarioGeometry_valid
  obtain ⟨hc, hcr, hop, hp, hl⟩ := openedWorld_a
  obtain ⟨w1, u1, h1, -⟩ :=
    fs3_write_consistent scenarioGeometry scenarioGeometry_valid (controller scenarioGeometry)
      hP 5 0 helloBytes 5 (fun _ => nullBuf) (openedWorld "a") 0 (by decide) hc hcr hop
      (by decide) (by decide) (by rw [hp, hl]; decide)
  have e : helloWorld = w1 := by unfold helloWorld; rw [h1]; rfl
  have r1 : Reachable scenarioGeometry (controller scenarioGeometry) (openedWorld "a") :=
    Reachable.call (Call.fileOpen "a" 0) mountedWorld (openedWorld "a")
      (Reachable.mount (World.boot blankDisk) (by decide)) rfl
  have r2 : Reachable scenarioGeometry (controller scenarioGeometry) w1 :=
    Reachable.call (Call.fileWrite 5 0 helloBytes 5 (fun _ => nullBuf)) (openedWorld "a") w1 r1
      (by simp only [runCall]; rw [h1]; rfl)
  have h := contiguous_allocation scenarioGeometry scenarioGeometry_valid
    (controller scenarioGeometry) hP
  rw [e]
  exact ⟨h.1 w1 r2, h.2 (openedWorld "a") 0 0 helloBytes 5 0 nullBuf hc.mounted hc.used
    (le_refl _)⟩

/-- Position bound: in every state reachable from a successful mount by any sequence of
open / close / seek / read / write calls, whatever the remote end answers and whatever
the calls return, every created record of the file table satisfies
`0 ≤ position ≤ length`.  The lengths of the files are taken to stay in the range of the C
type `int` (below `2 ^ 31`). -/
theorem position_bound (G : Geometry) (hG : G.Valid) (P : Peer σ) (w : World σ)
    (h : ReachableInRange G P w) : PositionBound w := by
  induction h with
  | mount w0 h0 =>
    intro i hi0 hi1 hc
    rw [fs3_mount_disk_none_created G P w0 h0 i hi0 hi1] at hc
    simp at hc
  | call c w w1 hw hc _ ih =>
    exact runCall_positionBound G hG P c w w1 hc ih (reachableInRange_fit G P w hw)

set_option maxRecDepth 100000 in
/-- The position bound in the state after `mount; h=open("a"); write(h,"HELLO",5)`. -/
theorem position_bound_witness : PositionBound helloWorld := by
  have hP := controller_accepts _ scenarioGeometry_valid
  obtain ⟨hc, hcr, hop, hp, hl⟩ := openedWorld_a
  obtain ⟨w1, u1, h1, -, -, h4, -, -, -, h8, -⟩ :=
    fs3_write_consistent scenarioGeometry scenarioGeometry_valid (controller scenarioGeometry)
      hP 5 0 helloBytes 5 (fun _ => nullBuf) (openedWorld "a") 0 (by decide) hc hcr hop
      (by decide) (by decide) (by rw [hp, hl]; decide)
  have e : helloWorld = w1 := by unfold helloWorld; rw [h1]; rfl
  have r0 : ReachableInRange scenarioGeometry (controller scenarioGeometry) mountedWorld :=
    ReachableInRange.mount (World.boot blankDisk) (by decide)
  have f0 : LengthsFit mountedWorld := reachableInRange_fit _ _ _ r0
  have f1 : LengthsFit (openedWorld "a") := fs3_open_lengthsFit "a" 0 mountedWorld f0
  have r1 : ReachableInRange scenarioGeometry (controller scenarioGeometry) (openedWorld "a") :=
    ReachableInRange.call (Call.fileOpen "a" 0) mountedWorld (openedWorld "a") r0 rfl f1
  have f2 : LengthsFit w1 := by
    intro i hi0 hi1 hci
    by_cases hi : i = 0
    · subst hi
      rw [h4, hp, hl]; decide
    · rw [h8 i hi] at hci ⊢
      exact f1 i hi0 hi1 hci
  rw [e]
  exact position_bound scenarioGeometry scenarioGeometry_valid (controller scenarioGeometry) w1
    (ReachableInRange.call (Call.fileWrite 5 0 helloBytes 5 (fun _ => nullBuf))
      (openedWorld "a") w1 r1 (by simp only [runCall]; rw [h1]; rfl) f2)

/-- Created records: in every state reachable from a successful mount by any sequence of
driver operations (open / close / seek / read / write calls, unmounts and further mounts,
whatever they return), the indices `i` of the table with
`FS3FileArray[i].created == true` are the indices below some `k`.  And the only `created`
flag of the table that an `fs3_open` changes is that of the lowest record that is not
created: `fs3_open` sets it and returns its index. -/
theorem created_records_are_first (G : Geometry) (P : Peer σ) (w : World σ)
    (h : ReachableByOps G P w) :
    (∃ k, k ≤ FS3_MAX_TOTAL_FILES ∧ ∀ i : Nat, i < FS3_MAX_TOTAL_FILES →
      ((w.FS3FileArray (i : Int)).created = true ↔ i < k)) ∧
    (∀ (path : String) (fileHandle0 : Int) (i : Nat), i < FS3_MAX_TOTAL_FILES →
      ((fs3_open path fileHandle0 w).2.FS3FileArray (i : Int)).created
        ≠ (w.FS3FileArray (i : Int)).created →
      (fs3_open path fileHandle0 w).1 = (i : Int) ∧
      ((fs3_open path fileHandle0 w).2.FS3FileArray (i : Int)).created = true ∧
      (w.FS3FileArray (i : Int)).created = false ∧
      ∀ j : Nat, j < i → (w.FS3FileArray (j : Int)).created = true) :=
  ⟨createdPrefix_bound w.FS3FileArray (reachableByOps_createdPrefix G P w h)
      FS3_MAX_TOTAL_FILES (le_refl _),
    fun path g i hi hne => fs3_open_creates_lowest path g w i hi hne⟩

set_option maxRecDepth 100000 in
/-- The created records after `mount; open("a"); unmount; mount; open("b")`. -/
theorem created_records_are_first_witness :
    ∃ k, k ≤ FS3_MAX_TOTAL_FILES ∧ ∀ i : Nat, i < FS3_MAX_TOTAL_FILES →
      (((fs3_open "b" 0 (fs3_mount_disk scenarioGeometry (controller scenarioGeometry)
        (fs3_unmount_disk (controller scenarioGeometry) (openedWorld "a")).2).2).2.FS3FileArray
          (i : Int)).created = true ↔ i < k) :=
  (created_records_are_first scenarioGeometry (controller scenarioGeometry) _
    (ReachableByOps.call (Call.fileOpen "b" 0) _ _
      (ReachableByOps.remount _ (ReachableByOps.unmount _
        (ReachableByOps.call (Call.fileOpen "a" 0) mountedWorld (openedWorld "a")
          (ReachableByOps.mount (World.boot blankDisk) (by decide)) rfl))) rfl)).1

/-- File isolation: in every state reachable from a successful mount by driver operations,
with all wire calls succeeding and free sectors available (the free cells of the map hold
`count + FS3_SECTOR_SIZE - 1` bytes), `fs3_write` on handle `g` returns within `count`
passes and assigns only cells of the allocation map that were EMPTY, writing `g` there:
every other cell, inside or outside the map, is unchanged, the cells owned by `g` among
them.  For every other handle `h ≠ g` the record of `h`, with its length and position, is
unchanged, and so is the set of cells owned by `h`. -/
theorem file_isolation (G : Geometry) (hG : G.Valid) (P : Peer σ) (hP : Accepts G P)
    (w : World σ) (hr : ReachableByOps G P w) (fuel : Nat) (g : Int) (buf : Buffer) (count : Int)
    (scratch : Int → Buffer) (hfuel : count.toNat ≤ fuel)
    (hfree : count + (G.FS3_SECTOR_SIZE : Int) - 1
      ≤ ((G.cells : Int) - (countUsed (cellAt G w.FS3DiskMap) G.cells : Nat))
        * G.FS3_SECTOR_SIZE) :
    ∃ r, fs3_write G P fuel g buf count scratch w = some r ∧
      TakesEmptyCells G g w.FS3DiskMap r.2.FS3DiskMap ∧
      (∀ h, h ≠ g → r.2.FS3FileArray h = w.FS3FileArray h ∧
        (r.2.FS3FileArray h).length = (w.FS3FileArray h).length ∧
        (r.2.FS3FileArray h).position = (w.FS3FileArray h).position) ∧
      (∀ h, h ≠ g → h ≠ -1 → ∀ i j : Int, r.2.FS3DiskMap i j = h ↔ w.FS3DiskMap i j = h) := by
  have hS := hG.sector_pos
  have key : ∃ r, fs3_write G P fuel g buf count scratch w = some r ∧
      TakesEmptyCells G g w.FS3DiskMap r.2.FS3DiskMap ∧
      ∀ h, h ≠ g → r.2.FS3FileArray h = w.FS3FileArray h := by
    unfold fs3_write
    split_ifs with h1 h2 h3 h4
    · exact ⟨_, rfl, takesEmptyCells_refl G g _, fun _ _ => rfl⟩
    · exact ⟨_, rfl, takesEmptyCells_refl G g _, fun _ _ => rfl⟩
    · exact ⟨_, rfl, takesEmptyCells_refl G g _, fun _ _ => rfl⟩
    · exact ⟨_, rfl, takesEmptyCells_refl G g _, fun _ _ => rfl⟩
    · obtain ⟨u, hu⟩ := reachableByOps_usedPrefix G hG P hP w hr
      have hcu := countUsed_prefix G w.FS3DiskMap u hu G.cells (le_refl _)
      rw [Nat.min_eq_right hu.1] at hcu
      rw [hcu] at hfree
      apply fs3_write_loop_isolated G hG P hP g buf scratch (by omega) fuel count 0 w u
        (by simpa using h1) hu hfuel
      intro hc
      have hlt := Int.tmod_lt_of_pos (w.FS3FileArray g).position
        (show (0 : Int) < (G.FS3_SECTOR_SIZE : Int) by omega)
      have hgt : (0 : Int) < (G.cells : Int) - u := by
        by_contra hcon
        have : ((G.cells : Int) - u) * G.FS3_SECTOR_SIZE ≤ 0 :=
          mul_nonpos_of_nonpos_of_nonneg (by omega) (by omega)
        omega
      exact ⟨by omega, by omega⟩
  obtain ⟨r, h1, h2, h3⟩ := key
  refine ⟨r, h1, h2, fun h hh => ⟨h3 h hh, by rw [h3 h hh], by rw [h3 h hh]⟩, ?_⟩
  intro h hh hne i j
  rcases h2 i j with e | ⟨-, -, -, -, e1, e2⟩
  · rw [e]
  · rw [e1, e2]
    constructor
    · intro e; exact absurd e.symm hh
    · intro e; exact absurd e.symm hne

set_option maxRecDepth 100000 in
/-- File isolation for `write(1,"xyz",3)` in the state after
`mount; open("a"); write(0,"HELLO",5); open("b")`: the record of handle 0 and the cells it
owns are unchanged. -/
theorem file_isolation_witness :
    ∃ r, fs3_write scenarioGeometry (controller scenarioGeometry) 3 1 xyzBytes 3
        (fun _ => nullBuf) (fs3_open "b" 0 helloWorld).2 = some r ∧
      TakesEmptyCells scenarioGeometry 1 (fs3_open "b" 0 helloWorld).2.FS3DiskMap
        r.2.FS3DiskMap ∧
      r.2.FS3FileArray 0 = (fs3_open "b" 0 helloWorld).2.FS3FileArray 0 ∧
      ∀ i j : Int, r.2.FS3DiskMap i j = 0 ↔ (fs3_open "b" 0 helloWorld).2.FS3DiskMap i j = 0 := by
  have hP := controller_accepts _ scenarioGeometry_valid
  obtain ⟨hc, hcr, hop, hp, hl⟩ := openedWorld_a
  obtain ⟨w1, u1, h1, -⟩ :=
    fs3_write_consistent scenarioGeometry scenarioGeometry_valid (controller scenarioGeometry)
      hP 5 0 helloBytes 5 (fun _ => nullBuf) (openedWorld "a") 0 (by decide) hc hcr hop
      (by decide) (by decide) (by rw [hp, hl]; decide)
  have e : helloWorld = w1 := by unfold helloWorld; rw [h1]; rfl
  have r1 : ReachableByOps scenarioGeometry (controller scenarioGeometry) (openedWorld "a") :=
    ReachableByOps.call (Call.fileOpen "a" 0) mountedWorld (openedWorld "a")
      (ReachableByOps.mount (World.boot blankDisk) (by decide)) rfl
  have r2 : ReachableByOps scenarioGeometry (controller scenarioGeometry) helloWorld := by
    rw [e]
    exact ReachableByOps.call (Call.fileWrite 5 0 helloBytes 5 (fun _ => nullBuf)) (openedWorld "a")
      w1 r1 (by simp only [runCall]; rw [h1]; rfl)
  have r3 : ReachableByOps scenarioGeometry (controller scenarioGeometry)
      (fs3_open "b" 0 helloWorld).2 :=
    ReachableByOps.call (Call.fileOpen "b" 0) helloWorld _ r2 rfl
  have hused : countUsed (cellAt scenarioGeometry (fs3_open "b" 0 helloWorld).2.FS3DiskMap)
      scenarioGeometry.cells = 1 := by
    rw [fs3_open_map, countUsed_prefix scenarioGeometry _ 1 helloWorld_consistent.1.used
      scenarioGeometry.cells (le_refl _)]
    decide
  obtain ⟨r, k1, k2, k3, k4⟩ := file_isolation scenarioGeometry scenarioGeometry_valid
    (controller scenarioGeometry) hP (fs3_open "b" 0 helloWorld).2 r3 3 1 xyzBytes 3
    (fun _ => nullBuf) (by decide) (by rw [hused]; decide)
  exact ⟨r, k1, k2, (k3 0 (by decide)).1, k4 0 (by decide) (by decide)⟩

/-! # The claims of the specification -/

/-- C1 (codec inverse), evaluated at the input of scenario S6: the command block packed
from `(op, sec, trk, ret) = (3, 0x1234, 0xDEADBEEF, 1)` unpacks to
`(3, 0x1234, 0xDEADBEEF, 0)`, because `construct_fs3_cmdblock` shifts the return value by
60 bits instead of 11 and so merges it into the opcode field; and with `op = 2` the same
return value changes the opcode to 3. -/
theorem construct_fs3_cmdblock_loses_return_bit :
    deconstruct_fs3_cmdblock (construct_fs3_cmdblock 3 0x1234 0xDEADBEEF 1)
      = (3, 0x1234, 0xDEADBEEF, 0) ∧
    deconstruct_fs3_cmdblock (construct_fs3_cmdblock 2 0x1234 0xDEADBEEF 1)
      = (3, 0x1234, 0xDEADBEEF, 0) := by
  decide

/-- C2 (file round trip): on a mounted driver whose allocation map is consistent, against
the controller that stores sectors faithfully (`controller G`, which answers with status 0
every wire call that addresses the disk), for a created open handle `fd` at position 0 and
every buffer `buf` of `n > 0` bytes that fit the free cells of the map, in one sector or in
several, `fs3_write(fd, buf, n)` returns `n`, `fs3_seek(fd, 0)` returns 0 and
`fs3_read(fd, out, n)` returns `n` (each loop within `n` passes) and leaves in `out` the
bytes `0 .. n-1` of `buf`.  The cache may be absent or created with at least one line; the
hypotheses on the cache and on the head say that the state is one the driver can be in: no
two cache lines are filed under one sector, and the current track of the driver is -1 or
the track under the head of the controller.  The bound `2 ^ 31` keeps the `int` arithmetic
of the C code exact. -/
theorem fs3_round_trip (G : Geometry) (hG : G.Valid) (fuel : Nat) (fd : Int)
    (buf out : Buffer) (n : Int) (scratch : Int → Buffer) (w : World Disk) (u : Nat)
    (hfd : 0 ≤ fd ∧ fd < FS3_MAX_TOTAL_FILES) (hc : Consistent G w fd u)
    (hcr : (w.FS3FileArray fd).created = true) (hop : (w.FS3FileArray fd).«open» = true)
    (hpos : (w.FS3FileArray fd).position = 0)
    (hn : 0 < n) (hfuel : n.toNat ≤ fuel)
    (hfree : u + sectorsFor G (max (w.FS3FileArray fd).length n)
      ≤ G.cells + sectorsFor G (w.FS3FileArray fd).length)
    (hcache : CacheNoDup w.cache) (hhead : HeadOk w)
    (_hlines : w.cache.cacheCreated ≠ 0 → 0 < w.cache.cacheSize)
    (_hrange : max (w.FS3FileArray fd).length n < 2 ^ 31) :
    ∃ w1 out1 w3,
      fs3_write G (controller G) fuel fd buf n scratch w = some (n, w1) ∧
      (fs3_seek fd 0 w1).1 = 0 ∧
      fs3_read G (controller G) fuel fd out n (fs3_seek fd 0 w1).2 = some (n, out1, w3) ∧
      ∀ i : Int, 0 ≤ i → i < n → out1 i = buf i := by
  have hP := controller_accepts G hG
  have hr : ¬ (fd > (FS3_MAX_TOTAL_FILES : Int) ∨ fd < 0) := by omega
  have hL0 : 0 ≤ (w.FS3FileArray fd).length := by have := hc.file.2.1; omega
  obtain ⟨w1, u1, h1, hc1, hJ1, hp1, hl1, -, ho1, hcr1, -, -⟩ :=
    fs3_write_loop_spec G hG (controller G) hP fd buf scratch (by omega) (WriteData G fd buf)
      (fun count bw w w1 u k1 k2 k3 k4 k5 =>
        write_pass_data G hG fd buf scratch (by omega) count bw w w1 u k1 k2 k3 k4 k5)
      fuel n 0 w u (by omega) hfuel hc (by rw [hpos, zero_add]; exact hfree)
      ⟨hcache, hhead, hpos, fun _ => ⟨0, by simp⟩, fun k hk => by
        have : (0 : Int) ≤ (k : Int) * (G.FS3_SECTOR_SIZE : Int) := by positivity
        omega⟩
  rw [zero_add] at h1 hJ1
  rw [hpos, zero_add] at hp1 hl1
  rw [hop] at ho1
  rw [hcr] at hcr1
  obtain ⟨hnd1, hh1, -, -, hdata1⟩ := hJ1
  have hseek := fs3_seek_zero fd w1 hfd hcr1 ho1
  have hc2 : Consistent G (fs3_seek fd 0 w1).2 fd u1 := by
    rw [hseek]
    refine ⟨hc1.mounted, hc1.used, ?_, ?_, ?_⟩
    · simp
    · simp; omega
    · simp; exact hc1.file.2.2
  have hJ2 : ReadData G fd buf n n 0 out (fs3_seek fd 0 w1).2 := by
    rw [hseek]
    refine ⟨hnd1, hh1, by simp, fun _ => ⟨0, by simp⟩, by omega, ?_, fun x h0 h1 => by omega⟩
    exact fileData_of_same G w1 _ fd buf n ⟨rfl, rfl, rfl, fun _ => ⟨rfl, rfl, rfl⟩⟩ rfl hdata1
  have hlen2 : ((fs3_seek fd 0 w1).2.FS3FileArray fd).length = (w1.FS3FileArray fd).length := by
    rw [hseek]; simp
  have hpos2 : ((fs3_seek fd 0 w1).2.FS3FileArray fd).position = 0 := by
    rw [hseek]; simp
  have hcr2 : ((fs3_seek fd 0 w1).2.FS3FileArray fd).created = true := by
    rw [hseek]; simpa using hcr1
  have hop2 : ((fs3_seek fd 0 w1).2.FS3FileArray fd).«open» = true := by
    rw [hseek]; simpa using ho1
  obtain ⟨out1, w3, h3, -, hJ3, -⟩ :=
    fs3_read_loop_spec G hG (controller G) hP fd (by omega) u1 (ReadData G fd buf n)
      (fun count br b b1 w w1 k1 k2 k3 k4 k5 =>
        read_pass_data G hG fd buf n (by omega) u1 count br b b1 w w1 k1 k2 k3 k4 k5)
      fuel n 0 out (fs3_seek fd 0 w1).2 (by omega) (by rw [hlen2, hpos2, hl1]; omega) hfuel hc2 hJ2
  rw [zero_add] at h3 hJ3
  refine ⟨w1, out1, w3, ?_, by rw [hseek], ?_, hJ3.2.2.2.2.2.2⟩
  · unfold fs3_write
    rw [if_neg (by simp [hc.mounted]), if_neg hr, if_neg (by simp [hcr]), if_neg (by simp [hop]), h1]
  · unfold fs3_read
    rw [if_neg (by simp [hc2.mounted]), if_neg hr, if_neg (by simp [hcr2]),
      if_neg (by simp [hop2]), if_neg (by rw [hlen2, hpos2, hl1]; omega), h3]

set_option maxRecDepth 100000 in
/-- Witness of C2 (scenarios S1 and S2): "HELLO" written to a fresh file without a cache is
read back as "HELLO", and 1500 bytes of `0xAB` written to a fresh file through a cache of
one line, over two sectors, are read back as 1500 bytes of `0xAB`. -/
theorem fs3_round_trip_witness :
    (∃ w1 out1 w3,
      fs3_write scenarioGeometry (controller scenarioGeometry) 5 0 helloBytes 5
        (fun _ => nullBuf) (openedWorld "a") = some (5, w1) ∧
      (fs3_seek 0 0 w1).1 = 0 ∧
      fs3_read scenarioGeometry (controller scenarioGeometry) 5 0 nullBuf 5
        (fs3_seek 0 0 w1).2 = some (5, out1, w3) ∧
      ∀ i : Int, 0 ≤ i → i < 5 → out1 i = helloBytes i) ∧
    (∃ w1 out1 w3,
      fs3_write scenarioGeometry (controller scenarioGeometry) 1500 0 abBytes 1500
        (fun _ => nullBuf) cachedWorld = some (1500, w1) ∧
      (fs3_seek 0 0 w1).1 = 0 ∧
      fs3_read scenarioGeometry (controller scenarioGeometry) 1500 0 nullBuf 1500
        (fs3_seek 0 0 w1).2 = some (1500, out1, w3) ∧
      ∀ i : Int, 0 ≤ i → i < 1500 → out1 i = abBytes i) := by
  obtain ⟨hc, hcr, hop, hp, hl⟩ := openedWorld_a
  obtain ⟨kc, kcr, kop, kp, kl⟩ := openedWorld_b
  have kl1 : (cachedWorld.FS3FileArray 0).length = 0 := kl
  constructor
  · exact fs3_round_trip scenarioGeometry scenarioGeometry_valid 5 0 helloBytes nullBuf 5
      (fun _ => nullBuf) (openedWorld "a") 0 (by decide) hc hcr hop hp (by decide) (by decide)
      (by rw [hl]; decide) (fun i j hi _ _ _ _ => absurd hi (Nat.not_lt_zero i))
      (Or.inl (by decide)) (by decide) (by rw [hl]; decide)
  · exact fs3_round_trip scenarioGeometry scenarioGeometry_valid 1500 0 abBytes nullBuf 1500
      (fun _ => nullBuf) cachedWorld 0 (by decide) ⟨kc.mounted, kc.used, kc.file⟩ kcr kop kp
      (by decide) (by decide) (by rw [kl1]; decide)
      (fun i j hi hj _ _ _ => by
        have h1 : i < 1 := hi
        have h2 : j < 1 := hj
        omega)
      (Or.inl (by decide)) (by decide) (by rw [kl1]; decide)

set_option maxRecDepth 1000000 in
/-- C3 (allocation-count invariant), evaluated on the sequence `mount`, the opening of
`FS3_MAX_TOTAL_FILES` files with different names, `write(7, buf, 1)`, `fs3_open("new")`,
where the word after the table reads as `created = false` and the local variable
`fileHandle` holds 7 when it is declared.  Before the last call the invariant holds: the
sum over the created handles of `ceil(length / FS3_SECTOR_SIZE)` is the number of
non-EMPTY cells (both are 1), and handle 7 owns as many cells as its length needs.  The
call returns 7 and resets the length of record 7 to 0 while its cell stays in the map:
afterwards the sum is 0 but one cell is non-EMPTY, and handle 7 owns one cell although its
length needs none. -/
theorem fs3_open_full_table_breaks_allocation_count :
    (neededSectors scenarioGeometry fullTableWritten FS3_MAX_TOTAL_FILES
        = countUsed (cellAt scenarioGeometry fullTableWritten.FS3DiskMap) scenarioGeometry.cells ∧
      countCells (cellAt scenarioGeometry fullTableWritten.FS3DiskMap) 7 scenarioGeometry.cells
        = sectorsFor scenarioGeometry (fullTableWritten.FS3FileArray 7).length) ∧
    (fs3_open "new" 7 fullTableWritten).1 = 7 ∧
    ((fs3_open "new" 7 fullTableWritten).2.FS3FileArray 7).created = true ∧
    neededSectors scenarioGeometry (fs3_open "new" 7 fullTableWritten).2 FS3_MAX_TOTAL_FILES = 0 ∧
    countUsed (cellAt scenarioGeometry (fs3_open "new" 7 fullTableWritten).2.FS3DiskMap)
      scenarioGeometry.cells = 1 ∧
    countCells (cellAt scenarioGeometry (fs3_open "new" 7 fullTableWritten).2.FS3DiskMap) 7
      scenarioGeometry.cells = 1 ∧
    sectorsFor scenarioGeometry ((fs3_open "new" 7 fullTableWritten).2.FS3FileArray 7).length
      = 0 := by
  obtain ⟨hc, hl⟩ := fullTableWritten_consistent
  have hused := countUsed_prefix scenarioGeometry _ 1 hc.used scenarioGeometry.cells (le_refl _)
  have hmin : min scenarioGeometry.cells 1 = 1 := by decide
  rw [hmin] at hused
  have hcells := hc.file.2.2
  have hs1 : sectorsFor scenarioGeometry 1 = 1 := by decide
  rw [hl, hs1] at hcells
  refine ⟨⟨?_, ?_⟩, by decide, by decide, by decide, ?_, ?_, by decide⟩
  · rw [hused]; decide
  · rw [hcells, hl, hs1]
  · rw [fs3_open_map]; exact hused
  · rw [fs3_open_map]; exact hcells

/-- C4 (write postcondition): on a mounted driver whose allocation map is consistent, for
a created open handle `fd` with position `p ≤ L`, every `count > 0` whose bytes fit the
free cells of the map, against a remote end that answers with status 0 all wire calls
that address the disk, `fs3_write` returns exactly `count` (within `count` passes of its
loop), sets the position to `p + count` and the length to `max L (p + count)`.  The
bound `p + count < 2 ^ 31` keeps the `int` arithmetic of the C code exact, and a cache
that is created has at least one line, the one `fs3_put_cache` starts its scan from. -/
theorem fs3_write_postcondition (G : Geometry) (hG : G.Valid) (P : Peer σ) (hP : Accepts G P)
    (fuel : Nat) (fd : Int) (buf : Buffer) (count : Int) (scratch : Int → Buffer) (w : World σ)
    (u : Nat) (hfd : 0 ≤ fd ∧ fd < FS3_MAX_TOTAL_FILES) (hc : Consistent G w fd u)
    (hcr : (w.FS3FileArray fd).created = true) (hop : (w.FS3FileArray fd).«open» = true)
    (hcount : 0 < count) (hfuel : count.toNat ≤ fuel)
    (hfree : u + sectorsFor G (max (w.FS3FileArray fd).length
        ((w.FS3FileArray fd).position + count))
      ≤ G.cells + sectorsFor G (w.FS3FileArray fd).length)
    (_hrange : (w.FS3FileArray fd).position + count < 2 ^ 31)
    (_hlines : w.cache.cacheCreated ≠ 0 → 0 < w.cache.cacheSize) :
    ∃ w1,
      fs3_write G P fuel fd buf count scratch w = some (count, w1) ∧
      (w1.FS3FileArray fd).position = (w.FS3FileArray fd).position + count ∧
      (w1.FS3FileArray fd).length
        = max (w.FS3FileArray fd).length ((w.FS3FileArray fd).position + count) := by
  obtain ⟨w1, u1, h1, -, h3, h4, -⟩ := fs3_write_consistent G hG P hP fuel fd buf count scratch w
    u hfd hc hcr hop (by omega) hfuel hfree
  exact ⟨w1, h1, h3, h4⟩

set_option maxRecDepth 100000 in
/-- Witness of C4 (scenario S2): a 1500-byte write to a fresh file returns 1500 and leaves
the file with position 1500, length 1500 and two cells of the allocation map. -/
theorem fs3_write_postcondition_witness :
    ∃ w1,
      fs3_write scenarioGeometry (controller scenarioGeometry) 1500 0 abBytes 1500
        (fun _ => nullBuf) (openedWorld "b") = some (1500, w1) ∧
      (w1.FS3FileArray 0).position = 1500 ∧ (w1.FS3FileArray 0).length = 1500 ∧
      countCells (cellAt scenarioGeometry w1.FS3DiskMap) 0 scenarioGeometry.cells = 2 := by
  obtain ⟨hc, hcr, hop, hp, hl⟩ := openedWorld_b
  obtain ⟨w1, h1, h2, h3⟩ := fs3_write_postcondition scenarioGeometry scenarioGeometry_valid
    (controller scenarioGeometry) (controller_accepts _ scenarioGeometry_valid) 1500 0 abBytes
    1500 (fun _ => nullBuf) (openedWorld "b") 0 (by decide) hc hcr hop (by decide) (by decide)
    (by rw [hp, hl]; decide) (by rw [hp]; decide) (by decide)
  obtain ⟨w2, u2, k1, k2, -⟩ := fs3_write_consistent scenarioGeometry scenarioGeometry_valid
    (controller scenarioGeometry) (controller_accepts _ scenarioGeometry_valid) 1500 0 abBytes
    1500 (fun _ => nullBuf) (openedWorld "b") 0 (by decide) hc hcr hop (by decide) (by decide)
    (by rw [hp, hl]; decide)
  have e : w2 = w1 := by
    rw [k1] at h1
    simpa using h1
  rw [e] at k2
  have h2a : (w1.FS3FileArray 0).position = 1500 := by rw [h2, hp]; rfl
  have h3a : (w1.FS3FileArray 0).length = 1500 := by rw [h3, hl, hp]; rfl
  refine ⟨w1, h1, h2a, h3a, ?_⟩
  rw [k2.file.2.2, h3a]
  exact sectorsFor_scenario_1500

/-- C5 (read postcondition): on a mounted driver whose allocation map is consistent, for a
created open handle `fd` with position `p ≤ L`, against a remote end that answers with
status 0 all wire calls that address the disk: if `p = L`, `fs3_read` returns 0 for every
`count` and changes nothing; and if `0 ≤ count ≤ L - p`, `fs3_read` returns exactly
`count` (within `count` passes of its loop), moves the position to `p + count` and leaves
the length and the allocation map unchanged. -/
theorem fs3_read_postcondition (G : Geometry) (hG : G.Valid) (P : Peer σ) (hP : Accepts G P)
    (fd : Int) (buf : Buffer) (w : World σ) (u : Nat)
    (hfd : 0 ≤ fd ∧ fd < FS3_MAX_TOTAL_FILES) (hc : Consistent G w fd u)
    (hcr : (w.FS3FileArray fd).created = true) (hop : (w.FS3FileArray fd).«open» = true) :
    ((w.FS3FileArray fd).position = (w.FS3FileArray fd).length →
      ∀ (fuel : Nat) (count : Int), fs3_read G P fuel fd buf count w = some (0, buf, w)) ∧
    (∀ (fuel : Nat) (count : Int), 0 ≤ count →
      count ≤ (w.FS3FileArray fd).length - (w.FS3FileArray fd).position → count.toNat ≤ fuel →
      ∃ buf1 w1,
        fs3_read G P fuel fd buf count w = some (count, buf1, w1) ∧
        (w1.FS3FileArray fd).position = (w.FS3FileArray fd).position + count ∧
        (w1.FS3FileArray fd).length = (w.FS3FileArray fd).length ∧
        w1.FS3DiskMap = w.FS3DiskMap) := by
  constructor
  · intro hend fuel count
    have hr : ¬ (fd > (FS3_MAX_TOTAL_FILES : Int) ∨ fd < 0) := by omega
    unfold fs3_read
    rw [if_neg (by simp [hc.mounted]), if_neg hr, if_neg (by simp [hcr]), if_neg (by simp [hop]),
      if_pos (by omega)]
  · intro fuel count h0 hle hfuel
    obtain ⟨buf1, w1, h1, -, h3, h4, h5, -⟩ := fs3_read_consistent G hG P hP fuel fd buf count w u
      hfd hc hcr hop h0 hle hfuel
    exact ⟨buf1, w1, h1, h3, h4, h5⟩

/-- Witness of C5 (scenario S1): after `write(h,"HELLO",5); seek(h,0)` a read of 5 bytes
returns 5 and leaves the position at 5 and the length at 5. -/
theorem fs3_read_postcondition_witness :
    ∃ buf1 w1,
      fs3_read scenarioGeometry (controller scenarioGeometry) 5 0 nullBuf 5
        (fs3_seek 0 0 helloWorld).2 = some (5, buf1, w1) ∧
      (w1.FS3FileArray 0).position = 5 ∧ (w1.FS3FileArray 0).length = 5 := by
  obtain ⟨hc, hcr, hop, hp, hl⟩ := helloWorld_consistent
  obtain ⟨-, kc, kp, kl, kcr, kop⟩ := fs3_seek_consistent scenarioGeometry helloWorld 0 1 0
    (by decide) hc hcr hop (by rw [hl]; decide) (by rw [hl]; decide)
  obtain ⟨buf1, w1, h1, h2, h3, -⟩ := (fs3_read_postcondition scenarioGeometry
    scenarioGeometry_valid (controller scenarioGeometry)
    (controller_accepts _ scenarioGeometry_valid) 0 nullBuf (fs3_seek 0 0 helloWorld).2 1
    (by decide) kc kcr kop).2 5 5 (by decide) (by rw [kl, kp, hl]; decide) (by decide)
  exact ⟨buf1, w1, h1, by rw [h2, kp]; rfl, by rw [h3, kl, hl]⟩

/-- C6 (seek bound): for every handle `fd` in `[0, FS3_MAX_TOTAL_FILES)` whose record has
a length in `[0, 2 ^ 31)` and every `loc` (a `uint32_t`), `fs3_seek(fd, loc)` returns 0
and sets the position to `loc`, changing nothing else, when the record is created, open
and `loc ≤ length`; in every other case it returns -1 and leaves the world unchanged. -/
theorem fs3_seek_bound (w : World σ) (fd : Int) (loc : Nat)
    (hfd : 0 ≤ fd ∧ fd < FS3_MAX_TOTAL_FILES) (hloc : loc < 2 ^ 32)
    (hlen : 0 ≤ (w.FS3FileArray fd).length ∧ (w.FS3FileArray fd).length < 2 ^ 31) :
    (((w.FS3FileArray fd).created = true ∧ (w.FS3FileArray fd).«open» = true ∧
        (loc : Int) ≤ (w.FS3FileArray fd).length) →
      fs3_seek fd loc w = (0, { w with
        FS3FileArray := Function.update w.FS3FileArray fd
          { w.FS3FileArray fd with position := loc } })) ∧
    (¬ ((w.FS3FileArray fd).created = true ∧ (w.FS3FileArray fd).«open» = true ∧
        (loc : Int) ≤ (w.FS3FileArray fd).length) →
      fs3_seek fd loc w = (-1, w)) := by
  obtain ⟨h0, h1⟩ := hfd
  obtain ⟨l0, l1⟩ := hlen
  have hr : ¬ (fd > (FS3_MAX_TOTAL_FILES : Int) ∨ fd < 0) := by omega
  have hu : toU32 (w.FS3FileArray fd).length = (w.FS3FileArray fd).length.toNat := by
    unfold toU32; congr 1; omega
  constructor
  · rintro ⟨hc, ho, hl⟩
    have h2 : ¬ loc > (w.FS3FileArray fd).length.toNat := by omega
    have h3 : toI32 loc = (loc : Int) := by
      unfold toI32
      have : loc % 4294967296 = loc := by omega
      rw [this, if_pos (by omega)]
    simp [fs3_seek, hr, hc, ho, hu, h2, h3]
  · intro hn
    unfold fs3_seek
    rw [if_neg hr]
    by_cases hc : (w.FS3FileArray fd).created = false
    · rw [if_pos hc]
    · rw [if_neg hc]
      by_cases hl : loc > toU32 (w.FS3FileArray fd).length
      · rw [if_pos hl]
      · rw [if_neg hl]
        by_cases ho : (w.FS3FileArray fd).«open» = false
        · rw [if_pos ho]
        · exfalso; apply hn
          refine ⟨by simpa using hc, by simpa using ho, ?_⟩
          rw [hu] at hl; omega

set_option maxRecDepth 100000 in
/-- Witness of C6 (scenario S5): after `mount; h=open("d"); write(h,"xyz",3)`,
`seek(h,4)` returns -1 and leaves the world unchanged, and `seek(h,2)` returns 0. -/
theorem fs3_seek_bound_witness :
    fs3_seek 0 4 xyzWorld = (-1, xyzWorld) ∧ (fs3_seek 0 2 xyzWorld).1 = 0 :=
  ⟨(fs3_seek_bound xyzWorld 0 4 (by decide) (by decide) (by decide)).2 (by decide),
    by rw [(fs3_seek_bound xyzWorld 0 2 (by decide) (by decide) (by decide)).1 (by decide)]⟩

set_option maxRecDepth 100000 in
/-- C7 (close), evaluated on `mount; h=open("a")`: `fs3_close(h)` on the created, open
file returns -1 and leaves it open, because the code fails when `open == true`; a second
`fs3_close(h)` does the same, and `fs3_close` returns 0 only for a created file that is
already closed (here the file closed by `unmount`). -/
theorem fs3_close_fails_on_open_file :
    ((openedWorld "a").FS3FileArray 0).created = true ∧
    ((openedWorld "a").FS3FileArray 0).«open» = true ∧
    (fs3_close 0 (openedWorld "a")).1 = -1 ∧
    ((fs3_close 0 (openedWorld "a")).2.FS3FileArray 0).«open» = true ∧
    ((fs3_unmount_disk (controller scenarioGeometry) (openedWorld "a")).2.FS3FileArray 0).«open»
      = false ∧
    (fs3_close 0 (fs3_unmount_disk (controller scenarioGeometry) (openedWorld "a")).2).1 = 0 := by
  decide

set_option maxRecDepth 100000 in
/-- C8 (open postcondition), evaluated on two reachable states.  Right after the first
mount, `fs3_open("")` matches record 0, whose name is still empty and which has never been
created: it returns handle 0 and leaves `created = false`.  After
`mount; h=open("a"); write(h,"HELLO",5); unmount; mount`, `fs3_open("a")` matches the
stale name of record 0: it returns handle 0 with `created = false` and the old length 5.
In both cases a following `fs3_write` on the handle returns -1. -/
theorem fs3_open_matches_uncreated_record :
    ((fs3_open "" 0 mountedWorld).1 = 0 ∧
      ((fs3_open "" 0 mountedWorld).2.FS3FileArray 0).created = false ∧
      ((fs3_open "" 0 mountedWorld).2.FS3FileArray 0).«open» = true) ∧
    (remountedWorld.diskMounted = true ∧
      (fs3_open "a" 0 remountedWorld).1 = 0 ∧
      ((fs3_open "a" 0 remountedWorld).2.FS3FileArray 0).created = false ∧
      ((fs3_open "a" 0 remountedWorld).2.FS3FileArray 0).length = 5) ∧
    (fs3_write scenarioGeometry (controller scenarioGeometry) 5 0 helloBytes 5 (fun _ => nullBuf)
      (fs3_open "a" 0 remountedWorld).2).map Prod.fst = some (-1) := by
  decide

set_option maxRecDepth 100000 in
/-- C9 (table-full failure), evaluated on the full table: all `FS3_MAX_TOTAL_FILES`
records are created and none is named "new", the word after the table reads as
`created = false`, and the local variable `fileHandle` holds 7 when it is declared.
`fs3_open("new")` then returns 7 instead of -1 and overwrites record 7. -/
theorem fs3_open_full_table_overwrites :
    (fullTableWorld.FS3FileArray 7).created = true ∧
    (fullTableWorld.FS3FileArray 7).name = "AH" ∧
    (fullTableWorld.FS3FileArray FS3_MAX_TOTAL_FILES).created = false ∧
    (fs3_open "new" 7 fullTableWorld).1 = 7 ∧
    ((fs3_open "new" 7 fullTableWorld).2.FS3FileArray 7).name = "new" := by
  decide

/-- C10 (mount reset): when the driver is unmounted and the MOUNT exchange is answered
with return status 0, `fs3_mount_disk` returns 0 and afterwards the driver is mounted,
every file record has `created = false`, every cell of `FS3DiskMap` is EMPTY (-1) and
`currentDiskTrack` is -1; when the exchange fails or is refused, it returns -1 and the
driver stays unmounted. -/
theorem fs3_mount_disk_reset (G : Geometry) (P : Peer σ) (w : World σ)
    (hm : w.diskMounted = false) :
    (∀ reply data,
      (P.exchange w.peer (construct_fs3_cmdblock FS3_OP_MOUNT 0 0 0) none).2 = some (reply, data) →
      getReturnBit reply = 0 →
        (fs3_mount_disk G P w).1 = 0 ∧ (fs3_mount_disk G P w).2.diskMounted = true ∧
        (∀ i : Int, 0 ≤ i → i < FS3_MAX_TOTAL_FILES →
          ((fs3_mount_disk G P w).2.FS3FileArray i).created = false) ∧
        (∀ i j : Int, 0 ≤ i → i < G.FS3_MAX_TRACKS → 0 ≤ j → j < G.FS3_TRACK_SIZE →
          (fs3_mount_disk G P w).2.FS3DiskMap i j = -1) ∧
        (fs3_mount_disk G P w).2.currentDiskTrack = -1) ∧
    (((P.exchange w.peer (construct_fs3_cmdblock FS3_OP_MOUNT 0 0 0) none).2 = none ∨
      ∃ reply data,
        (P.exchange w.peer (construct_fs3_cmdblock FS3_OP_MOUNT 0 0 0) none).2 = some (reply, data) ∧
        getReturnBit reply ≠ 0) →
        (fs3_mount_disk G P w).1 = -1 ∧ (fs3_mount_disk G P w).2.diskMounted = false) := by
  constructor
  · intro reply data hex hret
    rw [fs3_mount_disk_ok G P w hm reply data hex hret]
    refine ⟨rfl, rfl, ?_, ?_, rfl⟩
    · intro i h0 h1; simp [h0, h1]
    · intro i j h0 h1 h2 h3; simp [h0, h1, h2, h3]
  · exact fs3_mount_disk_fails G P w hm

/-- Witness of C10: the mount of a process that has just started, against the controller
of the scenarios, returns 0 and leaves the driver mounted with no current track. -/
theorem fs3_mount_disk_reset_witness :
    (fs3_mount_disk scenarioGeometry (controller scenarioGeometry) (World.boot blankDisk)).1 = 0 ∧
    mountedWorld.diskMounted = true ∧ mountedWorld.currentDiskTrack = -1 :=
  have h := (fs3_mount_disk_reset scenarioGeometry (controller scenarioGeometry)
    (World.boot blankDisk) rfl).1 _ _ (by rfl) (by decide)
  ⟨h.1, h.2.1, h.2.2.2.2⟩

set_option maxRecDepth 1000000 in
/-- C11 (unmount closes files), evaluated on the bytes of the file table after `mount;
fs3_open(p); fs3_open("b")` with `p` of 140 bytes (see C31): record 2 is created and open,
and the `created` word of record 1 holds bytes of `p`.  The closing loop of
`fs3_unmount_disk` closes record 0, finds at record 1 a `created` word that is not `true`
and stops there: after the unmount record 2 is still created and open. -/
theorem fs3_unmount_disk_skips_created_record :
    loadInt twoOpens.2 (createdAt 2) = 1 ∧
    loadInt twoOpens.2 (openAt 2) = 1 ∧
    loadInt (Layout.unmountLoop FS3_MAX_TOTAL_FILES 0 twoOpens.2) (openAt 0) = 0 ∧
    loadInt (Layout.unmountLoop FS3_MAX_TOTAL_FILES 0 twoOpens.2) (createdAt 2) = 1 ∧
    loadInt (Layout.unmountLoop FS3_MAX_TOTAL_FILES 0 twoOpens.2) (openAt 2) = 1 := by
  rw [twoOpens_eq]
  exact ⟨by decide!, by decide!, by decide!, by decide!, by decide!⟩

set_option maxRecDepth 100000 in
/-- C12 (handle range), evaluated for the handle `FS3_MAX_TOTAL_FILES` = 1024, which the
test `fd > FS3_MAX_TOTAL_FILES` lets through: the calls index the file table one record
past its end.  When that memory reads as a record that is not created, `fs3_seek(1024, 3)`
returns -1; when it reads as a created open record of length 8, `fs3_seek(1024, 3)`
returns 0 and writes the position into it, `fs3_write(1024, buf, 1)` returns 1 and puts
1024 into cell (0,0) of the allocation map, and `fs3_read(1024, out, 1)` sends a
`READ_SECTOR` for sector 65535 before it returns -1; when it reads as a created closed
record, `fs3_close(1024)` returns 0. -/
theorem handle_1024_passes_range_check :
    (fs3_seek 1024 3 mountedWorld).1 = -1 ∧
    (fs3_seek 1024 3 (strayRecordWorld true)).1 = 0 ∧
    ((fs3_seek 1024 3 (strayRecordWorld true)).2.FS3FileArray 1024).position = 3 ∧
    (fs3_close 1024 (strayRecordWorld false)).1 = 0 ∧
    (fs3_write scenarioGeometry (controller scenarioGeometry) 1 1024 abBytes 1 (fun _ => nullBuf)
      (strayRecordWorld true)).map Prod.fst = some 1 ∧
    (worldAfter (fs3_write scenarioGeometry (controller scenarioGeometry) 1 1024 abBytes 1
      (fun _ => nullBuf) (strayRecordWorld true))).FS3DiskMap 0 0 = 1024 ∧
    (fs3_read scenarioGeometry (controller scenarioGeometry) 1 1024 nullBuf 1
      (strayRecordWorld true)).map Prod.fst = some (-1) ∧
    ((fs3_read scenarioGeometry (controller scenarioGeometry) 1 1024 nullBuf 1
      (strayRecordWorld true)).map (fun r => r.2.2.wire.map deconstruct_fs3_cmdblock))
      = some [(2, 65535, 0, 0), (0, 0, 0, 0)] := by
  decide

/-- C13 (validation failures): `fs3_read` and `fs3_write` on an unmounted driver, or on a
handle in `[0, FS3_MAX_TOTAL_FILES)` whose record is not created or not open,
`fs3_mount_disk` on a mounted driver and `fs3_unmount_disk` on an unmounted one return -1
and leave the whole world as it was: the file table, the allocation map, the current
track, the cache, the user buffer, and the log of command blocks sent (no wire call). -/
theorem validation_failures_are_atomic (G : Geometry) (P : Peer σ) (w : World σ) :
    (∀ (fuel : Nat) (fd : Int) (buf : Buffer) (count : Int),
      (w.diskMounted = false ∨ (0 ≤ fd ∧ fd < FS3_MAX_TOTAL_FILES ∧
        ((w.FS3FileArray fd).created = false ∨ (w.FS3FileArray fd).«open» = false))) →
      fs3_read G P fuel fd buf count w = some (-1, buf, w)) ∧
    (∀ (fuel : Nat) (fd : Int) (buf : Buffer) (count : Int) (scratch : Int → Buffer),
      (w.diskMounted = false ∨ (0 ≤ fd ∧ fd < FS3_MAX_TOTAL_FILES ∧
        ((w.FS3FileArray fd).created = false ∨ (w.FS3FileArray fd).«open» = false))) →
      fs3_write G P fuel fd buf count scratch w = some (-1, w)) ∧
    (w.diskMounted = true → fs3_mount_disk G P w = (-1, w)) ∧
    (w.diskMounted = false → fs3_unmount_disk P w = (-1, w)) := by
  refine ⟨?_, ?_, ?_, ?_⟩
  · intro fuel fd buf count h
    unfold fs3_read
    rcases h with h | ⟨h0, h1, h | h⟩
    · rw [if_pos h]
    · split_ifs <;> rfl
    · split_ifs <;> rfl
  · intro fuel fd buf count scratch h
    unfold fs3_write
    rcases h with h | ⟨h0, h1, h | h⟩
    · rw [if_pos h]
    · split_ifs <;> rfl
    · split_ifs <;> rfl
  · intro h
    unfold fs3_mount_disk
    rw [if_pos h]
  · intro h
    unfold fs3_unmount_disk
    rw [if_pos h]

set_option maxRecDepth 100000 in
/-- Witness of C13: a read before the mount, a write to the handle 3 that no `fs3_open` has
returned, a second mount and an unmount before the mount all return -1 and change
nothing. -/
theorem validation_failures_are_atomic_witness :
    fs3_read scenarioGeometry (controller scenarioGeometry) 5 0 nullBuf 5 (World.boot blankDisk)
      = some (-1, nullBuf, World.boot blankDisk) ∧
    fs3_write scenarioGeometry (controller scenarioGeometry) 5 3 helloBytes 5 (fun _ => nullBuf)
      (openedWorld "a") = some (-1, openedWorld "a") ∧
    fs3_mount_disk scenarioGeometry (controller scenarioGeometry) mountedWorld
      = (-1, mountedWorld) ∧
    fs3_unmount_disk (controller scenarioGeometry) (World.boot blankDisk)
      = (-1, World.boot blankDisk) :=
  ⟨(validation_failures_are_atomic scenarioGeometry (controller scenarioGeometry)
      (World.boot blankDisk)).1 5 0 nullBuf 5 (Or.inl rfl),
    (validation_failures_are_atomic scenarioGeometry (controller scenarioGeometry)
      (openedWorld "a")).2.1 5 3 helloBytes 5 (fun _ => nullBuf)
      (Or.inr ⟨by decide, by decide, Or.inl (by decide)⟩),
    (validation_failures_are_atomic scenarioGeometry (controller scenarioGeometry)
      mountedWorld).2.2.1 (by decide),
    (validation_failures_are_atomic scenarioGeometry (controller scenarioGeometry)
      (World.boot blankDisk)).2.2.2 rfl⟩

set_option maxRecDepth 1000000 in
/-- C14 (disk-full failure), evaluated on a disk of 2 tracks of 2 sectors of 4 bytes after
`mount; h=open("a"); write(h, buf, 16)`, which returns 16 and fills the disk:
`find_open_track` and `find_open_sector` return -1 and `fs3_write(h, buf, 1)` uses them as
indices.  It reads the word `FS3DiskMap[-1][-1]`; here that word reads 0, so the code
takes the sector for one in use and sends a `READ_SECTOR` for sector 65535 before it
returns -1; when the word reads -1 it sends a `WRITE_SECTOR` for sector 65535, which the
controller refuses. -/
theorem fs3_write_full_disk_uses_index_minus_one :
    (fs3_write smallGeometry (controller smallGeometry) 16 0 alphabetBytes 16 (fun _ => nullBuf)
      smallOpened).map Prod.fst = some 16 ∧
    ((smallFull.FS3FileArray 0).position, (smallFull.FS3FileArray 0).length) = (16, 16) ∧
    find_open_track smallGeometry smallFull = -1 ∧
    find_open_sector smallGeometry smallFull = -1 ∧
    smallFull.FS3DiskMap (-1) (-1) = 0 ∧
    (fs3_write smallGeometry (controller smallGeometry) 1 0 abBytes 1 (fun _ => nullBuf)
      smallFull).map Prod.fst = some (-1) ∧
    (fs3_write smallGeometry (controller smallGeometry) 1 0 abBytes 1 (fun _ => nullBuf)
      smallFull).map (fun r => (r.2.wire.map deconstruct_fs3_cmdblock).head?)
      = some (some (2, 65535, 0, 0)) ∧
    (fs3_write smallGeometry (controller smallGeometry) 1 0 abBytes 1 (fun _ => nullBuf)
      smallFullEmptyBefore).map Prod.fst = some (-1) ∧
    (fs3_write smallGeometry (controller smallGeometry) 1 0 abBytes 1 (fun _ => nullBuf)
      smallFullEmptyBefore).map (fun r => (r.2.wire.map deconstruct_fs3_cmdblock).head?)
      = some (some (3, 65535, 0, 0)) := by
  decide!

set_option maxRecDepth 1000000 in
/-- C15 (seek failure), evaluated on a disk of 2 tracks of 2 sectors of 4 bytes after
`mount; h=open("a"); write(h, "ABCDEFGHIJKL", 12); seek(h, 0)`, with the head on track 1
and a controller that fails the next `TRACK_SEEK` (with status 1, or with an I/O error):
`switch_disk_track(0)` returns -1, but `fs3_read(h, out, 4)` ignores it, sends a
`READ_SECTOR` for sector 0 after the failed `TRACK_SEEK` and returns 4 with the bytes
"IJKL" of sector (1,0); and `fs3_write(h, buf, 1)` sends a `READ_SECTOR` and a
`WRITE_SECTOR` after the failed `TRACK_SEEK`, returns 1 and overwrites the first byte of
sector (1,0). -/
theorem fs3_read_write_ignore_seek_failure :
    (switch_disk_track smallGeometry (seekLimited smallGeometry false) 0 (limWritten false)).1
      = -1 ∧
    (switch_disk_track smallGeometry (seekLimited smallGeometry true) 0 (limWritten true)).1
      = -1 ∧
    (fs3_read smallGeometry (seekLimited smallGeometry false) 4 0 nullBuf 4
      (limWritten false)).map Prod.fst = some 4 ∧
    (fs3_read smallGeometry (seekLimited smallGeometry false) 4 0 nullBuf 4
      (limWritten false)).map (fun r => firstBytes 4 r.2.1) = some [73, 74, 75, 76] ∧
    (fs3_read smallGeometry (seekLimited smallGeometry false) 4 0 nullBuf 4
      (limWritten false)).map (fun r => (r.2.2.wire.map deconstruct_fs3_cmdblock).take 2)
      = some [(2, 0, 0, 0), (1, 0, 0, 0)] ∧
    (fs3_read smallGeometry (seekLimited smallGeometry true) 4 0 nullBuf 4
      (limWritten true)).map Prod.fst = some 4 ∧
    (fs3_read smallGeometry (seekLimited smallGeometry true) 4 0 nullBuf 4
      (limWritten true)).map (fun r => (r.2.2.wire.map deconstruct_fs3_cmdblock).take 2)
      = some [(2, 0, 0, 0), (1, 0, 0, 0)] ∧
    (fs3_write smallGeometry (seekLimited smallGeometry false) 1 0 abBytes 1 (fun _ => nullBuf)
      (limWritten false)).map Prod.fst = some 1 ∧
    (fs3_write smallGeometry (seekLimited smallGeometry false) 1 0 abBytes 1 (fun _ => nullBuf)
      (limWritten false)).map (fun r => (r.2.wire.map deconstruct_fs3_cmdblock).take 3)
      = some [(3, 0, 0, 0), (2, 0, 0, 0), (1, 0, 0, 0)] ∧
    (fs3_write smallGeometry (seekLimited smallGeometry false) 1 0 abBytes 1 (fun _ => nullBuf)
      (limWritten false)).map (fun r => firstBytes 4 (r.2.peer.1.sectors 1 0))
      = some [171, 74, 75, 76] :=
  ⟨by decide!, by decide!, by decide!, by decide!, by decide!, by decide!, by decide!,
    by decide!, by decide!, by decide!⟩

/-- C16 (cache coherence): for every created cache with at least one line, every key
`(t, s)` and every payload `p`, `fs3_put_cache(t, s, p)` returns 0 and the
`fs3_get_cache(t, s)` that follows it returns `p`, adds one to the hit counter and leaves
the miss counter as it was.  The bounds keep the `int` counters from overflowing. -/
theorem fs3_put_get_coherent (t s : Int) (p : Buffer) (c : Cache)
    (hcr : c.cacheCreated ≠ 0) (hN : 0 < c.cacheSize)
    (_hrange : c.cacheInserts < 2 ^ 31 - 1 ∧ c.cacheGets < 2 ^ 31 - 1 ∧ c.cacheHits < 2 ^ 31 - 1) :
    (fs3_put_cache t s p c).1 = 0 ∧
    (fs3_get_cache t s (fs3_put_cache t s p c).2).1 = some p ∧
    (fs3_get_cache t s (fs3_put_cache t s p c).2).2.cacheHits = c.cacheHits + 1 ∧
    (fs3_get_cache t s (fs3_put_cache t s p c).2).2.cacheMisses = c.cacheMisses := by
  obtain ⟨h1, h2, h3, h4, h5, h6⟩ := fs3_put_cache_lines t s p c hcr
  obtain ⟨a, b⟩ := putScan_spec c.FS3Cache t s c.cacheSize 0 (c.FS3Cache 0).countUsed 0
  have hlt : putScan c.FS3Cache t s c.cacheSize 0 (c.FS3Cache 0).countUsed 0 < c.cacheSize := by
    rcases b with b | b
    · rw [b]; exact hN
    · omega
  have hget : getScan (fs3_put_cache t s p c).2.FS3Cache t s (fs3_put_cache t s p c).2.cacheSize 0
      = some (putScan c.FS3Cache t s c.cacheSize 0 (c.FS3Cache 0).countUsed 0) := by
    apply getScan_eq_some _ _ _ _ _ _ (Nat.zero_le _) (by rw [h1, Nat.zero_add]; exact hlt)
      ⟨h3, h4⟩
    intro j hj0 hj1
    rw [h6 j (by omega)]
    exact a j hj0 hj1 (by omega)
  have hput1 : (fs3_put_cache t s p c).1 = 0 := by
    unfold fs3_put_cache; rw [if_neg hcr]
  have hputh : (fs3_put_cache t s p c).2.cacheHits = c.cacheHits := by
    unfold fs3_put_cache; rw [if_neg hcr]
  have hputm : (fs3_put_cache t s p c).2.cacheMisses = c.cacheMisses := by
    unfold fs3_put_cache; rw [if_neg hcr]
  refine ⟨hput1, ?_, ?_, ?_⟩
  · unfold fs3_get_cache
    rw [if_neg (by rw [h2]; exact hcr), hget]
    simp only
    rw [h5]
  · unfold fs3_get_cache
    rw [if_neg (by rw [h2]; exact hcr), hget]
    simp only
    rw [hputh]
  · unfold fs3_get_cache
    rw [if_neg (by rw [h2]; exact hcr), hget]
    simp only
    rw [hputm]

/-- Witness of C16: on a fresh cache of two lines, a put of sector (3,7) followed by a get
of it returns the payload with one hit and no miss. -/
theorem fs3_put_get_coherent_witness :
    (fs3_put_cache 3 7 helloBytes (fs3_init_cache 2 zeroHeap Cache.boot).2).1 = 0 ∧
    (fs3_get_cache 3 7 (fs3_put_cache 3 7 helloBytes
      (fs3_init_cache 2 zeroHeap Cache.boot).2).2).1 = some helloBytes ∧
    (fs3_get_cache 3 7 (fs3_put_cache 3 7 helloBytes
      (fs3_init_cache 2 zeroHeap Cache.boot).2).2).2.cacheHits = 0 + 1 ∧
    (fs3_get_cache 3 7 (fs3_put_cache 3 7 helloBytes
      (fs3_init_cache 2 zeroHeap Cache.boot).2).2).2.cacheMisses = 0 :=
  fs3_put_get_coherent 3 7 helloBytes (fs3_init_cache 2 zeroHeap Cache.boot).2 (by decide)
    (by decide) (by decide)

/-- C17 (LRU eviction): for every `N ≥ 1` and `k ≥ 0`, after a successful
`fs3_init_cache(N)` and `N + k` calls of `fs3_put_cache` with pairwise different keys
`key 0, ..., key (N + k - 1)` (one put each, in this order), `fs3_get_cache` returns
`NULL` (a miss) for each of the first `k` keys and the payload of its put (a hit) for each
of the last `N` keys.  `N` is a `uint16_t`, and `N + k < 2 ^ 32` keeps the 32-bit use
stamps of the lines from wrapping. -/
theorem fs3_cache_lru (N k : Nat) (key : Nat → Int × Int) (payload : Nat → Buffer)
    (heap : Nat → FS3CacheEntry) (c0 : Cache) (hN : 0 < N) (h0 : c0.cacheCreated ≠ 1)
    (hd : ∀ i j, i < N + k → j < N + k → key i = key j → i = j)
    (hrange : N < 2 ^ 16 ∧ N + k < 2 ^ 32) :
    (fs3_init_cache N heap c0).1 = 0 ∧
    (∀ j, j < k →
      (fs3_get_cache (key j).1 (key j).2
        (putAll key payload (N + k) (fs3_init_cache N heap c0).2)).1 = none) ∧
    (∀ j, k ≤ j → j < N + k →
      (fs3_get_cache (key j).1 (key j).2
        (putAll key payload (N + k) (fs3_init_cache N heap c0).2)).1 = some (payload j)) := by
  obtain ⟨hinit, hst0⟩ := lru_init N key payload heap c0 h0
  have hst := lru_all N key payload (N + k) _ hN hst0 hd hrange.2 (N + k) (le_refl _)
  generalize putAll key payload (N + k) (fs3_init_cache N heap c0).2 = c at hst
  obtain ⟨hcr, hsize, -, -, hus⟩ := hst
  have hcr0 : c.cacheCreated ≠ 0 := by rw [hcr]; decide
  refine ⟨hinit, fun j hj => ?_, fun j hj1 hj2 => ?_⟩
  · have hnone : getScan c.FS3Cache (key j).1 (key j).2 c.cacheSize 0 = none := by
      apply getScan_eq_none
      intro i _ hi hm
      rw [hsize] at hi
      obtain ⟨j1, a1, a2, -, a4, a5, -⟩ := hus i (by omega) (by omega)
      have := hd j1 j (by omega) (by omega) (Prod.ext (by rw [← a4, hm.1]) (by rw [← a5, hm.2]))
      omega
    unfold fs3_get_cache
    rw [if_neg hcr0, hnone]
  · have hr : j % N < N := Nat.mod_lt _ hN
    obtain ⟨j1, a1, a2, a3, a4, a5, -⟩ := hus (j % N) hr (by omega)
    have hj1 : j1 = j := by
      rcases Nat.le_total j1 j with hle | hle
      · exact mod_eq_of_window N j1 j a3 hle (by omega)
      · exact (mod_eq_of_window N j j1 a3.symm hle (by omega)).symm
    subst hj1
    cases hg : getScan c.FS3Cache (key j1).1 (key j1).2 c.cacheSize 0 with
    | none =>
      exact absurd ⟨a4, a5⟩ (getScan_none _ _ _ _ _ hg (j1 % N) (Nat.zero_le _) (by omega))
    | some g =>
      obtain ⟨-, g2, g3, g4⟩ := getScan_some _ _ _ _ _ _ hg
      rw [hsize] at g2
      obtain ⟨j2, b1, b2, -, b4, b5, b6, -⟩ := hus g (by omega) (by omega)
      have hj2 : j2 = j1 :=
        hd j2 j1 (by omega) (by omega) (Prod.ext (by rw [← b4, g3]) (by rw [← b5, g4]))
      unfold fs3_get_cache
      rw [if_neg hcr0, hg]
      simp only
      rw [b6, hj2]

/-- Witness of C17: a cache of two lines after the puts of the sectors (0,0), (0,1), (0,2):
the get of (0,0) misses, the gets of (0,1) and (0,2) hit and return their payloads. -/
theorem fs3_cache_lru_witness :
    (fs3_init_cache 2 zeroHeap Cache.boot).1 = 0 ∧
    (fs3_get_cache 0 0 (putAll lruKey lruPayload 3 (fs3_init_cache 2 zeroHeap Cache.boot).2)).1
      = none ∧
    (fs3_get_cache 0 1 (putAll lruKey lruPayload 3 (fs3_init_cache 2 zeroHeap Cache.boot).2)).1
      = some (lruPayload 1) ∧
    (fs3_get_cache 0 2 (putAll lruKey lruPayload 3 (fs3_init_cache 2 zeroHeap Cache.boot).2)).1
      = some (lruPayload 2) :=
  have h := fs3_cache_lru 2 1 lruKey lruPayload zeroHeap Cache.boot (by decide) (by decide)
    (fun i j _ _ e => by
      have e2 := congrArg Prod.snd e
      simp only [lruKey] at e2
      exact_mod_cast e2)
    (by decide)
  ⟨h.1, h.2.1 0 (by decide), h.2.2 1 (by decide) (by decide), h.2.2 2 (by decide) (by decide)⟩

/-- C18 (cache init failure), evaluated on a process that has just started:
`fs3_init_cache(0)` returns 0 and creates a cache of zero lines, because the only test on
`cachelines` is `cachelines < 0`, which an unsigned value never meets.  The other half of
the claim holds: on a created cache `fs3_init_cache` returns -1 and changes nothing. -/
theorem fs3_init_cache_accepts_zero :
    (fs3_init_cache 0 zeroHeap Cache.boot).1 = 0 ∧
    (fs3_init_cache 0 zeroHeap Cache.boot).2.cacheCreated = 1 ∧
    (fs3_init_cache 0 zeroHeap Cache.boot).2.cacheSize = 0 ∧
    (fs3_init_cache 2 zeroHeap (fs3_init_cache 1 zeroHeap Cache.boot).2)
      = (-1, (fs3_init_cache 1 zeroHeap Cache.boot).2) :=
  ⟨by decide, by decide, by decide, rfl⟩

/-- Counterexample to C19: after one insert, two gets, one hit and one miss, a successful
`fs3_close_cache` followed by a successful `fs3_init_cache(1)` leaves the counters at
(1, 2, 1, 1), not at zero. -/
theorem counters_survive_reinit :
    (usedCache.cacheInserts, usedCache.cacheGets, usedCache.cacheHits, usedCache.cacheMisses)
      = (1, 2, 1, 1) ∧
    (fs3_close_cache usedCache).1 = 0 ∧
    (fs3_init_cache 1 zeroHeap (fs3_close_cache usedCache).2).1 = 0 ∧
    ((fs3_init_cache 1 zeroHeap (fs3_close_cache usedCache).2).2.cacheInserts,
      (fs3_init_cache 1 zeroHeap (fs3_close_cache usedCache).2).2.cacheGets,
      (fs3_init_cache 1 zeroHeap (fs3_close_cache usedCache).2).2.cacheHits,
      (fs3_init_cache 1 zeroHeap (fs3_close_cache usedCache).2).2.cacheMisses) = (1, 2, 1, 1) := by
  decide

/-- C19 (metric reset), as amended: `fs3_close_cache` followed by `fs3_init_cache` leaves
the insert, get, hit and miss counters as they were, whatever the two calls return; the
counters are never reset. -/
theorem fs3_reinit_keeps_counters (c : Cache) (cachelines : Nat) (heap : Nat → FS3CacheEntry) :
    (fs3_init_cache cachelines heap (fs3_close_cache c).2).2.cacheInserts = c.cacheInserts ∧
    (fs3_init_cache cachelines heap (fs3_close_cache c).2).2.cacheGets = c.cacheGets ∧
    (fs3_init_cache cachelines heap (fs3_close_cache c).2).2.cacheHits = c.cacheHits ∧
    (fs3_init_cache cachelines heap (fs3_close_cache c).2).2.cacheMisses = c.cacheMisses := by
  unfold fs3_init_cache fs3_close_cache
  split_ifs <;> exact ⟨rfl, rfl, rfl, rfl⟩

/-- C20 (read after write hits the cache): on a mounted driver whose allocation map is
consistent, with a created cache in which the sector of the file `fd` that holds byte
`loc` has a line (what the `fs3_put_cache` of a successful write leaves, see
`fs3_put_cache_has_line`, until a later put evicts it), `fs3_seek(fd, loc)` returns 0 and
a following `fs3_read(fd, out, count)` that stays inside that sector and inside the file
returns `count` after one pass, sends no `READ_SECTOR` (the only command it may send is
the `TRACK_SEEK` to the track of the sector), adds one to the hit counter and leaves the
miss counter as it was, whatever the remote end answers.  The sector is given by its
place `q` in scan order.  The bounds keep the `int` arithmetic exact. -/
theorem fs3_read_hits_cache (G : Geometry) (hG : G.Valid) (P : Peer σ) (fuel : Nat) (fd : Int)
    (out : Buffer) (loc : Nat) (count : Int) (w : World σ) (u q : Nat)
    (hfd : 0 ≤ fd ∧ fd < FS3_MAX_TOTAL_FILES) (hc : Consistent G w fd u)
    (hcr : (w.FS3FileArray fd).created = true) (hop : (w.FS3FileArray fd).«open» = true)
    (hcount : 0 < count) (hle : (loc : Int) + count ≤ (w.FS3FileArray fd).length)
    (hconf : ((loc % G.FS3_SECTOR_SIZE : Nat) : Int) + count ≤ G.FS3_SECTOR_SIZE)
    (hq : q < G.cells) (hcell : cellAt G w.FS3DiskMap q = fd)
    (hk : countCells (cellAt G w.FS3DiskMap) fd q = loc / G.FS3_SECTOR_SIZE)
    (hcache : w.cache.cacheCreated ≠ 0)
    (hline : ∃ i, i < w.cache.cacheSize ∧
      (w.cache.FS3Cache i).track = ((q / G.FS3_TRACK_SIZE : Nat) : Int) ∧
      (w.cache.FS3Cache i).sector = ((q % G.FS3_TRACK_SIZE : Nat) : Int))
    (hfuel : 0 < fuel)
    (hrange : (w.FS3FileArray fd).length < 2 ^ 31 ∧ w.cache.cacheHits < 2 ^ 31 - 1) :
    (fs3_seek fd loc w).1 = 0 ∧
    ∃ out1 w1,
      fs3_read G P fuel fd out count (fs3_seek fd loc w).2 = some (count, out1, w1) ∧
      (w1.wire = w.wire ∨
        ∃ cmd, w1.wire = cmd :: w.wire ∧ getOpCodeBits cmd = FS3_OP_TSEEK) ∧
      w1.cache.cacheHits = w.cache.cacheHits + 1 ∧
      w1.cache.cacheMisses = w.cache.cacheMisses := by
  have hS := hG.sector_pos
  have hr : ¬ (fd > (FS3_MAX_TOTAL_FILES : Int) ∨ fd < 0) := by omega
  obtain ⟨k0, kc, kp, kl, kcr, kop⟩ := fs3_seek_consistent G w fd u loc hfd hc hcr hop
    (by omega) hrange.1
  have kwire : (fs3_seek fd loc w).2.wire = w.wire := by
    unfold fs3_seek; split_ifs <;> rfl
  have kcache : (fs3_seek fd loc w).2.cache = w.cache := by
    unfold fs3_seek; split_ifs <;> rfl
  have kmap := fs3_seek_map fd loc w
  generalize (fs3_seek fd loc w).2 = w0 at kc kp kl kcr kop kwire kcache kmap
  have hqu : q < u := usedPrefix_lt_of_ne G _ u q hc.used hq (by rw [hcell]; omega)
  have hfound := find_current_found G w0 fd q (by omega) (by rw [kp]; omega) hq
    (by rw [kmap]; exact hcell) (by rw [kmap, kp, hk]; simp)
    (fun q1 h1 => by rw [kmap]; exact hc.used.2.1 q1 (by omega))
  have ht := div_lt_of_lt_cells G q hq
  obtain ⟨⟨b, hb⟩, hhits, hmiss⟩ := fs3_get_cache_hit _ _ w.cache hcache hline
  have hcache1 : (seekTo G P ((q / G.FS3_TRACK_SIZE : Nat) : Int) w0).cache = w.cache := by
    rw [seekTo_cache, kcache]
  have hfetch := fetch_sector_hit P ((q / G.FS3_TRACK_SIZE : Nat) : Int)
    ((q % G.FS3_TRACK_SIZE : Nat) : Int) nullBuf
    (seekTo G P ((q / G.FS3_TRACK_SIZE : Nat) : Int) w0) b (by rw [hcache1]; exact hb)
  have hbody := read_body_fetched G P fd count 0 out w0 _ _ b hfound.1 hfound.2
    (by rw [hfetch])
  have hchunk : readChunk G w0 fd count = count := by
    rw [readChunk_spec G hS w0 fd count (by rw [kp]; omega) hcount (by rw [kl, kp]; omega)]
    unfold writeChunk
    rw [tmod_eq_natMod _ _ (by rw [kp]; omega), kp, Int.toNat_natCast, if_neg (by omega)]
  rw [hchunk] at hbody
  refine ⟨k0, memcpy out 0 b ((w0.FS3FileArray fd).position.tmod G.FS3_SECTOR_SIZE) count,
    commitRead fd count (fetch_sector P ((q / G.FS3_TRACK_SIZE : Nat) : Int)
      ((q % G.FS3_TRACK_SIZE : Nat) : Int) nullBuf
      (seekTo G P ((q / G.FS3_TRACK_SIZE : Nat) : Int) w0)).2, ?_, ?_, ?_, ?_⟩
  · unfold fs3_read
    rw [if_neg (by simp [kc.mounted]), if_neg hr, if_neg (by simp [kcr]), if_neg (by simp [kop]),
      if_neg (by rw [kl, kp]; omega)]
    obtain ⟨n, rfl⟩ : ∃ n, fuel = n + 1 := ⟨fuel - 1, by omega⟩
    unfold fs3_read_loop
    rw [if_pos hcount, hbody]
    simp only
    rw [fs3_read_loop_done G P fd n (count - count) _ _ _ (by omega)]
    simp
  · simp only [commitRead, hfetch]
    rcases seekTo_wire G P ((q / G.FS3_TRACK_SIZE : Nat) : Int) w0 with h | h
    · left; rw [h, kwire]
    · right
      refine ⟨_, by rw [h, kwire], ?_⟩
      rw [Int.toNat_natCast]
      exact getOpCodeBits_tseek G hG _ ht
  · simp only [commitRead, hfetch]
    rw [hcache1]; exact hhits
  · simp only [commitRead, hfetch]
    rw [hcache1]; exact hmiss

set_option maxRecDepth 1000000 in
/-- Witness of C20: scenario S1 with a cache of one line, followed by a second
`seek(h,0); read(h,out,5)`: the read returns 5, sends no `READ_SECTOR` and raises the hit
counter from 1 to 2. -/
theorem fs3_read_hits_cache_witness :
    cachedHello.cache.cacheHits = 1 ∧
    (fs3_seek 0 0 cachedHello).1 = 0 ∧
    ∃ out1 w1,
      fs3_read scenarioGeometry (controller scenarioGeometry) 1 0 nullBuf 5
        (fs3_seek 0 0 cachedHello).2 = some (5, out1, w1) ∧
      (w1.wire = cachedHello.wire ∨
        ∃ cmd, w1.wire = cmd :: cachedHello.wire ∧ getOpCodeBits cmd = FS3_OP_TSEEK) ∧
      w1.cache.cacheHits = cachedHello.cache.cacheHits + 1 ∧
      w1.cache.cacheMisses = cachedHello.cache.cacheMisses :=
  ⟨by decide!,
    fs3_read_hits_cache scenarioGeometry scenarioGeometry_valid (controller scenarioGeometry) 1 0
      nullBuf 0 5 cachedHello 1 0 (by decide) cachedHello_consistent.1
      cachedHello_consistent.2.1 cachedHello_consistent.2.2.1 (by decide)
      (by rw [cachedHello_consistent.2.2.2]; decide) (by decide) (by decide) (by decide!)
      (by decide) (by decide!) ⟨0, by decide!, by decide!, by decide!⟩ (by decide)
      ⟨by rw [cachedHello_consistent.2.2.2]; decide, by decide!⟩⟩

set_option maxRecDepth 1000000 in
/-- Counterexample to C22: `mount; h=open("a"); write(h,"HELLO",5); fs3_init_cache(2);
seek(h,0); read(h,out,5)`.  The cache is initialized and does not hold sector (0,0); the
read returns 5 with the bytes of "HELLO" after one successful `READ_SECTOR`, makes no
insert, and a `fs3_get_cache(0,0)` immediately after it is a miss. -/
theorem fs3_read_does_not_warm_cache :
    coldHello.cache.cacheCreated = 1 ∧
    (fs3_get_cache 0 0 coldHello.cache).1.isNone = true ∧
    (fs3_read scenarioGeometry (controller scenarioGeometry) 1 0 nullBuf 5 coldHello).map
      (fun r => (r.1, firstBytes 5 r.2.1)) = some (5, [72, 69, 76, 76, 79]) ∧
    ((worldAfterRead (fs3_read scenarioGeometry (controller scenarioGeometry) 1 0 nullBuf 5
      coldHello)).wire.map deconstruct_fs3_cmdblock).take 1 = [(FS3_OP_RDSECT, 0, 0, 0)] ∧
    (worldAfterRead (fs3_read scenarioGeometry (controller scenarioGeometry) 1 0 nullBuf 5
      coldHello)).wire.length = coldHello.wire.length + 1 ∧
    (worldAfterRead (fs3_read scenarioGeometry (controller scenarioGeometry) 1 0 nullBuf 5
      coldHello)).cache.cacheInserts = 0 ∧
    (fs3_get_cache 0 0 (worldAfterRead (fs3_read scenarioGeometry (controller scenarioGeometry)
      1 0 nullBuf 5 coldHello)).cache).1.isNone = true :=
  ⟨by decide!, by decide!, by decide!, by decide!, by decide!, by decide!, by decide!⟩

/-- C22, amended: `fs3_read` never puts into the cache.  Whatever the remote end answers,
a read that returns leaves the size of the cache, the keys and payloads of all its lines
and the insert counter as they were, so `fs3_get_cache` of any sector gives after the read
what it gave before it: a sector that the read obtained through `READ_SECTOR` after a miss
is still missing. -/
theorem fs3_read_never_puts (G : Geometry) (P : Peer σ) (fuel : Nat) (fd : Int) (buf : Buffer)
    (count : Int) (w : World σ) (r : Int × Buffer × World σ)
    (h : fs3_read G P fuel fd buf count w = some r) :
    SameLines w.cache r.2.2.cache ∧
    ∀ t s, (fs3_get_cache t s r.2.2.cache).1 = (fs3_get_cache t s w.cache).1 := by
  have hs : SameLines w.cache r.2.2.cache := by
    unfold fs3_read at h
    split at h
    · simp only [Option.some.injEq] at h; subst h; exact sameLines_refl _
    · split at h
      · simp only [Option.some.injEq] at h; subst h; exact sameLines_refl _
      · split at h
        · simp only [Option.some.injEq] at h; subst h; exact sameLines_refl _
        · split at h
          · simp only [Option.some.injEq] at h; subst h; exact sameLines_refl _
          · split at h
            · simp only [Option.some.injEq] at h; subst h; exact sameLines_refl _
            · exact fs3_read_loop_sameLines G P fd fuel count 0 buf w r h
  exact ⟨hs, fun t s => fs3_get_cache_of_sameLines _ _ hs t s⟩

set_option maxRecDepth 1000000 in
/-- Witness of C22, amended: the read of the counterexample. -/
theorem fs3_read_never_puts_witness :
    ∃ r, fs3_read scenarioGeometry (controller scenarioGeometry) 1 0 nullBuf 5 coldHello
        = some r ∧
      SameLines coldHello.cache r.2.2.cache ∧
      ∀ t s, (fs3_get_cache t s r.2.2.cache).1 = (fs3_get_cache t s coldHello.cache).1 := by
  have hs : (fs3_read scenarioGeometry (controller scenarioGeometry) 1 0 nullBuf 5
      coldHello).isSome = true := by decide!
  obtain ⟨r, hr⟩ := Option.isSome_iff_exists.mp hs
  exact ⟨r, hr, fs3_read_never_puts scenarioGeometry (controller scenarioGeometry) 1 0 nullBuf 5
    coldHello r hr⟩

/-- C23: on an initialized cache with `N ≥ 1` lines (and the global stamp below the range
of the 32-bit line stamp), `fs3_put_cache t s p` succeeds and modifies exactly one line
`r`, which gets the key `(t, s)`, the payload `p` and the freshly incremented global
stamp; every other line is unchanged and the insert counter grows by one.  If a line is
filed under `(t, s)`, `r` is the first such line, whatever stamps the lines before it
carry; otherwise `r` has the smallest `countUsed` of the cache and is the lowest index
with that stamp. -/
theorem fs3_put_cache_policy (t s : Int) (p : Buffer) (c : Cache)
    (hcr : c.cacheCreated ≠ 0) (hN : 1 ≤ c.cacheSize) (hrange : c.cacheUseCount + 1 < 2 ^ 32) :
    ∃ r, r < c.cacheSize ∧
      (fs3_put_cache t s p c).1 = 0 ∧
      (fs3_put_cache t s p c).2.FS3Cache r
        = { track := t, sector := s, dataBuffer := p, countUsed := c.cacheUseCount + 1 } ∧
      (fs3_put_cache t s p c).2.cacheUseCount = c.cacheUseCount + 1 ∧
      (∀ j, j ≠ r → (fs3_put_cache t s p c).2.FS3Cache j = c.FS3Cache j) ∧
      (fs3_put_cache t s p c).2.cacheInserts = c.cacheInserts + 1 ∧
      (fs3_put_cache t s p c).2.cacheSize = c.cacheSize ∧
      (∀ j, j < r → ¬ ((c.FS3Cache j).track = t ∧ (c.FS3Cache j).sector = s)) ∧
      ((∃ j, j < c.cacheSize ∧ (c.FS3Cache j).track = t ∧ (c.FS3Cache j).sector = s) →
        (c.FS3Cache r).track = t ∧ (c.FS3Cache r).sector = s) ∧
      ((∀ j, j < c.cacheSize → ¬ ((c.FS3Cache j).track = t ∧ (c.FS3Cache j).sector = s)) →
        (∀ j, j < c.cacheSize → (c.FS3Cache r).countUsed ≤ (c.FS3Cache j).countUsed) ∧
        ∀ j, j < r → (c.FS3Cache r).countUsed < (c.FS3Cache j).countUsed) := by
  obtain ⟨h1, h2, h3, h4⟩ := putScan_choice c.FS3Cache t s c.cacheSize hN
  have hst : (c.cacheUseCount + 1) % 2 ^ 64 % 2 ^ 32 = c.cacheUseCount + 1 := by omega
  have hg : (c.cacheUseCount + 1) % 2 ^ 64 = c.cacheUseCount + 1 := by omega
  refine ⟨putScan c.FS3Cache t s c.cacheSize 0 (c.FS3Cache 0).countUsed 0, h1, ?_, ?_, ?_, ?_,
    ?_, ?_, h2, h3, h4⟩
  · unfold fs3_put_cache; rw [if_neg hcr]
  · rw [fs3_put_cache_eq t s p c hcr]
    simp only [Function.update_same, hst]
  · rw [fs3_put_cache_eq t s p c hcr]
    exact hg
  · intro j hj
    rw [fs3_put_cache_eq t s p c hcr]
    simp only [Function.update_noteq hj]
  · rw [fs3_put_cache_eq t s p c hcr]
  · rw [fs3_put_cache_eq t s p c hcr]

/-- Witness of C23: a cache of three lines after the puts of the sectors (0,0), (0,1),
(0,2), which carry the stamps 1, 2, 3.  A put of sector (0,2) writes the line filed under
it, although the two lines before it carry lower stamps. -/
theorem fs3_put_cache_policy_witness :
    ∃ r, r < 3 ∧
      ((putAll lruKey lruPayload 3 (fs3_init_cache 3 zeroHeap Cache.boot).2).FS3Cache r).sector = 2 ∧
      (fs3_put_cache 0 2 helloBytes
        (putAll lruKey lruPayload 3 (fs3_init_cache 3 zeroHeap Cache.boot).2)).2.FS3Cache r
        = { track := 0, sector := 2, dataBuffer := helloBytes, countUsed := 4 } ∧
      (fs3_put_cache 0 2 helloBytes
        (putAll lruKey lruPayload 3 (fs3_init_cache 3 zeroHeap Cache.boot).2)).2.cacheInserts
        = 3 + 1 := by
  obtain ⟨r, h1, -, h3, -, -, h6, -, -, h9, -⟩ := fs3_put_cache_policy 0 2 helloBytes
    (putAll lruKey lruPayload 3 (fs3_init_cache 3 zeroHeap Cache.boot).2)
    (by decide) (by decide) (by decide)
  exact ⟨r, h1, (h9 ⟨2, by decide, by decide, by decide⟩).2, h3, h6⟩

/-- C24 (Invariant D): in every cache state reachable from a successful `fs3_init_cache`
by any sequence of `fs3_put_cache` and `fs3_get_cache` calls, no two lines in use (key
different from the unused marker `(-1, -1)`) hold the same `(track, sector)` key. -/
theorem cache_invariant_D (c : Cache) (h : CacheReachable c) : InvariantD c := by
  induction h with
  | init n heap c0 h0 => exact fs3_init_cache_invariantD n heap c0 h0
  | put t s buf c _ ih => exact fs3_put_cache_invariantD t s buf c ih
  | get t s c _ ih => exact fs3_get_cache_invariantD t s c ih

/-- Witness of C24: the cache of two lines after `init`, two puts of sector (0,0), a put of
sector (0,1) and a get of sector (0,0). -/
theorem cache_invariant_D_witness :
    InvariantD (fs3_get_cache 0 0 (fs3_put_cache 0 1 xyzBytes (fs3_put_cache 0 0 helloBytes
      (fs3_put_cache 0 0 abBytes (fs3_init_cache 2 zeroHeap Cache.boot).2).2).2).2).2 :=
  cache_invariant_D _ (CacheReachable.get 0 0 _ (CacheReachable.put 0 1 xyzBytes _
    (CacheReachable.put 0 0 helloBytes _ (CacheReachable.put 0 0 abBytes _
      (CacheReachable.init 2 zeroHeap Cache.boot (by decide))))))

set_option maxRecDepth 1000000 in
/-- C25 (contiguous allocation), evaluated on the bytes of the file table for `mount;
fs3_seek(1024, 3)`, when the words behind the table are cells of the allocation map (all
EMPTY after the mount).  The test `fd > FS3_MAX_TOTAL_FILES` lets 1024 through, the words
read as the record at index 1024 are not `false` and, as an unsigned length, not below 3,
so `fs3_seek` returns 0 and stores 3 in the word 35 words behind the table, while the 35
words before it still read EMPTY. -/
theorem fs3_seek_stores_behind_table :
    (Layout.fs3_seek FS3_MAX_TOTAL_FILES 3 tableBeforeMap).1 = 0 ∧
    wordBehindTable (Layout.fs3_seek FS3_MAX_TOTAL_FILES 3 tableBeforeMap).2 35 = 3 ∧
    ∀ k : Nat, k < 35 →
      wordBehindTable (Layout.fs3_seek FS3_MAX_TOTAL_FILES 3 tableBeforeMap).2 k = -1 :=
  ⟨by decide!, by decide!, by decide!⟩

set_option maxRecDepth 1000000 in
/-- C26 (position bound), evaluated on the bytes of the file table for `mount;
fs3_open(p)` with `p` of 136 bytes, 'A' 132 times and then "BBBB".  `fs3_open` sets
`length` and `position` of record 0 to 0 and then copies `p` into `name[128]` without a
test of its length: the bytes 128 to 131 of `p` land on `length` and the bytes 132 to 135
on `position`.  The call returns 0 and leaves record 0 created with length 0x41414141 and
position 0x42424242, which is above the length. -/
theorem fs3_open_overruns_length_and_position :
    (Layout.fs3_open longPath 0 tableMounted).1 = 0 ∧
    loadInt (Layout.fs3_open longPath 0 tableMounted).2 (createdAt 0) = 1 ∧
    loadInt (Layout.fs3_open longPath 0 tableMounted).2 (lengthAt 0) = 1094795585 ∧
    loadInt (Layout.fs3_open longPath 0 tableMounted).2 (positionAt 0) = 1111638594 ∧
    ¬ (loadInt (Layout.fs3_open longPath 0 tableMounted).2 (positionAt 0)
      ≤ loadInt (Layout.fs3_open longPath 0 tableMounted).2 (lengthAt 0)) := by
  rw [tableMounted_eq]
  exact ⟨by decide!, by decide!, by decide!, by decide!, by decide!⟩

/-- C27: for every 64-bit word `w` (bit 0 = MSB), `deconstruct_fs3_cmdblock w` yields the
opcode `w >> 60` (bits 0-3), the sector `(w >> 44) mod 2^16` (bits 4-19), the track
`(w >> 12) mod 2^32` (bits 20-51) and the return status `(w >> 11) mod 2` (bit 52);
`getOpCodeBits w` and `getReturnBit w` are the opcode and return components. -/
theorem deconstruct_fs3_cmdblock_layout (w : Nat) (hw : w < 2 ^ 64) :
    deconstruct_fs3_cmdblock w
      = (w >>> 60, (w >>> 44) % 2 ^ 16, (w >>> 12) % 2 ^ 32, (w >>> 11) % 2) ∧
    getOpCodeBits w = (deconstruct_fs3_cmdblock w).1 ∧
    getReturnBit w = (deconstruct_fs3_cmdblock w).2.2.2 ∧
    getOpCodeBits w = w >>> 60 ∧ getReturnBit w = (w >>> 11) % 2 := by
  have h : deconstruct_fs3_cmdblock w
      = (w >>> 60, (w >>> 44) % 2 ^ 16, (w >>> 12) % 2 ^ 32, (w >>> 11) % 2) := by
    rw [deconstruct_eq]
    simp only [Nat.shiftRight_eq_div_pow]
    have : w / 2 ^ 60 % 16 = w / 2 ^ 60 := by omega
    rw [this]
    norm_num
  refine ⟨h, rfl, rfl, ?_, ?_⟩
  · unfold getOpCodeBits; rw [h]
  · unfold getReturnBit; rw [h]

/-- Witness of C27: the word with all 64 bits set unpacks to `(15, 65535, 2^32 - 1, 1)`. -/
theorem deconstruct_fs3_cmdblock_layout_witness :
    (2 ^ 64 - 1 < 2 ^ 64) ∧
    deconstruct_fs3_cmdblock (2 ^ 64 - 1) = (15, 65535, 4294967295, 1) ∧
    getOpCodeBits (2 ^ 64 - 1) = 15 ∧ getReturnBit (2 ^ 64 - 1) = 1 := by
  have h := deconstruct_fs3_cmdblock_layout (2 ^ 64 - 1) (by norm_num)
  refine ⟨by norm_num, ?_, ?_, ?_⟩
  · rw [h.1]; norm_num [Nat.shiftRight_eq_div_pow]
  · rw [h.2.2.2.1]; norm_num [Nat.shiftRight_eq_div_pow]
  · rw [h.2.2.2.2]; norm_num [Nat.shiftRight_eq_div_pow]

/-- C29, evaluated on `mount; h=open("a"); write(h,"HELLO",5); seek(h,0); read(h,out,6)`:
the handle is created and open, the position 0 is below the length 5, every wire call
succeeds, and the read does not return, however many passes of the loop are allowed
(`read(h,out,5)` in the same state returns 5).  The first pass copies 5 bytes; every later pass finds the position at the end of the file,
copies `length % FS3_SECTOR_SIZE - position % FS3_SECTOR_SIZE = 0` bytes and leaves
`count = 1`. -/
theorem fs3_read_past_end_never_returns :
    (fs3_seek 0 0 helloWorld).1 = 0 ∧
    (fs3_seek 0 0 helloWorld).2.diskMounted = true ∧
    ((fs3_seek 0 0 helloWorld).2.FS3FileArray 0).created = true ∧
    ((fs3_seek 0 0 helloWorld).2.FS3FileArray 0).«open» = true ∧
    ((fs3_seek 0 0 helloWorld).2.FS3FileArray 0).position = 0 ∧
    ((fs3_seek 0 0 helloWorld).2.FS3FileArray 0).length = 5 ∧
    (∃ out w1, fs3_read scenarioGeometry (controller scenarioGeometry) 5 0 nullBuf 5
      (fs3_seek 0 0 helloWorld).2 = some (5, out, w1)) ∧
    ∀ fuel, fs3_read scenarioGeometry (controller scenarioGeometry) fuel 0 nullBuf 6
      (fs3_seek 0 0 helloWorld).2 = none := by
  obtain ⟨hc, hcr, hop, hp, hl⟩ := helloWorld_consistent
  obtain ⟨s1, s2, s3, s4, s5, s6⟩ := fs3_seek_consistent scenarioGeometry helloWorld 0 1 0
    (by decide) hc hcr hop (by rw [hl]; decide) (by rw [hl]; decide)
  refine ⟨s1, s2.mounted, s5, s6, by rw [s3]; rfl, by rw [s4, hl], ?_, fun fuel => ?_⟩
  · obtain ⟨out, w1, h1, -⟩ := fs3_read_consistent scenarioGeometry scenarioGeometry_valid
      (controller scenarioGeometry) (controller_accepts _ scenarioGeometry_valid) 5 0 nullBuf 5
      _ 1 (by decide) s2 s5 s6 (by decide) (by rw [s3, s4, hl]; decide) (by decide)
    exact ⟨out, w1, h1⟩
  exact fs3_read_past_end scenarioGeometry scenarioGeometry_valid (controller scenarioGeometry)
    (controller_accepts _ scenarioGeometry_valid) fuel 0 nullBuf 6 _ 1 (by decide) s2 s5 s6
    (by rw [s4, hl]; decide) (by rw [s3, s4, hl]; decide) (by rw [s3, s4, hl]; decide)

/-- C30: for every `op < 2^4`, `sec < 2^16` and `trk < 2^32`, unpacking the command block
packed from `(op, sec, trk, 0)` gives `(op, sec, trk, 0)` back, and `getOpCodeBits`
recovers the opcode. -/
theorem request_codec_round_trip (op sec trk : Nat) (hop : op < 2 ^ 4) (hsec : sec < 2 ^ 16)
    (htrk : trk < 2 ^ 32) :
    deconstruct_fs3_cmdblock (construct_fs3_cmdblock op sec trk 0) = (op, sec, trk, 0) ∧
    getOpCodeBits (construct_fs3_cmdblock op sec trk 0) = op :=
  ⟨deconstruct_construct op sec trk (by omega) (by omega) (by omega),
    getOpCodeBits_construct op sec trk (by omega) (by omega) (by omega)⟩

/-- Witness of C30: the `WRITE_SECTOR` request for sector 1023 with the track field at its
largest value. -/
theorem request_codec_round_trip_witness :
    FS3_OP_WRSECT < 2 ^ 4 ∧ 1023 < 2 ^ 16 ∧ 4294967295 < 2 ^ 32 ∧
    deconstruct_fs3_cmdblock (construct_fs3_cmdblock FS3_OP_WRSECT 1023 4294967295 0)
      = (FS3_OP_WRSECT, 1023, 4294967295, 0) ∧
    getOpCodeBits (construct_fs3_cmdblock FS3_OP_WRSECT 1023 4294967295 0) = FS3_OP_WRSECT :=
  ⟨by decide, by decide, by decide,
    request_codec_round_trip FS3_OP_WRSECT 1023 4294967295 (by decide) (by decide) (by decide)⟩

set_option maxRecDepth 1000000 in
/-- C31 (created prefix), evaluated on the bytes of the file table for `mount;
fs3_open(p); fs3_open("b")` with `p` 'A' 140 times.  The first call returns 0 and its
`strcpy` runs over `length` and `position` of record 0 into the `created` word of
record 1, which then holds 0x41414141, neither `true` nor `false`.  The second call skips
record 1, returns 2 and creates record 2: the records whose `created` word is `true` are
0 and 2, and the record created was not the lowest one that is not created. -/
theorem fs3_open_long_path_leaves_gap :
    (Layout.fs3_open (manyA 140) 0 tableMounted).1 = 0 ∧
    twoOpens.1 = 2 ∧
    loadInt twoOpens.2 (createdAt 0) = 1 ∧
    loadInt twoOpens.2 (createdAt 1) = 1094795585 ∧
    loadInt twoOpens.2 (createdAt 2) = 1 := by
  refine ⟨?_, ?_⟩
  · rw [tableMounted_eq]
    decide!
  · rw [twoOpens_eq]
    exact ⟨by decide!, by decide!, by decide!, by decide!⟩

end FS3
